import Mathlib

/-!
Zombie Hunt: the challenge engine of `internal/game`.

A shallow embedding of the Go package `internal/game` (files `types.go`,
`state.go`, `setup.go`, `actions.go`).  Go pointers to players become
explicit state passing: a function that mutates a `*Player` or the `*Game`
returns the new value next to its result.  Go `int` is a 64-bit machine
integer; the only arithmetic on it in this package is the running total of
`analyzePlayedSet`, which wraps explicitly.  The pseudo random generator of
`math/rand` is a stream of draws, so that every statement quantifies over
all outcomes of the generator.
-/

namespace ZombieHunt

/-! ## types.go -/

/-- Suit of a number card: a Go string. -/
abbrev Suit := String

def SuitSpade : Suit := "♠"

def SuitHeart : Suit := "♥"

def SuitClub : Suit := "♣"

def SuitDiamond : Suit := "♦"

def suits : List Suit := [SuitSpade, SuitHeart, SuitClub, SuitDiamond]

/-- Identity of a player (`IdentityHuman = 0`, `IdentityZombie = 1`), the only
two values the program builds. -/
inductive Identity where
  | IdentityHuman
  | IdentityZombie
deriving DecidableEq

/-- Kind of a card (`iota` order: number, zombie, shotgun, vaccine). -/
inductive CardKind where
  | CardKindNumber
  | CardKindZombie
  | CardKindShotgun
  | CardKindVaccine
deriving DecidableEq

open Identity CardKind

/-- Numeric value of the `iota` constant, used by `sortHand`. -/
def CardKind.toNat : CardKind → Nat
  | CardKindNumber => 0
  | CardKindZombie => 1
  | CardKindShotgun => 2
  | CardKindVaccine => 3

structure Card where
  Kind : CardKind
  Suit : Suit
  Value : Int
deriving DecidableEq

/-- The Go zero value `Card{}`. -/
def Card.zero : Card := ⟨CardKindNumber, "", 0⟩

/-- Special cards are built as `Card{Kind: k}`. -/
def Card.ofKind (k : CardKind) : Card := ⟨k, "", 0⟩

def Card.String (c : Card) : String :=
  match c.Kind with
  | CardKindNumber => c.Suit ++ toString c.Value
  | CardKindZombie => "僵屍牌"
  | CardKindShotgun => "獵槍牌"
  | CardKindVaccine => "疫苗牌"

def Card.IsNumeric (c : Card) : Bool := decide (c.Kind = CardKindNumber)

structure Player where
  ID : Int
  Name : String
  originalIdentity : Identity
  currentIdentity : Identity
  Alive : Bool
  Hand : List Card
deriving DecidableEq

def Player.SetIdentity (p : Player) (identity : Identity) : Player :=
  { p with currentIdentity := identity }

def Player.IsHuman (p : Player) : Bool := decide (p.currentIdentity = IdentityHuman)

def Player.IsZombie (p : Player) : Bool := decide (p.currentIdentity = IdentityZombie)

/-- AddCard appends the card to the end of the hand. -/
def Player.AddCard (p : Player) (card : Card) : Player :=
  { p with Hand := p.Hand ++ [card] }

/-- RemoveCardAt removes the card at `index`; the player is returned next to
the result because the Go method mutates its receiver. -/
def Player.RemoveCardAt (p : Player) (index : Int) : Player × Except String Card :=
  if index < 0 ∨ index ≥ (p.Hand.length : Int) then
    (p, .error ("玩家 " ++ p.Name ++ " 的手牌索引超出範圍"))
  else
    match p.Hand[index.toNat]? with
    | none => (p, .error ("玩家 " ++ p.Name ++ " 的手牌索引超出範圍"))
    | some card => ({ p with Hand := p.Hand.eraseIdx index.toNat }, .ok card)

/-- The index list sorted from large to small
(`sort.Sort(sort.Reverse(sort.IntSlice(sorted)))`). -/
def sortDescending (indices : List Int) : List Int :=
  indices.insertionSort (fun a b => b ≤ a)

/-- Loop body of `RemoveCards` over the sorted indices; `seen` is the map of
indices already handled, `removed` the cards collected so far.  An error
return leaves the hand as mutated so far. -/
def removeCardsLoop : List Int → Player → List Int → List Card →
    Player × Except String (List Card)
  | [], p, _, removed => (p, .ok removed)
  | idx :: rest, p, seen, removed =>
    if idx ∈ seen then
      (p, .error ("重複的牌索引 " ++ toString idx))
    else
      match p.RemoveCardAt idx with
      | (p1, .error e) => (p1, .error e)
      | (p1, .ok card) => removeCardsLoop rest p1 (idx :: seen) (removed ++ [card])

/-- RemoveCards removes the cards at the given indices and returns them by
ascending index. -/
def Player.RemoveCards (p : Player) (indices : List Int) :
    Player × Except String (List Card) :=
  if indices.length = 0 then (p, .ok [])
  else
    match removeCardsLoop (sortDescending indices) p [] [] with
    | (p1, .error e) => (p1, .error e)
    | (p1, .ok removed) => (p1, .ok removed.reverse)

def Player.HandSize (p : Player) : Nat := p.Hand.length

def Player.HasSuit (p : Player) (suit : Suit) : Bool :=
  p.Hand.any (fun c => decide (c.Kind = CardKindNumber) && decide (c.Suit = suit))

def Player.CountKind (p : Player) (kind : CardKind) : Nat :=
  (p.Hand.filter (fun c => decide (c.Kind = kind))).length

/-! ## math/rand -/

/-- State of the generator: the draws it will hand out, in order.  An
exhausted stream keeps drawing 0. -/
abbrev Rng := List Nat

/-- Draw of `rng.Intn(n)`: some value below `n` (for `0 < n`). -/
def Rng.Intn (r : Rng) (n : Nat) : Nat × Rng :=
  match r with
  | [] => (0, [])
  | x :: xs => (x % n, xs)

/-- The `swap` closure handed to `rng.Shuffle`: exchanges two slice entries. -/
def swapAt {α : Type} (xs : List α) (i j : Nat) : List α :=
  match xs[i]?, xs[j]? with
  | some a, some b => (xs.set i b).set j a
  | _, _ => xs

/-- Loop of `rand.Shuffle`: `for i := n-1; i > 0; i--` swaps entry `i` with
entry `Intn(i+1)`. -/
def shuffleLoop {α : Type} : Nat → Rng → List α → List α × Rng
  | 0, r, xs => (xs, r)
  | i + 1, r, xs => shuffleLoop i (r.Intn (i + 2)).2 (swapAt xs (i + 1) (r.Intn (i + 2)).1)

def Shuffle {α : Type} (r : Rng) (xs : List α) : List α × Rng :=
  shuffleLoop (xs.length - 1) r xs

/-! ## state.go -/

structure Game where
  Players : List Player
  cardDeck : List Card
  cardDiscarded : List Card
  Round : Int
  MaxRounds : Int
  rng : Rng
  logs : List String
deriving DecidableEq

def Game.addLog (g : Game) (entry : String) : Game :=
  { g with logs := g.logs ++ [entry] }

def Game.AlivePlayers (g : Game) : List Player :=
  g.Players.filter (fun p => p.Alive)

/-- CountLivingIdentities returns `(humans, zombies)` among the alive players. -/
def Game.CountLivingIdentities (g : Game) : Int × Int :=
  g.Players.foldl
    (fun acc p =>
      if !p.Alive then acc
      else if p.IsHuman then (acc.1 + 1, acc.2)
      else if p.IsZombie then (acc.1, acc.2 + 1)
      else acc)
    (0, 0)

def Game.AdvanceRound (g : Game) : Game := { g with Round := g.Round + 1 }

def Game.RemainingCardCount (g : Game) : Nat := g.cardDeck.length

def Game.IsComplete (g : Game) : Bool := decide (g.Round ≥ g.MaxRounds)

/-- DetermineWinner returns `(humanWins, humans, zombies)`. -/
def Game.DetermineWinner (g : Game) : Bool × Int × Int :=
  (decide (g.CountLivingIdentities.1 ≥ g.CountLivingIdentities.2),
    g.CountLivingIdentities.1, g.CountLivingIdentities.2)

/-- Lookup shared by `Game.Player` and `Game.playerByID`. -/
def Game.playerByID (g : Game) (id : Int) : Except String Player :=
  if id < 0 ∨ id ≥ (g.Players.length : Int) then
    .error ("找不到編號為 " ++ toString id ++ " 的玩家")
  else
    match g.Players[id.toNat]? with
    | none => .error ("找不到編號為 " ++ toString id ++ " 的玩家")
    | some player =>
      if !player.Alive then .error ("玩家 " ++ player.Name ++ " 已被淘汰")
      else .ok player

def Game.Player (g : Game) (id : Int) : Except String Player := g.playerByID id

/-! ## setup.go -/

def ErrInvalidPlayerCount : String := "玩家人數必須為 8 人"

def initialHandSize : Nat := 15

def maxGameRounds : Int := 12

def numericDeckCopies : Nat := 3

def totalVaccineCards : Nat := 2

def initialZombieCardPerPlayer : Nat := 1

def initialShotgunPerPlayer : Nat := 1

def buildIdentityDeck : List Identity :=
  List.replicate 6 IdentityHuman ++ List.replicate 2 IdentityZombie

def shuffleIdentities (rng : Rng) (identities : List Identity) : List Identity × Rng :=
  Shuffle rng identities

/-- One copy of the 52 number cards: for each suit the values 1 to 13. -/
def buildNumberDeckCopy : List Card :=
  suits.flatMap (fun suit =>
    (List.range 13).map (fun v => (⟨CardKindNumber, suit, (v : Int) + 1⟩ : Card)))

def buildNumberDeck (copies : Nat) : List Card :=
  (List.replicate copies buildNumberDeckCopy).flatten

def shuffleCards (rng : Rng) (deck : List Card) : List Card × Rng :=
  Shuffle rng deck

/-- drawCard pops the first card of the draw pile. -/
def Game.drawCard (g : Game) : Game × Option Card :=
  match g.cardDeck with
  | [] => (g, none)
  | card :: rest => ({ g with cardDeck := rest }, some card)

def Game.discardCard (g : Game) (card : Card) : Game :=
  { g with cardDiscarded := g.cardDiscarded ++ [card] }

/-- Inner loop of the deal, `for _, p := range g.Players`: `done` are the
players already served in this round, `todo` the players still to serve. -/
def dealRound (i : Nat) : List Player → List Player → Game → Except String Game
  | done, [], g => .ok { g with Players := done }
  | done, p :: todo, g =>
    match g.drawCard with
    | (_, none) =>
      .error ("初始牌庫不足: 回合 " ++ toString i ++ " 玩家 " ++ p.Name)
    | (g1, some card) => dealRound i (done ++ [p.AddCard card]) todo g1

/-- Outer loop of the deal: rounds `i, i+1, ...`, `n` of them. -/
def dealLoop : Nat → Nat → Game → Except String Game
  | 0, _, g => .ok g
  | n + 1, i, g =>
    match dealRound i [] g.Players g with
    | .error e => .error e
    | .ok g1 => dealLoop n (i + 1) g1

/-- First loop of `distributeSpecialCards`: top every hand up to one shotgun. -/
def giveShotguns (p : Player) : Player :=
  (List.range (initialShotgunPerPlayer - p.CountKind CardKindShotgun)).foldl
    (fun q _ => q.AddCard (Card.ofKind CardKindShotgun)) p

/-- The statement `g.Players[idx].AddCard(card)` for a slice index. -/
def addCardAt (players : List Player) (idx : Nat) (card : Card) : List Player :=
  match players[idx]? with
  | none => players
  | some p => players.set idx (p.AddCard card)

def distributeSpecialCards (g : Game) : Game :=
  let players1 := g.Players.map giveShotguns
  let shuffled := Shuffle g.rng (List.range players1.length)
  let players2 := (shuffled.1.take totalVaccineCards).foldl
    (fun ps idx => addCardAt ps idx (Card.ofKind CardKindVaccine)) players1
  { g with Players := players2, rng := shuffled.2 }

def equipInitialZombieCards (g : Game) : Game :=
  { g with Players := g.Players.map (fun p =>
      if p.IsZombie then
        (List.range initialZombieCardPerPlayer).foldl
          (fun q _ => q.AddCard (Card.ofKind CardKindZombie)) p
      else p) }

/-- Player `i` as built by the first loop of `NewGame`. -/
def newPlayer (i : Nat) (name : String) (identity : Identity) : Player :=
  { ID := i, Name := name, originalIdentity := identity, currentIdentity := identity,
    Alive := true, Hand := [] }

/-- NewGame builds and deals a game.  The generator `rng` stands for
`rand.New(rand.NewSource(seed))`, whatever the seed. -/
def NewGame (names : List String) (rng : Rng) : Except String Game :=
  if names.length ≠ 8 then .error ErrInvalidPlayerCount
  else
    let identities := shuffleIdentities rng buildIdentityDeck
    let players := names.enum.map (fun (i, name) =>
      newPlayer i name (identities.1.getD i IdentityHuman))
    let deck := shuffleCards identities.2 (buildNumberDeck numericDeckCopies)
    let g : Game :=
      { Players := players, cardDeck := deck.1, cardDiscarded := [], Round := 0,
        MaxRounds := maxGameRounds, rng := deck.2, logs := [] }
    match dealLoop initialHandSize 0 g with
    | .error e => .error e
    | .ok g1 => .ok (equipInitialZombieCards (distributeSpecialCards g1))

/-! ## actions.go -/

structure ChallengeOptions where
  AttackerID : Int
  DefenderID : Int
  AttackerCards : List Int
  DefenderCards : List Int
deriving DecidableEq

structure ChallengeOutcome where
  AttackerID : Int
  DefenderID : Int
  AttackerCards : List Card
  DefenderCards : List Card
  WinnerID : Option Int
  LoserID : Option Int
  ForcedReveal : Bool
  Infection : Bool
  Eliminated : List Int
  ConvertedToHuman : List Int
  StolenCard : Option Card
  Notes : List String
deriving DecidableEq

structure playedSet where
  cards : List Card
  isNumeric : Bool
  suit : Suit
  total : Int
  kind : CardKind
deriving DecidableEq

/-- The Go zero value `playedSet{}`; its kind is `CardKindNumber`. -/
def playedSet.zero : playedSet :=
  { cards := [], isNumeric := false, suit := "", total := 0, kind := CardKindNumber }

/-- Result of `+` on the 64-bit Go `int`. -/
def wrapInt (x : Int) : Int := (x + 2 ^ 63) % 2 ^ 64 - 2 ^ 63

/-- The two player pointers a challenge works on. -/
inductive Side where
  | attacker
  | defender
deriving DecidableEq

/-- The part of the program state a running `Challenge` call reads and
writes: the two players behind the pointers `attacker` and `defender`, the
log and generator of the game, and the outcome under construction. -/
structure Duel where
  attacker : Player
  defender : Player
  logs : List String
  rng : Rng
  outcome : ChallengeOutcome
deriving DecidableEq

def Duel.player (d : Duel) : Side → Player
  | Side.attacker => d.attacker
  | Side.defender => d.defender

def Duel.setPlayer (d : Duel) (s : Side) (p : Player) : Duel :=
  match s with
  | Side.attacker => { d with attacker := p }
  | Side.defender => { d with defender := p }

def Duel.addLog (d : Duel) (entry : String) : Duel :=
  { d with logs := d.logs ++ [entry] }

/-- The recurring pair `outcome.Notes = append(outcome.Notes, note)`,
`g.addLog(note)`. -/
def Duel.note (d : Duel) (note : String) : Duel :=
  { d with outcome := { d.outcome with Notes := d.outcome.Notes ++ [note] },
           logs := d.logs ++ [note] }

/-- eliminatePlayer, called with `&outcome.Notes` and `&outcome.Eliminated`. -/
def eliminatePlayer (d : Duel) (s : Side) (reason : String) : Duel :=
  if !(d.player s).Alive then d
  else
    let p := d.player s
    let note := "玩家 " ++ p.Name ++ " 被淘汰（" ++ reason ++ "）"
    let d1 := d.setPlayer s { p with Alive := false }
    { d1 with
      outcome := { d1.outcome with
        Eliminated := d1.outcome.Eliminated ++ [p.ID],
        Notes := d1.outcome.Notes ++ [note] },
      logs := d1.logs ++ [note] }

structure challengeResult where
  winner : Option Side
  loser : Option Side
  err : Option String
deriving DecidableEq

def convertToHuman (d : Duel) (s : Side) : Duel :=
  if (d.player s).IsZombie then
    let d1 := d.setPlayer s ((d.player s).SetIdentity IdentityHuman)
    { d1 with outcome := { d1.outcome with
        ConvertedToHuman := d1.outcome.ConvertedToHuman ++ [(d.player s).ID] } }
  else d

def declareWinner (d : Duel) (winner loser : Side) : Duel :=
  { d with outcome := { d.outcome with
      WinnerID := some (d.player winner).ID, LoserID := some (d.player loser).ID } }

/-- Comparison handed to `sort.SliceStable` by `sortHand`. -/
def cardLess (a b : Card) : Bool :=
  if a.Kind ≠ b.Kind then decide (a.Kind.toNat < b.Kind.toNat)
  else if a.Suit ≠ b.Suit then decide (a.Suit.data < b.Suit.data)
  else decide (a.Value < b.Value)

/-- Stable sort of the hand by kind, suit, value. -/
def sortHand (p : Player) : Player :=
  { p with Hand := p.Hand.insertionSort (fun a b => cardLess b a = false) }

def removeCardsByIndices (p : Player) (indices : List Int) :
    Player × Except String (List Card) :=
  if indices.length = 0 then (p, .ok [])
  else p.RemoveCards indices

/-- Loop of `analyzePlayedSet` over a number play: checks kind and suit of
every card and adds up the values. -/
def sumNumberCards (suit : Suit) : List Card → Int → Except String Int
  | [], total => .ok total
  | c :: cs, total =>
    if c.Kind ≠ CardKindNumber then .error "數字牌不可與特殊牌混出"
    else if c.Suit ≠ suit then .error "多張數字牌必須為同一花色"
    else sumNumberCards suit cs (wrapInt (total + c.Value))

def analyzePlayedSet (cards : List Card) (attacker : Bool) : Except String playedSet :=
  match cards with
  | [] => .error "必須選擇至少一張牌"
  | first :: _ =>
    if first.Kind = CardKindNumber then
      if cards.length > 5 then .error "一次最多只能打出五張數字牌"
      else
        match sumNumberCards first.Suit cards 0 with
        | .error e => .error e
        | .ok total =>
          .ok { cards := cards, isNumeric := true, suit := first.Suit, total := total,
                kind := CardKindNumber }
    else if cards.length ≠ 1 then .error "特殊牌一次只能出一張"
    else if !attacker && decide (first.Kind = CardKindShotgun) then
      .error "防守方不可使用獵槍"
    else if !attacker && decide (first.Kind = CardKindZombie) then
      .error "防守方不可使用僵屍牌"
    else if attacker && decide (first.Kind = CardKindVaccine) then
      .error "攻擊方不可使用疫苗"
    else
      .ok { cards := cards, isNumeric := false, suit := "", total := 0, kind := first.Kind }

def analyzeDefenseSet (cards : List Card) : Except String playedSet :=
  if cards.length = 0 then .ok playedSet.zero
  else analyzePlayedSet cards false

/-- Indices of the number cards of a hand, in hand order. -/
def numericIndices (hand : List Card) : List Nat :=
  (List.range hand.length).filter (fun idx =>
    match hand[idx]? with
    | some c => decide (c.Kind = CardKindNumber)
    | none => false)

/-- stealRandomNumericCard moves one number card, drawn by the generator,
from the loser to the winner; the result is the card, if any. -/
def stealRandomNumericCard (d : Duel) (winner loser : Side) : Duel × Option Card :=
  let idxs := numericIndices (d.player loser).Hand
  if idxs.length = 0 then (d, none)
  else
    let draw := d.rng.Intn idxs.length
    let d1 := { d with rng := draw.2 }
    match idxs[draw.1]? with
    | none => (d1, none)
    | some choice =>
      match (d1.player loser).RemoveCardAt choice with
      | (_, .error _) => (d1, none)
      | (loser1, .ok card) =>
        let d2 := d1.setPlayer loser loser1
        let d3 := d2.setPlayer winner (sortHand ((d2.player winner).AddCard card))
        (d3, some card)

/-- resolveChallenge decides winner and loser from the two plays. -/
def resolveChallenge (d : Duel) (attackSet defenseSet : playedSet) : Duel × challengeResult :=
  if attackSet.kind = CardKindZombie then
    if defenseSet.kind = CardKindVaccine then
      let d1 := convertToHuman d Side.attacker
      let d2 := declareWinner d1 Side.defender Side.attacker
      let d3 := d2.note
        (d2.defender.Name ++ " 使用疫苗反制，" ++ d2.attacker.Name ++ " 被強制轉為人類")
      (d3, ⟨some Side.defender, some Side.attacker, none⟩)
    else
      let d1 := declareWinner d Side.attacker Side.defender
      let d2 := { d1 with outcome := { d1.outcome with Infection := true } }
      let d3 := d2.setPlayer Side.defender (d2.defender.SetIdentity IdentityZombie)
      let d4 := d3.note
        ("僵屍牌出擊！" ++ d3.attacker.Name ++ " 將 " ++ d3.defender.Name ++ " 感染為僵屍")
      let d5 :=
        if d4.defender.CountKind CardKindZombie = 0 then
          (d4.setPlayer Side.defender
              (sortHand (d4.defender.AddCard (Card.ofKind CardKindZombie)))).note
            (d4.defender.Name ++ " 成為僵屍並獲得一張僵屍牌")
        else d4
      (d5, ⟨some Side.attacker, some Side.defender, none⟩)
  else if attackSet.kind = CardKindShotgun then
    if !d.defender.IsZombie then
      let d1 := d.note
        ("獵槍失效！" ++ d.defender.Name ++ " 並非僵屍，" ++ d.attacker.Name ++ " 攻擊落空")
      let d2 := declareWinner d1 Side.defender Side.attacker
      (d2, ⟨some Side.defender, some Side.attacker, none⟩)
    else
      let d1 := d.note
        ("獵槍命中！" ++ d.attacker.Name ++ " 射殺僵屍 " ++ d.defender.Name)
      let d2 := eliminatePlayer d1 Side.defender "遭獵槍射擊"
      let d3 := declareWinner d2 Side.attacker Side.defender
      (d3, ⟨some Side.attacker, some Side.defender, none⟩)
  else if defenseSet.kind = CardKindVaccine then
    let d1 := convertToHuman d Side.attacker
    let d2 := d1.note
      (d1.defender.Name ++ " 使用疫苗逆轉，" ++ d1.attacker.Name ++ " 被迫轉回人類")
    let d3 := declareWinner d2 Side.defender Side.attacker
    (d3, ⟨some Side.defender, some Side.attacker, none⟩)
  else if defenseSet.cards.length = 0 then
    let d1 := { d with outcome := { d.outcome with ForcedReveal := true } }
    let d2 := d1.note ("防守方 " ++ d1.defender.Name ++ " 無同花色牌可出")
    let d3 := declareWinner d2 Side.attacker Side.defender
    (d3, ⟨some Side.attacker, some Side.defender, none⟩)
  else if !defenseSet.isNumeric then
    (d, ⟨none, none, some "防守方的出牌無效"⟩)
  else if attackSet.suit ≠ defenseSet.suit then
    (d, ⟨none, none, some "防守方必須出相同花色"⟩)
  else if attackSet.total > defenseSet.total then
    let d1 := d.note
      (d.attacker.Name ++ " 以 " ++ toString attackSet.total ++ " 點擊敗 " ++
        d.defender.Name ++ " 的 " ++ toString defenseSet.total ++ " 點")
    let d2 := declareWinner d1 Side.attacker Side.defender
    (d2, ⟨some Side.attacker, some Side.defender, none⟩)
  else if defenseSet.total > attackSet.total then
    let d1 := d.note
      (d.defender.Name ++ " 以 " ++ toString defenseSet.total ++ " 點守下 " ++
        d.attacker.Name ++ " 的 " ++ toString attackSet.total ++ " 點")
    let d2 := declareWinner d1 Side.defender Side.attacker
    (d2, ⟨some Side.defender, some Side.attacker, none⟩)
  else
    let d1 := d.note
      ("雙方 " ++ attackSet.suit ++ " 花色打成 " ++ toString attackSet.total ++ " 點平手")
    let d2 := d1.setPlayer Side.attacker
      (d1.outcome.AttackerCards.foldl Player.AddCard d1.attacker)
    let d3 := d2.setPlayer Side.defender
      (d2.outcome.DefenderCards.foldl Player.AddCard d2.defender)
    let d4 := d3.setPlayer Side.attacker (sortHand d3.attacker)
    let d5 := d4.setPlayer Side.defender (sortHand d4.defender)
    ({ d5 with outcome := { d5.outcome with AttackerCards := [], DefenderCards := [] } },
      ⟨none, none, none⟩)

/-- The tail of `Challenge` after a resolution without error: the winner
takes the cards played, steals one number card, and a loser left without
cards is eliminated. -/
def settleChallenge (d : Duel) (result : challengeResult) : Duel :=
  let d1 :=
    match result.winner with
    | none => d
    | some w =>
      d.setPlayer w (sortHand (d.outcome.DefenderCards.foldl Player.AddCard
        (d.outcome.AttackerCards.foldl Player.AddCard (d.player w))))
  match result.winner, result.loser with
  | some w, some l =>
    let d2 := { d1 with outcome := { d1.outcome with
      WinnerID := some (d1.player w).ID, LoserID := some (d1.player l).ID } }
    let d3 := d2.addLog
      ("挑戰結果：" ++ (d2.player w).Name ++ " 勝，" ++ (d2.player l).Name ++ " 負")
    let stolen := stealRandomNumericCard d3 w l
    let d4 :=
      match stolen.2 with
      | none => stolen.1
      | some card =>
        ({ stolen.1 with outcome := { stolen.1.outcome with StolenCard := some card } }).note
          ((stolen.1.player w).Name ++ " 從 " ++ (stolen.1.player l).Name ++ " 抽走 " ++
            card.String)
    if (d4.player l).HandSize = 0 && (d4.player l).Alive then
      eliminatePlayer d4 l "手牌耗盡"
    else d4
  | _, _ => d1

/-- Write the two players, the log and the generator of a duel back into
the game (in Go they were mutated in place). -/
def Game.commit (g : Game) (opts : ChallengeOptions) (d : Duel) : Game :=
  { g with
    Players := (g.Players.set opts.AttackerID.toNat d.attacker).set
      opts.DefenderID.toNat d.defender,
    logs := d.logs,
    rng := d.rng }

/-- The restore path `p.Hand = append(p.Hand, cards...); sortHand(p)`. -/
def restoreHand (p : Player) (cards : List Card) : Player :=
  sortHand { p with Hand := p.Hand ++ cards }

/-- The fresh outcome of `Challenge`: only the two ids of the options are set. -/
def newOutcome (opts : ChallengeOptions) : ChallengeOutcome :=
  { AttackerID := opts.AttackerID, DefenderID := opts.DefenderID,
    AttackerCards := [], DefenderCards := [], WinnerID := none,
    LoserID := none, ForcedReveal := false, Infection := false,
    Eliminated := [], ConvertedToHuman := [], StolenCard := none,
    Notes := [] }

/-- Challenge parses and settles one challenge.  The game is returned next
to the result: also a call that fails may have changed it. -/
def Challenge (g : Game) (opts : ChallengeOptions) : Game × Except String ChallengeOutcome :=
  if opts.AttackerID = opts.DefenderID then (g, .error "挑戰目標不可為自己")
  else
    match g.playerByID opts.AttackerID with
    | .error e => (g, .error e)
    | .ok attacker =>
      match g.playerByID opts.DefenderID with
      | .error e => (g, .error e)
      | .ok defender =>
        if opts.AttackerCards.length = 0 then (g, .error "攻擊者必須選擇要出的牌")
        else
          let d0 : Duel :=
            { attacker := attacker, defender := defender, logs := g.logs, rng := g.rng,
              outcome := newOutcome opts }
          match removeCardsByIndices attacker opts.AttackerCards with
          | (attacker1, .error e) => (g.commit opts { d0 with attacker := attacker1 }, .error e)
          | (attacker1, .ok attackerCards) =>
            let d1 : Duel :=
              { d0 with attacker := attacker1,
                        outcome := { d0.outcome with AttackerCards := attackerCards } }
            match analyzePlayedSet attackerCards true with
            | .error e =>
              (g.commit opts { d1 with attacker := restoreHand d1.attacker attackerCards },
                .error e)
            | .ok attackSet =>
              match removeCardsByIndices defender opts.DefenderCards with
              | (defender1, .error e) =>
                (g.commit opts { d1 with
                    attacker := restoreHand d1.attacker attackerCards,
                    defender := defender1 },
                  .error e)
              | (defender1, .ok defenderCards) =>
                let d2 : Duel :=
                  { d1 with defender := defender1,
                            outcome := { d1.outcome with DefenderCards := defenderCards } }
                match analyzeDefenseSet defenderCards with
                | .error e =>
                  (g.commit opts { d2 with
                      attacker := restoreHand d2.attacker attackerCards,
                      defender := restoreHand d2.defender defenderCards },
                    .error e)
                | .ok defenseSet =>
                  match resolveChallenge d2 attackSet defenseSet with
                  | (d3, ⟨_, _, some e⟩) =>
                    (g.commit opts { d3 with
                        attacker := restoreHand d3.attacker attackerCards,
                        defender := restoreHand d3.defender defenderCards },
                      .error e)
                  | (d3, ⟨winner, loser, none⟩) =>
                    let d4 := settleChallenge d3 ⟨winner, loser, none⟩
                    (g.commit opts d4, .ok d4.outcome)

/-- The card at a hand index, if the index is in range. -/
def handCard (hand : List Card) (i : Int) : Option Card :=
  if i < 0 then none else hand[i.toNat]?

/-! ## server: messages.go, room.go -/

/-- The three values `Room.status` takes. -/
inductive RoomStatus where
  | RoomStatusLobby
  | RoomStatusRunning
  | RoomStatusFinished
deriving DecidableEq

open RoomStatus

/-- A bot; `KnownZombies` lists the keys of the Go map. -/
structure BotPlayer where
  SeatIndex : Int
  Name : String
  KnownZombies : List Int
deriving DecidableEq

/-- The fields of a `*Client` the room reads and writes; `id` stands for
the identity of the pointer. -/
structure Client where
  id : Nat
  seatIndex : Int
  name : String
  token : String
deriving DecidableEq

/-- A seat.  `Player` is the pointer into the players of the room's game:
`some i` points at `game.Players[i]`, `none` is the nil pointer. -/
structure Seat where
  Index : Int
  Name : String
  Token : String
  Client : Option Client
  Bot : Option BotPlayer
  Player : Option Nat
deriving DecidableEq

structure ChallengePayload where
  TargetID : Int
  Cards : List Int
deriving DecidableEq

structure DefensePayload where
  Cards : List Int
deriving DecidableEq

structure pendingChallenge where
  AttackerSeat : Int
  DefenderSeat : Int
  AttackerCards : List Int
  AttackKind : CardKind
  AttackSuit : Suit
deriving DecidableEq

/-- A room, without its hub and its mutex: every function below is the body
a Go method runs while it holds the lock.  Messages sent to clients and
goroutines started on the way are not part of the state. -/
structure Room where
  id : String
  name : String
  status : RoomStatus
  seats : List Seat
  capacity : Int
  hostSeat : Int
  game : Option Game
  currentTurn : Int
  currentRound : Int
  pendingChallenge : Option pendingChallenge
  rng : Rng
deriving DecidableEq

/-- Draw of `rng.Int63()`. -/
def Rng.Int63 (r : Rng) : Nat × Rng :=
  match r with
  | [] => (0, [])
  | x :: xs => (x % 2 ^ 63, xs)

def Seat.isFilled (s : Seat) : Bool := s.Client.isSome || s.Bot.isSome

def Seat.displayBaseName (s : Seat) : String :=
  if s.Name ≠ "" then s.Name else "座位" ++ toString s.Index

/-- The seat `r.seats[idx]`; `none` is the index-out-of-range panic. -/
def Room.seatAt (r : Room) (idx : Int) : Option Seat :=
  if idx < 0 then none else r.seats[idx.toNat]?

/-- getSeatLocked: the seat, or the nil pointer for an index out of range. -/
def Room.getSeatLocked (r : Room) (id : Int) : Option Seat :=
  if id < 0 ∨ id ≥ (r.seats.length : Int) then none else r.seats[id.toNat]?

/-- The player a seat's `Player` pointer designates. -/
def Room.playerOf (r : Room) (seat : Seat) : Option Player :=
  match seat.Player, r.game with
  | some i, some g => g.Players[i]?
  | _, _ => none

/-- The player of a seat that passes `seat.Player != nil && seat.Player.Alive`. -/
def Room.livePlayer (r : Room) (seat : Seat) : Option Player :=
  match r.playerOf seat with
  | some p => if p.Alive then some p else none
  | none => none

/-- The test `seat.Player != nil && seat.Player.Alive`. -/
def Room.seatAlive (r : Room) (seat : Seat) : Bool := (r.livePlayer seat).isSome

/-- The first seat that is not filled, with its position in `r.seats`. -/
def Room.firstEmptySeatLocked (r : Room) : Option (Nat × Seat) :=
  r.seats.enum.find? (fun ps => !ps.2.isFilled)

def Room.assignHostLocked (r : Room) : Room :=
  match r.seats.find? (fun s => s.Client.isSome) with
  | some s => { r with hostSeat := s.Index }
  | none =>
    match r.seats.find? (fun s => s.Bot.isSome) with
    | some s => { r with hostSeat := s.Index }
    | none => { r with hostSeat := -1 }

def Room.addBot (r : Room) (name : String) : Room × Except String Int :=
  if r.status ≠ RoomStatusLobby then (r, .error "僅能在待機狀態新增機器人")
  else
    match r.firstEmptySeatLocked with
    | none => (r, .error "房間已滿")
    | some (pos, seat) =>
      let name1 := if name = "" then "機器人" ++ toString (seat.Index + 1) else name
      let draw := r.rng.Int63
      let seat1 : Seat :=
        { seat with
          Bot := some { SeatIndex := seat.Index, Name := name1, KnownZombies := [] },
          Name := name1,
          Token := "bot-" ++ toString seat.Index ++ "-" ++ toString draw.1,
          Client := none }
      ({ r with seats := r.seats.set pos seat1, rng := draw.2,
                hostSeat := if r.hostSeat = -1 then seat.Index else r.hostSeat },
        .ok seat.Index)

def Room.removeBot (r : Room) (seatIdx : Int) : Room × Option String :=
  if seatIdx < 0 ∨ seatIdx ≥ (r.seats.length : Int) then (r, some "無效座位")
  else
    match r.seats[seatIdx.toNat]? with
    | none => (r, some "無效座位")
    | some seat =>
      if seat.Bot.isNone then (r, some ("座位 " ++ toString seatIdx ++ " 沒有機器人"))
      else
        let seat1 : Seat :=
          if seat.Client.isNone then { seat with Bot := none, Name := "", Token := "" }
          else { seat with Bot := none }
        let r1 := { r with seats := r.seats.set seatIdx.toNat seat1 }
        (if r.hostSeat = seatIdx then r1.assignHostLocked else r1, none)

/-- NewRoom; the generator seeded from the clock is a parameter. -/
def NewRoom (id name : String) (capacity : Int) (rng : Rng) : Room :=
  let capacity1 := if capacity ≤ 0 then 8 else capacity
  { id := id, name := name, status := RoomStatusLobby,
    seats := (List.range capacity1.toNat).map (fun (i : Nat) =>
      ({ Index := Int.ofNat i, Name := "", Token := "", Client := none, Bot := none,
         Player := none } : Seat)),
    capacity := capacity1, hostSeat := -1, game := none, currentTurn := 0,
    currentRound := 0, pendingChallenge := none, rng := rng }

/-- Join seats a client; the client is returned as the call leaves it. -/
def Room.Join (r : Room) (c : Client) : Room × Client × Option String :=
  let reconnect :=
    if c.token ≠ "" then r.seats.enum.find? (fun ps => decide (ps.2.Token = c.token))
    else none
  match reconnect with
  | some (pos, seat) =>
    if seat.Client.isSome then (r, c, some "該座位已有連線")
    else
      let name1 := if seat.Name ≠ "" then seat.Name else c.name
      let draw := r.rng.Int63
      let token1 :=
        if seat.Token = "" then "seat-" ++ toString seat.Index ++ "-" ++ toString draw.1
        else seat.Token
      let rng1 := if seat.Token = "" then draw.2 else r.rng
      let c1 : Client := { c with name := name1, token := token1, seatIndex := seat.Index }
      let seat1 : Seat :=
        { seat with Client := some c1, Bot := none, Name := name1, Token := token1 }
      (({ r with seats := r.seats.set pos seat1, rng := rng1 }).assignHostLocked, c1, none)
  | none =>
    if r.status ≠ RoomStatusLobby then (r, c, some "遊戲已開始或結束，無法加入")
    else
      match r.firstEmptySeatLocked with
      | none => (r, c, some "房間已滿")
      | some (pos, seat) =>
        let draw := r.rng.Int63
        let token1 :=
          if c.token = "" then "seat-" ++ toString seat.Index ++ "-" ++ toString draw.1
          else c.token
        let rng1 := if c.token = "" then draw.2 else r.rng
        let c1 : Client := { c with token := token1, seatIndex := seat.Index }
        let seat1 : Seat :=
          { seat with Client := some c1, Bot := none, Name := c.name, Token := token1 }
        (({ r with seats := r.seats.set pos seat1, rng := rng1 }).assignHostLocked, c1, none)

/-- onClientLeft; the bot turn it may start is a goroutine of its own
(`executeBotTurn` below). -/
def Room.onClientLeft (r : Room) (c : Client) : Room :=
  if c.seatIndex ≥ 0 ∧ c.seatIndex < (r.seats.length : Int) then
    match r.seats[c.seatIndex.toNat]? with
    | none => r
    | some seat =>
      if seat.Client.map (fun x => x.id) = some c.id then
        let seat1 : Seat :=
          { seat with Client := none, Name := if seat.Name = "" then c.name else seat.Name }
        let seat2 : Seat :=
          if r.status = RoomStatusRunning then
            if seat1.Bot.isNone then
              { seat1 with
                Bot := some ⟨seat1.Index, seat1.displayBaseName ++ " (AI)", []⟩ }
            else seat1
          else { seat1 with Bot := none, Name := "", Token := "" }
        let r1 := { r with seats := r.seats.set c.seatIndex.toNat seat2 }
        if seat2.Index = r.hostSeat then r1.assignHostLocked else r1
      else r
  else r

/-- Loop of findNextAlive over the offsets still to try; `none` is the
panic of `r.seats[idx]` on an index out of range. -/
def Room.findNextAliveLoop (r : Room) (start : Int) : List Nat → Option Int
  | [] => some (-1)
  | offset :: rest =>
    match r.game with
    | none => r.findNextAliveLoop start rest
    | some _ =>
      match r.seatAt (Int.tmod (start + offset) r.seats.length) with
      | none => none
      | some seat =>
        if r.seatAlive seat then some (Int.tmod (start + offset) r.seats.length)
        else r.findNextAliveLoop start rest

def Room.findNextAlive (r : Room) (start : Int) : Option Int :=
  r.findNextAliveLoop start (List.range' 1 r.seats.length)

def Room.finishGameLocked (r : Room) : Room :=
  match r.game with
  | none => r
  | some _ => { r with status := RoomStatusFinished }

def Room.resetToLobbyLocked (r : Room) : Room :=
  { r with
    seats := r.seats.map (fun seat =>
      { seat with
        Player := none,
        Bot := seat.Bot.map (fun b => { b with KnownZombies := [] }) }),
    game := none, currentRound := 0, currentTurn := -1, pendingChallenge := none,
    status := RoomStatusLobby }

/-- The goroutine `finishGameLocked` starts, once its five seconds are over. -/
def Room.delayedReset (r : Room) : Room :=
  if r.status ≠ RoomStatusFinished then r else r.resetToLobbyLocked

/-- Body of advanceTurnLocked.  The round counter and the sums of
findNextAlive are computed on unbounded integers; they are what the 64-bit
arithmetic of the code computes as long as `currentRound + 1` and
`currentTurn + len(seats)` stay below 2^63, which is what the statement
about this function assumes where it does not follow from its other
hypotheses. -/
def Room.advanceTurnLocked (r : Room) : Option Room :=
  match r.game with
  | none => some r
  | some g =>
    if g.CountLivingIdentities.1 = 0 ∨ g.CountLivingIdentities.2 = 0 then
      some r.finishGameLocked
    else
      match r.findNextAlive r.currentTurn with
      | none => none
      | some next =>
        if next = -1 then
          let r1 := { r with currentRound := r.currentRound + 1 }
          if r1.currentRound > g.MaxRounds then some r1.finishGameLocked
          else
            let r2 := { r1 with game := some { g with Round := r1.currentRound } }
            match r2.findNextAlive (-1) with
            | none => none
            | some next2 =>
              if next2 = -1 then some r2.finishGameLocked
              else some { r2 with currentTurn := next2 }
        else if next ≤ r.currentTurn then
          let r1 := { r with currentRound := r.currentRound + 1 }
          if r1.currentRound > g.MaxRounds then some r1.finishGameLocked
          else
            some { r1 with game := some { g with Round := r1.currentRound },
                           currentTurn := next }
        else some { r with currentTurn := next }

/-- StartGame; `gameRng` is the generator `NewGame` builds from the seed
`r.rng.Int63()`. -/
def Room.StartGame (r : Room) (gameRng : Rng) : Option (Room × Option String) :=
  if r.status ≠ RoomStatusLobby then some (r, some "遊戲已在進行或結束")
  else
    let seats1 := r.seats.mapIdx (fun i seat =>
      match seat.Client with
      | some _ => seat
      | none =>
        { seat with
          Bot := some { SeatIndex := (i : Int), Name := "機器人" ++ toString (i + 1),
                        KnownZombies := [] },
          Name := "機器人" ++ toString (i + 1) })
    let names := seats1.map (fun seat =>
      match seat.Client with
      | some c => c.name
      | none => seat.Name)
    let draw := r.rng.Int63
    match NewGame names gameRng with
    | .error e => some ({ r with seats := seats1, rng := draw.2 }, some e)
    | .ok g =>
      let r1 : Room :=
        { r with
          seats := seats1.mapIdx (fun i seat => { seat with Player := some i }),
          rng := draw.2, game := some { g with Round := 1 },
          status := RoomStatusRunning, currentRound := 1 }
      match r1.findNextAlive (-1) with
      | none => none
      | some next => some ({ r1 with currentTurn := next }, none)

/-- Loop of uniqueSortedIndices over the sorted indices; `prev` is
`sorted[i-1]`, absent at `i = 0`.  The result is the error, if any. -/
def uniqueSortedLoop (handSize : Int) : Option Int → List Int → Option String
  | _, [] => none
  | prev, idx :: rest =>
    if idx < 0 ∨ idx ≥ handSize then some ("手牌索引 " ++ toString idx ++ " 無效")
    else if prev = some idx then some ("手牌索引 " ++ toString idx ++ " 重複")
    else uniqueSortedLoop handSize (some idx) rest

def uniqueSortedIndices (indices : List Int) (handSize : Int) : Except String (List Int) :=
  match uniqueSortedLoop handSize none (indices.insertionSort (fun a b => a ≤ b)) with
  | some e => .error e
  | none => .ok (indices.insertionSort (fun a b => a ≤ b))

def normalizeCardSelection (indices : List Int) (handSize : Int) :
    Except String (List Int) :=
  uniqueSortedIndices indices handSize

def normalizeDefenseSelection (indices : List Int) (handSize : Int) :
    Except String (List Int) :=
  if indices.length = 0 then .ok [] else uniqueSortedIndices indices handSize

/-- Loop of ensureNumericSelection; the outer `none` is the panic of
`player.Hand[idx]` on an index out of range, the inner value the error. -/
def ensureNumericLoop (hand : List Card) (suit : Suit) : List Int → Option (Option String)
  | [] => some none
  | idx :: rest =>
    match handCard hand idx with
    | none => none
    | some card =>
      if card.Kind ≠ CardKindNumber then some (some "數字牌不能與特殊牌混出")
      else if card.Suit ≠ suit then some (some "多張數字牌必須為相同花色")
      else ensureNumericLoop hand suit rest

def ensureNumericSelection (player : Player) (indices : List Int) :
    Option (Except String Suit) :=
  match indices with
  | [] => some (.error "必須選擇至少一張數字牌")
  | first :: _ =>
    match handCard player.Hand first with
    | none => none
    | some card =>
      match ensureNumericLoop player.Hand card.Suit indices with
      | none => none
      | some (some e) => some (.error e)
      | some none => some (.ok card.Suit)

def ensureDefenseLoop (hand : List Card) (suit : Suit) : List Int → Option (Option String)
  | [] => some none
  | idx :: rest =>
    match handCard hand idx with
    | none => none
    | some card =>
      if card.Kind ≠ CardKindNumber ∨ card.Suit ≠ suit then
        some (some ("防守牌需同花色 " ++ suit))
      else ensureDefenseLoop hand suit rest

def ensureDefenseMatchesSuit (player : Player) (indices : List Int) (suit : Suit) :
    Option (Option String) :=
  if indices.length > 5 then some (some "一次最多只能防禦五張牌")
  else ensureDefenseLoop player.Hand suit indices

def Room.registerInfectionKnowledge (r : Room) (attackerSeat targetSeat : Int) : Room :=
  match r.getSeatLocked attackerSeat with
  | none => r
  | some seat =>
    match seat.Bot with
    | none => r
    | some bot =>
      let bot1 : BotPlayer :=
        { bot with KnownZombies :=
            if targetSeat ∈ bot.KnownZombies then bot.KnownZombies
            else bot.KnownZombies ++ [targetSeat] }
      { r with seats := r.seats.set attackerSeat.toNat { seat with Bot := some bot1 } }

def Room.clearZombieKnowledge (r : Room) (targetSeat : Int) : Room :=
  { r with seats := r.seats.map (fun seat =>
      { seat with Bot := seat.Bot.map (fun b =>
          { b with KnownZombies := b.KnownZombies.filter (fun k => decide (k ≠ targetSeat)) }) }) }

/-- Hand positions of the number cards of `suit`, each next to its card
(`player.Hand[candidates[i]]`). -/
def suitCandidates (hand : List Card) (suit : Suit) : List (Nat × Card) :=
  hand.enum.filter (fun ic => decide (ic.2.Kind = CardKindNumber) && decide (ic.2.Suit = suit))

/-- The stable sort by falling value (`sort.SliceStable` with `>` on the values). -/
def sortByValueDesc (candidates : List (Nat × Card)) : List (Nat × Card) :=
  candidates.insertionSort (fun a b => b.2.Value ≤ a.2.Value)

/-- Loop of uniquePrefix: `selected` so far, `seen` the keys of the map. -/
def uniquePrefixLoop (n : Nat) : List Int → List Int → List Int → List Int
  | [], selected, _ => selected
  | idx :: rest, selected, seen =>
    if selected.length ≥ n then selected
    else if idx ∈ seen then uniquePrefixLoop n rest selected seen
    else uniquePrefixLoop n rest (selected ++ [idx]) (idx :: seen)

def uniquePrefix (indices : List Int) (n : Nat) : List Int :=
  (uniquePrefixLoop n indices [] []).insertionSort (fun a b => a ≤ b)

def selectBotDefenseIndices (player : Player) (suit : Suit) (limit : Nat) : List Int :=
  if (suitCandidates player.Hand suit).length = 0 then []
  else
    uniquePrefix ((sortByValueDesc (suitCandidates player.Hand suit)).map (fun ic => (ic.1 : Int)))
      (if limit > (suitCandidates player.Hand suit).length then
        (suitCandidates player.Hand suit).length
      else limit)

def Room.aliveTargetsLocked (r : Room) (exclude : Int) : List Int :=
  (r.seats.filter (fun seat => decide (seat.Index ≠ exclude) && r.seatAlive seat)).map
    (fun seat => seat.Index)

def Room.ensurePlayerTurnLocked (r : Room) (c : Client) : Option String :=
  if r.status ≠ RoomStatusRunning then some "遊戲尚未開始"
  else if c.seatIndex ≠ r.currentTurn then some "尚未輪到你行動"
  else none

/-- resolveChallengeLocked.  The outer `none` is a panic; the inner value
is the error returned. -/
def Room.resolveChallengeLocked (r : Room) (attackerSeat defenderSeat : Int)
    (attackerCards defenderCards : List Int) : Option (Room × Option String) :=
  match r.game with
  | none => if attackerSeat = defenderSeat then some (r, some "挑戰目標不可為自己") else none
  | some g =>
    match Challenge g ⟨attackerSeat, defenderSeat, attackerCards, defenderCards⟩ with
    | (g1, .error e) => some ({ r with game := some g1 }, some e)
    | (g1, .ok outcome) =>
      let r1 : Room := { r with game := some g1, pendingChallenge := none }
      let r2 :=
        if outcome.Infection then r1.registerInfectionKnowledge attackerSeat defenderSeat
        else r1
      let r3 := outcome.ConvertedToHuman.foldl Room.clearZombieKnowledge r2
      let r4 := outcome.Eliminated.foldl Room.clearZombieKnowledge r3
      match r4.advanceTurnLocked with
      | none => none
      | some r5 => some (r5, none)

def Room.handleChallenge (r : Room) (attacker : Client) (payload : ChallengePayload) :
    Option (Room × Option String) :=
  match r.ensurePlayerTurnLocked attacker with
  | some e => some (r, some e)
  | none =>
    if r.pendingChallenge.isSome then some (r, some "目前有待處理的挑戰")
    else
      match r.seatAt attacker.seatIndex with
      | none => none
      | some attackerSeat =>
        match r.livePlayer attackerSeat with
        | none => some (r, some "攻擊者狀態異常")
        | some attackerPlayer =>
          match (r.getSeatLocked payload.TargetID).bind
              (fun s => (r.livePlayer s).map (fun p => (s, p))) with
          | none => some (r, some "目標不可挑戰")
          | some (defenderSeat, defenderPlayer) =>
            if defenderSeat.Index = attackerSeat.Index then some (r, some "不可挑戰自己")
            else if payload.Cards.length = 0 then some (r, some "必須選擇至少一張牌")
            else
              match normalizeCardSelection payload.Cards attackerPlayer.HandSize with
              | .error e => some (r, some e)
              | .ok attackerCards =>
                match attackerCards.head?.bind (handCard attackerPlayer.Hand) with
                | none => none
                | some firstCard =>
                  match firstCard.Kind with
                  | CardKindNumber =>
                    match ensureNumericSelection attackerPlayer attackerCards with
                    | none => none
                    | some (.error e) => some (r, some e)
                    | some (.ok suit) =>
                      if attackerCards.length > 5 then
                        some (r, some "一次最多只能出五張數字牌")
                      else if defenderPlayer.HasSuit suit && defenderPlayer.Alive then
                        match defenderSeat.Bot with
                        | some _ =>
                          r.resolveChallengeLocked attackerSeat.Index defenderSeat.Index
                            attackerCards
                            (selectBotDefenseIndices defenderPlayer suit attackerCards.length)
                        | none =>
                          some ({ r with
                            pendingChallenge := some ⟨attackerSeat.Index,
                              defenderSeat.Index, attackerCards, CardKindNumber, suit⟩ },
                            none)
                      else
                        r.resolveChallengeLocked attackerSeat.Index defenderSeat.Index
                          attackerCards []
                  | CardKindZombie =>
                    if !attackerPlayer.IsZombie then some (r, some "僵屍牌僅能由僵屍使用")
                    else
                      r.resolveChallengeLocked attackerSeat.Index defenderSeat.Index
                        attackerCards []
                  | CardKindShotgun =>
                    r.resolveChallengeLocked attackerSeat.Index defenderSeat.Index
                      attackerCards []
                  | CardKindVaccine => some (r, some "疫苗僅能在防守時使用")

def Room.handleDefenseResponse (r : Room) (defender : Client) (payload : DefensePayload) :
    Option (Room × Option String) :=
  match r.pendingChallenge with
  | none => some (r, some "目前沒有待防禦的挑戰")
  | some pending =>
    if defender.seatIndex ≠ pending.DefenderSeat then some (r, some "非指定防守者")
    else
      match (r.seatAt defender.seatIndex).bind r.playerOf with
      | none => none
      | some player =>
        match normalizeDefenseSelection payload.Cards player.HandSize with
        | .error e => some (r, some e)
        | .ok defense =>
          match (if pending.AttackKind = CardKindNumber ∧ defense.length > 0 then
              ensureDefenseMatchesSuit player defense pending.AttackSuit
            else some none) with
          | none => none
          | some (some e) => some (r, some e)
          | some none =>
            r.resolveChallengeLocked pending.AttackerSeat pending.DefenderSeat
              pending.AttackerCards defense

/-! ## server: bot.go -/

/-- findCardKind: position of the first card of the kind, or -1. -/
def findCardKind (player : Player) (kind : CardKind) : Int :=
  if player.Hand.findIdx (fun c => decide (c.Kind = kind)) < player.Hand.length then
    (player.Hand.findIdx (fun c => decide (c.Kind = kind)) : Int)
  else -1

/-- Keys of `suitMap`: the suits of the number cards of a hand. -/
def numberSuits (hand : List Card) : List Suit :=
  ((hand.filter (fun c => decide (c.Kind = CardKindNumber))).map (fun c => c.Suit)).dedup

/-- An order in which `range suitMap` may visit the keys: Go leaves the
order open, so it is steered by `order`; every key is visited once. -/
def iterationOrder (keys order : List Suit) : List Suit :=
  (order.dedup.filter (fun s => decide (s ∈ keys))) ++
    keys.filter (fun s => decide (s ∉ order))

/-- Loop of selectStrongestNumericSet over the suits; `best` is
`(bestScore, bestSuit, bestIndices)`. -/
def strongestLoop (hand : List Card) :
    List Suit → Int × Suit × List Int → Int × Suit × List Int
  | [], best => best
  | suit :: rest, best =>
    if ((sortByValueDesc (suitCandidates hand suit)).take 5).foldl
        (fun acc ic => wrapInt (acc + ic.2.Value)) 0 > best.1 then
      strongestLoop hand rest
        (((sortByValueDesc (suitCandidates hand suit)).take 5).foldl
            (fun acc ic => wrapInt (acc + ic.2.Value)) 0,
          suit,
          ((sortByValueDesc (suitCandidates hand suit)).take 5).map (fun ic => (ic.1 : Int)))
    else strongestLoop hand rest best

def selectStrongestNumericSet (player : Player) (order : List Suit) : Suit × List Int :=
  ((strongestLoop player.Hand (iterationOrder (numberSuits player.Hand) order)
      (-1, "", [])).2.1,
    (strongestLoop player.Hand (iterationOrder (numberSuits player.Hand) order)
      (-1, "", [])).2.2.insertionSort (fun a b => a ≤ b))

/-- The attack a bot settles on, and the room generator after its draw. -/
structure botAttack where
  attackCards : List Int
  attackKind : CardKind
  attackSuit : Suit
  targetIndex : Int
  rng : Rng
deriving DecidableEq

/-- The two loops of executeBotTurn over the targets: the living ones the
bot knows as zombies (`wantKnown`) or does not; `none` is the panic of
`r.seats[tid]`. -/
def Room.botCandidates (r : Room) (known : List Int) (wantKnown : Bool) :
    List Int → Option (List Int)
  | [] => some []
  | tid :: rest =>
    match r.seatAt tid with
    | none => none
    | some seat =>
      match r.botCandidates known wantKnown rest with
      | none => none
      | some cs =>
        if !r.seatAlive seat then some cs
        else if decide (tid ∈ known) = wantKnown then some (tid :: cs)
        else some cs

/-- The draw `list[r.rng.Intn(len(list))]`. -/
def Room.drawTarget (r : Room) (list : List Int) : Option (Int × Rng) :=
  match list[(r.rng.Intn list.length).1]? with
  | none => none
  | some t => some (t, (r.rng.Intn list.length).2)

/-- The zombie-card branch of executeBotTurn; the inner `none` means that
`attackCards` stays nil. -/
def Room.botZombieAttack (r : Room) (bot : BotPlayer) (attacker : Player)
    (targets : List Int) : Option (Option botAttack) :=
  if findCardKind attacker CardKindZombie ≥ 0 then
    match r.botCandidates bot.KnownZombies false targets with
    | none => none
    | some candidates =>
      if (if candidates.length = 0 then targets else candidates).length > 0 then
        match r.drawTarget (if candidates.length = 0 then targets else candidates) with
        | none => none
        | some (t, rng1) =>
          some (some ⟨[findCardKind attacker CardKindZombie], CardKindZombie, "", t, rng1⟩)
      else some none
  else some none

/-- The shotgun branch of executeBotTurn. -/
def Room.botShotgunAttack (r : Room) (bot : BotPlayer) (attacker : Player)
    (targets : List Int) : Option (Option botAttack) :=
  if findCardKind attacker CardKindShotgun ≥ 0 then
    match r.botCandidates bot.KnownZombies true targets with
    | none => none
    | some zombieTargets =>
      if zombieTargets.length > 0 then
        match r.drawTarget zombieTargets with
        | none => none
        | some (t, rng1) =>
          some (some ⟨[findCardKind attacker CardKindShotgun], CardKindShotgun, "", t, rng1⟩)
      else some none
  else some none

/-- The number branch of executeBotTurn; the inner `none` means that the
bot has no card to play. -/
def Room.botNumberAttack (r : Room) (attacker : Player) (targets : List Int)
    (order : List Suit) : Option (Option botAttack) :=
  if (selectStrongestNumericSet attacker order).2.length = 0 then some none
  else
    match r.drawTarget targets with
    | none => none
    | some (t, rng1) =>
      some (some ⟨(selectStrongestNumericSet attacker order).2, CardKindNumber,
        (selectStrongestNumericSet attacker order).1, t, rng1⟩)

/-- The choice of executeBotTurn: zombie card first, then the shotgun at a
known zombie, then the strongest number play. -/
def Room.chooseBotAttack (r : Room) (bot : BotPlayer) (attacker : Player)
    (targets : List Int) (order : List Suit) : Option (Option botAttack) :=
  match r.botZombieAttack bot attacker targets with
  | none => none
  | some (some a) => some (some a)
  | some none =>
    match r.botShotgunAttack bot attacker targets with
    | none => none
    | some (some a) => some (some a)
    | some none => r.botNumberAttack attacker targets order

/-- The result of a `resolveChallengeLocked` whose error is dropped. -/
def dropError (res : Option (Room × Option String)) : Option Room :=
  match res with
  | none => none
  | some (r, _) => some r

/-- The body executeBotTurn runs under the lock, after its sleep.  `order`
steers the iteration over the suit map. -/
def Room.executeBotTurn (r : Room) (bot : BotPlayer) (order : List Suit) : Option Room :=
  if r.status ≠ RoomStatusRunning ∨ r.currentTurn ≠ bot.SeatIndex then some r
  else
    match r.seatAt bot.SeatIndex with
    | none => none
    | some seat =>
      match r.livePlayer seat with
      | none => r.advanceTurnLocked
      | some attacker =>
        if (r.aliveTargetsLocked bot.SeatIndex).length = 0 then r.advanceTurnLocked
        else
          match r.chooseBotAttack bot attacker (r.aliveTargetsLocked bot.SeatIndex) order with
          | none => none
          | some none => r.advanceTurnLocked
          | some (some a) =>
            match ({ r with rng := a.rng } : Room).seatAt a.targetIndex with
            | none => none
            | some defenderSeat =>
              match ({ r with rng := a.rng } : Room).livePlayer defenderSeat with
              | none => ({ r with rng := a.rng } : Room).advanceTurnLocked
              | some defender =>
                if decide (a.attackKind = CardKindNumber) && defender.HasSuit a.attackSuit then
                  match defenderSeat.Bot with
                  | some _ =>
                    dropError (({ r with rng := a.rng } : Room).resolveChallengeLocked
                      seat.Index defenderSeat.Index a.attackCards
                      (selectBotDefenseIndices defender a.attackSuit a.attackCards.length))
                  | none =>
                    some { r with
                      rng := a.rng,
                      pendingChallenge := some ⟨seat.Index, defenderSeat.Index,
                        a.attackCards, CardKindNumber, a.attackSuit⟩ }
                else
                  dropError (({ r with rng := a.rng } : Room).resolveChallengeLocked
                    seat.Index defenderSeat.Index a.attackCards [])

/-! ## Vocabulary of the statements -/

/-- The cards a list of hand indices selects, by ascending index. -/
def cardsAt (hand : List Card) (indices : List Int) : List Card :=
  (indices.insertionSort (fun a b => a ≤ b)).filterMap (handCard hand)

/-- Number of cards of one kind in a pile. -/
def countKind (kind : CardKind) (cards : List Card) : Nat :=
  (cards.filter (fun c => decide (c.Kind = kind))).length

/-- Number cards over all hands, the draw pile and the discard pile. -/
def Game.numberTotal (g : Game) : Nat :=
  (g.Players.map (fun p => p.CountKind CardKindNumber)).sum +
    countKind CardKindNumber g.cardDeck + countKind CardKindNumber g.cardDiscarded

/-- Cards of one kind over all hands. -/
def Game.handTotal (g : Game) (kind : CardKind) : Nat :=
  (g.Players.map (fun p => p.CountKind kind)).sum

/-- Strength of a number play: the sum of the values of its cards. -/
def strength (cards : List Card) : Int := (cards.map (fun c => c.Value)).sum

/-- State of a `Challenge` call at the moment `resolveChallenge` is entered:
both selections are out of the hands and recorded in the outcome. -/
def duelAtResolve (g : Game) (opts : ChallengeOptions) (attacker1 defender1 : Player)
    (attackerCards defenderCards : List Card) : Duel :=
  { attacker := attacker1, defender := defender1, logs := g.logs, rng := g.rng,
    outcome := { newOutcome opts with
      AttackerCards := attackerCards, DefenderCards := defenderCards } }

/-! ## Example games -/

/-- A player holding `hand`, whose original and current identity agree. -/
def examplePlayer (id : Int) (name : String) (identity : Identity) (hand : List Card) :
    Player :=
  { ID := id, Name := name, originalIdentity := identity, currentIdentity := identity,
    Alive := true, Hand := hand }

/-- A game in its first round around the given players. -/
def exampleGame (players : List Player) (rng : Rng) : Game :=
  { Players := players, cardDeck := [], cardDiscarded := [], Round := 1,
    MaxRounds := maxGameRounds, rng := rng, logs := [] }

/-- Eight names for `NewGame`. -/
def exampleNames : List String := ["A", "B", "C", "D", "E", "F", "G", "H"]

/-- A zombie holding a zombie card and a shotgun faces a human holding two
spades, a heart and a vaccine. -/
def zombieVsHuman : Game :=
  exampleGame
    [examplePlayer 0 "A" IdentityZombie
        [⟨CardKindNumber, SuitSpade, 9⟩, ⟨CardKindNumber, SuitSpade, 8⟩,
          Card.ofKind CardKindZombie, Card.ofKind CardKindShotgun],
      examplePlayer 1 "B" IdentityHuman
        [⟨CardKindNumber, SuitSpade, 5⟩, ⟨CardKindNumber, SuitSpade, 4⟩,
          ⟨CardKindNumber, SuitHeart, 13⟩, Card.ofKind CardKindVaccine]]
    [3, 1, 4]

/-- A human whose whole hand is a shotgun and one spade faces a human. -/
def lastShotgun : Game :=
  exampleGame
    [examplePlayer 0 "A" IdentityHuman
        [⟨CardKindNumber, SuitSpade, 9⟩, Card.ofKind CardKindShotgun],
      examplePlayer 1 "B" IdentityHuman
        [⟨CardKindNumber, SuitClub, 3⟩, ⟨CardKindNumber, SuitClub, 4⟩]]
    [7]

/-- A human with two shotguns faces a zombie. -/
def hunterVsZombie : Game :=
  exampleGame
    [examplePlayer 0 "A" IdentityHuman
        [Card.ofKind CardKindShotgun, Card.ofKind CardKindShotgun],
      examplePlayer 1 "B" IdentityZombie
        [⟨CardKindNumber, SuitClub, 4⟩, Card.ofKind CardKindZombie]]
    [2]

/-- Two humans holding spades: 9 and 8 and a king against 5, 4 and a queen. -/
def spadeDuel : Game :=
  exampleGame
    [examplePlayer 0 "A" IdentityHuman
        [⟨CardKindNumber, SuitSpade, 9⟩, ⟨CardKindNumber, SuitSpade, 8⟩,
          ⟨CardKindNumber, SuitSpade, 13⟩, ⟨CardKindNumber, SuitHeart, 2⟩],
      examplePlayer 1 "B" IdentityHuman
        [⟨CardKindNumber, SuitSpade, 5⟩, ⟨CardKindNumber, SuitSpade, 4⟩,
          ⟨CardKindNumber, SuitSpade, 12⟩, ⟨CardKindNumber, SuitClub, 7⟩],
      examplePlayer 2 "C" IdentityZombie
        [⟨CardKindNumber, SuitDiamond, 1⟩, Card.ofKind CardKindZombie]]
    [5, 2]

/-- A number card as the deck builds it: its value is between 1 and 13. -/
def Card.isDeckNumber (c : Card) : Prop :=
  c.Kind = CardKindNumber ∧ 1 ≤ c.Value ∧ c.Value ≤ 13

instance (c : Card) : Decidable c.isDeckNumber :=
  inferInstanceAs (Decidable (c.Kind = CardKindNumber ∧ 1 ≤ c.Value ∧ c.Value ≤ 13))

/-- What a decisive challenge does to the two hands: the winner's hand
grows by the cards the loser committed and by the stolen card; the loser's
hand is what was left after committing (`rest`), plus a zombie card minted
by an infection of a player holding none, minus the stolen card; a card is
stolen exactly when `rest` holds a number card, and it is one of them. -/
def Transfer (winner winner2 loser loser2 : Player) (committed : List Card)
    (infection : Bool) (stolen : Option Card) : Prop :=
  winner2.Hand.Perm (winner.Hand ++ committed ++ stolen.toList) ∧
  ∃ rest : List Card, loser.Hand.Perm (committed ++ rest) ∧
    (rest ++ (if infection = true ∧ countKind CardKindZombie rest = 0 then
        [Card.ofKind CardKindZombie] else [])).Perm (stolen.toList ++ loser2.Hand) ∧
    (stolen = none ↔ countKind CardKindNumber rest = 0) ∧
    (∀ c, stolen = some c → c.Kind = CardKindNumber ∧ c ∈ rest)

/-- A player without the hand: what the setup steps never change. -/
def Player.strip (p : Player) : Player := { p with Hand := [] }

/-- Games reached from `g0` by Challenge calls that return successfully. -/
inductive ReachedFrom (g0 : Game) : Game → Prop where
  | start : ReachedFrom g0 g0
  | step {g g1 : Game} {opts : ChallengeOptions} {o : ChallengeOutcome} :
      ReachedFrom g0 g → Challenge g opts = (g1, .ok o) → ReachedFrom g0 g1

/-- The shot that kills: the attacker's selection is a single shotgun and
the defender is a zombie. -/
def shotgunHit (att dfd : Player) (opts : ChallengeOptions) : Prop :=
  (∃ c, cardsAt att.Hand opts.AttackerCards = [c] ∧ c.Kind = CardKindShotgun) ∧
    dfd.currentIdentity = IdentityZombie

/-- A human with a spade and a heart faces a human holding a heart and a
vaccine, but no spade. -/
def noSpades : Game :=
  exampleGame
    [examplePlayer 0 "A" IdentityHuman
        [⟨CardKindNumber, SuitSpade, 9⟩, ⟨CardKindNumber, SuitHeart, 2⟩],
      examplePlayer 1 "B" IdentityHuman
        [⟨CardKindNumber, SuitHeart, 13⟩, Card.ofKind CardKindVaccine]]
    [6]

/-- One to five number cards, all of one suit. -/
def isNumberPlay (cards : List Card) : Prop :=
  cards ≠ [] ∧ cards.length ≤ 5 ∧
    ∃ suit : Suit, ∀ c ∈ cards, c.Kind = CardKindNumber ∧ c.Suit = suit

/-- What an attacker may play: a number play, one zombie card or one
shotgun. -/
def LegalAttack (cards : List Card) : Prop :=
  isNumberPlay cards ∨
    ∃ c, cards = [c] ∧ (c.Kind = CardKindZombie ∨ c.Kind = CardKindShotgun)

/-- What a defender may answer: nothing, one vaccine or a number play. -/
def LegalDefence (cards : List Card) : Prop :=
  cards = [] ∨ (∃ c, cards = [c] ∧ c.Kind = CardKindVaccine) ∨ isNumberPlay cards

/-- Number cards played by the two sides are of one suit. -/
def SuitsAgree (attack defence : List Card) : Prop :=
  ∀ a ∈ attack, ∀ d ∈ defence, a.Kind = CardKindNumber → d.Kind = CardKindNumber →
    a.Suit = d.Suit

/-! ## Vocabulary of the statements about rooms -/

/-- A selection of hand indices that is a number play of `suit`: one to
five strictly ascending indices, each of a number card of the suit. -/
def NumberSelection (hand : List Card) (indices : List Int) (suit : Suit) : Prop :=
  indices ≠ [] ∧ indices.length ≤ 5 ∧ indices.Pairwise (fun a b => a < b) ∧
    ∀ i ∈ indices, ∃ c, handCard hand i = some c ∧ c.Kind = CardKindNumber ∧ c.Suit = suit

/-- Every number card in a hand has a value of the deck, 1 to 13. -/
def Game.DeckValues (g : Game) : Prop :=
  ∀ p ∈ g.Players, ∀ c ∈ p.Hand, c.Kind = CardKindNumber → 1 ≤ c.Value ∧ c.Value ≤ 13

/-- Seats carry their position as index, and a seat's player pointer, when
set, designates the player at the seat's own position. -/
def Room.WellFormed (r : Room) : Prop :=
  ∀ (i : Nat) (seat : Seat), r.seats[i]? = some seat →
    seat.Index = (i : Int) ∧ (seat.Player = none ∨ seat.Player = some i)

/-- The pending challenge is in order: it was issued by the seat whose turn
it is, attacker and defender are distinct living players of the game, and
the stored indices are a number selection of the stored suit on the
attacker's hand. -/
def Room.PendingValid (r : Room) (p : ZombieHunt.pendingChallenge) : Prop :=
  ∃ (g : Game) (att dfd : Player), r.game = some g ∧
    p.AttackerSeat = r.currentTurn ∧ 0 ≤ p.AttackerSeat ∧ 0 ≤ p.DefenderSeat ∧
    p.AttackerSeat ≠ p.DefenderSeat ∧
    g.Players[p.AttackerSeat.toNat]? = some att ∧ att.Alive = true ∧
    g.Players[p.DefenderSeat.toNat]? = some dfd ∧ dfd.Alive = true ∧
    p.AttackKind = CardKindNumber ∧
    NumberSelection att.Hand p.AttackerCards p.AttackSuit

/-- What holds of every room the operations can reach. -/
def Room.Inv (r : Room) : Prop :=
  r.WellFormed ∧
  (r.status ≠ RoomStatusRunning → r.pendingChallenge = none) ∧
  (r.status ≠ RoomStatusLobby → ∃ g, r.game = some g ∧
    g.Players.length = r.seats.length ∧ g.DeckValues ∧
    ∀ (i : Nat) (seat : Seat), r.seats[i]? = some seat → seat.Player = some i) ∧
  (∀ p, r.pendingChallenge = some p → r.PendingValid p)

/-- The rooms reachable from `NewRoom` through the room operations. -/
inductive Room.Reachable : Room → Prop where
  | newRoom (id name : String) (capacity : Int) (rng : Rng) :
      Room.Reachable (NewRoom id name capacity rng)
  | join {r : Room} (c : Client) : Room.Reachable r → Room.Reachable (r.Join c).1
  | clientLeft {r : Room} (c : Client) :
      Room.Reachable r → Room.Reachable (r.onClientLeft c)
  | addBot {r : Room} (name : String) :
      Room.Reachable r → Room.Reachable (r.addBot name).1
  | removeBot {r : Room} (seatIdx : Int) :
      Room.Reachable r → Room.Reachable (r.removeBot seatIdx).1
  | startGame {r r1 : Room} {res : Option String} (gameRng : Rng) :
      Room.Reachable r → r.StartGame gameRng = some (r1, res) → Room.Reachable r1
  | challenge {r r1 : Room} {res : Option String} (c : Client) (payload : ChallengePayload) :
      Room.Reachable r → r.handleChallenge c payload = some (r1, res) → Room.Reachable r1
  | defense {r r1 : Room} {res : Option String} (c : Client) (payload : DefensePayload) :
      Room.Reachable r → r.handleDefenseResponse c payload = some (r1, res) →
      Room.Reachable r1
  | botTurn {r r1 : Room} (bot : BotPlayer) (order : List Suit) :
      Room.Reachable r → r.executeBotTurn bot order = some r1 → Room.Reachable r1
  | reset {r : Room} : Room.Reachable r → Room.Reachable r.delayedReset

/-- A seat without what its bot knows. -/
def Seat.forget (s : Seat) : Seat :=
  { s with Bot := s.Bot.map (fun b => { b with KnownZombies := [] }) }

/-- Whether seat `i` exists and passes `seat.Player != nil && seat.Player.Alive`. -/
def Room.aliveAt (r : Room) (i : Nat) : Bool :=
  match r.seats[i]? with
  | some seat => r.seatAlive seat
  | none => false

/-- The living seats of a room, by ascending index. -/
def Room.livingSeats (r : Room) : List Nat :=
  (List.range r.seats.length).filter r.aliveAt

/-- The room after `n` calls of advanceTurnLocked in a row. -/
def Room.advanceTimes (r : Room) : Nat → Option Room
  | 0 => some r
  | n + 1 => (r.advanceTimes n).bind Room.advanceTurnLocked

/-- The connection of the player on seat `i`. -/
def exampleClient (i : Nat) : Client :=
  { id := i, seatIndex := Int.ofNat i, name := "P", token := "seat" }

/-- A seat of a started game, held by a connected player. -/
def exampleSeat (i : Nat) : Seat :=
  { Index := Int.ofNat i, Name := "P", Token := "seat", Client := some (exampleClient i),
    Bot := none, Player := some i }

/-- Eight players: the first holds a heart, a spade, a shotgun and a vaccine,
in the order of the deal; the second a spade and a heart; two are zombies. -/
def tablePlayers : List Player :=
  [examplePlayer 0 "A" IdentityHuman
      [⟨CardKindNumber, SuitHeart, 2⟩, ⟨CardKindNumber, SuitSpade, 9⟩,
        Card.ofKind CardKindShotgun, Card.ofKind CardKindVaccine],
    examplePlayer 1 "B" IdentityHuman
      [⟨CardKindNumber, SuitSpade, 5⟩, ⟨CardKindNumber, SuitHeart, 13⟩],
    examplePlayer 2 "C" IdentityZombie
      [⟨CardKindNumber, SuitClub, 4⟩, Card.ofKind CardKindZombie],
    examplePlayer 3 "D" IdentityHuman [⟨CardKindNumber, SuitDiamond, 3⟩],
    examplePlayer 4 "E" IdentityHuman [⟨CardKindNumber, SuitDiamond, 6⟩],
    examplePlayer 5 "F" IdentityZombie
      [⟨CardKindNumber, SuitClub, 7⟩, Card.ofKind CardKindZombie],
    examplePlayer 6 "G" IdentityHuman [⟨CardKindNumber, SuitHeart, 8⟩],
    examplePlayer 7 "H" IdentityHuman [⟨CardKindNumber, SuitSpade, 2⟩]]

/-- A running room of eight connected players around `tablePlayers`, in its
first round, with seat 0 to play. -/
def exampleRoom (pending : Option ZombieHunt.pendingChallenge) : Room :=
  { id := "r1", name := "room", status := RoomStatusRunning,
    seats := (List.range 8).map exampleSeat, capacity := 8, hostSeat := 0,
    game := some (exampleGame tablePlayers [3, 1, 4]), currentTurn := 0, currentRound := 1,
    pendingChallenge := pending, rng := [5, 2] }

/-- The challenge of seat 0 at seat 1 with the spade nine, waiting for the
answer of seat 1. -/
def spadeNinePending : ZombieHunt.pendingChallenge :=
  ⟨0, 1, [1], CardKindNumber, SuitSpade⟩

/-- The example room with the hand of seat 0 in sorted order. -/
def resortedRoom : Room :=
  { exampleRoom none with
    game := some (exampleGame
      (tablePlayers.set 0 (examplePlayer 0 "A" IdentityHuman
        [⟨CardKindNumber, SuitSpade, 9⟩, ⟨CardKindNumber, SuitHeart, 2⟩,
          Card.ofKind CardKindShotgun, Card.ofKind CardKindVaccine])) [3, 1, 4]) }

/-- A connection that asks for a seat with the token of player `i`. -/
def lobbyClient (i : Nat) : Client :=
  { id := i, seatIndex := -1, name := "P", token := "t" ++ toString i }

/-- The connection of player `i` once seated on seat `i`. -/
def seatedClient (i : Nat) : Client :=
  { id := i, seatIndex := Int.ofNat i, name := "P", token := "t" ++ toString i }

/-- A new room of eight seats after eight players joined. -/
def fullLobby : Room :=
  ((List.range 8).map lobbyClient).foldl (fun r c => (r.Join c).1) (NewRoom "r1" "room" 8 [])

/-- The full lobby after StartGame, with a game generator that draws 1 and
then only 0: seat 0 is a zombie and plays first. -/
def runningRoom : Room := ((fullLobby.StartGame [1]).map Prod.fst).getD fullLobby

/-- The running room after the player of seat 0 lost the connection on
their own turn: a bot holds the seat and its turn is under way. -/
def leftRoom : Room := runningRoom.onClientLeft (seatedClient 0)

/-- The player of seat 0 is back, on a new connection with the old token. -/
def rejoinedRoom : Room := (leftRoom.Join { lobbyClient 0 with id := 8 }).1

/-- The player of seat 0 has challenged seat 1 with the first card of the
hand, a spade two, and seat 1 is asked for a defence. -/
def pendingRoom : Room :=
  ((rejoinedRoom.handleChallenge { seatedClient 0 with id := 8 } ⟨1, [0]⟩).map
    Prod.fst).getD rejoinedRoom

/-- The alive players of one identity. -/
def Game.livingOf (g : Game) (identity : Identity) : List ZombieHunt.Player :=
  g.Players.filter (fun p => p.Alive && decide (p.currentIdentity = identity))

/-- A hand without the positions listed in `indices`, order kept. -/
def handWithout (hand : List Card) (indices : List Int) : List Card :=
  ((hand.enum.filter (fun ic => decide ((ic.1 : Int) ∉ indices))).map Prod.snd)

/-- A spade nine, a spade eight and a heart king. -/
def threeCards : Player :=
  examplePlayer 0 "A" IdentityHuman
    [⟨CardKindNumber, SuitSpade, 9⟩, ⟨CardKindNumber, SuitSpade, 8⟩,
      ⟨CardKindNumber, SuitHeart, 13⟩]

/-- A spade five and a heart five. -/
def twoFives : Player :=
  examplePlayer 0 "A" IdentityHuman
    [⟨CardKindNumber, SuitSpade, 5⟩, ⟨CardKindNumber, SuitHeart, 5⟩]

/-- The key sortHand compares by: kind, then suit, then value, each in its
own order. -/
def cardKey (c : Card) : ℕ ×ₗ (List Char ×ₗ ℤ) :=
  toLex (c.Kind.toNat, toLex (c.Suit.data, c.Value))

/-- A hand in non-decreasing order by (kind, suit, value): no card is less
than a card before it. -/
def HandSorted (hand : List Card) : Prop :=
  hand.Pairwise (fun a b => cardLess b a = false)

/-- A human with a spade nine attacks a human whose hand, in the order of
the deal, is heart two, club seven, spade five, diamond three. -/
def dealtHands : Game :=
  exampleGame
    [examplePlayer 0 "A" IdentityHuman [⟨CardKindNumber, SuitSpade, 9⟩],
      examplePlayer 1 "B" IdentityHuman
        [⟨CardKindNumber, SuitHeart, 2⟩, ⟨CardKindNumber, SuitClub, 7⟩,
          ⟨CardKindNumber, SuitSpade, 5⟩, ⟨CardKindNumber, SuitDiamond, 3⟩]]
    [2]

/-- Number of number cards of a suit in a hand. -/
def suitCount (hand : List Card) (suit : Suit) : Nat :=
  (hand.filter (fun c => decide (c.Kind = CardKindNumber) && decide (c.Suit = suit))).length

/-- No number card of the suit that is left out of the selection is worth
more than a selected card. -/
def TopOfSuit (hand : List Card) (suit : Suit) (sel : List Int) : Prop :=
  ∀ i ∈ sel, ∀ j, j ∉ sel → ∀ ci cj, handCard hand i = some ci → handCard hand j = some cj →
    cj.Kind = CardKindNumber → cj.Suit = suit → cj.Value ≤ ci.Value

/-- Sum of the five highest values among the number cards of a suit, of all
of them if they are fewer. -/
def topFiveSum (hand : List Card) (suit : Suit) : Int :=
  ((((hand.filter (fun c => decide (c.Kind = CardKindNumber) && decide (c.Suit = suit))).map
    (fun c => c.Value)).insertionSort (fun a b => b ≤ a)).take 5).sum

/-- Sum of the values of the cards at the selected positions. -/
def selectionSum (hand : List Card) (sel : List Int) : Int :=
  ((sel.filterMap (handCard hand)).map (fun c => c.Value)).sum

/-- A seat of a started game that a bot plays. -/
def exampleBotSeat (i : Nat) : Seat :=
  { Index := Int.ofNat i, Name := "機器人", Token := "", Client := none,
    Bot := some ⟨Int.ofNat i, "機器人", []⟩, Player := some i }

/-- The example room with bots on the seats 1 to 7, the bot of seat 1
holding a spade five and a spade six. -/
def botTable : Room :=
  { exampleRoom none with
    seats := exampleSeat 0 :: (List.range' 1 7).map exampleBotSeat,
    game := some (exampleGame
      (tablePlayers.set 1 (examplePlayer 1 "B" IdentityHuman
        [⟨CardKindNumber, SuitSpade, 5⟩, ⟨CardKindNumber, SuitSpade, 6⟩])) [3, 1, 4]) }

/-- Six spades, a heart king and a shotgun. -/
def sixSpades : Player :=
  examplePlayer 0 "A" IdentityHuman
    [⟨CardKindNumber, SuitSpade, 2⟩, ⟨CardKindNumber, SuitSpade, 9⟩,
      ⟨CardKindNumber, SuitSpade, 4⟩, ⟨CardKindNumber, SuitSpade, 7⟩,
      ⟨CardKindNumber, SuitSpade, 3⟩, ⟨CardKindNumber, SuitSpade, 8⟩,
      ⟨CardKindNumber, SuitHeart, 13⟩, Card.ofKind CardKindShotgun]

/-- The turn is on a seat index that is not negative once a game was
started. -/
def Room.TurnSet (r : Room) : Prop :=
  r.status ≠ RoomStatusLobby → 0 ≤ r.currentTurn

/-- The first living seat met going round the table, starting with the seat
after `start` and ending with `start` itself. -/
def Room.nextLivingSeat (r : Room) (start : Nat) : Option Nat :=
  ((List.range' 1 r.seats.length).map (fun o => (start + o) % r.seats.length)).find?
    r.aliveAt

/-- The cards of all hands of a list of players, seat after seat. -/
def handsOf (players : List Player) : List Card :=
  players.foldr (fun p acc => p.Hand ++ acc) []

/-- The cards in the hands of a game. -/
def Game.allHands (g : Game) : List Card := handsOf g.Players

/-- The card an infection hands to a defender who holds no zombie card. -/
def mintedCards (o : ChallengeOutcome) (dfd : Player) : List Card :=
  if o.Infection = true ∧ countKind CardKindZombie dfd.Hand = 0 then
    [Card.ofKind CardKindZombie]
  else []

/-- The seats the bot of a seat holds for zombies; none without a bot. -/
def Seat.known (s : Seat) : List Int :=
  match s.Bot with
  | some b => b.KnownZombies
  | none => []

/-- Some bot of the room holds seat `u` for a zombie. -/
def Room.knows (r : Room) (u : Int) : Prop := ∃ seat ∈ r.seats, u ∈ seat.known

/-- Seat `u` of the game is held by a living zombie. -/
def Game.livingZombie (g : Game) (u : Int) : Prop :=
  0 ≤ u ∧ ∃ p, g.Players[u.toNat]? = some p ∧ p.Alive = true ∧
    p.currentIdentity = IdentityZombie

/-- Every player carries the position in `Players` as id. -/
def Game.IDs (g : Game) : Prop :=
  ∀ (k : Nat) (p : ZombieHunt.Player), g.Players[k]? = some p → p.ID = (k : Int)

/-- What holds of turn, round and the knowledge of the bots in every room
the operations can reach: in the lobby no bot knows anything; in a running
room the players carry their positions as ids, the game runs for twelve
rounds, the round counter of the room is the round of the game and lies
between 1 and the maximum, every
seat a bot holds for a zombie is held by a living zombie, and the turn is
on a living player; the defender of a pending challenge holds a number card
of the suit of the attack. -/
def Room.Steady (r : Room) : Prop :=
  (r.status = RoomStatusLobby → ∀ u, ¬ r.knows u) ∧
  (r.status = RoomStatusRunning → ∃ g, r.game = some g ∧ g.IDs ∧
    g.MaxRounds = maxGameRounds ∧ r.currentRound = g.Round ∧ 1 ≤ r.currentRound ∧ r.currentRound ≤ g.MaxRounds ∧
    (∀ u, r.knows u → g.livingZombie u) ∧
    0 ≤ r.currentTurn ∧
    ∃ p, g.Players[r.currentTurn.toNat]? = some p ∧ p.Alive = true) ∧
  (∀ p, r.pendingChallenge = some p → ∃ g dfd, r.game = some g ∧
    g.Players[p.DefenderSeat.toNat]? = some dfd ∧ dfd.HasSuit p.AttackSuit = true)

/-- The room `leftRoom` after the turn of the bot that took over seat 0: the
bot has played the zombie card of seat 0 at seat 1. -/
def infectedRoom : Room := (leftRoom.executeBotTurn ⟨0, "P (AI)", []⟩ []).getD leftRoom

/-- The defender's part of a challenge the room hands to Challenge: no index
at all, or a number selection of one suit on the defender's hand, so one to
five indices; in both cases every card played is a number card. -/
def RoomDefence (dfd : Player) (dc : List Int) : Prop :=
  (dc = [] ∨ ∃ suit, NumberSelection dfd.Hand dc suit) ∧ dc.length ≤ 5 ∧
    ∀ card ∈ cardsAt dfd.Hand dc, card.Kind = CardKindNumber

/-! ## Lists, sorting and shuffling -/

theorem set_perm_cons_eraseIdx {α : Type} (b : α) :
    ∀ (l : List α) (i : Nat), i < l.length → (l.set i b).Perm (b :: l.eraseIdx i)
  | [], _, h => by simp at h
  | x :: xs, 0, _ => by simp
  | x :: xs, i + 1, h => by
    have ih := set_perm_cons_eraseIdx b xs i (by simpa using h)
    simp only [List.set_cons_succ, List.eraseIdx_cons_succ]
    exact (ih.cons x).trans (List.Perm.swap b x _)

theorem perm_cons_eraseIdx_of_get {α : Type} :
    ∀ (l : List α) (i : Nat) (a : α), l[i]? = some a → l.Perm (a :: l.eraseIdx i)
  | [], _, _, h => by simp at h
  | x :: xs, 0, a, h => by
    simp at h; subst h; simp
  | x :: xs, i + 1, a, h => by
    have ih := perm_cons_eraseIdx_of_get xs i a (by simpa using h)
    simp only [List.eraseIdx_cons_succ]
    exact (ih.cons x).trans (List.Perm.swap a x _)

theorem swapAt_perm {α : Type} (xs : List α) (i j : Nat) : (swapAt xs i j).Perm xs := by
  unfold swapAt
  split
  · rename_i a b ha hb
    have hi : i < xs.length := (List.getElem?_eq_some_iff.mp ha).1
    have hj : j < xs.length := (List.getElem?_eq_some_iff.mp hb).1
    by_cases hij : i = j
    · subst hij
      have hab : a = b := by rw [ha] at hb; exact Option.some.inj hb
      subst hab
      have h1 : xs.set i a = xs := by
        apply List.ext_getElem? ; intro k
        rw [List.getElem?_set]
        split
        · rename_i hk; subst hk; simp [hi, ha]
        · rfl
      rw [h1, h1]
    · have hb1 : (xs.set i b)[j]? = some b := by
        rw [List.getElem?_set]; simp [hij, hb]
      have hj1 : j < (xs.set i b).length := by simpa using hj
      have p1 : ((xs.set i b).set j a).Perm (a :: (xs.set i b).eraseIdx j) :=
        set_perm_cons_eraseIdx a _ j hj1
      have p2 : (xs.set i b).Perm (b :: (xs.set i b).eraseIdx j) :=
        perm_cons_eraseIdx_of_get _ j b hb1
      have p3 : (xs.set i b).Perm (b :: xs.eraseIdx i) := set_perm_cons_eraseIdx b xs i hi
      have p4 : xs.Perm (a :: xs.eraseIdx i) := perm_cons_eraseIdx_of_get xs i a ha
      have q1 : (b :: (xs.set i b).set j a).Perm (a :: xs.set i b) :=
        ((p1.cons b).trans (List.Perm.swap a b _)).trans (p2.symm.cons a)
      have q2 : (a :: xs.set i b).Perm (b :: xs) :=
        ((p3.cons a).trans (List.Perm.swap b a _)).trans (p4.symm.cons b)
      exact (q1.trans q2).cons_inv
  · exact List.Perm.refl _

theorem shuffleLoop_perm {α : Type} :
    ∀ (n : Nat) (r : Rng) (xs : List α), (shuffleLoop n r xs).1.Perm xs
  | 0, _, _ => List.Perm.refl _
  | n + 1, r, xs => by
    unfold shuffleLoop
    exact (shuffleLoop_perm n _ _).trans (swapAt_perm xs _ _)

theorem Shuffle_perm {α : Type} (r : Rng) (xs : List α) : (Shuffle r xs).1.Perm xs :=
  shuffleLoop_perm _ r xs

theorem sortHand_perm (p : Player) : (sortHand p).Hand.Perm p.Hand :=
  List.perm_insertionSort _ _

/-! ## Removing cards from a hand -/

theorem RemoveCardAt_ok {p p1 : Player} {idx : Int} {c : Card}
    (h : p.RemoveCardAt idx = (p1, .ok c)) :
    0 ≤ idx ∧ p.Hand[idx.toNat]? = some c ∧
      p1 = { p with Hand := p.Hand.eraseIdx idx.toNat } := by
  unfold Player.RemoveCardAt at h
  split at h
  · simp at h
  · rename_i hr
    split at h
    · simp at h
    · rename_i card hc
      simp only [Prod.mk.injEq, Except.ok.injEq] at h
      refine ⟨by omega, ?_, h.1.symm⟩
      rw [hc, h.2]

theorem RemoveCardAt_error {p p1 : Player} {idx : Int} {e : String}
    (h : p.RemoveCardAt idx = (p1, .error e)) : p1 = p := by
  unfold Player.RemoveCardAt at h
  split at h
  · simp only [Prod.mk.injEq] at h; exact h.1.symm
  · split at h
    · simp only [Prod.mk.injEq] at h; exact h.1.symm
    · simp at h

theorem handCard_eraseIdx_of_lt (hand : List Card) {i idx : Int} (h0 : 0 ≤ idx)
    (hlt : i < idx) : handCard (hand.eraseIdx idx.toNat) i = handCard hand i := by
  unfold handCard
  split
  · rfl
  · rw [List.getElem?_eraseIdx]
    have : i.toNat < idx.toNat := by omega
    simp [this]

theorem removeCardsLoop_ok :
    ∀ (L : List Int) (p : Player) (seen : List Int) (removed : List Card) (p1 : Player)
      (out : List Card),
      removeCardsLoop L p seen removed = (p1, .ok out) →
      L.Pairwise (fun a b => b ≤ a) →
      (∀ i ∈ L, i ∉ seen) ∧ out = removed ++ L.filterMap (handCard p.Hand) ∧
        p1 = { p with Hand := p1.Hand } ∧
        p.Hand.Perm (L.filterMap (handCard p.Hand) ++ p1.Hand) ∧
        (∀ i ∈ L, 0 ≤ i ∧ i.toNat < p.Hand.length) ∧ L.Nodup
  | [], p, seen, removed, p1, out, h, _ => by
    simp only [removeCardsLoop, Prod.mk.injEq, Except.ok.injEq] at h
    obtain ⟨h1, h2⟩ := h
    subst h1 h2
    simp
  | idx :: rest, p, seen, removed, p1, out, h, hs => by
    rw [removeCardsLoop] at h
    split at h
    · simp at h
    · rename_i hseen
      split at h
      · simp at h
      · rename_i p2 card hrm
        obtain ⟨h0, hget, hp2⟩ := RemoveCardAt_ok hrm
        have hs' := List.pairwise_cons.mp hs
        obtain ⟨ih1, ih2, ih3, ih4, ih5, ih6⟩ :=
          removeCardsLoop_ok rest p2 (idx :: seen) (removed ++ [card]) p1 out h hs'.2
        have hlt : ∀ i ∈ rest, i < idx := by
          intro i hi
          have h1 := hs'.1 i hi
          have h2 : i ≠ idx := fun e => ih1 i hi (by simp [e])
          omega
        have hcongr : rest.filterMap (handCard p2.Hand) = rest.filterMap (handCard p.Hand) := by
          apply List.filterMap_congr
          intro i hi
          rw [hp2]
          exact handCard_eraseIdx_of_lt p.Hand h0 (hlt i hi)
        have hidx : handCard p.Hand idx = some card := by
          unfold handCard
          rw [if_neg (by omega), hget]
        have hlen : idx.toNat < p.Hand.length := (List.getElem?_eq_some_iff.mp hget).1
        refine ⟨?_, ?_, ?_, ?_, ?_, ?_⟩
        · intro i hi
          rcases List.mem_cons.mp hi with e | hi
          · subst e; exact hseen
          · exact fun hm => ih1 i hi (List.mem_cons_of_mem _ hm)
        · rw [ih2, hcongr, List.filterMap_cons, hidx]; simp
        · rw [ih3, hp2]
        · rw [List.filterMap_cons, hidx]
          have hperm := perm_cons_eraseIdx_of_get p.Hand idx.toNat card hget
          refine hperm.trans ?_
          simp only [List.cons_append]
          refine List.Perm.cons card ?_
          rw [← hcongr]
          have : p2.Hand = p.Hand.eraseIdx idx.toNat := by rw [hp2]
          rw [← this]
          exact ih4
        · intro i hi
          rcases List.mem_cons.mp hi with e | hi
          · subst e; exact ⟨h0, hlen⟩
          · have := hlt i hi
            have h5 := ih5 i hi
            exact ⟨h5.1, by omega⟩
        · refine List.nodup_cons.mpr ⟨?_, ih6⟩
          intro hm
          exact ih1 idx hm (by simp)

theorem sortDescending_reverse (indices : List Int) :
    (sortDescending indices).reverse = indices.insertionSort (fun a b => a ≤ b) := by
  have hd : (sortDescending indices).Sorted (fun a b => b ≤ a) := by
    haveI : IsTotal Int (fun a b => b ≤ a) := ⟨fun a b => le_total b a⟩
    haveI : IsTrans Int (fun a b => b ≤ a) := ⟨fun a b c h1 h2 => le_trans h2 h1⟩
    exact List.sorted_insertionSort _ _
  have h1 : (sortDescending indices).reverse.Sorted (fun a b => a ≤ b) :=
    List.pairwise_reverse.mpr hd
  have h2 : (indices.insertionSort (fun a b => a ≤ b)).Sorted (fun a b => a ≤ b) :=
    List.sorted_insertionSort _ _
  have hp : (sortDescending indices).reverse.Perm
      (indices.insertionSort (fun a b => a ≤ b)) :=
    ((List.reverse_perm _).trans (List.perm_insertionSort _ _)).trans
      (List.perm_insertionSort _ _).symm
  exact List.eq_of_perm_of_sorted hp h1 h2

/-- A successful `removeCardsByIndices` returns the selected cards by
ascending index, changes nothing but the hand, takes exactly those cards out
of it, and was given distinct in-range indices. -/
theorem removeCardsByIndices_ok {p p1 : Player} {indices : List Int} {out : List Card}
    (h : removeCardsByIndices p indices = (p1, .ok out)) :
    out = cardsAt p.Hand indices ∧ p1 = { p with Hand := p1.Hand } ∧
      p.Hand.Perm (out ++ p1.Hand) ∧ indices.Nodup ∧
      (∀ i ∈ indices, 0 ≤ i ∧ i.toNat < p.Hand.length) := by
  unfold removeCardsByIndices at h
  split at h
  · rename_i h0
    have hnil : indices = [] := List.length_eq_zero.mp h0
    simp only [Prod.mk.injEq, Except.ok.injEq] at h
    obtain ⟨h1, h2⟩ := h
    subst h1 h2 hnil
    simp [cardsAt]
  · unfold Player.RemoveCards at h
    rw [if_neg (by assumption)] at h
    split at h
    · simp at h
    · rename_i p2 removed hloop
      simp only [Prod.mk.injEq, Except.ok.injEq] at h
      obtain ⟨h1, h2⟩ := h
      subst h1 h2
      have hd : (sortDescending indices).Pairwise (fun a b => b ≤ a) := by
        haveI : IsTotal Int (fun a b => b ≤ a) := ⟨fun a b => le_total b a⟩
        haveI : IsTrans Int (fun a b => b ≤ a) := ⟨fun a b c h1 h2 => le_trans h2 h1⟩
        exact List.sorted_insertionSort _ _
      obtain ⟨_, k2, k3, k4, k5, k6⟩ := removeCardsLoop_ok _ _ _ _ _ _ hloop hd
      have hperm : (sortDescending indices).Perm indices := List.perm_insertionSort _ _
      refine ⟨?_, k3, ?_, hperm.nodup_iff.mp k6, ?_⟩
      · rw [k2, List.nil_append, ← List.filterMap_reverse, sortDescending_reverse]
        rfl
      · rw [k2, List.nil_append]
        exact k4.trans (List.Perm.append_right _ (List.reverse_perm _).symm)
      · intro i hi
        exact k5 i (hperm.mem_iff.mpr hi)

theorem removeCardsLoop_error :
    ∀ (L : List Int) (p : Player) (seen : List Int) (removed : List Card) (p1 : Player)
      (e : String),
      removeCardsLoop L p seen removed = (p1, .error e) → p1 = { p with Hand := p1.Hand }
  | [], p, seen, removed, p1, e, h => by simp [removeCardsLoop] at h
  | idx :: rest, p, seen, removed, p1, e, h => by
    rw [removeCardsLoop] at h
    split at h
    · simp only [Prod.mk.injEq] at h; rw [← h.1]
    · split at h
      · rename_i p2 e2 hrm
        simp only [Prod.mk.injEq] at h
        rw [← h.1, RemoveCardAt_error hrm]
      · rename_i p2 card hrm
        have := removeCardsLoop_error rest p2 _ _ p1 e h
        rw [this, (RemoveCardAt_ok hrm).2.2]

/-! ## Anatomy of a successful challenge -/

theorem playerByID_ok {g : Game} {id : Int} {p : Player} (h : g.playerByID id = .ok p) :
    0 ≤ id ∧ g.Players[id.toNat]? = some p ∧ p.Alive = true := by
  unfold Game.playerByID at h
  split at h
  · simp at h
  · split at h
    · simp at h
    · rename_i player hp
      split at h
      · simp at h
      · rename_i ha
        simp only [Except.ok.injEq] at h
        subst h
        refine ⟨by omega, hp, ?_⟩
        simpa using ha

/-- A successful `Challenge` passed every stage: both lookups, both removals,
both analyses, a resolution without error, and the settlement. -/
theorem Challenge_ok {g g1 : Game} {opts : ChallengeOptions} {o : ChallengeOutcome}
    (h : Challenge g opts = (g1, .ok o)) :
    ∃ (att dfd att1 dfd1 : Player) (acards dcards : List Card) (aset dset : playedSet)
      (d3 : Duel) (w l : Option Side),
      opts.AttackerID ≠ opts.DefenderID ∧
      g.playerByID opts.AttackerID = .ok att ∧
      g.playerByID opts.DefenderID = .ok dfd ∧
      removeCardsByIndices att opts.AttackerCards = (att1, .ok acards) ∧
      analyzePlayedSet acards true = .ok aset ∧
      removeCardsByIndices dfd opts.DefenderCards = (dfd1, .ok dcards) ∧
      analyzeDefenseSet dcards = .ok dset ∧
      resolveChallenge (duelAtResolve g opts att1 dfd1 acards dcards) aset dset =
        (d3, ⟨w, l, none⟩) ∧
      g1 = g.commit opts (settleChallenge d3 ⟨w, l, none⟩) ∧
      o = (settleChallenge d3 ⟨w, l, none⟩).outcome := by
  unfold Challenge at h
  split at h
  · simp at h
  · rename_i hne
    split at h
    · simp at h
    · rename_i att hatt
      split at h
      · simp at h
      · rename_i dfd hdfd
        split at h
        · simp at h
        · split at h
          · simp at h
          · rename_i att1 acards hra
            split at h
            · simp at h
            · rename_i aset has
              split at h
              · simp at h
              · rename_i dfd1 dcards hrd
                split at h
                · simp at h
                · rename_i dset hds
                  dsimp only at h
                  generalize hres : resolveChallenge _ aset dset = res at h
                  obtain ⟨d3, ⟨w, l, err⟩⟩ := res
                  cases err with
                  | some e => simp at h
                  | none =>
                    simp only [Prod.mk.injEq, Except.ok.injEq] at h
                    exact ⟨att, dfd, att1, dfd1, acards, dcards, aset, dset, d3, w, l,
                      hne, hatt, hdfd, hra, has, hrd, hds, hres, h.1.symm, h.2.symm⟩

/-! ## Stealing a number card -/

theorem Intn_lt (r : Rng) {n : Nat} (hn : 0 < n) : (r.Intn n).1 < n := by
  unfold Rng.Intn
  cases r with
  | nil => exact hn
  | cons x xs => exact Nat.mod_lt _ hn

theorem RemoveCardAt_of_get {p : Player} {i : Nat} {c : Card} (h : p.Hand[i]? = some c) :
    p.RemoveCardAt (i : Int) = ({ p with Hand := p.Hand.eraseIdx i }, .ok c) := by
  have hlt : i < p.Hand.length := (List.getElem?_eq_some_iff.mp h).1
  unfold Player.RemoveCardAt
  rw [if_neg (by omega)]
  simp only [Int.toNat_ofNat, h]

theorem mem_numericIndices {hand : List Card} {i : Nat} (h : i ∈ numericIndices hand) :
    ∃ c, hand[i]? = some c ∧ c.Kind = CardKindNumber := by
  unfold numericIndices at h
  rw [List.mem_filter] at h
  obtain ⟨_, h2⟩ := h
  split at h2
  · rename_i c hc
    exact ⟨c, hc, by simpa using h2⟩
  · simp at h2

theorem numericIndices_eq_nil {hand : List Card} :
    numericIndices hand = [] ↔ countKind CardKindNumber hand = 0 := by
  unfold numericIndices countKind
  rw [List.length_eq_zero, List.filter_eq_nil_iff, List.filter_eq_nil_iff]
  constructor
  · intro h c hc
    obtain ⟨i, hi, rfl⟩ := List.getElem_of_mem hc
    have := h i (List.mem_range.mpr hi)
    simpa [List.getElem?_eq_getElem hi] using this
  · intro h i hi
    have hi' := List.mem_range.mp hi
    have := h hand[i] (List.getElem_mem hi')
    simpa [List.getElem?_eq_getElem hi'] using this

@[simp] theorem Duel.player_setPlayer_self (d : Duel) (s : Side) (p : Player) :
    (d.setPlayer s p).player s = p := by
  cases s <;> rfl

theorem Duel.player_setPlayer_of_ne (d : Duel) {s t : Side} (p : Player) (h : s ≠ t) :
    (d.setPlayer s p).player t = d.player t := by
  cases s <;> cases t <;> first | rfl | exact absurd rfl h

@[simp] theorem Duel.outcome_setPlayer (d : Duel) (s : Side) (p : Player) :
    (d.setPlayer s p).outcome = d.outcome := by
  cases s <;> rfl

@[simp] theorem Duel.logs_setPlayer (d : Duel) (s : Side) (p : Player) :
    (d.setPlayer s p).logs = d.logs := by
  cases s <;> rfl

/-- What `stealRandomNumericCard` does for a winner and a loser on opposite
sides: log and outcome are untouched, only the two hands change, the card
returned moves from the loser to the winner, it is a number card, and a
card is returned exactly when the loser holds a number card. -/
theorem stealRandomNumericCard_spec (d : Duel) {w l : Side} (hwl : w ≠ l) :
    (stealRandomNumericCard d w l).1.outcome = d.outcome ∧
    (stealRandomNumericCard d w l).1.logs = d.logs ∧
    (stealRandomNumericCard d w l).1.player w =
      { d.player w with Hand := ((stealRandomNumericCard d w l).1.player w).Hand } ∧
    (stealRandomNumericCard d w l).1.player l =
      { d.player l with Hand := ((stealRandomNumericCard d w l).1.player l).Hand } ∧
    ((stealRandomNumericCard d w l).1.player w).Hand.Perm
      ((d.player w).Hand ++ (stealRandomNumericCard d w l).2.toList) ∧
    (d.player l).Hand.Perm
      ((stealRandomNumericCard d w l).2.toList ++
        ((stealRandomNumericCard d w l).1.player l).Hand) ∧
    ((stealRandomNumericCard d w l).2 = none ↔
      countKind CardKindNumber (d.player l).Hand = 0) ∧
    (∀ c, (stealRandomNumericCard d w l).2 = some c → c.Kind = CardKindNumber) := by
  have hlw : l ≠ w := fun e => hwl e.symm
  by_cases hnil : numericIndices (d.player l).Hand = []
  · have h0 : stealRandomNumericCard d w l = (d, none) := by
      unfold stealRandomNumericCard
      simp [hnil]
    rw [h0]
    simp [numericIndices_eq_nil.mp hnil]
  · have hpos : 0 < (numericIndices (d.player l).Hand).length :=
      List.length_pos.mpr hnil
    have hdraw := Intn_lt d.rng hpos
    obtain ⟨choice, hchoice⟩ : ∃ choice,
        (numericIndices (d.player l).Hand)[(d.rng.Intn
          (numericIndices (d.player l).Hand).length).1]? = some choice :=
      ⟨_, List.getElem?_eq_getElem hdraw⟩
    have hmem : choice ∈ numericIndices (d.player l).Hand :=
      List.getElem?_mem hchoice
    obtain ⟨card, hcard, hkind⟩ := mem_numericIndices hmem
    have hl1 : ({ d with rng := (d.rng.Intn
        (numericIndices (d.player l).Hand).length).2 } : Duel).player l = d.player l := by
      cases l <;> rfl
    have hrm := RemoveCardAt_of_get (p := d.player l) hcard
    have h0 : stealRandomNumericCard d w l =
        ((({ d with rng := (d.rng.Intn (numericIndices (d.player l).Hand).length).2 } :
            Duel).setPlayer l { d.player l with Hand := (d.player l).Hand.eraseIdx choice
              }).setPlayer w (sortHand ((d.player w).AddCard card)), some card) := by
      unfold stealRandomNumericCard
      simp only [List.length_eq_zero, hnil, if_false, hchoice, hl1, hrm]
      have hw1 : (({ d with rng := (d.rng.Intn
          (numericIndices (d.player l).Hand).length).2 } : Duel).setPlayer l
            { d.player l with Hand := (d.player l).Hand.eraseIdx choice }).player w =
          d.player w := by
        rw [Duel.player_setPlayer_of_ne _ _ hlw]
        cases w <;> rfl
      rw [hw1]
    rw [h0]
    have hne : countKind CardKindNumber (d.player l).Hand ≠ 0 :=
      fun e => hnil (numericIndices_eq_nil.mpr e)
    refine ⟨by simp, by simp, ?_, ?_, ?_, ?_, by simpa using hne, ?_⟩
    · simp only [Duel.player_setPlayer_self]
      rfl
    · simp only [Duel.player_setPlayer_of_ne _ _ hwl, Duel.player_setPlayer_self]
    · simp only [Duel.player_setPlayer_self, Option.toList]
      exact sortHand_perm _
    · simp only [Duel.player_setPlayer_of_ne _ _ hwl, Duel.player_setPlayer_self,
        Option.toList, List.singleton_append]
      exact perm_cons_eraseIdx_of_get _ _ _ hcard
    · intro c hc
      simp only [Option.some.injEq] at hc
      rw [← hc]; exact hkind

/-! ## Settlement after a decisive resolution -/

@[simp] theorem Duel.player_note (d : Duel) (n : String) (s : Side) :
    (d.note n).player s = d.player s := by
  cases s <;> rfl

@[simp] theorem Duel.player_addLog (d : Duel) (n : String) (s : Side) :
    (d.addLog n).player s = d.player s := by
  cases s <;> rfl

@[simp] theorem Duel.player_withOutcome (d : Duel) (o : ChallengeOutcome) (s : Side) :
    ({ d with outcome := o } : Duel).player s = d.player s := by
  cases s <;> rfl

theorem eliminatePlayer_player_self (d : Duel) (s : Side) (reason : String) :
    (eliminatePlayer d s reason).player s = { d.player s with Alive := false } := by
  unfold eliminatePlayer
  split
  · rename_i h
    have : (d.player s).Alive = false := by simpa using h
    rw [← this]
  · cases s <;> rfl

theorem eliminatePlayer_player_of_ne (d : Duel) {s t : Side} (reason : String) (h : s ≠ t) :
    (eliminatePlayer d s reason).player t = d.player t := by
  unfold eliminatePlayer
  split
  · rfl
  · cases s <;> cases t <;> first | rfl | exact absurd rfl h

theorem eliminatePlayer_outcome (d : Duel) (s : Side) (reason : String) :
    ∃ notes, (eliminatePlayer d s reason).outcome =
      { d.outcome with
        Eliminated := d.outcome.Eliminated ++
          (if (d.player s).Alive then [(d.player s).ID] else []),
        Notes := notes } := by
  unfold eliminatePlayer
  split
  · rename_i h
    have : (d.player s).Alive = false := by simpa using h
    exact ⟨d.outcome.Notes, by simp [this]⟩
  · rename_i h
    have : (d.player s).Alive = true := by simpa using h
    simp only [this, if_true]
    cases s <;> exact ⟨_, rfl⟩

theorem foldl_AddCard (cards : List Card) :
    ∀ (p : Player), cards.foldl Player.AddCard p = { p with Hand := p.Hand ++ cards } := by
  induction cards with
  | nil => intro p; simp
  | cons c cs ih =>
    intro p
    rw [List.foldl_cons, ih]
    simp [Player.AddCard]

theorem sortHand_eq (p : Player) : sortHand p = { p with Hand := (sortHand p).Hand } := rfl

/-- Effect of `settleChallenge` for a winner and a loser on opposite sides. -/
theorem settleChallenge_spec (d : Duel) {w l : Side} (hwl : w ≠ l) :
    ∃ (st : Option Card) (hw hl : List Card) (notes : List String),
      (settleChallenge d ⟨some w, some l, none⟩).player w = { d.player w with Hand := hw } ∧
      (settleChallenge d ⟨some w, some l, none⟩).player l =
        { d.player l with Hand := hl, Alive := ((d.player l).Alive && !hl.isEmpty) } ∧
      hw.Perm ((d.player w).Hand ++ d.outcome.AttackerCards ++ d.outcome.DefenderCards ++
        st.toList) ∧
      (d.player l).Hand.Perm (st.toList ++ hl) ∧
      (st = none ↔ countKind CardKindNumber (d.player l).Hand = 0) ∧
      (∀ c, st = some c → c.Kind = CardKindNumber) ∧
      (settleChallenge d ⟨some w, some l, none⟩).outcome =
        { d.outcome with
          WinnerID := some (d.player w).ID,
          LoserID := some (d.player l).ID,
          StolenCard := if st.isSome then st else d.outcome.StolenCard,
          Eliminated := d.outcome.Eliminated ++
            (if (hl.isEmpty && (d.player l).Alive) = true then [(d.player l).ID] else []),
          Notes := notes } := by
  have hlw : l ≠ w := fun e => hwl e.symm
  -- the duel handed to `stealRandomNumericCard`
  obtain ⟨d3, hd3, hd3w, hd3l, hd3o⟩ : ∃ d3 : Duel,
      settleChallenge d ⟨some w, some l, none⟩ =
        (let stolen := stealRandomNumericCard d3 w l
         let d4 :=
            match stolen.2 with
            | none => stolen.1
            | some card =>
              ({ stolen.1 with outcome := { stolen.1.outcome with StolenCard := some card } }).note
                ((stolen.1.player w).Name ++ " 從 " ++ (stolen.1.player l).Name ++ " 抽走 " ++
                  card.String)
         if (d4.player l).HandSize = 0 && (d4.player l).Alive then
            eliminatePlayer d4 l "手牌耗盡"
         else d4) ∧
      d3.player w = { d.player w with Hand := (sortHand { d.player w with
        Hand := ((d.player w).Hand ++ d.outcome.AttackerCards) ++ d.outcome.DefenderCards }).Hand } ∧
      d3.player l = d.player l ∧
      d3.outcome = { d.outcome with
        WinnerID := some (d.player w).ID, LoserID := some (d.player l).ID } := by
    refine ⟨_, rfl, ?_, ?_, ?_⟩
    · simp only [Duel.player_addLog, Duel.player_withOutcome, Duel.player_setPlayer_self,
        foldl_AddCard]
      rfl
    · simp only [Duel.player_addLog, Duel.player_withOutcome,
        Duel.player_setPlayer_of_ne _ _ hwl]
    · simp only [Duel.addLog, Duel.outcome_setPlayer, Duel.player_setPlayer_self,
        Duel.player_setPlayer_of_ne _ _ hwl, foldl_AddCard]
      rfl
  obtain ⟨s1, s2, s3, s4, s5, s6, s7, s8⟩ := stealRandomNumericCard_spec d3 hwl
  generalize hst : stealRandomNumericCard d3 w l = stolen at hd3 s1 s2 s3 s4 s5 s6 s7 s8
  obtain ⟨d3', st⟩ := stolen
  simp only at hd3 s1 s2 s3 s4 s5 s6 s7 s8
  -- the duel after the steal has been recorded
  obtain ⟨d4, hd4, hd4w, hd4l, notes4, hd4o⟩ : ∃ d4 : Duel,
      settleChallenge d ⟨some w, some l, none⟩ =
        (if (d4.player l).HandSize = 0 && (d4.player l).Alive then
            eliminatePlayer d4 l "手牌耗盡"
         else d4) ∧
      d4.player w = d3'.player w ∧ d4.player l = d3'.player l ∧
      ∃ notes4, d4.outcome = { d3.outcome with
        StolenCard := if st.isSome then st else d3.outcome.StolenCard, Notes := notes4 } := by
    cases st with
    | none => exact ⟨d3', hd3, rfl, rfl, d3.outcome.Notes, by simp [s1]⟩
    | some card =>
      refine ⟨_, hd3, ?_, ?_, ?_⟩
      · simp
      · simp
      · refine ⟨d3'.outcome.Notes ++ [(d3'.player w).Name ++ " 從 " ++
          (d3'.player l).Name ++ " 抽走 " ++ card.String], ?_⟩
        simp only [Duel.note, s1, Option.isSome_some, if_true]
  refine ⟨st, (d3'.player w).Hand, (d3'.player l).Hand, ?_⟩
  have hwH : (d3'.player w).Hand.Perm ((d.player w).Hand ++ d.outcome.AttackerCards ++
      d.outcome.DefenderCards ++ st.toList) := by
    refine s5.trans (List.Perm.append_right _ ?_)
    rw [hd3w]
    exact sortHand_perm _
  have hlH : (d.player l).Hand.Perm (st.toList ++ (d3'.player l).Hand) := by
    rw [← hd3l]; exact s6
  have hl4 : d4.player l = { d.player l with Hand := (d3'.player l).Hand } := by
    rw [hd4l, s4, hd3l]
  have hw4 : d4.player w = { d.player w with Hand := (d3'.player w).Hand } := by
    rw [hd4w, s3, hd3w]
  by_cases helim : ((d4.player l).HandSize = 0 && (d4.player l).Alive) = true
  · rw [if_pos helim] at hd4
    obtain ⟨notes5, ho5⟩ := eliminatePlayer_outcome d4 l "手牌耗盡"
    have helim' := helim
    simp only [hl4, Player.HandSize, Bool.and_eq_true, decide_eq_true_eq] at helim'
    have hempty : (d3'.player l).Hand = [] := List.length_eq_zero.mp helim'.1
    refine ⟨notes5, ?_, ?_, hwH, hlH, ?_, s8, ?_⟩
    · rw [hd4, eliminatePlayer_player_of_ne _ _ hlw, hw4]
    · rw [hd4, eliminatePlayer_player_self, hl4]
      simp [hempty]
    · rw [s7, hd3l]
    · rw [hd4, ho5, hd4o, hd3o, hl4]
      simp [hempty, helim'.2]
  · rw [if_neg helim] at hd4
    have helim' := helim
    simp only [hl4, Player.HandSize, Bool.and_eq_true, decide_eq_true_eq, not_and,
      Bool.not_eq_true] at helim'
    refine ⟨notes4, ?_, ?_, hwH, hlH, ?_, s8, ?_⟩
    · rw [hd4, hw4]
    · rw [hd4, hl4]
      by_cases he : (d3'.player l).Hand = []
      · have := helim' (by simp [he])
        simp [he, this]
      · have : (d3'.player l).Hand.isEmpty = false := by
          simpa [List.isEmpty_iff] using he
        simp [this]
    · rw [s7, hd3l]
    · rw [hd4, hd4o, hd3o]
      by_cases he : (d3'.player l).Hand = []
      · have := helim' (by simp [he])
        simp [he, this]
      · have : (d3'.player l).Hand.isEmpty = false := by
          simpa [List.isEmpty_iff] using he
        simp [this]

/-! ## The run of a successful challenge, in terms of the game before it -/

theorem commit_players {g : Game} {opts : ChallengeOptions} (d : Duel)
    (hne : opts.AttackerID ≠ opts.DefenderID) (ha0 : 0 ≤ opts.AttackerID)
    (hd0 : 0 ≤ opts.DefenderID) (ha : opts.AttackerID.toNat < g.Players.length)
    (hd : opts.DefenderID.toNat < g.Players.length) :
    (g.commit opts d).Players[opts.AttackerID.toNat]? = some d.attacker ∧
    (g.commit opts d).Players[opts.DefenderID.toNat]? = some d.defender ∧
    (∀ k, k ≠ opts.AttackerID.toNat → k ≠ opts.DefenderID.toNat →
      (g.commit opts d).Players[k]? = g.Players[k]?) ∧
    (g.commit opts d).Players.length = g.Players.length := by
  have hne' : opts.AttackerID.toNat ≠ opts.DefenderID.toNat := by omega
  unfold Game.commit
  refine ⟨?_, ?_, ?_, ?_⟩
  · simp only [List.getElem?_set]
    rw [if_neg (Ne.symm hne')]
    simp [ha]
  · simp only [List.getElem?_set]
    simp [hd]
  · intro k hka hkd
    simp only [List.getElem?_set]
    rw [if_neg (Ne.symm hkd), if_neg (Ne.symm hka)]
  · simp

/-- The run of a successful challenge, with the selections expressed on the
hands before the call. -/
theorem Challenge_run {g g1 : Game} {opts : ChallengeOptions} {o : ChallengeOutcome}
    {att dfd : Player} (h : Challenge g opts = (g1, .ok o))
    (hatt : g.Players[opts.AttackerID.toNat]? = some att)
    (hdfd : g.Players[opts.DefenderID.toNat]? = some dfd) :
    ∃ (att1 dfd1 : Player) (aset dset : playedSet) (d3 : Duel) (w l : Option Side),
      att.Alive = true ∧ dfd.Alive = true ∧
      att1 = { att with Hand := att1.Hand } ∧
      att.Hand.Perm (cardsAt att.Hand opts.AttackerCards ++ att1.Hand) ∧
      dfd1 = { dfd with Hand := dfd1.Hand } ∧
      dfd.Hand.Perm (cardsAt dfd.Hand opts.DefenderCards ++ dfd1.Hand) ∧
      analyzePlayedSet (cardsAt att.Hand opts.AttackerCards) true = .ok aset ∧
      analyzeDefenseSet (cardsAt dfd.Hand opts.DefenderCards) = .ok dset ∧
      resolveChallenge
        (duelAtResolve g opts att1 dfd1 (cardsAt att.Hand opts.AttackerCards)
          (cardsAt dfd.Hand opts.DefenderCards)) aset dset = (d3, ⟨w, l, none⟩) ∧
      g1.Players[opts.AttackerID.toNat]? =
        some (settleChallenge d3 ⟨w, l, none⟩).attacker ∧
      g1.Players[opts.DefenderID.toNat]? =
        some (settleChallenge d3 ⟨w, l, none⟩).defender ∧
      (∀ k, k ≠ opts.AttackerID.toNat → k ≠ opts.DefenderID.toNat →
        g1.Players[k]? = g.Players[k]?) ∧
      g1.Players.length = g.Players.length ∧
      g1.cardDeck = g.cardDeck ∧ g1.cardDiscarded = g.cardDiscarded ∧
      opts.AttackerID.toNat ≠ opts.DefenderID.toNat ∧
      o = (settleChallenge d3 ⟨w, l, none⟩).outcome := by
  obtain ⟨att', dfd', att1, dfd1, acards, dcards, aset, dset, d3, w, l, hne, hpa, hpd, hra,
    has, hrd, hds, hres, hg1, ho⟩ := Challenge_ok h
  obtain ⟨ha0, hga, haa⟩ := playerByID_ok hpa
  obtain ⟨hd0, hgd, hda⟩ := playerByID_ok hpd
  rw [hatt] at hga
  rw [hdfd] at hgd
  have e1 : att' = att := (Option.some.inj hga).symm
  have e2 : dfd' = dfd := (Option.some.inj hgd).symm
  subst e1 e2
  obtain ⟨a1, a2, a3, _, _⟩ := removeCardsByIndices_ok hra
  obtain ⟨b1, b2, b3, _, _⟩ := removeCardsByIndices_ok hrd
  subst a1 b1
  have hla : opts.AttackerID.toNat < g.Players.length :=
    (List.getElem?_eq_some_iff.mp hatt).1
  have hld : opts.DefenderID.toNat < g.Players.length :=
    (List.getElem?_eq_some_iff.mp hdfd).1
  obtain ⟨c1, c2, c3, c4⟩ :=
    commit_players (g := g) (settleChallenge d3 ⟨w, l, none⟩) hne ha0 hd0 hla hld
  refine ⟨att1, dfd1, aset, dset, d3, w, l, haa, hda, a2, a3, b2, b3, has, hds, hres,
    ?_, ?_, ?_, ?_, ?_, ?_, by omega, ho⟩
  · rw [hg1]; exact c1
  · rw [hg1]; exact c2
  · rw [hg1]; exact c3
  · rw [hg1]; exact c4
  · rw [hg1]; rfl
  · rw [hg1]; rfl

/-! ## Analysis of a play -/

theorem sumNumberCards_ok {suit : Suit} :
    ∀ (cards : List Card) (t total : Int), sumNumberCards suit cards t = .ok total →
      ∀ c ∈ cards, c.Kind = CardKindNumber ∧ c.Suit = suit
  | [], _, _, _ => by simp
  | c :: cs, t, total, h => by
    rw [sumNumberCards] at h
    split at h
    · simp at h
    · rename_i hk
      split at h
      · simp at h
      · rename_i hsuit
        intro x hx
        rcases List.mem_cons.mp hx with e | hx
        · subst e
          exact ⟨by simpa using hk, by simpa using hsuit⟩
        · exact sumNumberCards_ok cs _ total h x hx

theorem wrapInt_of_small {x : Int} (h1 : -(2 ^ 63) ≤ x) (h2 : x < 2 ^ 63) : wrapInt x = x := by
  unfold wrapInt
  omega

/-- On cards with values from 1 to 13 the running total never wraps: the
loop returns the exact sum. -/
theorem sumNumberCards_total {suit : Suit} :
    ∀ (cards : List Card) (t total : Int), sumNumberCards suit cards t = .ok total →
      (∀ c ∈ cards, 1 ≤ c.Value ∧ c.Value ≤ 13) → 0 ≤ t →
      t + 13 * cards.length < 2 ^ 62 → total = t + strength cards
  | [], t, total, h, _, _, _ => by
    simp only [sumNumberCards, Except.ok.injEq] at h
    simp [strength, h]
  | c :: cs, t, total, h, hv, ht, hb => by
    rw [sumNumberCards] at h
    split at h
    · simp at h
    · split at h
      · simp at h
      · have hc := hv c (List.mem_cons_self _ _)
        have hlen : ((c :: cs).length : Int) = cs.length + 1 := by simp
        rw [hlen] at hb
        have hw : wrapInt (t + c.Value) = t + c.Value :=
          wrapInt_of_small (by omega) (by omega)
        rw [hw] at h
        have ih := sumNumberCards_total cs (t + c.Value) total h
          (fun x hx => hv x (List.mem_cons_of_mem _ hx)) (by omega) (by omega)
        rw [ih]
        simp only [strength, List.map_cons, List.sum_cons]
        omega

/-- What a successful `analyzePlayedSet` says about the cards: a number
play of one suit with at most five cards, or one single special card that
the side may use. -/
theorem analyzePlayedSet_ok {cards : List Card} {attacker : Bool} {s : playedSet}
    (h : analyzePlayedSet cards attacker = .ok s) :
    s.cards = cards ∧
    ((s.kind = CardKindNumber ∧ s.isNumeric = true ∧ cards ≠ [] ∧ cards.length ≤ 5 ∧
        (∀ c ∈ cards, c.Kind = CardKindNumber ∧ c.Suit = s.suit) ∧
        sumNumberCards s.suit cards 0 = .ok s.total) ∨
      (∃ c, cards = [c] ∧ c.Kind ≠ CardKindNumber ∧ s.kind = c.Kind ∧ s.isNumeric = false ∧
        (attacker = true → c.Kind ≠ CardKindVaccine) ∧
        (attacker = false → c.Kind = CardKindVaccine))) := by
  unfold analyzePlayedSet at h
  split at h
  · simp at h
  · rename_i first rest
    split at h
    · split at h
      · simp at h
      · rename_i hk hlen
        split at h
        · simp at h
        · rename_i total hsum
          simp only [Except.ok.injEq] at h
          subst h
          refine ⟨rfl, Or.inl ⟨rfl, rfl, by simp, by simpa using hlen, ?_, hsum⟩⟩
          exact sumNumberCards_ok _ _ _ hsum
    · rename_i hk
      split at h
      · simp at h
      · rename_i hlen
        have hrest : rest = [] := by
          have : (first :: rest).length = 1 := by simpa using hlen
          simpa using this
        subst hrest
        split at h
        · simp at h
        · rename_i h1
          split at h
          · simp at h
          · rename_i h2
            split at h
            · simp at h
            · rename_i h3
              simp only [Except.ok.injEq] at h
              subst h
              refine ⟨rfl, Or.inr ⟨first, rfl, hk, rfl, rfl, ?_, ?_⟩⟩
              · intro ha; subst ha; simpa using h3
              · intro ha; subst ha
                simp only [Bool.not_false, Bool.true_and, decide_eq_true_eq] at h1 h2
                cases hkind : first.Kind with
                | CardKindNumber => exact absurd hkind hk
                | CardKindZombie => exact absurd hkind h2
                | CardKindShotgun => exact absurd hkind h1
                | CardKindVaccine => rfl

theorem analyzeDefenseSet_ok {cards : List Card} {s : playedSet}
    (h : analyzeDefenseSet cards = .ok s) :
    (cards = [] ∧ s = playedSet.zero) ∨ (cards ≠ [] ∧ analyzePlayedSet cards false = .ok s) := by
  unfold analyzeDefenseSet at h
  split at h
  · rename_i h0
    simp only [Except.ok.injEq] at h
    exact Or.inl ⟨List.length_eq_zero.mp h0, h.symm⟩
  · rename_i h0
    exact Or.inr ⟨fun e => h0 (by simp [e]), h⟩

/-! ## The branches of `resolveChallenge` -/

theorem CountKind_eq_countKind (p : Player) (k : CardKind) :
    p.CountKind k = countKind k p.Hand := rfl

theorem countKind_perm {k : CardKind} {l1 l2 : List Card} (h : l1.Perm l2) :
    countKind k l1 = countKind k l2 :=
  (h.filter _).length_eq

theorem countKind_append (k : CardKind) (l1 l2 : List Card) :
    countKind k (l1 ++ l2) = countKind k l1 + countKind k l2 := by
  simp [countKind]

/-- Zombie card against anything but a vaccine: the attacker wins and the
defender is infected, receiving a zombie card when holding none. -/
theorem resolve_infection (d : Duel) {aset dset : playedSet}
    (hk : aset.kind = CardKindZombie) (hv : dset.kind ≠ CardKindVaccine) :
    ∃ (d3 : Duel),
      resolveChallenge d aset dset = (d3, ⟨some Side.attacker, some Side.defender, none⟩) ∧
      d3.attacker = d.attacker ∧
      d3.defender = { d.defender with
        currentIdentity := IdentityZombie, Hand := d3.defender.Hand } ∧
      d3.defender.Hand.Perm (d.defender.Hand ++
        (if countKind CardKindZombie d.defender.Hand = 0 then [Card.ofKind CardKindZombie]
         else [])) ∧
      ∃ notes, d3.outcome = { d.outcome with
        WinnerID := some d.attacker.ID, LoserID := some d.defender.ID, Infection := true,
        Notes := notes } := by
  unfold resolveChallenge
  rw [if_pos hk, if_neg hv]
  dsimp only
  split
  · rename_i hc
    change countKind CardKindZombie d.defender.Hand = 0 at hc
    refine ⟨_, rfl, rfl, rfl, ?_, ⟨_, rfl⟩⟩
    rw [if_pos hc]
    exact sortHand_perm _
  · rename_i hc
    change ¬ countKind CardKindZombie d.defender.Hand = 0 at hc
    refine ⟨_, rfl, rfl, rfl, ?_, ⟨_, rfl⟩⟩
    rw [if_neg hc]
    simp [Duel.note, Duel.setPlayer, declareWinner, Player.SetIdentity]

theorem convertToHuman_attacker (d : Duel) :
    convertToHuman d Side.attacker =
      { d with
        attacker := d.attacker.SetIdentity IdentityHuman,
        outcome := { d.outcome with
          ConvertedToHuman := d.outcome.ConvertedToHuman ++
            (if d.attacker.IsZombie then [d.attacker.ID] else []) } } := by
  unfold convertToHuman
  split
  · rename_i hz
    change d.attacker.IsZombie = true at hz
    rw [if_pos hz]
    rfl
  · rename_i hz
    change ¬ d.attacker.IsZombie = true at hz
    rw [if_neg hz]
    have hh : d.attacker.currentIdentity = IdentityHuman := by
      cases hi : d.attacker.currentIdentity with
      | IdentityHuman => rfl
      | IdentityZombie => exact absurd (by simp [Player.IsZombie, hi]) hz
    obtain ⟨a, b, c, e, o⟩ := d
    obtain ⟨i1, i2, i3, i4, i5, i6⟩ := a
    simp only at hh
    subst hh
    simp [Player.SetIdentity]

/-- Vaccine against a zombie card or a number play: the defender wins and
the attacker is human afterwards. -/
theorem resolve_vaccine (d : Duel) {aset dset : playedSet}
    (hs : aset.kind ≠ CardKindShotgun) (hv : dset.kind = CardKindVaccine) :
    ∃ (d3 : Duel),
      resolveChallenge d aset dset = (d3, ⟨some Side.defender, some Side.attacker, none⟩) ∧
      d3.attacker = d.attacker.SetIdentity IdentityHuman ∧
      d3.defender = d.defender ∧
      ∃ notes, d3.outcome = { d.outcome with
        WinnerID := some d.defender.ID, LoserID := some d.attacker.ID,
        ConvertedToHuman := d.outcome.ConvertedToHuman ++
          (if d.attacker.IsZombie then [d.attacker.ID] else []),
        Notes := notes } := by
  unfold resolveChallenge
  by_cases hk : aset.kind = CardKindZombie
  · rw [if_pos hk, if_pos hv, convertToHuman_attacker]
    exact ⟨_, rfl, rfl, rfl, ⟨_, rfl⟩⟩
  · rw [if_neg hk, if_neg hs, if_pos hv, convertToHuman_attacker]
    exact ⟨_, rfl, rfl, rfl, ⟨_, rfl⟩⟩

/-- Shotgun against a defender who is not a zombie: the defender wins and
nothing else happens. -/
theorem resolve_shotgun_miss (d : Duel) {aset : playedSet} (dset : playedSet)
    (hs : aset.kind = CardKindShotgun) (hz : d.defender.IsZombie = false) :
    ∃ (d3 : Duel),
      resolveChallenge d aset dset = (d3, ⟨some Side.defender, some Side.attacker, none⟩) ∧
      d3.attacker = d.attacker ∧ d3.defender = d.defender ∧
      ∃ notes, d3.outcome = { d.outcome with
        WinnerID := some d.defender.ID, LoserID := some d.attacker.ID, Notes := notes } := by
  unfold resolveChallenge
  rw [if_neg (by rw [hs]; decide), if_pos hs, if_pos (by simp [hz])]
  exact ⟨_, rfl, rfl, rfl, ⟨_, rfl⟩⟩

/-- Shotgun against a zombie: the attacker wins and the defender is
eliminated on the spot. -/
theorem resolve_shotgun_hit (d : Duel) {aset : playedSet} (dset : playedSet)
    (hs : aset.kind = CardKindShotgun) (hz : d.defender.IsZombie = true)
    (ha : d.defender.Alive = true) :
    ∃ (d3 : Duel),
      resolveChallenge d aset dset = (d3, ⟨some Side.attacker, some Side.defender, none⟩) ∧
      d3.attacker = d.attacker ∧ d3.defender = { d.defender with Alive := false } ∧
      ∃ notes, d3.outcome = { d.outcome with
        WinnerID := some d.attacker.ID, LoserID := some d.defender.ID,
        Eliminated := d.outcome.Eliminated ++ [d.defender.ID], Notes := notes } := by
  unfold resolveChallenge
  rw [if_neg (by rw [hs]; decide), if_pos hs, if_neg (by simp [hz])]
  unfold eliminatePlayer
  have hal : (!((d.note ("獵槍命中！" ++ d.attacker.Name ++ " 射殺僵屍 " ++
      d.defender.Name)).player Side.defender).Alive) = false := by
    simp [Duel.player, Duel.note, ha]
  simp only [hal]
  exact ⟨_, rfl, rfl, rfl, ⟨_, rfl⟩⟩

/-- Number attack left without an answer: forced reveal, the attacker wins. -/
theorem resolve_forced (d : Duel) {aset dset : playedSet}
    (hz : aset.kind ≠ CardKindZombie) (hs : aset.kind ≠ CardKindShotgun)
    (hv : dset.kind ≠ CardKindVaccine) (hc : dset.cards.length = 0) :
    ∃ (d3 : Duel),
      resolveChallenge d aset dset = (d3, ⟨some Side.attacker, some Side.defender, none⟩) ∧
      d3.attacker = d.attacker ∧ d3.defender = d.defender ∧
      ∃ notes, d3.outcome = { d.outcome with
        WinnerID := some d.attacker.ID, LoserID := some d.defender.ID, ForcedReveal := true,
        Notes := notes } := by
  unfold resolveChallenge
  rw [if_neg hz, if_neg hs, if_neg hv, if_pos hc]
  exact ⟨_, rfl, rfl, rfl, ⟨_, rfl⟩⟩

/-- Number against number, attacker stronger. -/
theorem resolve_attacker_stronger (d : Duel) {aset dset : playedSet}
    (hz : aset.kind ≠ CardKindZombie) (hs : aset.kind ≠ CardKindShotgun)
    (hv : dset.kind ≠ CardKindVaccine) (hc : dset.cards.length ≠ 0)
    (hn : dset.isNumeric = true) (hsuit : aset.suit = dset.suit)
    (ht : aset.total > dset.total) :
    ∃ (d3 : Duel),
      resolveChallenge d aset dset = (d3, ⟨some Side.attacker, some Side.defender, none⟩) ∧
      d3.attacker = d.attacker ∧ d3.defender = d.defender ∧
      ∃ notes, d3.outcome = { d.outcome with
        WinnerID := some d.attacker.ID, LoserID := some d.defender.ID, Notes := notes } := by
  unfold resolveChallenge
  rw [if_neg hz, if_neg hs, if_neg hv, if_neg hc, if_neg (by simp [hn]),
    if_neg (by simp [hsuit]), if_pos ht]
  exact ⟨_, rfl, rfl, rfl, ⟨_, rfl⟩⟩

/-- Number against number, defender stronger. -/
theorem resolve_defender_stronger (d : Duel) {aset dset : playedSet}
    (hz : aset.kind ≠ CardKindZombie) (hs : aset.kind ≠ CardKindShotgun)
    (hv : dset.kind ≠ CardKindVaccine) (hc : dset.cards.length ≠ 0)
    (hn : dset.isNumeric = true) (hsuit : aset.suit = dset.suit)
    (ht : dset.total > aset.total) :
    ∃ (d3 : Duel),
      resolveChallenge d aset dset = (d3, ⟨some Side.defender, some Side.attacker, none⟩) ∧
      d3.attacker = d.attacker ∧ d3.defender = d.defender ∧
      ∃ notes, d3.outcome = { d.outcome with
        WinnerID := some d.defender.ID, LoserID := some d.attacker.ID, Notes := notes } := by
  unfold resolveChallenge
  rw [if_neg hz, if_neg hs, if_neg hv, if_neg hc, if_neg (by simp [hn]),
    if_neg (by simp [hsuit]), if_neg (by omega), if_pos ht]
  exact ⟨_, rfl, rfl, rfl, ⟨_, rfl⟩⟩

/-- Number against number, equal totals: both sides take their cards back
and nobody wins. -/
theorem resolve_tie (d : Duel) {aset dset : playedSet}
    (hz : aset.kind ≠ CardKindZombie) (hs : aset.kind ≠ CardKindShotgun)
    (hv : dset.kind ≠ CardKindVaccine) (hc : dset.cards.length ≠ 0)
    (hn : dset.isNumeric = true) (hsuit : aset.suit = dset.suit)
    (ht : aset.total = dset.total) :
    ∃ (d3 : Duel),
      resolveChallenge d aset dset = (d3, ⟨none, none, none⟩) ∧
      d3.attacker = restoreHand d.attacker d.outcome.AttackerCards ∧
      d3.defender = restoreHand d.defender d.outcome.DefenderCards ∧
      ∃ notes, d3.outcome = { d.outcome with
        AttackerCards := [], DefenderCards := [], Notes := notes } := by
  unfold resolveChallenge
  rw [if_neg hz, if_neg hs, if_neg hv, if_neg hc, if_neg (by simp [hn]),
    if_neg (by simp [hsuit]), if_neg (by omega), if_neg (by omega)]
  refine ⟨_, rfl, ?_, ?_, ⟨_, rfl⟩⟩
  · simp [Duel.setPlayer, Duel.note, foldl_AddCard, restoreHand]
  · simp [Duel.setPlayer, Duel.note, foldl_AddCard, restoreHand]

/-! ## Kinds of the two plays -/

theorem analyzePlayedSet_kind {cards : List Card} {attacker : Bool} {s : playedSet}
    (h : analyzePlayedSet cards attacker = .ok s) :
    ∃ first rest, cards = first :: rest ∧ s.kind = first.Kind := by
  obtain ⟨_, h2⟩ := analyzePlayedSet_ok h
  rcases h2 with ⟨hk, _, hne, _, hall, _⟩ | ⟨c, hc, _, hk, _⟩
  · cases cards with
    | nil => exact absurd rfl hne
    | cons first rest =>
      exact ⟨first, rest, rfl, by rw [hk, (hall first (List.mem_cons_self _ _)).1]⟩
  · exact ⟨c, [], hc, hk⟩

theorem analyzeDefenseSet_vaccine {cards : List Card} {s : playedSet}
    (h : analyzeDefenseSet cards = .ok s) :
    s.kind = CardKindVaccine ↔ ∃ v, cards = [v] ∧ v.Kind = CardKindVaccine := by
  rcases analyzeDefenseSet_ok h with ⟨_, h2⟩ | ⟨_, h2⟩
  · subst h2
    constructor
    · intro hk; exact absurd hk (by decide)
    · rintro ⟨v, hv, _⟩; subst hv; simp_all
  · obtain ⟨_, h3⟩ := analyzePlayedSet_ok h2
    rcases h3 with ⟨hk, _, _, _, hall, _⟩ | ⟨c, hc, _, hk, _, _, hvac⟩
    · constructor
      · intro hk2; rw [hk] at hk2; exact absurd hk2 (by decide)
      · rintro ⟨v, hv, hvk⟩
        have := (hall v (by simp [hv])).1
        rw [hvk] at this
        exact absurd this (by decide)
    · constructor
      · intro _; exact ⟨c, hc, hvac rfl⟩
      · intro _; rw [hk]; exact hvac rfl

/-! ## The claims about `Challenge` -/

/-- C3: in a successful challenge where the attacker selects a single
zombie card and the defender does not select a vaccine, the attacker is the
recorded winner, the defender the recorded loser, `Infection` is set, and
afterwards the defender is a zombie holding at least one zombie card. -/
theorem zombie_card_infects (g g1 : Game) (opts : ChallengeOptions) (o : ChallengeOutcome)
    (att dfd : Player) (c : Card)
    (hok : Challenge g opts = (g1, .ok o))
    (hatt : g.Players[opts.AttackerID.toNat]? = some att)
    (hdfd : g.Players[opts.DefenderID.toNat]? = some dfd)
    (hsel : cardsAt att.Hand opts.AttackerCards = [c]) (hc : c.Kind = CardKindZombie)
    (hnv : ∀ v, cardsAt dfd.Hand opts.DefenderCards = [v] → v.Kind ≠ CardKindVaccine) :
    o.WinnerID = some att.ID ∧ o.LoserID = some dfd.ID ∧ o.Infection = true ∧
      ∃ dfd2, g1.Players[opts.DefenderID.toNat]? = some dfd2 ∧
        dfd2.currentIdentity = IdentityZombie ∧ 1 ≤ dfd2.CountKind CardKindZombie := by
  obtain ⟨att1, dfd1, aset, dset, d3, w, l, -, -, ha1, -, hd1, -, has, hds, hres, -, hgd, -,
    -, -, -, -, ho⟩ := Challenge_run hok hatt hdfd
  have hk : aset.kind = CardKindZombie := by
    obtain ⟨first, rest, h1, h2⟩ := analyzePlayedSet_kind has
    rw [hsel] at h1
    simp only [List.cons.injEq] at h1
    rw [h2, ← h1.1, hc]
  have hv : dset.kind ≠ CardKindVaccine := by
    intro hv
    obtain ⟨v, h1, h2⟩ := (analyzeDefenseSet_vaccine hds).mp hv
    exact hnv v h1 h2
  obtain ⟨d3', r1, r2, r3, r4, notes, r5⟩ := resolve_infection
    (duelAtResolve g opts att1 dfd1 (cardsAt att.Hand opts.AttackerCards)
      (cardsAt dfd.Hand opts.DefenderCards)) hk hv
  rw [r1] at hres
  simp only [Prod.mk.injEq, challengeResult.mk.injEq] at hres
  obtain ⟨e1, e2, e3, -⟩ := hres
  subst e1 e2 e3
  obtain ⟨st, hw, hl, notes2, s1, s2, s3, s4, s5, s6, s7⟩ :=
    settleChallenge_spec d3' (w := Side.attacker) (l := Side.defender) (by decide)
  have hzc : 1 ≤ countKind CardKindZombie d3'.defender.Hand := by
    rw [countKind_perm r4, countKind_append]
    split
    · simp [countKind, Card.ofKind]
    · omega
  have hst : countKind CardKindZombie st.toList = 0 := by
    cases st with
    | none => rfl
    | some card =>
      have := s6 card rfl
      simp [countKind, this]
  have hl2 : countKind CardKindZombie hl = countKind CardKindZombie d3'.defender.Hand := by
    have := countKind_perm (k := CardKindZombie) s4
    rw [countKind_append, hst] at this
    simp only [Duel.player] at this
    omega
  refine ⟨?_, ?_, ?_, _, hgd, ?_, ?_⟩
  · rw [ho, s7]
    simp only [Duel.player, r2]
    rw [duelAtResolve, ha1]
  · rw [ho, s7]
    simp only [Duel.player]
    rw [r3, duelAtResolve, hd1]
  · rw [ho, s7, r5]
  · change ((settleChallenge d3' ⟨some Side.attacker, some Side.defender, none⟩).player
      Side.defender).currentIdentity = IdentityZombie
    rw [s2]
    simp only [Duel.player]
    rw [r3]
  · change 1 ≤ countKind CardKindZombie ((settleChallenge d3'
      ⟨some Side.attacker, some Side.defender, none⟩).player Side.defender).Hand
    rw [s2]
    change 1 ≤ countKind CardKindZombie hl
    omega

theorem zombie_card_infects_witness :
    ∃ g1 o, Challenge zombieVsHuman ⟨0, 1, [2], [0, 1]⟩ = (g1, .ok o) ∧
      o.WinnerID = some 0 ∧ o.LoserID = some 1 ∧ o.Infection = true ∧
      ∃ dfd2, g1.Players[1]? = some dfd2 ∧
        dfd2.currentIdentity = IdentityZombie ∧ 1 ≤ dfd2.CountKind CardKindZombie :=
  ⟨_, _, rfl,
    zombie_card_infects zombieVsHuman _ ⟨0, 1, [2], [0, 1]⟩ _
      (examplePlayer 0 "A" IdentityZombie
        [⟨CardKindNumber, SuitSpade, 9⟩, ⟨CardKindNumber, SuitSpade, 8⟩,
          Card.ofKind CardKindZombie, Card.ofKind CardKindShotgun])
      (examplePlayer 1 "B" IdentityHuman
        [⟨CardKindNumber, SuitSpade, 5⟩, ⟨CardKindNumber, SuitSpade, 4⟩,
          ⟨CardKindNumber, SuitHeart, 13⟩, Card.ofKind CardKindVaccine])
      (Card.ofKind CardKindZombie) rfl rfl rfl rfl rfl
      (fun _ hv => absurd (congrArg List.length hv)
        (show ¬ (cardsAt _ _).length = 1 by decide))⟩

theorem analyzePlayedSet_shotgun {cards : List Card} {attacker : Bool} {s : playedSet}
    (h : analyzePlayedSet cards attacker = .ok s) :
    s.kind = CardKindShotgun ↔ ∃ c ∈ cards, c.Kind = CardKindShotgun := by
  obtain ⟨_, h2⟩ := analyzePlayedSet_ok h
  rcases h2 with ⟨hk, _, _, _, hall, _⟩ | ⟨c, hc, _, hk, _⟩
  · constructor
    · intro hk2; rw [hk] at hk2; exact absurd hk2 (by decide)
    · rintro ⟨c, hc, hck⟩
      have := (hall c hc).1
      rw [hck] at this
      exact absurd this (by decide)
  · subst hc
    constructor
    · intro hk2; exact ⟨c, by simp, by rw [← hk, hk2]⟩
    · rintro ⟨c2, hc2, hck⟩
      simp only [List.mem_singleton] at hc2
      subst hc2
      rw [hk, hck]

/-- C4, as amended: in a successful challenge where the defender selects a
single vaccine, an attacker who played number cards or a zombie card is
human afterwards and the defender is the recorded winner, whatever the
attacker was before; against a shotgun the vaccine has no effect on the
attacker, whose identity stays what it was. -/
theorem vaccine_defence (g g1 : Game) (opts : ChallengeOptions) (o : ChallengeOutcome)
    (att dfd : Player) (v : Card)
    (hok : Challenge g opts = (g1, .ok o))
    (hatt : g.Players[opts.AttackerID.toNat]? = some att)
    (hdfd : g.Players[opts.DefenderID.toNat]? = some dfd)
    (hsel : cardsAt dfd.Hand opts.DefenderCards = [v]) (hv : v.Kind = CardKindVaccine) :
    ∃ att2, g1.Players[opts.AttackerID.toNat]? = some att2 ∧
      ((∀ c ∈ cardsAt att.Hand opts.AttackerCards, c.Kind ≠ CardKindShotgun) →
        att2.currentIdentity = IdentityHuman ∧ o.WinnerID = some dfd.ID) ∧
      ((∃ c ∈ cardsAt att.Hand opts.AttackerCards, c.Kind = CardKindShotgun) →
        att2.currentIdentity = att.currentIdentity) := by
  obtain ⟨att1, dfd1, aset, dset, d3, w, l, -, hda, ha1, -, hd1, -, has, hds, hres, hga, -, -,
    -, -, -, -, ho⟩ := Challenge_run hok hatt hdfd
  have hvk : dset.kind = CardKindVaccine := (analyzeDefenseSet_vaccine hds).mpr ⟨v, hsel, hv⟩
  refine ⟨_, hga, ?_, ?_⟩
  · intro hns
    have hs : aset.kind ≠ CardKindShotgun := fun e => by
      obtain ⟨c, hc, hck⟩ := (analyzePlayedSet_shotgun has).mp e
      exact hns c hc hck
    obtain ⟨d3', r1, r2, r3, notes, r5⟩ := resolve_vaccine
      (duelAtResolve g opts att1 dfd1 (cardsAt att.Hand opts.AttackerCards)
        (cardsAt dfd.Hand opts.DefenderCards)) hs hvk
    rw [r1] at hres
    simp only [Prod.mk.injEq, challengeResult.mk.injEq] at hres
    obtain ⟨e1, e2, e3, -⟩ := hres
    subst e1 e2 e3
    obtain ⟨st, hw, hl, notes2, s1, s2, s3, s4, s5, s6, s7⟩ :=
      settleChallenge_spec d3' (w := Side.defender) (l := Side.attacker) (by decide)
    constructor
    · change ((settleChallenge d3' ⟨some Side.defender, some Side.attacker, none⟩).player
        Side.attacker).currentIdentity = IdentityHuman
      rw [s2]
      simp only [Duel.player]
      rw [r2]
      rfl
    · rw [ho, s7]
      simp only [Duel.player]
      rw [r3, duelAtResolve, hd1]
  · intro hsg
    have hs : aset.kind = CardKindShotgun := (analyzePlayedSet_shotgun has).mpr hsg
    cases hz : dfd.currentIdentity with
    | IdentityHuman =>
      obtain ⟨d3', r1, r2, r3, notes, r5⟩ := resolve_shotgun_miss
        (duelAtResolve g opts att1 dfd1 (cardsAt att.Hand opts.AttackerCards)
          (cardsAt dfd.Hand opts.DefenderCards)) dset hs
        (by rw [duelAtResolve, hd1]; simp [Player.IsZombie, hz])
      rw [r1] at hres
      simp only [Prod.mk.injEq, challengeResult.mk.injEq] at hres
      obtain ⟨e1, e2, e3, -⟩ := hres
      subst e1 e2 e3
      obtain ⟨st, hw, hl, notes2, s1, s2, s3, s4, s5, s6, s7⟩ :=
        settleChallenge_spec d3' (w := Side.defender) (l := Side.attacker) (by decide)
      change ((settleChallenge d3' ⟨some Side.defender, some Side.attacker, none⟩).player
        Side.attacker).currentIdentity = att.currentIdentity
      rw [s2]
      simp only [Duel.player]
      rw [r2, duelAtResolve, ha1]
    | IdentityZombie =>
      obtain ⟨d3', r1, r2, r3, notes, r5⟩ := resolve_shotgun_hit
        (duelAtResolve g opts att1 dfd1 (cardsAt att.Hand opts.AttackerCards)
          (cardsAt dfd.Hand opts.DefenderCards)) dset hs
        (by rw [duelAtResolve, hd1]; simp [Player.IsZombie, hz])
        (by rw [duelAtResolve, hd1]; exact hda)
      rw [r1] at hres
      simp only [Prod.mk.injEq, challengeResult.mk.injEq] at hres
      obtain ⟨e1, e2, e3, -⟩ := hres
      subst e1 e2 e3
      obtain ⟨st, hw, hl, notes2, s1, s2, s3, s4, s5, s6, s7⟩ :=
        settleChallenge_spec d3' (w := Side.attacker) (l := Side.defender) (by decide)
      change ((settleChallenge d3' ⟨some Side.attacker, some Side.defender, none⟩).player
        Side.attacker).currentIdentity = att.currentIdentity
      rw [s1]
      simp only [Duel.player]
      rw [r2, duelAtResolve, ha1]

theorem vaccine_defence_witness :
    ∃ g1 o att2, Challenge zombieVsHuman ⟨0, 1, [2], [3]⟩ = (g1, .ok o) ∧
      g1.Players[0]? = some att2 ∧
      att2.currentIdentity = IdentityHuman ∧ o.WinnerID = some 1 := by
  obtain ⟨att2, h1, h2, -⟩ := vaccine_defence zombieVsHuman _ ⟨0, 1, [2], [3]⟩ _
      (examplePlayer 0 "A" IdentityZombie
        [⟨CardKindNumber, SuitSpade, 9⟩, ⟨CardKindNumber, SuitSpade, 8⟩,
          Card.ofKind CardKindZombie, Card.ofKind CardKindShotgun])
      (examplePlayer 1 "B" IdentityHuman
        [⟨CardKindNumber, SuitSpade, 5⟩, ⟨CardKindNumber, SuitSpade, 4⟩,
          ⟨CardKindNumber, SuitHeart, 13⟩, Card.ofKind CardKindVaccine])
      (Card.ofKind CardKindVaccine) rfl rfl rfl rfl rfl
  exact ⟨_, _, att2, rfl, h1, h2 (by decide)⟩

/-- C4 as stated fails: a zombie fires a shotgun at a human who answers
with a vaccine; the call succeeds and the attacker is still a zombie. -/
theorem vaccine_defence_counterexample :
    ∃ g1 o att2, Challenge zombieVsHuman ⟨0, 1, [3], [3]⟩ = (g1, .ok o) ∧
      cardsAt
        [⟨CardKindNumber, SuitSpade, 5⟩, ⟨CardKindNumber, SuitSpade, 4⟩,
          ⟨CardKindNumber, SuitHeart, 13⟩, Card.ofKind CardKindVaccine] [3] =
        [Card.ofKind CardKindVaccine] ∧
      g1.Players[0]? = some att2 ∧ att2.currentIdentity ≠ IdentityHuman :=
  ⟨_, _, _, rfl, rfl, rfl, by decide⟩

/-- C5: in a successful challenge where the attacker plays a zombie card or
number cards and the defender a single vaccine, the defender is the
recorded winner, `Infection` stays false, `ConvertedToHuman` holds the
attacker's id exactly when the attacker was a zombie and is empty
otherwise, the attacker is human afterwards and the defender's identity is
unchanged. -/
theorem vaccine_converts_attacker (g g1 : Game) (opts : ChallengeOptions)
    (o : ChallengeOutcome) (att dfd : Player) (v : Card)
    (hok : Challenge g opts = (g1, .ok o))
    (hatt : g.Players[opts.AttackerID.toNat]? = some att)
    (hdfd : g.Players[opts.DefenderID.toNat]? = some dfd)
    (hsel : cardsAt dfd.Hand opts.DefenderCards = [v]) (hv : v.Kind = CardKindVaccine)
    (hplay : (∃ c, cardsAt att.Hand opts.AttackerCards = [c] ∧ c.Kind = CardKindZombie) ∨
      (∀ c ∈ cardsAt att.Hand opts.AttackerCards, c.Kind = CardKindNumber)) :
    o.WinnerID = some dfd.ID ∧ o.Infection = false ∧
      o.ConvertedToHuman = (if att.currentIdentity = IdentityZombie then [att.ID] else []) ∧
      ∃ att2 dfd2, g1.Players[opts.AttackerID.toNat]? = some att2 ∧
        g1.Players[opts.DefenderID.toNat]? = some dfd2 ∧
        att2.currentIdentity = IdentityHuman ∧
        dfd2.currentIdentity = dfd.currentIdentity := by
  obtain ⟨att1, dfd1, aset, dset, d3, w, l, -, -, ha1, -, hd1, -, has, hds, hres, hga, hgd, -,
    -, -, -, -, ho⟩ := Challenge_run hok hatt hdfd
  have hvk : dset.kind = CardKindVaccine := (analyzeDefenseSet_vaccine hds).mpr ⟨v, hsel, hv⟩
  have hs : aset.kind ≠ CardKindShotgun := fun e => by
    obtain ⟨c, hc, hck⟩ := (analyzePlayedSet_shotgun has).mp e
    rcases hplay with ⟨c2, h1, h2⟩ | h
    · rw [h1] at hc
      simp only [List.mem_singleton] at hc
      subst hc
      rw [hck] at h2
      exact absurd h2 (by decide)
    · have := h c hc
      rw [hck] at this
      exact absurd this (by decide)
  obtain ⟨d3', r1, r2, r3, notes, r5⟩ := resolve_vaccine
    (duelAtResolve g opts att1 dfd1 (cardsAt att.Hand opts.AttackerCards)
      (cardsAt dfd.Hand opts.DefenderCards)) hs hvk
  rw [r1] at hres
  simp only [Prod.mk.injEq, challengeResult.mk.injEq] at hres
  obtain ⟨e1, e2, e3, -⟩ := hres
  subst e1 e2 e3
  obtain ⟨st, hw, hl, notes2, s1, s2, s3, s4, s5, s6, s7⟩ :=
    settleChallenge_spec d3' (w := Side.defender) (l := Side.attacker) (by decide)
  refine ⟨?_, ?_, ?_, _, _, hga, hgd, ?_, ?_⟩
  · rw [ho, s7]
    simp only [Duel.player]
    rw [r3, duelAtResolve, hd1]
  · rw [ho, s7, r5]
    rfl
  · rw [ho, s7, r5]
    simp only [duelAtResolve, newOutcome, List.nil_append]
    rw [ha1]
    simp [Player.IsZombie]
  · change ((settleChallenge d3' ⟨some Side.defender, some Side.attacker, none⟩).player
      Side.attacker).currentIdentity = IdentityHuman
    rw [s2]
    simp only [Duel.player]
    rw [r2]
    rfl
  · change ((settleChallenge d3' ⟨some Side.defender, some Side.attacker, none⟩).player
      Side.defender).currentIdentity = dfd.currentIdentity
    rw [s1]
    simp only [Duel.player]
    rw [r3, duelAtResolve, hd1]

theorem vaccine_converts_attacker_witness :
    ∃ g1 o att2 dfd2, Challenge zombieVsHuman ⟨0, 1, [0, 1], [3]⟩ = (g1, .ok o) ∧
      o.WinnerID = some 1 ∧ o.Infection = false ∧ o.ConvertedToHuman = [0] ∧
      g1.Players[0]? = some att2 ∧ g1.Players[1]? = some dfd2 ∧
      att2.currentIdentity = IdentityHuman ∧ dfd2.currentIdentity = IdentityHuman := by
  obtain ⟨h1, h2, h3, att2, dfd2, h4, h5, h6, h7⟩ :=
    vaccine_converts_attacker zombieVsHuman _ ⟨0, 1, [0, 1], [3]⟩ _
      (examplePlayer 0 "A" IdentityZombie
        [⟨CardKindNumber, SuitSpade, 9⟩, ⟨CardKindNumber, SuitSpade, 8⟩,
          Card.ofKind CardKindZombie, Card.ofKind CardKindShotgun])
      (examplePlayer 1 "B" IdentityHuman
        [⟨CardKindNumber, SuitSpade, 5⟩, ⟨CardKindNumber, SuitSpade, 4⟩,
          ⟨CardKindNumber, SuitHeart, 13⟩, Card.ofKind CardKindVaccine])
      (Card.ofKind CardKindVaccine) rfl rfl rfl rfl rfl (Or.inr (by decide))
  exact ⟨_, _, att2, dfd2, rfl, h1, h2, h3, h4, h5, h6, h7⟩

/-- C6: in a successful challenge where the attacker plays a single shotgun
at a defender who is a zombie, the attacker is the recorded winner, the
defender's id is in `Eliminated`, and the defender is no longer alive. -/
theorem shotgun_eliminates_zombie (g g1 : Game) (opts : ChallengeOptions)
    (o : ChallengeOutcome) (att dfd : Player) (c : Card)
    (hok : Challenge g opts = (g1, .ok o))
    (hatt : g.Players[opts.AttackerID.toNat]? = some att)
    (hdfd : g.Players[opts.DefenderID.toNat]? = some dfd)
    (hsel : cardsAt att.Hand opts.AttackerCards = [c]) (hc : c.Kind = CardKindShotgun)
    (hz : dfd.currentIdentity = IdentityZombie) :
    o.WinnerID = some att.ID ∧ dfd.ID ∈ o.Eliminated ∧
      ∃ dfd2, g1.Players[opts.DefenderID.toNat]? = some dfd2 ∧ dfd2.Alive = false := by
  obtain ⟨att1, dfd1, aset, dset, d3, w, l, -, hda, ha1, -, hd1, -, has, hds, hres, -, hgd, -,
    -, -, -, -, ho⟩ := Challenge_run hok hatt hdfd
  have hs : aset.kind = CardKindShotgun :=
    (analyzePlayedSet_shotgun has).mpr ⟨c, by simp [hsel], hc⟩
  obtain ⟨d3', r1, r2, r3, notes, r5⟩ := resolve_shotgun_hit
    (duelAtResolve g opts att1 dfd1 (cardsAt att.Hand opts.AttackerCards)
      (cardsAt dfd.Hand opts.DefenderCards)) dset hs
    (by rw [duelAtResolve, hd1]; simp [Player.IsZombie, hz])
    (by rw [duelAtResolve, hd1]; exact hda)
  rw [r1] at hres
  simp only [Prod.mk.injEq, challengeResult.mk.injEq] at hres
  obtain ⟨e1, e2, e3, -⟩ := hres
  subst e1 e2 e3
  obtain ⟨st, hw, hl, notes2, s1, s2, s3, s4, s5, s6, s7⟩ :=
    settleChallenge_spec d3' (w := Side.attacker) (l := Side.defender) (by decide)
  refine ⟨?_, ?_, _, hgd, ?_⟩
  · rw [ho, s7]
    simp only [Duel.player]
    rw [r2, duelAtResolve, ha1]
  · rw [ho, s7, r5]
    simp only [duelAtResolve, newOutcome, List.nil_append, List.mem_append,
      List.mem_singleton]
    left
    rw [hd1]
  · change ((settleChallenge d3' ⟨some Side.attacker, some Side.defender, none⟩).player
      Side.defender).Alive = false
    rw [s2]
    simp only [Duel.player]
    rw [r3]
    rfl

theorem shotgun_eliminates_zombie_witness :
    ∃ g1 o dfd2, Challenge hunterVsZombie ⟨0, 1, [0], [0]⟩ = (g1, .ok o) ∧
      o.WinnerID = some 0 ∧ (1 : Int) ∈ o.Eliminated ∧
      g1.Players[1]? = some dfd2 ∧ dfd2.Alive = false := by
  obtain ⟨h1, h2, dfd2, h3, h4⟩ :=
    shotgun_eliminates_zombie hunterVsZombie _ ⟨0, 1, [0], [0]⟩ _
      (examplePlayer 0 "A" IdentityHuman
        [Card.ofKind CardKindShotgun, Card.ofKind CardKindShotgun])
      (examplePlayer 1 "B" IdentityZombie
        [⟨CardKindNumber, SuitClub, 4⟩, Card.ofKind CardKindZombie])
      (Card.ofKind CardKindShotgun) rfl rfl rfl rfl rfl rfl
  exact ⟨_, _, dfd2, rfl, h1, h2, h3, h4⟩

/-- C7, as amended: in a successful challenge where the attacker plays a
single shotgun at a defender who is not a zombie, the defender is the
recorded winner and stays alive, and the shot eliminates nobody; the
attacker, as the loser, stays alive with `Eliminated` empty when cards are
left in the attacker's hand, and is eliminated for an exhausted hand, as
the only entry of `Eliminated`, when none are left. -/
theorem shotgun_misses_non_zombie (g g1 : Game) (opts : ChallengeOptions)
    (o : ChallengeOutcome) (att dfd : Player) (c : Card)
    (hok : Challenge g opts = (g1, .ok o))
    (hatt : g.Players[opts.AttackerID.toNat]? = some att)
    (hdfd : g.Players[opts.DefenderID.toNat]? = some dfd)
    (hsel : cardsAt att.Hand opts.AttackerCards = [c]) (hc : c.Kind = CardKindShotgun)
    (hz : dfd.currentIdentity ≠ IdentityZombie) :
    o.WinnerID = some dfd.ID ∧ o.LoserID = some att.ID ∧
      ∃ att2 dfd2, g1.Players[opts.AttackerID.toNat]? = some att2 ∧
        g1.Players[opts.DefenderID.toNat]? = some dfd2 ∧ dfd2.Alive = true ∧
        (att2.Hand ≠ [] → att2.Alive = true ∧ o.Eliminated = []) ∧
        (att2.Hand = [] → att2.Alive = false ∧ o.Eliminated = [att.ID]) := by
  obtain ⟨att1, dfd1, aset, dset, d3, w, l, haa, hda, ha1, -, hd1, -, has, hds, hres, hga, hgd,
    -, -, -, -, -, ho⟩ := Challenge_run hok hatt hdfd
  have hs : aset.kind = CardKindShotgun :=
    (analyzePlayedSet_shotgun has).mpr ⟨c, by simp [hsel], hc⟩
  obtain ⟨d3', r1, r2, r3, notes, r5⟩ := resolve_shotgun_miss
    (duelAtResolve g opts att1 dfd1 (cardsAt att.Hand opts.AttackerCards)
      (cardsAt dfd.Hand opts.DefenderCards)) dset hs
    (by rw [duelAtResolve, hd1]; simpa [Player.IsZombie] using hz)
  rw [r1] at hres
  simp only [Prod.mk.injEq, challengeResult.mk.injEq] at hres
  obtain ⟨e1, e2, e3, -⟩ := hres
  subst e1 e2 e3
  obtain ⟨st, hw, hl, notes2, s1, s2, s3, s4, s5, s6, s7⟩ :=
    settleChallenge_spec d3' (w := Side.defender) (l := Side.attacker) (by decide)
  have hal : (d3'.player Side.attacker).Alive = true := by
    simp only [Duel.player]
    rw [r2, duelAtResolve, ha1]
    exact haa
  have hid : (d3'.player Side.attacker).ID = att.ID := by
    simp only [Duel.player]
    rw [r2, duelAtResolve, ha1]
  have h2H : ((settleChallenge d3' ⟨some Side.defender, some Side.attacker, none⟩).player
      Side.attacker).Hand = hl := by rw [s2]
  refine ⟨?_, ?_, _, _, hga, hgd, ?_, ?_, ?_⟩
  · rw [ho, s7]
    simp only [Duel.player]
    rw [r3, duelAtResolve, hd1]
  · rw [ho, s7, hid]
  · change ((settleChallenge d3' ⟨some Side.defender, some Side.attacker, none⟩).player
      Side.defender).Alive = true
    rw [s1]
    simp only [Duel.player]
    rw [r3, duelAtResolve, hd1]
    exact hda
  · intro hne
    change ((settleChallenge d3' ⟨some Side.defender, some Side.attacker, none⟩).player
      Side.attacker).Hand ≠ [] at hne
    rw [h2H] at hne
    have he : hl.isEmpty = false := by simpa [List.isEmpty_iff] using hne
    constructor
    · change ((settleChallenge d3' ⟨some Side.defender, some Side.attacker, none⟩).player
        Side.attacker).Alive = true
      rw [s2]
      simp [hal, he]
    · rw [ho, s7, r5]
      simp [he, duelAtResolve, newOutcome]
  · intro hnil
    change ((settleChallenge d3' ⟨some Side.defender, some Side.attacker, none⟩).player
      Side.attacker).Hand = [] at hnil
    rw [h2H] at hnil
    constructor
    · change ((settleChallenge d3' ⟨some Side.defender, some Side.attacker, none⟩).player
        Side.attacker).Alive = false
      rw [s2]
      simp [hnil]
    · rw [ho, s7, r5]
      simp [hnil, hal, hid, duelAtResolve, newOutcome]

theorem shotgun_misses_non_zombie_witness :
    ∃ g1 o, Challenge zombieVsHuman ⟨0, 1, [3], []⟩ = (g1, .ok o) ∧
      o.WinnerID = some 1 ∧ o.LoserID = some 0 ∧
      ∃ att2 dfd2, g1.Players[0]? = some att2 ∧ g1.Players[1]? = some dfd2 ∧
        dfd2.Alive = true ∧
        (att2.Hand ≠ [] → att2.Alive = true ∧ o.Eliminated = []) ∧
        (att2.Hand = [] → att2.Alive = false ∧ o.Eliminated = [0]) :=
  ⟨_, _, rfl,
    shotgun_misses_non_zombie zombieVsHuman _ ⟨0, 1, [3], []⟩ _
      (examplePlayer 0 "A" IdentityZombie
        [⟨CardKindNumber, SuitSpade, 9⟩, ⟨CardKindNumber, SuitSpade, 8⟩,
          Card.ofKind CardKindZombie, Card.ofKind CardKindShotgun])
      (examplePlayer 1 "B" IdentityHuman
        [⟨CardKindNumber, SuitSpade, 5⟩, ⟨CardKindNumber, SuitSpade, 4⟩,
          ⟨CardKindNumber, SuitHeart, 13⟩, Card.ofKind CardKindVaccine])
      (Card.ofKind CardKindShotgun) rfl rfl rfl rfl rfl (by decide)⟩

/-- C7 as stated fails: a human whose hand is a shotgun and one spade fires
at a human; the defender wins, takes the shotgun and steals the spade, and
the attacker is eliminated for an exhausted hand. -/
theorem shotgun_misses_non_zombie_counterexample :
    ∃ g1 o att2, Challenge lastShotgun ⟨0, 1, [1], []⟩ = (g1, .ok o) ∧
      cardsAt [⟨CardKindNumber, SuitSpade, 9⟩, Card.ofKind CardKindShotgun] [1] =
        [Card.ofKind CardKindShotgun] ∧
      o.WinnerID = some 1 ∧ o.Eliminated = [0] ∧
      g1.Players[0]? = some att2 ∧ att2.Alive = false :=
  ⟨_, _, _, rfl, rfl, by decide, by decide, rfl, by decide⟩

/-- A successfully analysed play of deck number cards: it is numeric, its
total is the sum of the values, and its suit is the suit of every card. -/
theorem number_play {cards : List Card} {attacker : Bool} {s : playedSet}
    (h : analyzePlayedSet cards attacker = .ok s) (hall : ∀ c ∈ cards, c.isDeckNumber) :
    s.kind = CardKindNumber ∧ s.isNumeric = true ∧ s.cards = cards ∧
      s.total = strength cards ∧ (∀ c ∈ cards, c.Suit = s.suit) := by
  obtain ⟨h1, h2⟩ := analyzePlayedSet_ok h
  rcases h2 with ⟨hk, hn, _, hlen, hsuit, hsum⟩ | ⟨c, hc, hck, _⟩
  · refine ⟨hk, hn, h1, ?_, fun c hc => (hsuit c hc).2⟩
    have hlen' : (cards.length : Int) ≤ 5 := by exact_mod_cast hlen
    have := sumNumberCards_total cards 0 s.total hsum
      (fun c hc => (hall c hc).2) (le_refl 0) (by omega)
    simpa using this
  · have := (hall c (by simp [hc])).1
    exact absurd this hck

theorem settleChallenge_tie (d : Duel) : settleChallenge d ⟨none, none, none⟩ = d := rfl

theorem restoreHand_eq (p : Player) (cards : List Card) :
    restoreHand p cards = { p with Hand := (restoreHand p cards).Hand } := rfl

theorem restoreHand_perm (p : Player) (cards : List Card) :
    (restoreHand p cards).Hand.Perm (p.Hand ++ cards) :=
  List.perm_insertionSort _ _

/-- C8: in a successful challenge where both sides play deck number cards
of one suit, the side whose cards have the strictly greater sum of values
is the recorded winner and the other side the recorded loser. -/
theorem higher_total_wins (g g1 : Game) (opts : ChallengeOptions) (o : ChallengeOutcome)
    (att dfd : Player) (suit : Suit)
    (hok : Challenge g opts = (g1, .ok o))
    (hatt : g.Players[opts.AttackerID.toNat]? = some att)
    (hdfd : g.Players[opts.DefenderID.toNat]? = some dfd)
    (hA : ∀ c ∈ cardsAt att.Hand opts.AttackerCards, c.isDeckNumber ∧ c.Suit = suit)
    (hD : ∀ c ∈ cardsAt dfd.Hand opts.DefenderCards, c.isDeckNumber ∧ c.Suit = suit)
    (hDne : cardsAt dfd.Hand opts.DefenderCards ≠ []) :
    (strength (cardsAt att.Hand opts.AttackerCards) >
        strength (cardsAt dfd.Hand opts.DefenderCards) →
      o.WinnerID = some att.ID ∧ o.LoserID = some dfd.ID) ∧
    (strength (cardsAt dfd.Hand opts.DefenderCards) >
        strength (cardsAt att.Hand opts.AttackerCards) →
      o.WinnerID = some dfd.ID ∧ o.LoserID = some att.ID) := by
  obtain ⟨att1, dfd1, aset, dset, d3, w, l, -, -, ha1, -, hd1, -, has, hds, hres, -, -,
    -, -, -, -, -, ho⟩ := Challenge_run hok hatt hdfd
  have hAne : cardsAt att.Hand opts.AttackerCards ≠ [] := by
    obtain ⟨first, rest, h1, -⟩ := analyzePlayedSet_kind has
    rw [h1]; simp
  obtain ⟨ak, -, -, atot, asuit⟩ := number_play has (fun c hc => (hA c hc).1)
  have hds' : analyzePlayedSet (cardsAt dfd.Hand opts.DefenderCards) false = .ok dset := by
    rcases analyzeDefenseSet_ok hds with ⟨h1, -⟩ | ⟨-, h2⟩
    · exact absurd h1 hDne
    · exact h2
  obtain ⟨dk, dn, dc, dtot, dsuit⟩ := number_play hds' (fun c hc => (hD c hc).1)
  have hz : aset.kind ≠ CardKindZombie := by rw [ak]; decide
  have hs : aset.kind ≠ CardKindShotgun := by rw [ak]; decide
  have hv : dset.kind ≠ CardKindVaccine := by rw [dk]; decide
  have hlen : dset.cards.length ≠ 0 := by
    rw [dc]; exact fun e => hDne (List.length_eq_zero.mp e)
  have hsuit : aset.suit = dset.suit := by
    obtain ⟨a, ha⟩ := List.exists_mem_of_ne_nil _ hAne
    obtain ⟨b, hb⟩ := List.exists_mem_of_ne_nil _ hDne
    rw [← asuit a ha, ← dsuit b hb, (hA a ha).2, (hD b hb).2]
  constructor
  · intro hgt
    obtain ⟨d3', r1, r2, r3, notes, r5⟩ := resolve_attacker_stronger
      (duelAtResolve g opts att1 dfd1 (cardsAt att.Hand opts.AttackerCards)
        (cardsAt dfd.Hand opts.DefenderCards)) hz hs hv hlen dn hsuit
      (by rw [atot, dtot]; exact hgt)
    rw [r1] at hres
    simp only [Prod.mk.injEq, challengeResult.mk.injEq] at hres
    obtain ⟨e1, e2, e3, -⟩ := hres
    subst e1 e2 e3
    obtain ⟨st, hw, hl, notes2, s1, s2, s3, s4, s5, s6, s7⟩ :=
      settleChallenge_spec d3' (w := Side.attacker) (l := Side.defender) (by decide)
    constructor
    · rw [ho, s7]
      simp only [Duel.player]
      rw [r2, duelAtResolve, ha1]
    · rw [ho, s7]
      simp only [Duel.player]
      rw [r3, duelAtResolve, hd1]
  · intro hgt
    obtain ⟨d3', r1, r2, r3, notes, r5⟩ := resolve_defender_stronger
      (duelAtResolve g opts att1 dfd1 (cardsAt att.Hand opts.AttackerCards)
        (cardsAt dfd.Hand opts.DefenderCards)) hz hs hv hlen dn hsuit
      (by rw [atot, dtot]; exact hgt)
    rw [r1] at hres
    simp only [Prod.mk.injEq, challengeResult.mk.injEq] at hres
    obtain ⟨e1, e2, e3, -⟩ := hres
    subst e1 e2 e3
    obtain ⟨st, hw, hl, notes2, s1, s2, s3, s4, s5, s6, s7⟩ :=
      settleChallenge_spec d3' (w := Side.defender) (l := Side.attacker) (by decide)
    constructor
    · rw [ho, s7]
      simp only [Duel.player]
      rw [r3, duelAtResolve, hd1]
    · rw [ho, s7]
      simp only [Duel.player]
      rw [r2, duelAtResolve, ha1]

theorem higher_total_wins_witness :
    ∃ g1 o, Challenge spadeDuel ⟨0, 1, [0, 1], [0, 1]⟩ = (g1, .ok o) ∧
      ((17 : Int) > 9 → o.WinnerID = some 0 ∧ o.LoserID = some 1) ∧
      ((9 : Int) > 17 → o.WinnerID = some 1 ∧ o.LoserID = some 0) :=
  ⟨_, _, rfl,
    higher_total_wins spadeDuel _ ⟨0, 1, [0, 1], [0, 1]⟩ _
      (examplePlayer 0 "A" IdentityHuman
        [⟨CardKindNumber, SuitSpade, 9⟩, ⟨CardKindNumber, SuitSpade, 8⟩,
          ⟨CardKindNumber, SuitSpade, 13⟩, ⟨CardKindNumber, SuitHeart, 2⟩])
      (examplePlayer 1 "B" IdentityHuman
        [⟨CardKindNumber, SuitSpade, 5⟩, ⟨CardKindNumber, SuitSpade, 4⟩,
          ⟨CardKindNumber, SuitSpade, 12⟩, ⟨CardKindNumber, SuitClub, 7⟩])
      SuitSpade rfl rfl rfl (by decide) (by decide) (by decide)⟩

/-- C9: in a successful challenge where both sides play deck number cards
of one suit with equal sums, no winner, loser or stolen card is recorded,
nobody is eliminated, and every player keeps the same cards, identity and
alive flag (the two hands are permutations of what they were). -/
theorem tie_returns_cards (g g1 : Game) (opts : ChallengeOptions) (o : ChallengeOutcome)
    (att dfd : Player) (suit : Suit)
    (hok : Challenge g opts = (g1, .ok o))
    (hatt : g.Players[opts.AttackerID.toNat]? = some att)
    (hdfd : g.Players[opts.DefenderID.toNat]? = some dfd)
    (hA : ∀ c ∈ cardsAt att.Hand opts.AttackerCards, c.isDeckNumber ∧ c.Suit = suit)
    (hD : ∀ c ∈ cardsAt dfd.Hand opts.DefenderCards, c.isDeckNumber ∧ c.Suit = suit)
    (hDne : cardsAt dfd.Hand opts.DefenderCards ≠ [])
    (heq : strength (cardsAt att.Hand opts.AttackerCards) =
      strength (cardsAt dfd.Hand opts.DefenderCards)) :
    o.WinnerID = none ∧ o.LoserID = none ∧ o.StolenCard = none ∧ o.Eliminated = [] ∧
      ∀ (k : Nat) (p : Player), g.Players[k]? = some p →
        ∃ p2, g1.Players[k]? = some p2 ∧ p2.Hand.Perm p.Hand ∧
          p2.currentIdentity = p.currentIdentity ∧ p2.Alive = p.Alive := by
  obtain ⟨att1, dfd1, aset, dset, d3, w, l, -, -, ha1, hpa, hd1, hpd, has, hds, hres, hga, hgd,
    hframe, -, -, -, -, ho⟩ := Challenge_run hok hatt hdfd
  have hAne : cardsAt att.Hand opts.AttackerCards ≠ [] := by
    obtain ⟨first, rest, h1, -⟩ := analyzePlayedSet_kind has
    rw [h1]; simp
  obtain ⟨ak, -, -, atot, asuit⟩ := number_play has (fun c hc => (hA c hc).1)
  have hds' : analyzePlayedSet (cardsAt dfd.Hand opts.DefenderCards) false = .ok dset := by
    rcases analyzeDefenseSet_ok hds with ⟨h1, -⟩ | ⟨-, h2⟩
    · exact absurd h1 hDne
    · exact h2
  obtain ⟨dk, dn, dc, dtot, dsuit⟩ := number_play hds' (fun c hc => (hD c hc).1)
  have hz : aset.kind ≠ CardKindZombie := by rw [ak]; decide
  have hs : aset.kind ≠ CardKindShotgun := by rw [ak]; decide
  have hv : dset.kind ≠ CardKindVaccine := by rw [dk]; decide
  have hlen : dset.cards.length ≠ 0 := by
    rw [dc]; exact fun e => hDne (List.length_eq_zero.mp e)
  have hsuit : aset.suit = dset.suit := by
    obtain ⟨a, ha⟩ := List.exists_mem_of_ne_nil _ hAne
    obtain ⟨b, hb⟩ := List.exists_mem_of_ne_nil _ hDne
    rw [← asuit a ha, ← dsuit b hb, (hA a ha).2, (hD b hb).2]
  obtain ⟨d3', r1, r2, r3, notes, r5⟩ := resolve_tie
    (duelAtResolve g opts att1 dfd1 (cardsAt att.Hand opts.AttackerCards)
      (cardsAt dfd.Hand opts.DefenderCards)) hz hs hv hlen dn hsuit
    (by rw [atot, dtot]; exact heq)
  rw [r1] at hres
  simp only [Prod.mk.injEq, challengeResult.mk.injEq] at hres
  obtain ⟨e1, e2, e3, -⟩ := hres
  subst e1 e2 e3
  rw [settleChallenge_tie] at hga hgd ho
  refine ⟨by rw [ho, r5]; rfl, by rw [ho, r5]; rfl, by rw [ho, r5]; rfl,
    by rw [ho, r5]; rfl, ?_⟩
  intro k p hp
  by_cases hka : k = opts.AttackerID.toNat
  · subst hka
    rw [hatt] at hp
    have e := Option.some.inj hp
    subst e
    refine ⟨_, hga, ?_, ?_, ?_⟩
    · rw [r2]
      exact (restoreHand_perm _ _).trans ((List.perm_append_comm).trans hpa.symm)
    · rw [r2, restoreHand_eq, duelAtResolve, ha1]
    · rw [r2, restoreHand_eq, duelAtResolve, ha1]
  · by_cases hkd : k = opts.DefenderID.toNat
    · subst hkd
      rw [hdfd] at hp
      have e := Option.some.inj hp
      subst e
      refine ⟨_, hgd, ?_, ?_, ?_⟩
      · rw [r3]
        exact (restoreHand_perm _ _).trans ((List.perm_append_comm).trans hpd.symm)
      · rw [r3, restoreHand_eq, duelAtResolve, hd1]
      · rw [r3, restoreHand_eq, duelAtResolve, hd1]
    · exact ⟨p, by rw [hframe k hka hkd, hp], List.Perm.refl _, rfl, rfl⟩

theorem tie_returns_cards_witness :
    ∃ g1 o, Challenge spadeDuel ⟨0, 1, [0, 1], [2, 0]⟩ = (g1, .ok o) ∧
      o.WinnerID = none ∧ o.LoserID = none ∧ o.StolenCard = none ∧ o.Eliminated = [] ∧
      ∀ (k : Nat) (p : Player), spadeDuel.Players[k]? = some p →
        ∃ p2, g1.Players[k]? = some p2 ∧ p2.Hand.Perm p.Hand ∧
          p2.currentIdentity = p.currentIdentity ∧ p2.Alive = p.Alive :=
  ⟨_, _, rfl,
    tie_returns_cards spadeDuel _ ⟨0, 1, [0, 1], [2, 0]⟩ _
      (examplePlayer 0 "A" IdentityHuman
        [⟨CardKindNumber, SuitSpade, 9⟩, ⟨CardKindNumber, SuitSpade, 8⟩,
          ⟨CardKindNumber, SuitSpade, 13⟩, ⟨CardKindNumber, SuitHeart, 2⟩])
      (examplePlayer 1 "B" IdentityHuman
        [⟨CardKindNumber, SuitSpade, 5⟩, ⟨CardKindNumber, SuitSpade, 4⟩,
          ⟨CardKindNumber, SuitSpade, 12⟩, ⟨CardKindNumber, SuitClub, 7⟩])
      SuitSpade rfl rfl rfl (by decide) (by decide) (by decide) (by decide)⟩

/-! ## Every resolution without error, at once -/

theorem resolve_error_shape (d : Duel) {aset dset : playedSet}
    (hz : aset.kind ≠ CardKindZombie) (hs : aset.kind ≠ CardKindShotgun)
    (hv : dset.kind ≠ CardKindVaccine) (hc : dset.cards.length ≠ 0)
    (hn : dset.isNumeric = false) :
    resolveChallenge d aset dset = (d, ⟨none, none, some "防守方的出牌無效"⟩) := by
  unfold resolveChallenge
  rw [if_neg hz, if_neg hs, if_neg hv, if_neg hc, if_pos (by simp [hn])]

theorem resolve_error_suit (d : Duel) {aset dset : playedSet}
    (hz : aset.kind ≠ CardKindZombie) (hs : aset.kind ≠ CardKindShotgun)
    (hv : dset.kind ≠ CardKindVaccine) (hc : dset.cards.length ≠ 0)
    (hn : dset.isNumeric = true) (hsuit : aset.suit ≠ dset.suit) :
    resolveChallenge d aset dset = (d, ⟨none, none, some "防守方必須出相同花色"⟩) := by
  unfold resolveChallenge
  rw [if_neg hz, if_neg hs, if_neg hv, if_neg hc, if_neg (by simp [hn]), if_pos hsuit]

/-- Shape of every resolution without error, started from a duel with
`Infection` unset and a living defender: either a tie that restores both
hands, or a winner and a loser on opposite sides, where only the loser's
hand can change, and only by a minted zombie card. -/
theorem resolveChallenge_shape {d d3 : Duel} {aset dset : playedSet} {w l : Option Side}
    (h : resolveChallenge d aset dset = (d3, ⟨w, l, none⟩))
    (hinf : d.outcome.Infection = false) (hal : d.defender.Alive = true) :
    (w = none ∧ l = none ∧
      d3.attacker = restoreHand d.attacker d.outcome.AttackerCards ∧
      d3.defender = restoreHand d.defender d.outcome.DefenderCards ∧
      d3.outcome.WinnerID = d.outcome.WinnerID ∧ d3.outcome.LoserID = d.outcome.LoserID ∧
      d3.outcome.StolenCard = d.outcome.StolenCard ∧
      d3.outcome.Eliminated = d.outcome.Eliminated) ∨
    (∃ ws ls, w = some ws ∧ l = some ls ∧ ws ≠ ls ∧
      d3.outcome.WinnerID = some (d.player ws).ID ∧
      d3.outcome.LoserID = some (d.player ls).ID ∧
      (d3.player ws).Hand = (d.player ws).Hand ∧
      (d3.player ws).ID = (d.player ws).ID ∧ (d3.player ls).ID = (d.player ls).ID ∧
      (d3.player ws).Alive = (d.player ws).Alive ∧
      (d3.player ls).Hand.Perm ((d.player ls).Hand ++
        (if d3.outcome.Infection = true ∧ countKind CardKindZombie (d.player ls).Hand = 0
          then [Card.ofKind CardKindZombie] else [])) ∧
      d3.outcome.AttackerCards = d.outcome.AttackerCards ∧
      d3.outcome.DefenderCards = d.outcome.DefenderCards ∧
      d3.outcome.StolenCard = d.outcome.StolenCard ∧
      (d3.outcome.Infection = true → ws = Side.attacker)) := by
  by_cases hz : aset.kind = CardKindZombie
  · by_cases hv : dset.kind = CardKindVaccine
    · obtain ⟨d3', r1, r2, r3, notes, r5⟩ :=
        resolve_vaccine d (show aset.kind ≠ CardKindShotgun by rw [hz]; decide) hv
      rw [r1] at h
      simp only [Prod.mk.injEq, challengeResult.mk.injEq] at h
      obtain ⟨e1, e2, e3, -⟩ := h
      subst e1 e2 e3
      refine Or.inr ⟨Side.defender, Side.attacker, rfl, rfl, by decide, ?_⟩
      simp only [Duel.player, r2, r3, r5, hinf]
      simp [Player.SetIdentity]
    · obtain ⟨d3', r1, r2, r3, r4, notes, r5⟩ := resolve_infection d hz hv
      rw [r1] at h
      simp only [Prod.mk.injEq, challengeResult.mk.injEq] at h
      obtain ⟨e1, e2, e3, -⟩ := h
      subst e1 e2 e3
      refine Or.inr ⟨Side.attacker, Side.defender, rfl, rfl, by decide, ?_⟩
      simp only [Duel.player, r2, r5]
      refine ⟨trivial, trivial, trivial, trivial, by rw [r3], trivial, ?_, trivial, trivial,
        trivial, fun _ => trivial⟩
      simpa using r4
  · by_cases hs : aset.kind = CardKindShotgun
    · cases hzz : d.defender.IsZombie with
      | false =>
        obtain ⟨d3', r1, r2, r3, notes, r5⟩ := resolve_shotgun_miss d dset hs hzz
        rw [r1] at h
        simp only [Prod.mk.injEq, challengeResult.mk.injEq] at h
        obtain ⟨e1, e2, e3, -⟩ := h
        subst e1 e2 e3
        refine Or.inr ⟨Side.defender, Side.attacker, rfl, rfl, by decide, ?_⟩
        simp only [Duel.player, r2, r3, r5, hinf]
        simp
      | true =>
        obtain ⟨d3', r1, r2, r3, notes, r5⟩ :=
          resolve_shotgun_hit d dset hs hzz hal
        rw [r1] at h
        simp only [Prod.mk.injEq, challengeResult.mk.injEq] at h
        obtain ⟨e1, e2, e3, -⟩ := h
        subst e1 e2 e3
        refine Or.inr ⟨Side.attacker, Side.defender, rfl, rfl, by decide, ?_⟩
        simp only [Duel.player, r2, r3, r5, hinf]
        simp
    · by_cases hv : dset.kind = CardKindVaccine
      · obtain ⟨d3', r1, r2, r3, notes, r5⟩ := resolve_vaccine d hs hv
        rw [r1] at h
        simp only [Prod.mk.injEq, challengeResult.mk.injEq] at h
        obtain ⟨e1, e2, e3, -⟩ := h
        subst e1 e2 e3
        refine Or.inr ⟨Side.defender, Side.attacker, rfl, rfl, by decide, ?_⟩
        simp only [Duel.player, r2, r3, r5, hinf]
        simp [Player.SetIdentity]
      · by_cases hc : dset.cards.length = 0
        · obtain ⟨d3', r1, r2, r3, notes, r5⟩ := resolve_forced d hz hs hv hc
          rw [r1] at h
          simp only [Prod.mk.injEq, challengeResult.mk.injEq] at h
          obtain ⟨e1, e2, e3, -⟩ := h
          subst e1 e2 e3
          refine Or.inr ⟨Side.attacker, Side.defender, rfl, rfl, by decide, ?_⟩
          simp only [Duel.player, r2, r3, r5, hinf]
          simp
        · cases hn : dset.isNumeric with
          | false =>
            rw [resolve_error_shape d hz hs hv hc hn] at h
            simp at h
          | true =>
            by_cases hsuit : aset.suit = dset.suit
            · rcases lt_trichotomy aset.total dset.total with hlt | heq | hgt
              · obtain ⟨d3', r1, r2, r3, notes, r5⟩ :=
                  resolve_defender_stronger d hz hs hv hc hn hsuit hlt
                rw [r1] at h
                simp only [Prod.mk.injEq, challengeResult.mk.injEq] at h
                obtain ⟨e1, e2, e3, -⟩ := h
                subst e1 e2 e3
                refine Or.inr ⟨Side.defender, Side.attacker, rfl, rfl, by decide, ?_⟩
                simp only [Duel.player, r2, r3, r5, hinf]
                simp
              · obtain ⟨d3', r1, r2, r3, notes, r5⟩ :=
                  resolve_tie d hz hs hv hc hn hsuit heq
                rw [r1] at h
                simp only [Prod.mk.injEq, challengeResult.mk.injEq] at h
                obtain ⟨e1, e2, e3, -⟩ := h
                subst e1 e2 e3
                exact Or.inl ⟨rfl, rfl, r2, r3, by rw [r5], by rw [r5], by rw [r5],
                  by rw [r5]⟩
              · obtain ⟨d3', r1, r2, r3, notes, r5⟩ :=
                  resolve_attacker_stronger d hz hs hv hc hn hsuit hgt
                rw [r1] at h
                simp only [Prod.mk.injEq, challengeResult.mk.injEq] at h
                obtain ⟨e1, e2, e3, -⟩ := h
                subst e1 e2 e3
                refine Or.inr ⟨Side.attacker, Side.defender, rfl, rfl, by decide, ?_⟩
                simp only [Duel.player, r2, r3, r5, hinf]
                simp
            · rw [resolve_error_suit d hz hs hv hc hn hsuit] at h
              simp at h

theorem countKind_number_mint (b : Prop) [Decidable b] :
    countKind CardKindNumber (if b then [Card.ofKind CardKindZombie] else []) = 0 := by
  split <;> simp [countKind, Card.ofKind]

/-- Settlement of a decisive resolution, in terms of the hands at the start
of the resolution. -/
theorem settle_transfer {d d3 : Duel} {ws ls : Side} (hne : ws ≠ ls)
    (hst : d.outcome.StolenCard = none)
    (hwH : (d3.player ws).Hand = (d.player ws).Hand)
    (hlH : (d3.player ls).Hand.Perm ((d.player ls).Hand ++
      (if d3.outcome.Infection = true ∧ countKind CardKindZombie (d.player ls).Hand = 0
        then [Card.ofKind CardKindZombie] else [])))
    (hA : d3.outcome.AttackerCards = d.outcome.AttackerCards)
    (hD : d3.outcome.DefenderCards = d.outcome.DefenderCards)
    (hS : d3.outcome.StolenCard = d.outcome.StolenCard) :
    (settleChallenge d3 ⟨some ws, some ls, none⟩).outcome.Infection = d3.outcome.Infection ∧
    (settleChallenge d3 ⟨some ws, some ls, none⟩).outcome.WinnerID =
      some (d3.player ws).ID ∧
    (settleChallenge d3 ⟨some ws, some ls, none⟩).outcome.LoserID =
      some (d3.player ls).ID ∧
    ((settleChallenge d3 ⟨some ws, some ls, none⟩).player ws).Hand.Perm
      ((d.player ws).Hand ++ d.outcome.AttackerCards ++ d.outcome.DefenderCards ++
        (settleChallenge d3 ⟨some ws, some ls, none⟩).outcome.StolenCard.toList) ∧
    ((d.player ls).Hand ++
      (if (settleChallenge d3 ⟨some ws, some ls, none⟩).outcome.Infection = true ∧
          countKind CardKindZombie (d.player ls).Hand = 0
        then [Card.ofKind CardKindZombie] else [])).Perm
      ((settleChallenge d3 ⟨some ws, some ls, none⟩).outcome.StolenCard.toList ++
        ((settleChallenge d3 ⟨some ws, some ls, none⟩).player ls).Hand) ∧
    ((settleChallenge d3 ⟨some ws, some ls, none⟩).outcome.StolenCard = none ↔
      countKind CardKindNumber (d.player ls).Hand = 0) ∧
    (∀ c, (settleChallenge d3 ⟨some ws, some ls, none⟩).outcome.StolenCard = some c →
      c.Kind = CardKindNumber ∧ c ∈ (d.player ls).Hand) := by
  obtain ⟨st, hw, hl, notes2, s1, s2, s3, s4, s5, s6, s7⟩ :=
    settleChallenge_spec d3 (w := ws) (l := ls) hne
  have hsto : (settleChallenge d3 ⟨some ws, some ls, none⟩).outcome.StolenCard = st := by
    rw [s7]
    simp only
    rw [hS, hst]
    cases st <;> rfl
  have hinf : (settleChallenge d3 ⟨some ws, some ls, none⟩).outcome.Infection =
      d3.outcome.Infection := by rw [s7]
  have hcnt : countKind CardKindNumber (d3.player ls).Hand =
      countKind CardKindNumber (d.player ls).Hand := by
    rw [countKind_perm hlH, countKind_append, countKind_number_mint]
    rfl
  refine ⟨hinf, by rw [s7], by rw [s7], ?_, ?_, ?_, ?_⟩
  · rw [hsto, s1]
    change hw.Perm _
    rw [← hwH, ← hA, ← hD]
    exact s3
  · rw [hsto, hinf, s2]
    show List.Perm _ (st.toList ++ hl)
    exact hlH.symm.trans s4
  · rw [hsto, s5, hcnt]
  · intro c hc
    rw [hsto] at hc
    have hk := s6 c hc
    refine ⟨hk, ?_⟩
    have hmem : c ∈ (d3.player ls).Hand := by
      rw [s4.mem_iff, hc]
      simp
    rw [hlH.mem_iff, List.mem_append] at hmem
    rcases hmem with hmem | hmem
    · exact hmem
    · split at hmem
      · simp only [List.mem_singleton] at hmem
        rw [hmem] at hk
        exact absurd hk (by decide)
      · simp at hmem

/-- Hands after a successful challenge: a tie leaves both hands as they were
up to order; otherwise one side is recorded as winner, the other as loser,
and the cards move as `Transfer` says. -/
theorem Challenge_transfer {g g1 : Game} {opts : ChallengeOptions} {o : ChallengeOutcome}
    {att dfd : Player} (hok : Challenge g opts = (g1, .ok o))
    (hatt : g.Players[opts.AttackerID.toNat]? = some att)
    (hdfd : g.Players[opts.DefenderID.toNat]? = some dfd) :
    ∃ att2 dfd2, g1.Players[opts.AttackerID.toNat]? = some att2 ∧
      g1.Players[opts.DefenderID.toNat]? = some dfd2 ∧
      ((o.WinnerID = none ∧ o.LoserID = none ∧ o.StolenCard = none ∧
          att2.Hand.Perm att.Hand ∧ dfd2.Hand.Perm dfd.Hand) ∨
        (o.WinnerID = some att.ID ∧ o.LoserID = some dfd.ID ∧
          Transfer att att2 dfd dfd2 (cardsAt dfd.Hand opts.DefenderCards)
            o.Infection o.StolenCard) ∨
        (o.WinnerID = some dfd.ID ∧ o.LoserID = some att.ID ∧ o.Infection = false ∧
          Transfer dfd dfd2 att att2 (cardsAt att.Hand opts.AttackerCards)
            o.Infection o.StolenCard)) := by
  obtain ⟨att1, dfd1, aset, dset, d3, w, l, -, hda, ha1, hpa, hd1, hpd, has, hds, hres, hga, hgd,
    -, -, -, -, -, ho⟩ := Challenge_run hok hatt hdfd
  refine ⟨_, _, hga, hgd, ?_⟩
  have hal : (duelAtResolve g opts att1 dfd1 (cardsAt att.Hand opts.AttackerCards)
      (cardsAt dfd.Hand opts.DefenderCards)).defender.Alive = true := by
    rw [duelAtResolve, hd1]; exact hda
  rcases resolveChallenge_shape hres rfl hal with
    ⟨e1, e2, t1, t2, t3, t4, t5, -⟩ |
    ⟨ws, ls, e1, e2, hne, q1, q2, q3, q4, q5, q6, q7, q8, q9, q10, q11⟩
  · subst e1 e2
    rw [settleChallenge_tie] at ho ⊢
    refine Or.inl ⟨by rw [ho, t3]; rfl, by rw [ho, t4]; rfl, by rw [ho, t5]; rfl, ?_, ?_⟩
    · rw [t1]
      exact (restoreHand_perm _ _).trans ((List.perm_append_comm).trans hpa.symm)
    · rw [t2]
      exact (restoreHand_perm _ _).trans ((List.perm_append_comm).trans hpd.symm)
  · subst e1 e2
    obtain ⟨u1, u2, u3, u4, u5, u6, u7⟩ := settle_transfer hne rfl q3 q7 q8 q9 q10
    rw [← ho] at u1 u2 u3 u4 u5 u6 u7
    cases ws with
    | attacker =>
      cases ls with
      | attacker => exact absurd rfl hne
      | defender =>
        refine Or.inr (Or.inl ⟨?_, ?_, ?_, dfd1.Hand, hpd, ?_, u6, u7⟩)
        · rw [u2, q4]
          simp only [Duel.player]
          rw [duelAtResolve, ha1]
        · rw [u3, q5]
          simp only [Duel.player]
          rw [duelAtResolve, hd1]
        · have h1 : (settleChallenge d3 ⟨some Side.attacker, some Side.defender,
              none⟩).attacker.Hand.Perm
              (att1.Hand ++ cardsAt att.Hand opts.AttackerCards ++
                cardsAt dfd.Hand opts.DefenderCards ++ o.StolenCard.toList) := u4
          refine h1.trans ?_
          refine List.Perm.append_right _ (List.Perm.append_right _ ?_)
          exact (List.perm_append_comm).trans hpa.symm
        · exact u5
    | defender =>
      cases ls with
      | defender => exact absurd rfl hne
      | attacker =>
        have hinf : o.Infection = false := by
          rw [u1]
          cases hc : d3.outcome.Infection with
          | false => rfl
          | true => exact absurd (q11 hc) (by decide)
        refine Or.inr (Or.inr ⟨?_, ?_, hinf, ?_, att1.Hand, hpa, ?_, u6, u7⟩)
        · rw [u2, q4]
          simp only [Duel.player]
          rw [duelAtResolve, hd1]
        · rw [u3, q5]
          simp only [Duel.player]
          rw [duelAtResolve, ha1]
        · have h1 : (settleChallenge d3 ⟨some Side.defender, some Side.attacker,
              none⟩).defender.Hand.Perm
              (dfd1.Hand ++ cardsAt att.Hand opts.AttackerCards ++
                cardsAt dfd.Hand opts.DefenderCards ++ o.StolenCard.toList) := u4
          refine h1.trans ?_
          refine List.Perm.append_right _ ?_
          have h2 : dfd.Hand.Perm (dfd1.Hand ++ cardsAt dfd.Hand opts.DefenderCards) :=
            hpd.trans List.perm_append_comm
          have h3 : (dfd1.Hand ++ cardsAt att.Hand opts.AttackerCards ++
              cardsAt dfd.Hand opts.DefenderCards).Perm
              (dfd1.Hand ++ cardsAt dfd.Hand opts.DefenderCards ++
                cardsAt att.Hand opts.AttackerCards) := by
            rw [List.append_assoc, List.append_assoc]
            exact List.Perm.append_left _ List.perm_append_comm
          exact h3.trans (List.Perm.append_right _ h2.symm)
        · exact u5

/-- C10: in a successful challenge with a recorded winner, one side is the
winner and the other the loser, and the cards move as `Transfer` says: the
winner's hand is, as a multiset, the winner's hand before the call plus the
cards the loser committed plus the stolen card; the loser's hand is the
prior hand minus the committed cards minus the stolen card, plus a minted
zombie card only in an infection; and a card is stolen exactly when the
loser's hand without the committed cards holds a number card, in which case
the stolen card is one of those number cards. -/
theorem winner_takes_cards (g g1 : Game) (opts : ChallengeOptions) (o : ChallengeOutcome)
    (att dfd : Player)
    (hok : Challenge g opts = (g1, .ok o))
    (hatt : g.Players[opts.AttackerID.toNat]? = some att)
    (hdfd : g.Players[opts.DefenderID.toNat]? = some dfd)
    (hdec : o.WinnerID ≠ none) :
    ∃ att2 dfd2, g1.Players[opts.AttackerID.toNat]? = some att2 ∧
      g1.Players[opts.DefenderID.toNat]? = some dfd2 ∧
      ((o.WinnerID = some att.ID ∧ o.LoserID = some dfd.ID ∧
          Transfer att att2 dfd dfd2 (cardsAt dfd.Hand opts.DefenderCards)
            o.Infection o.StolenCard) ∨
        (o.WinnerID = some dfd.ID ∧ o.LoserID = some att.ID ∧ o.Infection = false ∧
          Transfer dfd dfd2 att att2 (cardsAt att.Hand opts.AttackerCards)
            o.Infection o.StolenCard)) := by
  obtain ⟨att2, dfd2, h1, h2, h3⟩ := Challenge_transfer hok hatt hdfd
  refine ⟨att2, dfd2, h1, h2, ?_⟩
  rcases h3 with ⟨hw, -⟩ | h | h
  · exact absurd hw hdec
  · exact Or.inl h
  · exact Or.inr h

theorem winner_takes_cards_witness :
    ∃ g1 o, Challenge spadeDuel ⟨0, 1, [0, 1], [0, 1]⟩ = (g1, .ok o) ∧
      ∃ att2 dfd2, g1.Players[0]? = some att2 ∧ g1.Players[1]? = some dfd2 ∧
      ((o.WinnerID = some 0 ∧ o.LoserID = some 1 ∧
          Transfer
            (examplePlayer 0 "A" IdentityHuman
              [⟨CardKindNumber, SuitSpade, 9⟩, ⟨CardKindNumber, SuitSpade, 8⟩,
                ⟨CardKindNumber, SuitSpade, 13⟩, ⟨CardKindNumber, SuitHeart, 2⟩])
            att2
            (examplePlayer 1 "B" IdentityHuman
              [⟨CardKindNumber, SuitSpade, 5⟩, ⟨CardKindNumber, SuitSpade, 4⟩,
                ⟨CardKindNumber, SuitSpade, 12⟩, ⟨CardKindNumber, SuitClub, 7⟩])
            dfd2 [⟨CardKindNumber, SuitSpade, 5⟩, ⟨CardKindNumber, SuitSpade, 4⟩]
            o.Infection o.StolenCard) ∨
        (o.WinnerID = some 1 ∧ o.LoserID = some 0 ∧ o.Infection = false ∧
          Transfer
            (examplePlayer 1 "B" IdentityHuman
              [⟨CardKindNumber, SuitSpade, 5⟩, ⟨CardKindNumber, SuitSpade, 4⟩,
                ⟨CardKindNumber, SuitSpade, 12⟩, ⟨CardKindNumber, SuitClub, 7⟩])
            dfd2
            (examplePlayer 0 "A" IdentityHuman
              [⟨CardKindNumber, SuitSpade, 9⟩, ⟨CardKindNumber, SuitSpade, 8⟩,
                ⟨CardKindNumber, SuitSpade, 13⟩, ⟨CardKindNumber, SuitHeart, 2⟩])
            att2 [⟨CardKindNumber, SuitSpade, 9⟩, ⟨CardKindNumber, SuitSpade, 8⟩]
            o.Infection o.StolenCard)) :=
  ⟨_, _, rfl,
    winner_takes_cards spadeDuel _ ⟨0, 1, [0, 1], [0, 1]⟩ _
      (examplePlayer 0 "A" IdentityHuman
        [⟨CardKindNumber, SuitSpade, 9⟩, ⟨CardKindNumber, SuitSpade, 8⟩,
          ⟨CardKindNumber, SuitSpade, 13⟩, ⟨CardKindNumber, SuitHeart, 2⟩])
      (examplePlayer 1 "B" IdentityHuman
        [⟨CardKindNumber, SuitSpade, 5⟩, ⟨CardKindNumber, SuitSpade, 4⟩,
          ⟨CardKindNumber, SuitSpade, 12⟩, ⟨CardKindNumber, SuitClub, 7⟩])
      rfl rfl rfl (by decide)⟩

/-! ## Setting up a game -/

theorem dealRound_ok (i : Nat) :
    ∀ (todo done : List Player) (g : Game), todo.length ≤ g.cardDeck.length →
      dealRound i done todo g =
        .ok { g with
          Players := done ++ List.zipWith Player.AddCard todo (g.cardDeck.take todo.length),
          cardDeck := g.cardDeck.drop todo.length }
  | [], done, g, _ => by simp [dealRound]
  | p :: todo, done, g, h => by
    obtain ⟨ps, deck, disc, rd, mx, rng, logs⟩ := g
    cases deck with
    | nil => simp at h
    | cons c rest =>
      rw [dealRound]
      simp only [Game.drawCard]
      rw [dealRound_ok i todo _ _ (by simpa using h)]
      simp

theorem zipWith_AddCard_strip :
    ∀ (ps : List Player) (cs : List Card), ps.length ≤ cs.length →
      (List.zipWith Player.AddCard ps cs).map Player.strip = ps.map Player.strip
  | [], _, _ => by simp
  | p :: ps, [], h => by simp at h
  | p :: ps, c :: cs, h => by
    simp only [List.zipWith_cons_cons, List.map_cons]
    rw [zipWith_AddCard_strip ps cs (by simpa using h)]
    rfl

theorem zipWith_AddCard_hands {n : Nat} :
    ∀ (ps : List Player) (cs : List Card),
      (∀ p ∈ ps, p.Hand.length = n ∧ ∀ c ∈ p.Hand, c.Kind = CardKindNumber) →
      (∀ c ∈ cs, c.Kind = CardKindNumber) →
      ∀ q ∈ List.zipWith Player.AddCard ps cs,
        q.Hand.length = n + 1 ∧ ∀ c ∈ q.Hand, c.Kind = CardKindNumber
  | [], _, _, _ => by simp
  | p :: ps, [], _, _ => by simp
  | p :: ps, c :: cs, hp, hc => by
    intro q hq
    simp only [List.zipWith_cons_cons, List.mem_cons] at hq
    rcases hq with e | hq
    · subst e
      have := hp p (List.mem_cons_self _ _)
      constructor
      · simp [Player.AddCard, this.1]
      · intro x hx
        simp only [Player.AddCard, List.mem_append, List.mem_singleton] at hx
        rcases hx with hx | hx
        · exact this.2 x hx
        · rw [hx]; exact hc c (List.mem_cons_self _ _)
    · exact zipWith_AddCard_hands ps cs (fun p hp' => hp p (List.mem_cons_of_mem _ hp'))
        (fun c hc' => hc c (List.mem_cons_of_mem _ hc')) q hq

/-- The deal of `n` rounds succeeds on a large enough pile of number cards:
it takes `n` cards per player off the pile, gives every player `n` number
cards more, and changes nothing else. -/
theorem dealLoop_ok :
    ∀ (n i m : Nat) (g : Game), n * g.Players.length ≤ g.cardDeck.length →
      (∀ c ∈ g.cardDeck, c.Kind = CardKindNumber) →
      (∀ p ∈ g.Players, p.Hand.length = m ∧ ∀ c ∈ p.Hand, c.Kind = CardKindNumber) →
      ∃ g1, dealLoop n i g = .ok g1 ∧
        g1.Players.map Player.strip = g.Players.map Player.strip ∧
        (∀ q ∈ g1.Players, q.Hand.length = m + n ∧ ∀ c ∈ q.Hand, c.Kind = CardKindNumber) ∧
        g1.cardDeck = g.cardDeck.drop (n * g.Players.length) ∧
        g1.cardDiscarded = g.cardDiscarded ∧ g1.rng = g.rng ∧ g1.Round = g.Round ∧
        g1.MaxRounds = g.MaxRounds ∧ g1.logs = g.logs
  | 0, i, m, g, _, _, hp => ⟨g, rfl, rfl, by simpa using hp, by simp, rfl, rfl, rfl, rfl, rfl⟩
  | n + 1, i, m, g, hlen, hdeck, hp => by
    have hlen1 : g.Players.length ≤ g.cardDeck.length := by
      have : g.Players.length ≤ (n + 1) * g.Players.length := Nat.le_mul_of_pos_left _ (by omega)
      omega
    rw [dealLoop, dealRound_ok i g.Players [] g hlen1]
    simp only [List.nil_append]
    have hlenz : (List.zipWith Player.AddCard g.Players
        (g.cardDeck.take g.Players.length)).length = g.Players.length := by
      simp [hlen1]
    obtain ⟨g1, h1, h2, h3, h4, h5, h6, h7, h8, h9⟩ := dealLoop_ok n (i + 1) (m + 1)
      { g with
        Players := List.zipWith Player.AddCard g.Players (g.cardDeck.take g.Players.length),
        cardDeck := g.cardDeck.drop g.Players.length }
      (by
        simp only [hlenz, List.length_drop]
        have : (n + 1) * g.Players.length = n * g.Players.length + g.Players.length := by ring
        omega)
      (fun c hc => hdeck c (List.mem_of_mem_drop hc))
      (zipWith_AddCard_hands _ _ hp (fun c hc => hdeck c (List.mem_of_mem_take hc)))
    refine ⟨g1, h1, ?_, ?_, ?_, h5, h6, h7, h8, h9⟩
    · rw [h2]
      exact zipWith_AddCard_strip _ _ (by simp [hlen1])
    · intro q hq
      have := h3 q hq
      exact ⟨by omega, this.2⟩
    · rw [h4]
      simp only [hlenz, List.drop_drop]
      congr 1
      ring

theorem giveShotguns_eq {q : Player} (h : ∀ c ∈ q.Hand, c.Kind = CardKindNumber) :
    giveShotguns q = q.AddCard (Card.ofKind CardKindShotgun) := by
  have h0 : q.CountKind CardKindShotgun = 0 := by
    unfold Player.CountKind
    rw [List.length_eq_zero, List.filter_eq_nil_iff]
    intro c hc
    simp [h c hc]
  unfold giveShotguns
  rw [h0]
  rfl

theorem addCardAt_getElem (ps : List Player) (idx k : Nat) (c : Card) :
    (addCardAt ps idx c)[k]? =
      if k = idx then ps[k]?.map (fun p => p.AddCard c) else ps[k]? := by
  unfold addCardAt
  split
  · rename_i hn
    split
    · rename_i e; subst e; simp [hn]
    · rfl
  · rename_i p hp
    rw [List.getElem?_set]
    have hlt := (List.getElem?_eq_some_iff.mp hp).1
    split
    · rename_i e; subst e; simp [hlt, hp]
    · rename_i ne; rw [if_neg (fun e => ne e.symm)]

theorem addCardAt_length (ps : List Player) (idx : Nat) (c : Card) :
    (addCardAt ps idx c).length = ps.length := by
  unfold addCardAt
  split <;> simp

/-- A shuffle of the seat indices starts with two different seats. -/
theorem shuffled_indices (r : Rng) (n : Nat) (hn : 2 ≤ n) :
    ∃ i0 i1 rest, (Shuffle r (List.range n)).1 = i0 :: i1 :: rest ∧ i0 ≠ i1 ∧
      i0 < n ∧ i1 < n := by
  have hp := Shuffle_perm r (List.range n)
  have hlen : (Shuffle r (List.range n)).1.length = n := by
    rw [hp.length_eq, List.length_range]
  have hnd : (Shuffle r (List.range n)).1.Nodup := hp.nodup_iff.mpr (List.nodup_range n)
  generalize (Shuffle r (List.range n)).1 = sh at hp hlen hnd
  match sh, hlen, hnd, hp with
  | [], hlen, _, _ => simp at hlen; omega
  | [a], hlen, _, _ => simp at hlen; omega
  | a :: b :: rest, _, hnd, hp =>
    refine ⟨a, b, rest, rfl, ?_, ?_, ?_⟩
    · intro e
      subst e
      simp at hnd
    · exact List.mem_range.mp (hp.mem_iff.mp (by simp))
    · exact List.mem_range.mp (hp.mem_iff.mp (by simp))

theorem buildNumberDeck_length : (buildNumberDeck numericDeckCopies).length = 156 := by
  rfl

theorem buildNumberDeck_number :
    ∀ c ∈ buildNumberDeck numericDeckCopies, c.Kind = CardKindNumber := by
  intro c hc
  simp only [buildNumberDeck, List.mem_flatten, List.mem_replicate] at hc
  obtain ⟨l, ⟨_, hl⟩, hc⟩ := hc
  subst hl
  simp only [buildNumberDeckCopy, List.mem_flatMap, List.mem_map] at hc
  obtain ⟨suit, _, v, _, hv⟩ := hc
  rw [← hv]


theorem NewGame_of_length (names : List String) (rng : Rng) (h : names.length = 8) :
    NewGame names rng =
      match dealLoop initialHandSize 0
        { Players := names.enum.map (fun (x : Nat × String) =>
            newPlayer x.1 x.2
              ((shuffleIdentities rng buildIdentityDeck).1.getD x.1 IdentityHuman)),
          cardDeck := (shuffleCards (shuffleIdentities rng buildIdentityDeck).2
            (buildNumberDeck numericDeckCopies)).1,
          cardDiscarded := [], Round := 0, MaxRounds := maxGameRounds,
          rng := (shuffleCards (shuffleIdentities rng buildIdentityDeck).2
            (buildNumberDeck numericDeckCopies)).2,
          logs := [] } with
      | .error e => .error e
      | .ok g1 => .ok (equipInitialZombieCards (distributeSpecialCards g1)) := by
  unfold NewGame
  split
  · rename_i hne
    exact absurd h hne
  · rfl

/-- Seat `k` after the special cards have been handed out. -/
theorem special_cards_getElem (g1 : Game) (hlen : 2 ≤ g1.Players.length) :
    ∃ i0 i1, i0 ≠ i1 ∧ i0 < g1.Players.length ∧ i1 < g1.Players.length ∧
      (∀ (k : Nat) (q : Player), g1.Players[k]? = some q →
        (∀ c ∈ q.Hand, c.Kind = CardKindNumber) →
        (equipInitialZombieCards (distributeSpecialCards g1)).Players[k]? =
          some { q with Hand := q.Hand ++ [Card.ofKind CardKindShotgun] ++
            (if k = i0 ∨ k = i1 then [Card.ofKind CardKindVaccine] else []) ++
            (if q.currentIdentity = IdentityZombie then [Card.ofKind CardKindZombie]
              else []) }) := by
  obtain ⟨i0, i1, rest, hsh, hne, h0, h1⟩ :=
    shuffled_indices g1.rng (g1.Players.map giveShotguns).length (by simpa using hlen)
  refine ⟨i0, i1, hne, by simpa using h0, by simpa using h1, ?_⟩
  intro k q hq hnum
  unfold equipInitialZombieCards distributeSpecialCards
  simp only [hsh, totalVaccineCards, List.take_succ_cons, List.take_zero, List.foldl_cons,
    List.foldl_nil, List.getElem?_map, addCardAt_getElem, hq, Option.map_some',
    giveShotguns_eq hnum]
  have hne' : ¬ i1 = i0 := fun e => hne e.symm
  cases hz : q.currentIdentity <;> by_cases hk0 : k = i0 <;> by_cases hk1 : k = i1
  all_goals first
    | exact absurd (hk0.symm.trans hk1) hne
    | simp [hk0, hk1, hz, hne, hne', Player.IsZombie, Player.AddCard,
        initialZombieCardPerPlayer, List.range_succ]

theorem foldl_addCardAt_length (c : Card) :
    ∀ (idxs : List Nat) (ps : List Player),
      (idxs.foldl (fun ps idx => addCardAt ps idx c) ps).length = ps.length
  | [], _ => rfl
  | i :: rest, ps => by
    rw [List.foldl_cons, foldl_addCardAt_length c rest, addCardAt_length]

theorem special_cards_frame (g1 : Game) :
    (equipInitialZombieCards (distributeSpecialCards g1)).cardDeck = g1.cardDeck ∧
    (equipInitialZombieCards (distributeSpecialCards g1)).cardDiscarded = g1.cardDiscarded ∧
    (equipInitialZombieCards (distributeSpecialCards g1)).Players.length =
      g1.Players.length := by
  refine ⟨rfl, rfl, ?_⟩
  unfold equipInitialZombieCards distributeSpecialCards
  simp only [List.length_map, foldl_addCardAt_length]

/-- Anatomy of a new game: eight seats; seat `k` holds the player with ID
`k`, the `k`-th name and the `k`-th identity of a shuffle of six humans and
two zombies; the hand is fifteen number cards, a shotgun, a vaccine for the
two seats the second shuffle puts first, and a zombie card for a zombie;
thirty-six number cards stay on the draw pile. -/
theorem NewGame_anatomy (names : List String) (rng : Rng) (h : names.length = 8) :
    ∃ (g : Game) (identities : List Identity) (i0 i1 : Nat),
      NewGame names rng = .ok g ∧ identities.Perm buildIdentityDeck ∧
      i0 ≠ i1 ∧ i0 < 8 ∧ i1 < 8 ∧ g.Players.length = 8 ∧
      g.cardDeck.length = 36 ∧ (∀ c ∈ g.cardDeck, c.Kind = CardKindNumber) ∧
      g.cardDiscarded = [] ∧
      ∀ (k : Nat), k < 8 → ∃ (p : Player) (hand : List Card),
        g.Players[k]? = some p ∧ p.ID = (k : Int) ∧ names[k]? = some p.Name ∧
        identities[k]? = some p.currentIdentity ∧
        p.originalIdentity = p.currentIdentity ∧ p.Alive = true ∧
        p.Hand = hand ++ [Card.ofKind CardKindShotgun] ++
          (if k = i0 ∨ k = i1 then [Card.ofKind CardKindVaccine] else []) ++
          (if p.currentIdentity = IdentityZombie then [Card.ofKind CardKindZombie] else []) ∧
        hand.length = 15 ∧ ∀ c ∈ hand, c.Kind = CardKindNumber := by
  have hpid : (shuffleIdentities rng buildIdentityDeck).1.Perm buildIdentityDeck :=
    Shuffle_perm _ _
  have hpdeck : (shuffleCards (shuffleIdentities rng buildIdentityDeck).2
      (buildNumberDeck numericDeckCopies)).1.Perm (buildNumberDeck numericDeckCopies) :=
    Shuffle_perm _ _
  have hidlen : (shuffleIdentities rng buildIdentityDeck).1.length = 8 := by
    rw [hpid.length_eq]; rfl
  rw [NewGame_of_length names rng h]
  generalize hid : (shuffleIdentities rng buildIdentityDeck).1 = identities at *
  generalize hdk : (shuffleCards (shuffleIdentities rng buildIdentityDeck).2
      (buildNumberDeck numericDeckCopies)).1 = deck at *
  generalize (shuffleCards (shuffleIdentities rng buildIdentityDeck).2
      (buildNumberDeck numericDeckCopies)).2 = rng2
  have hplen : (names.enum.map (fun (x : Nat × String) =>
      newPlayer x.1 x.2 (identities.getD x.1 IdentityHuman))).length = 8 := by
    simp [List.enum_length, h]
  have hdlen : deck.length = 156 := by rw [hpdeck.length_eq, buildNumberDeck_length]
  obtain ⟨g1, d1, d2, d3, d4, d5, -⟩ := dealLoop_ok initialHandSize 0 0
    { Players := names.enum.map (fun (x : Nat × String) =>
        newPlayer x.1 x.2 (identities.getD x.1 IdentityHuman)),
      cardDeck := deck, cardDiscarded := [], Round := 0, MaxRounds := maxGameRounds,
      rng := rng2, logs := [] }
    (by simp only [hplen, hdlen, initialHandSize]; decide)
    (fun c hc => buildNumberDeck_number c (hpdeck.mem_iff.mp hc))
    (by
      intro p hp
      simp only [List.mem_map] at hp
      obtain ⟨x, _, hx⟩ := hp
      subst hx
      simp [newPlayer])
  rw [d1]
  simp only
  have hg1len : g1.Players.length = 8 := by
    have := congrArg List.length d2
    simpa [List.enum_length, h] using this
  obtain ⟨i0, i1, hne, h0, h1, hseat⟩ := special_cards_getElem g1 (by omega)
  obtain ⟨f1, f2, f3⟩ := special_cards_frame g1
  refine ⟨_, identities, i0, i1, rfl, hpid, hne, by omega, by omega, by omega, ?_, ?_, ?_, ?_⟩
  · rw [f1, d4]
    simp only [List.length_drop, hplen, hdlen, initialHandSize]
  · intro c hc
    rw [f1, d4] at hc
    exact buildNumberDeck_number c (hpdeck.mem_iff.mp (List.mem_of_mem_drop hc))
  · rw [f2, d5]
  · intro k hk
    obtain ⟨q, hq⟩ : ∃ q, g1.Players[k]? = some q :=
      ⟨_, List.getElem?_eq_getElem (by omega)⟩
    obtain ⟨name, hname⟩ : ∃ name, names[k]? = some name :=
      ⟨_, List.getElem?_eq_getElem (by omega)⟩
    have hstrip : q.strip = (newPlayer k name (identities.getD k IdentityHuman)).strip := by
      have := congrArg (fun l => l[k]?) d2
      simp only [List.getElem?_map, hq, List.getElem?_enum, hname, Option.map_some'] at this
      exact Option.some.inj this
    have hq3 := d3 q (List.getElem?_mem hq)
    have hidk : identities[k]? = some (identities.getD k IdentityHuman) := by
      rw [List.getD_eq_getElem?_getD, List.getElem?_eq_getElem (by omega)]
      rfl
    have e1 : q.ID = (k : Int) := congrArg Player.ID hstrip
    have e2 : q.Name = name := congrArg Player.Name hstrip
    have e3 : q.currentIdentity = identities.getD k IdentityHuman :=
      congrArg Player.currentIdentity hstrip
    have e4 : q.originalIdentity = identities.getD k IdentityHuman :=
      congrArg Player.originalIdentity hstrip
    have e5 : q.Alive = true := congrArg Player.Alive hstrip
    refine ⟨_, q.Hand, hseat k q hq hq3.2, e1, by rw [hname, e2], by rw [hidk, e3],
      by rw [e3, e4], e5, rfl, by simpa using hq3.1, hq3.2⟩

theorem countKind_number_of_all {cards : List Card}
    (h : ∀ c ∈ cards, c.Kind = CardKindNumber) (k : CardKind) :
    countKind k cards = if k = CardKindNumber then cards.length else 0 := by
  unfold countKind
  split
  · rename_i hk
    subst hk
    rw [List.filter_eq_self.mpr]
    intro c hc
    simp [h c hc]
  · rename_i hk
    rw [List.length_eq_zero, List.filter_eq_nil_iff]
    intro c hc
    simp only [decide_eq_true_eq]
    rw [h c hc]
    exact fun e => hk e.symm

theorem sum_map_eq_of_getElem (ps : List Player) (f : Player → Nat) (v : Nat → Nat)
    (h : ∀ (k : Nat) (p : Player), ps[k]? = some p → f p = v k) :
    (ps.map f).sum = ((List.range ps.length).map v).sum := by
  congr 1
  apply List.ext_getElem?
  intro k
  rw [List.getElem?_map, List.getElem?_map]
  by_cases hk : k < ps.length
  · rw [List.getElem?_eq_getElem hk, List.getElem?_range hk]
    simp only [Option.map_some', Option.some.injEq]
    exact h k _ (List.getElem?_eq_getElem hk)
  · rw [List.getElem?_eq_none (by omega), List.getElem?_eq_none (by simpa using hk)]
    rfl

theorem two_seats_sum : ∀ i0 < 8, ∀ i1 < 8, i0 ≠ i1 →
    ((List.range 8).map (fun k => if k = i0 ∨ k = i1 then 1 else 0)).sum = 2 := by
  decide

theorem sum_indicator (ps : List Player) (P : Player → Bool) :
    (ps.map (fun p => if P p = true then 1 else 0)).sum = (ps.filter P).length := by
  induction ps with
  | nil => rfl
  | cons p ps ih =>
    rw [List.map_cons, List.sum_cons, ih, List.filter_cons]
    split <;> simp
    omega


theorem identityDeck_counts :
    (buildIdentityDeck.filter (fun i => decide (i = IdentityZombie))).length = 2 ∧
    (buildIdentityDeck.filter (fun i => decide (i = IdentityHuman))).length = 6 := by
  decide

theorem countKind_setup_hand {hand : List Card} (h : ∀ c ∈ hand, c.Kind = CardKindNumber)
    (vac zom : Prop) [Decidable vac] [Decidable zom] :
    countKind CardKindNumber (hand ++ [Card.ofKind CardKindShotgun] ++
        (if vac then [Card.ofKind CardKindVaccine] else []) ++
        (if zom then [Card.ofKind CardKindZombie] else [])) = hand.length ∧
    countKind CardKindShotgun (hand ++ [Card.ofKind CardKindShotgun] ++
        (if vac then [Card.ofKind CardKindVaccine] else []) ++
        (if zom then [Card.ofKind CardKindZombie] else [])) = 1 ∧
    countKind CardKindZombie (hand ++ [Card.ofKind CardKindShotgun] ++
        (if vac then [Card.ofKind CardKindVaccine] else []) ++
        (if zom then [Card.ofKind CardKindZombie] else [])) = (if zom then 1 else 0) ∧
    countKind CardKindVaccine (hand ++ [Card.ofKind CardKindShotgun] ++
        (if vac then [Card.ofKind CardKindVaccine] else []) ++
        (if zom then [Card.ofKind CardKindZombie] else [])) = (if vac then 1 else 0) := by
  simp only [countKind_append, countKind_number_of_all h]
  by_cases hv : vac <;> by_cases hz : zom <;> simp [hv, hz, countKind, Card.ofKind]

/-- C2: `NewGame` fails with `ErrInvalidPlayerCount` exactly when it is not
given eight names; for eight names, whatever the generator draws, it
returns a game of eight alive players whose ID is their seat and whose
original identity is their current one, six of them human and two zombie,
every hand with exactly fifteen number cards and one shotgun, one zombie
card in each zombie's hand and none elsewhere (two in total), one vaccine
in the hands of two different seats and none elsewhere (two in total), and
thirty-six cards on the draw pile. -/
theorem NewGame_setup (names : List String) (rng : Rng) :
    (NewGame names rng = .error ErrInvalidPlayerCount ↔ names.length ≠ 8) ∧
    (names.length = 8 →
      ∃ (g : Game) (i0 i1 : Nat), NewGame names rng = .ok g ∧ g.Players.length = 8 ∧
        (g.Players.filter Player.IsHuman).length = 6 ∧
        (g.Players.filter Player.IsZombie).length = 2 ∧
        g.handTotal CardKindZombie = 2 ∧ g.handTotal CardKindVaccine = 2 ∧
        i0 ≠ i1 ∧ i0 < 8 ∧ i1 < 8 ∧ g.cardDeck.length = 36 ∧
        ∀ (k : Nat) (p : Player), g.Players[k]? = some p →
          p.Alive = true ∧ p.ID = (k : Int) ∧ p.originalIdentity = p.currentIdentity ∧
          p.CountKind CardKindNumber = 15 ∧ p.CountKind CardKindShotgun = 1 ∧
          p.CountKind CardKindZombie = (if p.currentIdentity = IdentityZombie then 1 else 0) ∧
          p.CountKind CardKindVaccine = (if k = i0 ∨ k = i1 then 1 else 0)) := by
  have part2 : names.length = 8 →
      ∃ (g : Game) (i0 i1 : Nat), NewGame names rng = .ok g ∧ g.Players.length = 8 ∧
        (g.Players.filter Player.IsHuman).length = 6 ∧
        (g.Players.filter Player.IsZombie).length = 2 ∧
        g.handTotal CardKindZombie = 2 ∧ g.handTotal CardKindVaccine = 2 ∧
        i0 ≠ i1 ∧ i0 < 8 ∧ i1 < 8 ∧ g.cardDeck.length = 36 ∧
        ∀ (k : Nat) (p : Player), g.Players[k]? = some p →
          p.Alive = true ∧ p.ID = (k : Int) ∧ p.originalIdentity = p.currentIdentity ∧
          p.CountKind CardKindNumber = 15 ∧ p.CountKind CardKindShotgun = 1 ∧
          p.CountKind CardKindZombie = (if p.currentIdentity = IdentityZombie then 1 else 0) ∧
          p.CountKind CardKindVaccine = (if k = i0 ∨ k = i1 then 1 else 0) := by
    intro h
    obtain ⟨g, identities, i0, i1, hg, hperm, hne, h0, h1, hlen, hdeck, -, -, hseat⟩ :=
      NewGame_anatomy names rng h
    have hseat' : ∀ (k : Nat) (p : Player), g.Players[k]? = some p →
        identities[k]? = some p.currentIdentity ∧
        p.Alive = true ∧ p.ID = (k : Int) ∧ p.originalIdentity = p.currentIdentity ∧
        p.CountKind CardKindNumber = 15 ∧ p.CountKind CardKindShotgun = 1 ∧
        p.CountKind CardKindZombie = (if p.currentIdentity = IdentityZombie then 1 else 0) ∧
        p.CountKind CardKindVaccine = (if k = i0 ∨ k = i1 then 1 else 0) := by
      intro k p hp
      have hk : k < 8 := by
        rw [← hlen]; exact (List.getElem?_eq_some_iff.mp hp).1
      obtain ⟨p', hand, s1, s2, -, s4, s5, s6, s7, s8, s9⟩ := hseat k hk
      rw [hp] at s1
      have e := Option.some.inj s1
      subst e
      obtain ⟨c1, c2, c3, c4⟩ := countKind_setup_hand s9 (k = i0 ∨ k = i1)
        (p.currentIdentity = IdentityZombie)
      rw [← s7] at c1 c2 c3 c4
      exact ⟨s4, s6, s2, s5, by rw [CountKind_eq_countKind, c1, s8], c2, c3, c4⟩
    have hids : g.Players.map (fun p => p.currentIdentity) = identities := by
      apply List.ext_getElem?
      intro k
      rw [List.getElem?_map]
      by_cases hk : k < 8
      · obtain ⟨p, hp⟩ : ∃ p, g.Players[k]? = some p :=
          ⟨_, List.getElem?_eq_getElem (by omega)⟩
        rw [hp, (hseat' k p hp).1]
        rfl
      · rw [List.getElem?_eq_none (by omega),
          List.getElem?_eq_none (by rw [hperm.length_eq]; simp [buildIdentityDeck]; omega)]
        rfl
    have hz : (g.Players.filter Player.IsZombie).length = 2 := by
      have h1 : (g.Players.filter Player.IsZombie).length =
          ((g.Players.map (fun p => p.currentIdentity)).filter
            (fun i => decide (i = IdentityZombie))).length := by
        rw [List.filter_map, List.length_map]
        rfl
      rw [h1, hids, (hperm.filter _).length_eq]
      exact identityDeck_counts.1
    have hh : (g.Players.filter Player.IsHuman).length = 6 := by
      have h1 : (g.Players.filter Player.IsHuman).length =
          ((g.Players.map (fun p => p.currentIdentity)).filter
            (fun i => decide (i = IdentityHuman))).length := by
        rw [List.filter_map, List.length_map]
        rfl
      rw [h1, hids, (hperm.filter _).length_eq]
      exact identityDeck_counts.2
    refine ⟨g, i0, i1, hg, hlen, hh, hz, ?_, ?_, hne, h0, h1, hdeck,
      fun k p hp => (hseat' k p hp).2⟩
    · unfold Game.handTotal
      have : g.Players.map (fun p => p.CountKind CardKindZombie) =
          g.Players.map (fun p => if p.IsZombie = true then 1 else 0) := by
        apply List.map_congr_left
        intro p hp
        obtain ⟨k, hk⟩ := List.mem_iff_getElem?.mp hp
        rw [(hseat' k p hk).2.2.2.2.2.2.1]
        simp [Player.IsZombie]
      rw [this, sum_indicator, hz]
    · unfold Game.handTotal
      rw [sum_map_eq_of_getElem g.Players _
        (fun k => if k = i0 ∨ k = i1 then 1 else 0)
        (fun k p hp => (hseat' k p hp).2.2.2.2.2.2.2), hlen]
      exact two_seats_sum i0 h0 i1 h1 hne
  refine ⟨⟨?_, ?_⟩, part2⟩
  · intro herr hlen
    obtain ⟨g, _, _, hg, _⟩ := part2 hlen
    rw [hg] at herr
    exact absurd herr (by simp)
  · intro hlen
    unfold NewGame
    rw [if_pos hlen]

theorem NewGame_setup_witness :
    ∃ g, NewGame exampleNames [3, 1, 4, 1, 5, 9, 2, 6] = .ok g ∧ g.Players.length = 8 ∧
      g.cardDeck.length = 36 := by
  obtain ⟨g, _, _, h1, h2, _, _, _, _, _, _, _, h3, _⟩ :=
    (NewGame_setup exampleNames [3, 1, 4, 1, 5, 9, 2, 6]).2 (by decide)
  exact ⟨g, h1, h2, h3⟩


/-! ## Conservation of the number cards -/

theorem sum_map_set {l : List Player} {i : Nat} {y : Player} (x : Player) (f : Player → Nat)
    (h : l[i]? = some y) : ((l.set i x).map f).sum + f y = (l.map f).sum + f x := by
  have hi : i < l.length := (List.getElem?_eq_some_iff.mp h).1
  have p1 := ((set_perm_cons_eraseIdx x l i hi).map f).sum_eq
  have p2 := ((perm_cons_eraseIdx_of_get l i y h).map f).sum_eq
  simp only [List.map_cons, List.sum_cons] at p1 p2
  omega

theorem Transfer_number {w w2 l l2 : Player} {committed : List Card} {inf : Bool}
    {st : Option Card} (h : Transfer w w2 l l2 committed inf st) :
    countKind CardKindNumber w2.Hand + countKind CardKindNumber l2.Hand =
      countKind CardKindNumber w.Hand + countKind CardKindNumber l.Hand := by
  obtain ⟨h1, rest, h2, h3, -, -⟩ := h
  have e1 := countKind_perm (k := CardKindNumber) h1
  have e2 := countKind_perm (k := CardKindNumber) h2
  have e3 := countKind_perm (k := CardKindNumber) h3
  simp only [countKind_append, countKind_number_mint] at e1 e2 e3
  omega

/-- A successful challenge neither creates nor destroys a number card. -/
theorem Challenge_numberTotal {g g1 : Game} {opts : ChallengeOptions} {o : ChallengeOutcome}
    (hok : Challenge g opts = (g1, .ok o)) : g1.numberTotal = g.numberTotal := by
  obtain ⟨att, dfd, _, _, _, _, _, _, _, _, _, _, hpa, hpd, _⟩ := Challenge_ok hok
  obtain ⟨-, hatt, -⟩ := playerByID_ok hpa
  obtain ⟨-, hdfd, -⟩ := playerByID_ok hpd
  obtain ⟨_, _, _, _, _, _, _, -, -, -, -, -, -, -, -, -, -, -, hframe, hlen, hdeck, hdisc,
    hne, -⟩ := Challenge_run hok hatt hdfd
  obtain ⟨att2, dfd2, hga, hgd, hcases⟩ := Challenge_transfer hok hatt hdfd
  have hla : opts.AttackerID.toNat < g.Players.length :=
    (List.getElem?_eq_some_iff.mp hatt).1
  have hld : opts.DefenderID.toNat < g.Players.length :=
    (List.getElem?_eq_some_iff.mp hdfd).1
  have hset : g1.Players =
      (g.Players.set opts.AttackerID.toNat att2).set opts.DefenderID.toNat dfd2 := by
    apply List.ext_getElem?
    intro k
    simp only [List.getElem?_set]
    by_cases hkd : opts.DefenderID.toNat = k
    · subst hkd
      simp [hgd, hld]
    · rw [if_neg hkd]
      by_cases hka : opts.AttackerID.toNat = k
      · subst hka
        simp [hga, hla]
      · rw [if_neg hka]
        exact hframe k (fun e => hka e.symm) (fun e => hkd e.symm)
  have hcount : countKind CardKindNumber att2.Hand + countKind CardKindNumber dfd2.Hand =
      countKind CardKindNumber att.Hand + countKind CardKindNumber dfd.Hand := by
    rcases hcases with ⟨-, -, -, p1, p2⟩ | ⟨-, -, ht⟩ | ⟨-, -, -, ht⟩
    · rw [countKind_perm p1, countKind_perm p2]
    · exact Transfer_number ht
    · have := Transfer_number ht
      omega
  have hd' : (g.Players.set opts.AttackerID.toNat att2)[opts.DefenderID.toNat]? =
      some dfd := by
    rw [List.getElem?_set, if_neg hne, hdfd]
  have s1 := sum_map_set dfd2 (fun p => p.CountKind CardKindNumber) hd'
  have s2 := sum_map_set att2 (fun p => p.CountKind CardKindNumber) hatt
  simp only [CountKind_eq_countKind] at s1 s2
  unfold Game.numberTotal
  rw [hdeck, hdisc, hset]
  simp only [CountKind_eq_countKind]
  omega

theorem NewGame_ok_length {names : List String} {rng : Rng} {g : Game}
    (h : NewGame names rng = .ok g) : names.length = 8 := by
  by_contra hne
  unfold NewGame at h
  rw [if_pos hne] at h
  simp at h

theorem NewGame_numberTotal {names : List String} {rng : Rng} {g : Game}
    (h : NewGame names rng = .ok g) : g.numberTotal = 156 := by
  obtain ⟨g2, _, i0, i1, hg2, _, _, _, _, hl, hdl, hdn, hdisc, hseat⟩ :=
    NewGame_anatomy names rng (NewGame_ok_length h)
  rw [h] at hg2
  have e2 : g = g2 := Except.ok.inj hg2
  subst e2
  have hfifteen : ∀ (k : Nat) (p : Player), g.Players[k]? = some p →
      p.CountKind CardKindNumber = 15 := by
    intro k p hp
    have hk : k < 8 := by
      rw [← hl]; exact (List.getElem?_eq_some_iff.mp hp).1
    obtain ⟨p', hand, s1, -, -, -, -, -, s7, s8, s9⟩ := hseat k hk
    rw [hp] at s1
    have e := Option.some.inj s1
    subst e
    rw [CountKind_eq_countKind, s7,
      (countKind_setup_hand s9 (k = i0 ∨ k = i1) (p.currentIdentity = IdentityZombie)).1, s8]
  unfold Game.numberTotal
  rw [sum_map_eq_of_getElem g.Players _ (fun _ => 15) hfifteen, hl, hdisc,
    countKind_number_of_all hdn, hdl]
  rfl

/-- C1, as amended: after `NewGame` succeeds, and on every game reached from
it through `Challenge` calls that return successfully, the number cards in
all hands, the draw pile and the discard pile add up to 156. -/
theorem number_cards_conserved (names : List String) (rng : Rng) (g0 g : Game)
    (h0 : NewGame names rng = .ok g0) (hr : ReachedFrom g0 g) : g.numberTotal = 156 := by
  induction hr with
  | start => exact NewGame_numberTotal h0
  | step _ hstep ih => rw [Challenge_numberTotal hstep, ih]

theorem number_cards_conserved_witness :
    ∃ g0, NewGame exampleNames [3, 1, 4, 1, 5, 9, 2, 6] = .ok g0 ∧ g0.numberTotal = 156 := by
  obtain ⟨g0, _, _, _, hg, _⟩ :=
    NewGame_anatomy exampleNames [3, 1, 4, 1, 5, 9, 2, 6] (by decide)
  exact ⟨g0, hg, number_cards_conserved _ _ g0 g0 hg ReachedFrom.start⟩

/-- C1 as stated fails: right after `NewGame` the count is 156, not 120; the
hands hold 120 number cards and the draw pile the other 36. -/
theorem number_cards_conserved_counterexample :
    ∃ g0, NewGame exampleNames [3, 1, 4, 1, 5, 9, 2, 6] = .ok g0 ∧ g0.numberTotal ≠ 120 := by
  obtain ⟨g0, _, _, _, hg, _⟩ :=
    NewGame_anatomy exampleNames [3, 1, 4, 1, 5, 9, 2, 6] (by decide)
  exact ⟨g0, hg, by rw [NewGame_numberTotal hg]; decide⟩

/-! ## Elimination -/

/-- What a resolution without error does to the alive flags: only a shotgun
fired at a zombie changes one, the defender's, and records it. -/
theorem resolveChallenge_alive {d d3 : Duel} {aset dset : playedSet} {w l : Option Side}
    (h : resolveChallenge d aset dset = (d3, ⟨w, l, none⟩))
    (hal : d.defender.Alive = true) :
    d3.attacker.Alive = d.attacker.Alive ∧
    ((aset.kind = CardKindShotgun ∧ d.defender.IsZombie = true) →
      l = some Side.defender ∧ d3.defender.Alive = false ∧
      d3.outcome.Eliminated = d.outcome.Eliminated ++ [d.defender.ID]) ∧
    (¬ (aset.kind = CardKindShotgun ∧ d.defender.IsZombie = true) →
      d3.defender.Alive = d.defender.Alive ∧
      d3.outcome.Eliminated = d.outcome.Eliminated) := by
  by_cases hz : aset.kind = CardKindZombie
  · have hns : aset.kind ≠ CardKindShotgun := by rw [hz]; decide
    by_cases hv : dset.kind = CardKindVaccine
    · obtain ⟨d3', r1, r2, r3, notes, r5⟩ := resolve_vaccine d hns hv
      rw [r1] at h
      simp only [Prod.mk.injEq, challengeResult.mk.injEq] at h
      obtain ⟨e1, e2, e3, -⟩ := h
      subst e1 e2 e3
      refine ⟨by rw [r2]; rfl, fun hh => absurd hh.1 hns, fun _ => ⟨by rw [r3], by rw [r5]⟩⟩
    · obtain ⟨d3', r1, r2, r3, r4, notes, r5⟩ := resolve_infection d hz hv
      rw [r1] at h
      simp only [Prod.mk.injEq, challengeResult.mk.injEq] at h
      obtain ⟨e1, e2, e3, -⟩ := h
      subst e1 e2 e3
      refine ⟨by rw [r2], fun hh => absurd hh.1 hns, fun _ => ⟨by rw [r3], by rw [r5]⟩⟩
  · by_cases hs : aset.kind = CardKindShotgun
    · cases hzz : d.defender.IsZombie with
      | false =>
        obtain ⟨d3', r1, r2, r3, notes, r5⟩ := resolve_shotgun_miss d dset hs hzz
        rw [r1] at h
        simp only [Prod.mk.injEq, challengeResult.mk.injEq] at h
        obtain ⟨e1, e2, e3, -⟩ := h
        subst e1 e2 e3
        refine ⟨by rw [r2], fun hh => by simp at hh, fun _ => ⟨by rw [r3], by rw [r5]⟩⟩
      | true =>
        obtain ⟨d3', r1, r2, r3, notes, r5⟩ := resolve_shotgun_hit d dset hs hzz hal
        rw [r1] at h
        simp only [Prod.mk.injEq, challengeResult.mk.injEq] at h
        obtain ⟨e1, e2, e3, -⟩ := h
        subst e1 e2 e3
        refine ⟨by rw [r2], fun _ => ⟨rfl, by rw [r3], by rw [r5]⟩,
          fun hh => absurd ⟨hs, rfl⟩ hh⟩
    · have hnot : ¬ (aset.kind = CardKindShotgun ∧ d.defender.IsZombie = true) :=
        fun hh => hs hh.1
      by_cases hv : dset.kind = CardKindVaccine
      · obtain ⟨d3', r1, r2, r3, notes, r5⟩ := resolve_vaccine d hs hv
        rw [r1] at h
        simp only [Prod.mk.injEq, challengeResult.mk.injEq] at h
        obtain ⟨e1, e2, e3, -⟩ := h
        subst e1 e2 e3
        refine ⟨by rw [r2]; rfl, fun hh => absurd hh hnot, fun _ => ⟨by rw [r3], by rw [r5]⟩⟩
      · by_cases hc : dset.cards.length = 0
        · obtain ⟨d3', r1, r2, r3, notes, r5⟩ := resolve_forced d hz hs hv hc
          rw [r1] at h
          simp only [Prod.mk.injEq, challengeResult.mk.injEq] at h
          obtain ⟨e1, e2, e3, -⟩ := h
          subst e1 e2 e3
          refine ⟨by rw [r2], fun hh => absurd hh hnot, fun _ => ⟨by rw [r3], by rw [r5]⟩⟩
        · cases hn : dset.isNumeric with
          | false =>
            rw [resolve_error_shape d hz hs hv hc hn] at h
            simp at h
          | true =>
            by_cases hsuit : aset.suit = dset.suit
            · rcases lt_trichotomy aset.total dset.total with hlt | heq | hgt
              · obtain ⟨d3', r1, r2, r3, notes, r5⟩ :=
                  resolve_defender_stronger d hz hs hv hc hn hsuit hlt
                rw [r1] at h
                simp only [Prod.mk.injEq, challengeResult.mk.injEq] at h
                obtain ⟨e1, e2, e3, -⟩ := h
                subst e1 e2 e3
                refine ⟨by rw [r2], fun hh => absurd hh hnot,
                  fun _ => ⟨by rw [r3], by rw [r5]⟩⟩
              · obtain ⟨d3', r1, r2, r3, notes, r5⟩ :=
                  resolve_tie d hz hs hv hc hn hsuit heq
                rw [r1] at h
                simp only [Prod.mk.injEq, challengeResult.mk.injEq] at h
                obtain ⟨e1, e2, e3, -⟩ := h
                subst e1 e2 e3
                refine ⟨by rw [r2]; rfl, fun hh => absurd hh hnot,
                  fun _ => ⟨by rw [r3]; rfl, by rw [r5]⟩⟩
              · obtain ⟨d3', r1, r2, r3, notes, r5⟩ :=
                  resolve_attacker_stronger d hz hs hv hc hn hsuit hgt
                rw [r1] at h
                simp only [Prod.mk.injEq, challengeResult.mk.injEq] at h
                obtain ⟨e1, e2, e3, -⟩ := h
                subst e1 e2 e3
                refine ⟨by rw [r2], fun hh => absurd hh hnot,
                  fun _ => ⟨by rw [r3], by rw [r5]⟩⟩
            · rw [resolve_error_suit d hz hs hv hc hn hsuit] at h
              simp at h

theorem analyzePlayedSet_shotgun_single {cards : List Card} {attacker : Bool} {s : playedSet}
    (h : analyzePlayedSet cards attacker = .ok s) :
    s.kind = CardKindShotgun ↔ ∃ c, cards = [c] ∧ c.Kind = CardKindShotgun := by
  constructor
  · intro hk
    obtain ⟨_, h2⟩ := analyzePlayedSet_ok h
    rcases h2 with ⟨hk2, _⟩ | ⟨c, hc, _, hk2, _⟩
    · rw [hk2] at hk; exact absurd hk (by decide)
    · exact ⟨c, hc, by rw [← hk2, hk]⟩
  · rintro ⟨c, hc, hk⟩
    exact (analyzePlayedSet_shotgun h).mpr ⟨c, by simp [hc], hk⟩

/-- Who is eliminated by a successful challenge: nobody in a tie, never the
winner, and the loser exactly when a shotgun hit a zombie or the hand is
empty at the end; `Eliminated` holds the loser's id exactly then. -/
theorem Challenge_elimination {g g1 : Game} {opts : ChallengeOptions} {o : ChallengeOutcome}
    {att dfd : Player} (hok : Challenge g opts = (g1, .ok o))
    (hatt : g.Players[opts.AttackerID.toNat]? = some att)
    (hdfd : g.Players[opts.DefenderID.toNat]? = some dfd) :
    ∃ att2 dfd2, g1.Players[opts.AttackerID.toNat]? = some att2 ∧
      g1.Players[opts.DefenderID.toNat]? = some dfd2 ∧
      ((o.WinnerID = none ∧ o.LoserID = none ∧ o.Eliminated = [] ∧
          att2.Alive = true ∧ dfd2.Alive = true) ∨
        (o.WinnerID = some att.ID ∧ o.LoserID = some dfd.ID ∧ att2.Alive = true ∧
          (dfd2.Alive = false ↔ (shotgunHit att dfd opts ∨ dfd2.Hand = [])) ∧
          o.Eliminated = if dfd2.Alive = false then [dfd.ID] else []) ∨
        (o.WinnerID = some dfd.ID ∧ o.LoserID = some att.ID ∧ dfd2.Alive = true ∧
          ¬ shotgunHit att dfd opts ∧ (att2.Alive = false ↔ att2.Hand = []) ∧
          o.Eliminated = if att2.Alive = false then [att.ID] else [])) := by
  obtain ⟨att1, dfd1, aset, dset, d3, w, l, haa, hda, ha1, hpa, hd1, hpd, has, hds, hres, hga,
    hgd, -, -, -, -, -, ho⟩ := Challenge_run hok hatt hdfd
  refine ⟨_, _, hga, hgd, ?_⟩
  have hal : (duelAtResolve g opts att1 dfd1 (cardsAt att.Hand opts.AttackerCards)
      (cardsAt dfd.Hand opts.DefenderCards)).defender.Alive = true := by
    rw [duelAtResolve, hd1]; exact hda
  have hdA : (duelAtResolve g opts att1 dfd1 (cardsAt att.Hand opts.AttackerCards)
      (cardsAt dfd.Hand opts.DefenderCards)).attacker.Alive = true := by
    rw [duelAtResolve, ha1]; exact haa
  have hE : (duelAtResolve g opts att1 dfd1 (cardsAt att.Hand opts.AttackerCards)
      (cardsAt dfd.Hand opts.DefenderCards)).outcome.Eliminated = [] := rfl
  have hIDa : (duelAtResolve g opts att1 dfd1 (cardsAt att.Hand opts.AttackerCards)
      (cardsAt dfd.Hand opts.DefenderCards)).attacker.ID = att.ID := by
    rw [duelAtResolve, ha1]
  have hIDd : (duelAtResolve g opts att1 dfd1 (cardsAt att.Hand opts.AttackerCards)
      (cardsAt dfd.Hand opts.DefenderCards)).defender.ID = dfd.ID := by
    rw [duelAtResolve, hd1]
  have hhit : (aset.kind = CardKindShotgun ∧
      (duelAtResolve g opts att1 dfd1 (cardsAt att.Hand opts.AttackerCards)
        (cardsAt dfd.Hand opts.DefenderCards)).defender.IsZombie = true) ↔
      shotgunHit att dfd opts := by
    unfold shotgunHit
    rw [analyzePlayedSet_shotgun_single has]
    have : (duelAtResolve g opts att1 dfd1 (cardsAt att.Hand opts.AttackerCards)
        (cardsAt dfd.Hand opts.DefenderCards)).defender.IsZombie = true ↔
        dfd.currentIdentity = IdentityZombie := by
      rw [duelAtResolve, hd1]
      simp [Player.IsZombie]
    rw [this]
  obtain ⟨k1, k2, k3⟩ := resolveChallenge_alive hres hal
  rw [hhit] at k2 k3
  rw [hdA] at k1
  rw [hE, hIDd] at k2
  rw [hal, hE] at k3
  rcases resolveChallenge_shape hres rfl hal with
    ⟨e1, e2, t1, t2, t3, t4, t5, t6⟩ |
    ⟨ws, ls, e1, e2, hne, q1, q2, q3, q4, q5, q6, q7, q8, q9, q10, q11⟩
  · subst e1 e2
    rw [settleChallenge_tie] at ho ⊢
    have hnh : ¬ shotgunHit att dfd opts := fun hh => by
      have := (k2 hh).1
      simp at this
    refine Or.inl ⟨by rw [ho, t3]; rfl, by rw [ho, t4]; rfl, by rw [ho, t6]; rfl, k1,
      (k3 hnh).1⟩
  · subst e1 e2
    obtain ⟨st, hw, hl, notes, s1, s2, s3, s4, s5, s6, s7⟩ := settleChallenge_spec d3 hne
    cases ws <;> cases ls
    · exact absurd rfl hne
    · -- the attacker wins
      simp only [Duel.player] at s1 s2 s7 q1 q2 q4 q5
      rw [hIDa] at q4
      rw [hIDd] at q5
      refine Or.inr (Or.inl ⟨by rw [ho, s7, q4], by rw [ho, s7, q5], by rw [s1]; exact k1,
        ?_, ?_⟩)
      · rw [s2]
        by_cases hh : shotgunHit att dfd opts
        · simp [hh, (k2 hh).2.1]
        · simp [hh, (k3 hh).1]
      · rw [ho, s7, s2, q5]
        by_cases hh : shotgunHit att dfd opts
        · simp [(k2 hh).2.1, (k2 hh).2.2]
        · simp only [(k3 hh).1, (k3 hh).2]
          cases hl <;> simp
    · -- the defender wins
      simp only [Duel.player] at s1 s2 s7 q1 q2 q4 q5
      rw [hIDd] at q4
      rw [hIDa] at q5
      have hnh : ¬ shotgunHit att dfd opts := fun hh => by
        have := (k2 hh).1
        simp at this
      refine Or.inr (Or.inr ⟨by rw [ho, s7, q4], by rw [ho, s7, q5], ?_, hnh, ?_, ?_⟩)
      · rw [s1]; exact (k3 hnh).1
      · rw [s2]
        simp [k1]
      · rw [ho, s7, s2, q5, k1, (k3 hnh).2]
        cases hl <;> simp
    · exact absurd rfl hne

/-- C11: after a successful challenge on a game whose players carry their
seat as id, a player is newly eliminated exactly when that player is the
recorded loser and either a shotgun was fired at a zombie defender or the
loser's hand is empty at the end; `Eliminated` lists exactly the ids of the
newly eliminated players, each once; and whoever is not the recorded loser
keeps the alive flag. -/
theorem elimination_rule (g g1 : Game) (opts : ChallengeOptions) (o : ChallengeOutcome)
    (att dfd : Player)
    (hok : Challenge g opts = (g1, .ok o))
    (hatt : g.Players[opts.AttackerID.toNat]? = some att)
    (hdfd : g.Players[opts.DefenderID.toNat]? = some dfd)
    (hid : ∀ (k : Nat) (p : Player), g.Players[k]? = some p → p.ID = (k : Int)) :
    (∀ (k : Nat) (p p2 : Player), g.Players[k]? = some p → g1.Players[k]? = some p2 →
      ((p.Alive = true ∧ p2.Alive = false) ↔
        (o.LoserID = some p.ID ∧ (shotgunHit att dfd opts ∨ p2.Hand = [])))) ∧
    (∀ id : Int, id ∈ o.Eliminated ↔
      ∃ (k : Nat) (p p2 : Player), g.Players[k]? = some p ∧ g1.Players[k]? = some p2 ∧
        p.ID = id ∧ p.Alive = true ∧ p2.Alive = false) ∧
    o.Eliminated.Nodup ∧
    (∀ (k : Nat) (p p2 : Player), g.Players[k]? = some p → g1.Players[k]? = some p2 →
      o.LoserID ≠ some p.ID → p2.Alive = p.Alive) := by
  obtain ⟨att2, dfd2, hga, hgd, hcase⟩ := Challenge_elimination hok hatt hdfd
  obtain ⟨-, -, -, -, -, -, -, haa, hda, -, -, -, -, -, -, -, -, -, hframe, -, -, -, hne, -⟩ :=
    Challenge_run hok hatt hdfd
  have ida : att.ID = (opts.AttackerID.toNat : Int) := hid _ _ hatt
  have idd : dfd.ID = (opts.DefenderID.toNat : Int) := hid _ _ hdfd
  have hidne : att.ID ≠ dfd.ID := by rw [ida, idd]; exact_mod_cast hne
  -- every seat is the attacker's, the defender's, or untouched
  have F : ∀ (k : Nat) (p p2 : Player), g.Players[k]? = some p → g1.Players[k]? = some p2 →
      (p = att ∧ p2 = att2) ∨ (p = dfd ∧ p2 = dfd2) ∨
        (p2 = p ∧ p.ID ≠ att.ID ∧ p.ID ≠ dfd.ID) := by
    intro k p p2 hp hp2
    by_cases hka : k = opts.AttackerID.toNat
    · subst hka
      rw [hatt] at hp; rw [hga] at hp2
      exact Or.inl ⟨(Option.some.inj hp).symm, (Option.some.inj hp2).symm⟩
    · by_cases hkd : k = opts.DefenderID.toNat
      · subst hkd
        rw [hdfd] at hp; rw [hgd] at hp2
        exact Or.inr (Or.inl ⟨(Option.some.inj hp).symm, (Option.some.inj hp2).symm⟩)
      · rw [hframe k hka hkd, hp] at hp2
        refine Or.inr (Or.inr ⟨(Option.some.inj hp2).symm, ?_, ?_⟩)
        · rw [hid k p hp, ida]; exact_mod_cast hka
        · rw [hid k p hp, idd]; exact_mod_cast hkd
  rcases hcase with ⟨c1, c2, c3, c4, c5⟩ | ⟨c1, c2, c3, c4, c5⟩ | ⟨c1, c2, c3, c4, c5, c6⟩
  · -- a tie
    refine ⟨?_, ?_, by rw [c3]; exact List.nodup_nil, ?_⟩
    · intro k p p2 hp hp2
      rw [c2]
      rcases F k p p2 hp hp2 with ⟨e1, e2⟩ | ⟨e1, e2⟩ | ⟨e1, -, -⟩
      · subst e1 e2; simp [c4]
      · subst e1 e2; simp [c5]
      · subst e1; simp
    · intro id
      rw [c3]
      simp only [List.not_mem_nil, false_iff]
      rintro ⟨k, p, p2, hp, hp2, -, h1, h2⟩
      rcases F k p p2 hp hp2 with ⟨e1, e2⟩ | ⟨e1, e2⟩ | ⟨e1, -, -⟩
      · subst e1 e2; rw [c4] at h2; exact absurd h2 (by decide)
      · subst e1 e2; rw [c5] at h2; exact absurd h2 (by decide)
      · subst e1; rw [h1] at h2; exact absurd h2 (by decide)
    · intro k p p2 hp hp2 _
      rcases F k p p2 hp hp2 with ⟨e1, e2⟩ | ⟨e1, e2⟩ | ⟨e1, -, -⟩
      · subst e1 e2; rw [c4, haa]
      · subst e1 e2; rw [c5, hda]
      · rw [e1]
  · -- the defender is the loser
    refine ⟨?_, ?_, by rw [c5]; split <;> simp, ?_⟩
    · intro k p p2 hp hp2
      rw [c2]
      rcases F k p p2 hp hp2 with ⟨e1, e2⟩ | ⟨e1, e2⟩ | ⟨e1, -, e3⟩
      · subst e1 e2
        simp only [c3, Option.some.injEq]
        constructor
        · intro hh; exact absurd hh.2 (by decide)
        · intro hh; exact absurd hh.1.symm hidne
      · subst e1 e2
        simp only [hda, true_and, c4]
      · subst e1
        constructor
        · rintro ⟨h1, h2⟩; rw [h1] at h2; exact absurd h2 (by decide)
        · intro hh; exact absurd (Option.some.inj hh.1).symm e3
    · intro id
      rw [c5]
      constructor
      · intro hmem
        by_cases hd2 : dfd2.Alive = false
        · rw [if_pos hd2] at hmem
          simp only [List.mem_singleton] at hmem
          exact ⟨_, dfd, dfd2, hdfd, hgd, hmem.symm, hda, hd2⟩
        · rw [if_neg hd2] at hmem
          exact absurd hmem (List.not_mem_nil _)
      · rintro ⟨k, p, p2, hp, hp2, hpid, h1, h2⟩
        rcases F k p p2 hp hp2 with ⟨e1, e2⟩ | ⟨e1, e2⟩ | ⟨e1, -, -⟩
        · subst e1 e2; rw [c3] at h2; exact absurd h2 (by decide)
        · subst e1 e2; rw [if_pos h2, ← hpid]; simp
        · subst e1; rw [h1] at h2; exact absurd h2 (by decide)
    · intro k p p2 hp hp2 hnl
      rcases F k p p2 hp hp2 with ⟨e1, e2⟩ | ⟨e1, e2⟩ | ⟨e1, -, -⟩
      · subst e1 e2; rw [c3, haa]
      · subst e1; exact absurd c2 hnl
      · rw [e1]
  · -- the attacker is the loser
    refine ⟨?_, ?_, by rw [c6]; split <;> simp, ?_⟩
    · intro k p p2 hp hp2
      rw [c2]
      rcases F k p p2 hp hp2 with ⟨e1, e2⟩ | ⟨e1, e2⟩ | ⟨e1, e3, -⟩
      · subst e1 e2
        simp only [haa, true_and, c5, c4, false_or]
      · subst e1 e2
        simp only [c3, Option.some.injEq]
        constructor
        · intro hh; exact absurd hh.2 (by decide)
        · intro hh; exact absurd hh.1 hidne
      · subst e1
        constructor
        · rintro ⟨h1, h2⟩; rw [h1] at h2; exact absurd h2 (by decide)
        · intro hh; exact absurd (Option.some.inj hh.1).symm e3
    · intro id
      rw [c6]
      constructor
      · intro hmem
        by_cases hd2 : att2.Alive = false
        · rw [if_pos hd2] at hmem
          simp only [List.mem_singleton] at hmem
          exact ⟨_, att, att2, hatt, hga, hmem.symm, haa, hd2⟩
        · rw [if_neg hd2] at hmem
          exact absurd hmem (List.not_mem_nil _)
      · rintro ⟨k, p, p2, hp, hp2, hpid, h1, h2⟩
        rcases F k p p2 hp hp2 with ⟨e1, e2⟩ | ⟨e1, e2⟩ | ⟨e1, -, -⟩
        · subst e1 e2; rw [if_pos h2, ← hpid]; simp
        · subst e1 e2; rw [c3] at h2; exact absurd h2 (by decide)
        · subst e1; rw [h1] at h2; exact absurd h2 (by decide)
    · intro k p p2 hp hp2 hnl
      rcases F k p p2 hp hp2 with ⟨e1, e2⟩ | ⟨e1, e2⟩ | ⟨e1, -, -⟩
      · subst e1; exact absurd c2 hnl
      · subst e1 e2; rw [c3, hda]
      · rw [e1]

theorem hunterVsZombie_ids :
    ∀ (k : Nat) (p : Player), hunterVsZombie.Players[k]? = some p → p.ID = (k : Int)
  | 0, p, h => by
    simp only [hunterVsZombie, exampleGame, List.getElem?_cons_zero, Option.some.injEq] at h
    subst h; rfl
  | 1, p, h => by
    simp only [hunterVsZombie, exampleGame, List.getElem?_cons_succ, List.getElem?_cons_zero,
      Option.some.injEq] at h
    subst h; rfl
  | k + 2, p, h => by simp [hunterVsZombie, exampleGame] at h

theorem elimination_rule_witness :
    ∃ g1 o, Challenge hunterVsZombie ⟨0, 1, [0], [0]⟩ = (g1, .ok o) ∧
      (∀ id : Int, id ∈ o.Eliminated ↔
        ∃ (k : Nat) (p p2 : Player), hunterVsZombie.Players[k]? = some p ∧
          g1.Players[k]? = some p2 ∧ p.ID = id ∧ p.Alive = true ∧ p2.Alive = false) ∧
      o.Eliminated.Nodup :=
  ⟨_, _, rfl,
    (elimination_rule hunterVsZombie _ ⟨0, 1, [0], [0]⟩ _
      (examplePlayer 0 "A" IdentityHuman
        [Card.ofKind CardKindShotgun, Card.ofKind CardKindShotgun])
      (examplePlayer 1 "B" IdentityZombie
        [⟨CardKindNumber, SuitClub, 4⟩, Card.ofKind CardKindZombie])
      rfl rfl rfl hunterVsZombie_ids).2.1,
    (elimination_rule hunterVsZombie _ ⟨0, 1, [0], [0]⟩ _
      (examplePlayer 0 "A" IdentityHuman
        [Card.ofKind CardKindShotgun, Card.ofKind CardKindShotgun])
      (examplePlayer 1 "B" IdentityZombie
        [⟨CardKindNumber, SuitClub, 4⟩, Card.ofKind CardKindZombie])
      rfl rfl rfl hunterVsZombie_ids).2.2.1⟩

/-! ## Forced reveal -/

/-- C12, as amended: in a successful challenge where the attacker plays
number cards of one suit, the defender's hand holds no number card of that
suit and the defender does not answer with a vaccine, the defender's
selection is empty, `ForcedReveal` is set and the attacker is the recorded
winner. -/
theorem forced_reveal (g g1 : Game) (opts : ChallengeOptions) (o : ChallengeOutcome)
    (att dfd : Player) (suit : Suit)
    (hok : Challenge g opts = (g1, .ok o))
    (hatt : g.Players[opts.AttackerID.toNat]? = some att)
    (hdfd : g.Players[opts.DefenderID.toNat]? = some dfd)
    (hnum : ∀ c ∈ cardsAt att.Hand opts.AttackerCards,
      c.Kind = CardKindNumber ∧ c.Suit = suit)
    (hno : dfd.HasSuit suit = false)
    (hvac : ∀ v, cardsAt dfd.Hand opts.DefenderCards = [v] → v.Kind ≠ CardKindVaccine) :
    cardsAt dfd.Hand opts.DefenderCards = [] ∧ o.ForcedReveal = true ∧
      o.WinnerID = some att.ID ∧ o.LoserID = some dfd.ID := by
  obtain ⟨att1, dfd1, aset, dset, d3, w, l, -, -, ha1, -, hd1, hpd, has, hds, hres, -, -, -,
    -, -, -, -, ho⟩ := Challenge_run hok hatt hdfd
  -- the attack is a number play of `suit`
  obtain ⟨-, ha⟩ := analyzePlayedSet_ok has
  have hak : aset.kind = CardKindNumber ∧ aset.suit = suit := by
    rcases ha with ⟨hk, -, hne, -, hall, -⟩ | ⟨c, hc, hck, -⟩
    · refine ⟨hk, ?_⟩
      cases hcs : cardsAt att.Hand opts.AttackerCards with
      | nil => exact absurd hcs hne
      | cons first rest =>
        have m : first ∈ cardsAt att.Hand opts.AttackerCards := by simp [hcs]
        rw [← (hall first m).2, (hnum first m).2]
    · exact absurd (hnum c (by simp [hc])).1 hck
  have hz : aset.kind ≠ CardKindZombie := by rw [hak.1]; decide
  have hs : aset.kind ≠ CardKindShotgun := by rw [hak.1]; decide
  -- the defence is empty
  have hde : cardsAt dfd.Hand opts.DefenderCards = [] ∧ dset = playedSet.zero := by
    rcases analyzeDefenseSet_ok hds with h0 | ⟨hne, hd⟩
    · exact h0
    · exfalso
      obtain ⟨hdc, hd2⟩ := analyzePlayedSet_ok hd
      rcases hd2 with ⟨hk, hn, -, -, hall, -⟩ | ⟨c, hc, -, -, -, -, hv⟩
      · have hv : dset.kind ≠ CardKindVaccine := by rw [hk]; decide
        have hc : dset.cards.length ≠ 0 := by
          rw [hdc]; exact fun e => hne (List.length_eq_zero.mp e)
        by_cases hsuit : aset.suit = dset.suit
        · cases hcs : cardsAt dfd.Hand opts.DefenderCards with
          | nil => exact hne hcs
          | cons first rest =>
            have m : first ∈ cardsAt dfd.Hand opts.DefenderCards := by simp [hcs]
            have hm : first ∈ dfd.Hand := hpd.mem_iff.mpr (List.mem_append_left _ m)
            have : dfd.HasSuit suit = true := by
              unfold Player.HasSuit
              rw [List.any_eq_true]
              refine ⟨first, hm, ?_⟩
              simp [(hall first m).1, (hall first m).2, ← hsuit, hak.2]
            rw [hno] at this
            exact absurd this (by decide)
        · rw [resolve_error_suit _ hz hs hv hc hn hsuit] at hres
          simp at hres
      · exact hvac c hc (hv rfl)
  obtain ⟨hd0, hdz⟩ := hde
  subst hdz
  obtain ⟨d3', r1, r2, r3, notes, r5⟩ := resolve_forced
    (duelAtResolve g opts att1 dfd1 (cardsAt att.Hand opts.AttackerCards)
      (cardsAt dfd.Hand opts.DefenderCards)) hz hs
    (show playedSet.zero.kind ≠ CardKindVaccine by decide)
    (show playedSet.zero.cards.length = 0 from rfl)
  rw [r1] at hres
  simp only [Prod.mk.injEq, challengeResult.mk.injEq] at hres
  obtain ⟨e1, e2, e3, -⟩ := hres
  subst e1 e2 e3
  obtain ⟨st, hw, hl, notes2, s1, s2, s3, s4, s5, s6, s7⟩ :=
    settleChallenge_spec d3' (w := Side.attacker) (l := Side.defender) (by decide)
  refine ⟨hd0, ?_, ?_, ?_⟩
  · rw [ho, s7, r5]
  · rw [ho, s7]
    simp only [Duel.player]
    rw [r2, duelAtResolve, ha1]
  · rw [ho, s7]
    simp only [Duel.player]
    rw [r3, duelAtResolve, hd1]

theorem forced_reveal_witness :
    ∃ g1 o, Challenge noSpades ⟨0, 1, [0], []⟩ = (g1, .ok o) ∧
      cardsAt [⟨CardKindNumber, SuitHeart, 13⟩, Card.ofKind CardKindVaccine] [] = [] ∧
      o.ForcedReveal = true ∧ o.WinnerID = some 0 ∧ o.LoserID = some 1 :=
  ⟨_, _, rfl,
    forced_reveal noSpades _ ⟨0, 1, [0], []⟩ _
      (examplePlayer 0 "A" IdentityHuman
        [⟨CardKindNumber, SuitSpade, 9⟩, ⟨CardKindNumber, SuitHeart, 2⟩])
      (examplePlayer 1 "B" IdentityHuman
        [⟨CardKindNumber, SuitHeart, 13⟩, Card.ofKind CardKindVaccine])
      SuitSpade rfl rfl rfl (by decide) (by decide)
      (fun _ hv => absurd (congrArg List.length hv)
        (show ¬ (cardsAt _ _).length = 1 by decide))⟩

/-- C12 as stated fails: the attacker plays a spade, the defender holds no
spade but answers with a vaccine; the call succeeds, the defender is the
recorded winner and `ForcedReveal` stays unset. -/
theorem forced_reveal_counterexample :
    ∃ g1 o, Challenge noSpades ⟨0, 1, [0], [1]⟩ = (g1, .ok o) ∧
      cardsAt [⟨CardKindNumber, SuitSpade, 9⟩, ⟨CardKindNumber, SuitHeart, 2⟩] [0] =
        [⟨CardKindNumber, SuitSpade, 9⟩] ∧
      (examplePlayer 1 "B" IdentityHuman
        [⟨CardKindNumber, SuitHeart, 13⟩, Card.ofKind CardKindVaccine]).HasSuit SuitSpade =
          false ∧
      o.ForcedReveal = false ∧ o.WinnerID = some 1 :=
  ⟨_, _, rfl, rfl, by decide, by decide, by decide⟩

/-! ## Calls on distinct in-range indices -/

theorem removeCardsLoop_valid :
    ∀ (L : List Int) (p : Player) (seen : List Int) (removed : List Card),
      L.Pairwise (fun a b => b < a) →
      (∀ i ∈ L, 0 ≤ i ∧ i.toNat < p.Hand.length) → (∀ i ∈ L, i ∉ seen) →
      ∃ p1 out, removeCardsLoop L p seen removed = (p1, .ok out)
  | [], p, seen, removed, _, _, _ => ⟨p, removed, rfl⟩
  | idx :: rest, p, seen, removed, hs, hr, hseen => by
    obtain ⟨hlt, hs'⟩ := List.pairwise_cons.mp hs
    obtain ⟨h0, hlen⟩ := hr idx (List.mem_cons_self _ _)
    rw [removeCardsLoop, if_neg (hseen idx (List.mem_cons_self _ _))]
    have hrm : p.RemoveCardAt idx =
        ({ p with Hand := p.Hand.eraseIdx idx.toNat }, .ok (p.Hand.get ⟨idx.toNat, hlen⟩)) := by
      unfold Player.RemoveCardAt
      rw [if_neg (by omega), List.getElem?_eq_getElem hlen]
      rfl
    rw [hrm]
    apply removeCardsLoop_valid rest _ _ _ hs'
    · intro i hi
      have h1 := hlt i hi
      have h2 := hr i (List.mem_cons_of_mem _ hi)
      refine ⟨h2.1, ?_⟩
      simp only [List.length_eraseIdx, hlen, if_true]
      omega
    · intro i hi hm
      rcases List.mem_cons.mp hm with e | hm
      · have := hlt i hi
        omega
      · exact hseen i (List.mem_cons_of_mem _ hi) hm

/-- Distinct in-range indices are always removed: the call returns the
selected cards and takes exactly those out of the hand. -/
theorem removeCardsByIndices_valid (p : Player) {indices : List Int} (hnd : indices.Nodup)
    (hr : ∀ i ∈ indices, 0 ≤ i ∧ i < (p.Hand.length : Int)) :
    ∃ p1, removeCardsByIndices p indices = (p1, .ok (cardsAt p.Hand indices)) ∧
      p1 = { p with Hand := p1.Hand } ∧
      p.Hand.Perm (cardsAt p.Hand indices ++ p1.Hand) := by
  have key : ∃ p1 out, removeCardsByIndices p indices = (p1, .ok out) := by
    unfold removeCardsByIndices
    split
    · exact ⟨p, [], rfl⟩
    · unfold Player.RemoveCards
      split
      · exact ⟨p, [], rfl⟩
      · have hperm : (sortDescending indices).Perm indices := List.perm_insertionSort _ _
        have hsorted : (sortDescending indices).Pairwise (fun a b => b ≤ a) := by
          haveI : IsTotal Int (fun a b => b ≤ a) := ⟨fun a b => le_total b a⟩
          haveI : IsTrans Int (fun a b => b ≤ a) := ⟨fun a b c h1 h2 => le_trans h2 h1⟩
          exact List.sorted_insertionSort _ _
        have hnd' : (sortDescending indices).Pairwise (fun a b => a ≠ b) :=
          hperm.nodup_iff.mpr hnd
        have hstrict : (sortDescending indices).Pairwise (fun a b => b < a) :=
          (hsorted.and hnd').imp (fun h => lt_of_le_of_ne h.1 (Ne.symm h.2))
        obtain ⟨p1, out, hl⟩ := removeCardsLoop_valid (sortDescending indices) p [] []
          hstrict
          (fun i hi => by
            have := hr i (hperm.mem_iff.mp hi)
            exact ⟨this.1, by omega⟩)
          (fun i _ hm => absurd hm (List.not_mem_nil _))
        rw [hl]
        exact ⟨p1, out.reverse, rfl⟩
  obtain ⟨p1, out, h⟩ := key
  obtain ⟨h1, h2, h3, -, -⟩ := removeCardsByIndices_ok h
  subst h1
  exact ⟨p1, h, h2, h3⟩

theorem sumNumberCards_succeeds (suit : Suit) :
    ∀ (cards : List Card) (total : Int),
      (∀ c ∈ cards, c.Kind = CardKindNumber ∧ c.Suit = suit) →
      ∃ t, sumNumberCards suit cards total = .ok t
  | [], total, _ => ⟨total, rfl⟩
  | c :: cs, total, h => by
    obtain ⟨hk, hsu⟩ := h c (List.mem_cons_self _ _)
    rw [sumNumberCards, if_neg (by simp [hk]), if_neg (by simp [hsu])]
    exact sumNumberCards_succeeds suit cs _ (fun c hc => h c (List.mem_cons_of_mem _ hc))

/-- The attack analysis accepts exactly the legal attacks. -/
theorem analyzePlayedSet_attack (cards : List Card) :
    (∃ s, analyzePlayedSet cards true = .ok s) ↔ LegalAttack cards := by
  constructor
  · rintro ⟨s, h⟩
    obtain ⟨-, h2⟩ := analyzePlayedSet_ok h
    rcases h2 with ⟨-, -, hne, hlen, hall, -⟩ | ⟨c, hc, hck, -, -, hv, -⟩
    · exact Or.inl ⟨hne, hlen, s.suit, hall⟩
    · refine Or.inr ⟨c, hc, ?_⟩
      have := hv rfl
      cases hk : c.Kind <;> simp_all
  · rintro (⟨hne, hlen, suit, hall⟩ | ⟨c, hc, hk⟩)
    · cases cards with
      | nil => exact absurd rfl hne
      | cons first rest =>
        have hf := hall first (List.mem_cons_self _ _)
        obtain ⟨t, ht⟩ := sumNumberCards_succeeds first.Suit (first :: rest) 0
          (fun c hc => ⟨(hall c hc).1, by rw [(hall c hc).2, hf.2]⟩)
        unfold analyzePlayedSet
        simp only [hf.1, if_true]
        rw [if_neg (by omega), ht]
        exact ⟨_, rfl⟩
    · subst hc
      unfold analyzePlayedSet
      rcases hk with hk | hk <;> simp [hk]

/-- The defence analysis accepts exactly the legal defences. -/
theorem analyzeDefenseSet_defence (cards : List Card) :
    (∃ s, analyzeDefenseSet cards = .ok s) ↔ LegalDefence cards := by
  constructor
  · rintro ⟨s, h⟩
    rcases analyzeDefenseSet_ok h with ⟨h0, -⟩ | ⟨-, h2⟩
    · exact Or.inl h0
    · obtain ⟨-, h3⟩ := analyzePlayedSet_ok h2
      rcases h3 with ⟨-, -, hne, hlen, hall, -⟩ | ⟨c, hc, -, -, -, -, hv⟩
      · exact Or.inr (Or.inr ⟨hne, hlen, s.suit, hall⟩)
      · exact Or.inr (Or.inl ⟨c, hc, hv rfl⟩)
  · rintro (h0 | ⟨c, hc, hk⟩ | ⟨hne, hlen, suit, hall⟩)
    · subst h0; exact ⟨_, rfl⟩
    · subst hc
      unfold analyzeDefenseSet analyzePlayedSet
      simp [hk]
    · cases cards with
      | nil => exact absurd rfl hne
      | cons first rest =>
        have hf := hall first (List.mem_cons_self _ _)
        obtain ⟨t, ht⟩ := sumNumberCards_succeeds first.Suit (first :: rest) 0
          (fun c hc => ⟨(hall c hc).1, by rw [(hall c hc).2, hf.2]⟩)
        unfold analyzeDefenseSet analyzePlayedSet
        simp only [hf.1, if_true]
        rw [if_neg (by simp), if_neg (by omega), ht]
        exact ⟨_, rfl⟩

theorem resolve_shotgun_total (d : Duel) {aset : playedSet} (dset : playedSet)
    (hs : aset.kind = CardKindShotgun) :
    ∃ d3 w l, resolveChallenge d aset dset = (d3, ⟨w, l, none⟩) := by
  unfold resolveChallenge
  rw [if_neg (by rw [hs]; decide), if_pos hs]
  split <;> exact ⟨_, _, _, rfl⟩

/-- A resolution fails only on a number attack answered by cards that are
not a number play of the same suit. -/
theorem resolveChallenge_total (d : Duel) {aset dset : playedSet}
    (h : aset.kind = CardKindZombie ∨ aset.kind = CardKindShotgun ∨
      dset.kind = CardKindVaccine ∨ dset.cards.length = 0 ∨
      (dset.isNumeric = true ∧ aset.suit = dset.suit)) :
    ∃ d3 w l, resolveChallenge d aset dset = (d3, ⟨w, l, none⟩) := by
  by_cases hz : aset.kind = CardKindZombie
  · by_cases hv : dset.kind = CardKindVaccine
    · obtain ⟨d3, r1, -⟩ := resolve_vaccine d (show aset.kind ≠ CardKindShotgun by
        rw [hz]; decide) hv
      exact ⟨_, _, _, r1⟩
    · obtain ⟨d3, r1, -⟩ := resolve_infection d hz hv
      exact ⟨_, _, _, r1⟩
  · by_cases hs : aset.kind = CardKindShotgun
    · exact resolve_shotgun_total d dset hs
    · by_cases hv : dset.kind = CardKindVaccine
      · obtain ⟨d3, r1, -⟩ := resolve_vaccine d hs hv
        exact ⟨_, _, _, r1⟩
      · by_cases hc : dset.cards.length = 0
        · obtain ⟨d3, r1, -⟩ := resolve_forced d hz hs hv hc
          exact ⟨_, _, _, r1⟩
        · have hns : dset.isNumeric = true ∧ aset.suit = dset.suit := by
            rcases h with h | h | h | h | h
            · exact absurd h hz
            · exact absurd h hs
            · exact absurd h hv
            · exact absurd h hc
            · exact h
          rcases lt_trichotomy aset.total dset.total with hlt | heq | hgt
          · obtain ⟨d3, r1, -⟩ := resolve_defender_stronger d hz hs hv hc hns.1 hns.2 hlt
            exact ⟨_, _, _, r1⟩
          · obtain ⟨d3, r1, -⟩ := resolve_tie d hz hs hv hc hns.1 hns.2 heq
            exact ⟨_, _, _, r1⟩
          · obtain ⟨d3, r1, -⟩ := resolve_attacker_stronger d hz hs hv hc hns.1 hns.2 hgt
            exact ⟨_, _, _, r1⟩

/-- A resolution that fails leaves the duel alone. -/
theorem resolveChallenge_error {d d3 : Duel} {aset dset : playedSet} {w l : Option Side}
    {e : String} (h : resolveChallenge d aset dset = (d3, ⟨w, l, some e⟩)) :
    d3 = d ∧ aset.kind ≠ CardKindZombie ∧ aset.kind ≠ CardKindShotgun ∧
      dset.kind ≠ CardKindVaccine ∧ dset.cards.length ≠ 0 ∧
      (dset.isNumeric = false ∨ aset.suit ≠ dset.suit) := by
  have key : ¬ (aset.kind = CardKindZombie ∨ aset.kind = CardKindShotgun ∨
      dset.kind = CardKindVaccine ∨ dset.cards.length = 0 ∨
      (dset.isNumeric = true ∧ aset.suit = dset.suit)) := by
    intro hh
    obtain ⟨d3', w', l', r⟩ := resolveChallenge_total d hh
    rw [r] at h
    simp at h
  have hz : aset.kind ≠ CardKindZombie := fun e => key (Or.inl e)
  have hs : aset.kind ≠ CardKindShotgun := fun e => key (Or.inr (Or.inl e))
  have hv : dset.kind ≠ CardKindVaccine := fun e => key (Or.inr (Or.inr (Or.inl e)))
  have hc : dset.cards.length ≠ 0 := fun e => key (Or.inr (Or.inr (Or.inr (Or.inl e))))
  have hn : dset.isNumeric = false ∨ aset.suit ≠ dset.suit := by
    cases hn : dset.isNumeric with
    | false => exact Or.inl rfl
    | true => exact Or.inr (fun e => key (Or.inr (Or.inr (Or.inr (Or.inr ⟨hn, e⟩)))))
  refine ⟨?_, hz, hs, hv, hc, hn⟩
  cases hnum : dset.isNumeric with
  | false =>
    rw [resolve_error_shape d hz hs hv hc hnum] at h
    simp only [Prod.mk.injEq] at h
    exact h.1.symm
  | true =>
    have hsuit : aset.suit ≠ dset.suit := by
      rcases hn with hn | hn
      · rw [hnum] at hn; exact absurd hn (by decide)
      · exact hn
    rw [resolve_error_suit d hz hs hv hc hnum hsuit] at h
    simp only [Prod.mk.injEq] at h
    exact h.1.symm

/-- A call whose stages all succeed returns the settled duel. -/
theorem Challenge_of_stages {g : Game} {opts : ChallengeOptions} {att dfd att1 dfd1 : Player}
    {acards dcards : List Card} {aset dset : playedSet} {d3 : Duel} {w l : Option Side}
    (hne : opts.AttackerID ≠ opts.DefenderID)
    (hpa : g.playerByID opts.AttackerID = .ok att)
    (hpd : g.playerByID opts.DefenderID = .ok dfd)
    (ha0 : opts.AttackerCards ≠ [])
    (hra : removeCardsByIndices att opts.AttackerCards = (att1, .ok acards))
    (has : analyzePlayedSet acards true = .ok aset)
    (hrd : removeCardsByIndices dfd opts.DefenderCards = (dfd1, .ok dcards))
    (hds : analyzeDefenseSet dcards = .ok dset)
    (hres : resolveChallenge (duelAtResolve g opts att1 dfd1 acards dcards) aset dset =
      (d3, ⟨w, l, none⟩)) :
    Challenge g opts = (g.commit opts (settleChallenge d3 ⟨w, l, none⟩),
      .ok (settleChallenge d3 ⟨w, l, none⟩).outcome) := by
  unfold Challenge
  rw [if_neg hne, hpa]
  simp only
  rw [hpd]
  simp only
  rw [if_neg (fun e => ha0 (List.length_eq_zero.mp e)), hra]
  simp only
  rw [has]
  simp only
  rw [hrd]
  simp only
  rw [hds]
  simp only
  unfold duelAtResolve at hres
  rw [hres]

/-! ## Calls that return an error -/

theorem removeCardsLoop_error_sublist :
    ∀ (L : List Int) (p : Player) (seen : List Int) (removed : List Card) (p1 : Player)
      (e : String),
      removeCardsLoop L p seen removed = (p1, .error e) → p1.Hand.Sublist p.Hand
  | [], p, seen, removed, p1, e, h => by simp [removeCardsLoop] at h
  | idx :: rest, p, seen, removed, p1, e, h => by
    rw [removeCardsLoop] at h
    split at h
    · simp only [Prod.mk.injEq] at h; rw [← h.1]
    · split at h
      · rename_i p2 e2 hrm
        simp only [Prod.mk.injEq] at h
        rw [← h.1, RemoveCardAt_error hrm]
      · rename_i p2 card hrm
        have := removeCardsLoop_error_sublist rest p2 _ _ p1 e h
        rw [(RemoveCardAt_ok hrm).2.2] at this
        exact this.trans (List.eraseIdx_sublist _ _)

/-- A removal that fails was given a repeated or out-of-range index; it
changes nothing but the hand, from which it may have taken cards. -/
theorem removeCardsByIndices_error {p p1 : Player} {indices : List Int} {e : String}
    (h : removeCardsByIndices p indices = (p1, .error e)) :
    p1 = { p with Hand := p1.Hand } ∧ p1.Hand.Sublist p.Hand ∧
      ¬ (indices.Nodup ∧ ∀ i ∈ indices, 0 ≤ i ∧ i < (p.Hand.length : Int)) := by
  refine ⟨?_, ?_, ?_⟩
  · unfold removeCardsByIndices at h
    split at h
    · simp at h
    · unfold Player.RemoveCards at h
      split at h
      · simp at h
      · split at h
        · rename_i p2 e2 hl
          simp only [Prod.mk.injEq] at h
          rw [← h.1]
          exact removeCardsLoop_error _ _ _ _ _ _ hl
        · simp at h
  · unfold removeCardsByIndices at h
    split at h
    · simp at h
    · unfold Player.RemoveCards at h
      split at h
      · simp at h
      · split at h
        · rename_i p2 e2 hl
          simp only [Prod.mk.injEq] at h
          rw [← h.1]
          exact removeCardsLoop_error_sublist _ _ _ _ _ _ hl
        · simp at h
  · rintro ⟨hnd, hr⟩
    obtain ⟨p2, h2, -⟩ := removeCardsByIndices_valid p hnd hr
    rw [h2] at h
    simp at h

/-- Anatomy of a call that returns an error: either nothing was touched, or
the two players were written back with their hands as the failing stage
left them: the attacker's hand cut short by a failed removal, or restored
and sorted; the defender's hand untouched, cut short by a failed removal,
or restored and sorted. -/
theorem Challenge_error {g g1 : Game} {opts : ChallengeOptions} {e : String}
    (h : Challenge g opts = (g1, .error e)) :
    g1 = g ∨
    ∃ (att dfd att2 dfd2 : Player), opts.AttackerID ≠ opts.DefenderID ∧
      g.playerByID opts.AttackerID = .ok att ∧ g.playerByID opts.DefenderID = .ok dfd ∧
      g1 = { g with Players :=
        (g.Players.set opts.AttackerID.toNat att2).set opts.DefenderID.toNat dfd2 } ∧
      ((removeCardsByIndices att opts.AttackerCards = (att2, .error e) ∧ dfd2 = dfd) ∨
        (∃ att1, removeCardsByIndices att opts.AttackerCards =
            (att1, .ok (cardsAt att.Hand opts.AttackerCards)) ∧
          att2 = restoreHand att1 (cardsAt att.Hand opts.AttackerCards) ∧
          ((analyzePlayedSet (cardsAt att.Hand opts.AttackerCards) true = .error e ∧
              dfd2 = dfd) ∨
            removeCardsByIndices dfd opts.DefenderCards = (dfd2, .error e) ∨
            (∃ dfd1, removeCardsByIndices dfd opts.DefenderCards =
                (dfd1, .ok (cardsAt dfd.Hand opts.DefenderCards)) ∧
              dfd2 = restoreHand dfd1 (cardsAt dfd.Hand opts.DefenderCards))))) := by
  unfold Challenge at h
  split at h
  · simp only [Prod.mk.injEq] at h; exact Or.inl h.1.symm
  · rename_i hne
    split at h
    · simp only [Prod.mk.injEq] at h; exact Or.inl h.1.symm
    · rename_i att hatt
      split at h
      · simp only [Prod.mk.injEq] at h; exact Or.inl h.1.symm
      · rename_i dfd hdfd
        split at h
        · simp only [Prod.mk.injEq] at h; exact Or.inl h.1.symm
        · right
          split at h
          · rename_i att1 e1 hra
            simp only [Prod.mk.injEq, Except.error.injEq] at h
            obtain ⟨h1, h2⟩ := h
            subst h2
            exact ⟨att, dfd, att1, dfd, hne, hatt, hdfd, h1.symm, Or.inl ⟨hra, rfl⟩⟩
          · rename_i att1 acards hra
            have ea := (removeCardsByIndices_ok hra).1
            subst ea
            split at h
            · rename_i e1 has
              simp only [Prod.mk.injEq, Except.error.injEq] at h
              obtain ⟨h1, h2⟩ := h
              subst h2
              exact ⟨att, dfd, _, dfd, hne, hatt, hdfd, h1.symm,
                Or.inr ⟨att1, hra, rfl, Or.inl ⟨has, rfl⟩⟩⟩
            · rename_i aset has
              split at h
              · rename_i dfd1 e1 hrd
                simp only [Prod.mk.injEq, Except.error.injEq] at h
                obtain ⟨h1, h2⟩ := h
                subst h2
                exact ⟨att, dfd, _, dfd1, hne, hatt, hdfd, h1.symm,
                  Or.inr ⟨att1, hra, rfl, Or.inr (Or.inl hrd)⟩⟩
              · rename_i dfd1 dcards hrd
                have ed := (removeCardsByIndices_ok hrd).1
                subst ed
                split at h
                · rename_i e1 hds
                  simp only [Prod.mk.injEq, Except.error.injEq] at h
                  obtain ⟨h1, h2⟩ := h
                  exact ⟨att, dfd, _, _, hne, hatt, hdfd, h1.symm,
                    Or.inr ⟨att1, hra, rfl, Or.inr (Or.inr ⟨dfd1, hrd, rfl⟩)⟩⟩
                · rename_i dset hds
                  dsimp only at h
                  generalize hres : resolveChallenge _ aset dset = res at h
                  obtain ⟨d3, ⟨w, l, err⟩⟩ := res
                  cases err with
                  | none => simp at h
                  | some e2 =>
                    simp only [Prod.mk.injEq, Except.error.injEq] at h
                    obtain ⟨h1, h2⟩ := h
                    obtain ⟨hd3, -⟩ := resolveChallenge_error hres
                    subst hd3
                    exact ⟨att, dfd, _, _, hne, hatt, hdfd, h1.symm,
                      Or.inr ⟨att1, hra, rfl, Or.inr (Or.inr ⟨dfd1, hrd, rfl⟩)⟩⟩

/-- C13 fails on the program: the attacker of `zombieVsHuman` selects index
0 twice; the call returns an error, yet the spade 9 at index 0 is gone from
the attacker's hand, which went from four cards to three. -/
theorem failed_challenge_loses_card :
    ∃ g1 e att2, Challenge zombieVsHuman ⟨0, 1, [0, 0], []⟩ = (g1, .error e) ∧
      g1.Players[0]? = some att2 ∧
      att2.Hand = [⟨CardKindNumber, SuitSpade, 8⟩, Card.ofKind CardKindZombie,
        Card.ofKind CardKindShotgun] ∧
      zombieVsHuman.Players[0]? = some (examplePlayer 0 "A" IdentityZombie
        [⟨CardKindNumber, SuitSpade, 9⟩, ⟨CardKindNumber, SuitSpade, 8⟩,
          Card.ofKind CardKindZombie, Card.ofKind CardKindShotgun]) :=
  ⟨_, _, _, rfl, rfl, rfl, rfl⟩

/-- Suit and kind of an accepted play that holds a number card. -/
theorem analyzePlayedSet_number {cards : List Card} {attacker : Bool} {s : playedSet}
    (h : analyzePlayedSet cards attacker = .ok s) {c : Card} (hc : c ∈ cards)
    (hk : c.Kind = CardKindNumber) :
    s.kind = CardKindNumber ∧ s.isNumeric = true ∧ s.cards = cards ∧ c.Suit = s.suit := by
  obtain ⟨h1, h2⟩ := analyzePlayedSet_ok h
  rcases h2 with ⟨hkind, hn, -, -, hall, -⟩ | ⟨c2, hc2, hck, -⟩
  · exact ⟨hkind, hn, h1, (hall c hc).2⟩
  · rw [hc2, List.mem_singleton] at hc
    subst hc
    exact absurd hk hck

/-- On distinct in-range selections of two distinct living players a call
succeeds exactly when the plays are legal and their suits agree. -/
theorem Challenge_succeeds_iff (g : Game) (opts : ChallengeOptions) (att dfd : Player)
    (hne : opts.AttackerID ≠ opts.DefenderID)
    (hpa : g.playerByID opts.AttackerID = .ok att)
    (hpd : g.playerByID opts.DefenderID = .ok dfd)
    (ha0 : opts.AttackerCards ≠ [])
    (hand : opts.AttackerCards.Nodup)
    (har : ∀ i ∈ opts.AttackerCards, 0 ≤ i ∧ i < (att.Hand.length : Int))
    (hdnd : opts.DefenderCards.Nodup)
    (hdr : ∀ i ∈ opts.DefenderCards, 0 ≤ i ∧ i < (dfd.Hand.length : Int)) :
    (∃ g1 o, Challenge g opts = (g1, .ok o)) ↔
      (LegalAttack (cardsAt att.Hand opts.AttackerCards) ∧
        LegalDefence (cardsAt dfd.Hand opts.DefenderCards) ∧
        SuitsAgree (cardsAt att.Hand opts.AttackerCards)
          (cardsAt dfd.Hand opts.DefenderCards)) := by
  constructor
  · rintro ⟨g1, o, h⟩
    obtain ⟨att', dfd', att1, dfd1, acards, dcards, aset, dset, d3, w, l, -, hpa', hpd', hra,
      has, hrd, hds, hres, -, -⟩ := Challenge_ok h
    rw [hpa] at hpa'
    rw [hpd] at hpd'
    simp only [Except.ok.injEq] at hpa' hpd'
    subst hpa' hpd'
    obtain ⟨ea, -⟩ := removeCardsByIndices_ok hra
    obtain ⟨ed, -⟩ := removeCardsByIndices_ok hrd
    subst ea ed
    refine ⟨(analyzePlayedSet_attack _).mp ⟨aset, has⟩,
      (analyzeDefenseSet_defence _).mp ⟨dset, hds⟩, ?_⟩
    intro a ha d hd hak hdk
    obtain ⟨a1, -, -, a4⟩ := analyzePlayedSet_number has ha hak
    rcases analyzeDefenseSet_ok hds with ⟨h0, -⟩ | ⟨-, hds2⟩
    · rw [h0] at hd; exact absurd hd (List.not_mem_nil _)
    · obtain ⟨b1, b2, b3, b4⟩ := analyzePlayedSet_number hds2 hd hdk
      rw [a4, b4]
      by_contra hsuit
      rw [resolve_error_suit _ (by rw [a1]; decide) (by rw [a1]; decide)
        (by rw [b1]; decide)
        (by rw [b3]; exact fun e => List.ne_nil_of_mem hd (List.length_eq_zero.mp e))
        b2 hsuit] at hres
      simp at hres
  · rintro ⟨hla, hld, hsa⟩
    obtain ⟨att1, hra, -, -⟩ := removeCardsByIndices_valid att hand har
    obtain ⟨dfd1, hrd, -, -⟩ := removeCardsByIndices_valid dfd hdnd hdr
    obtain ⟨aset, has⟩ := (analyzePlayedSet_attack _).mpr hla
    obtain ⟨dset, hds⟩ := (analyzeDefenseSet_defence _).mpr hld
    have htot : aset.kind = CardKindZombie ∨ aset.kind = CardKindShotgun ∨
        dset.kind = CardKindVaccine ∨ dset.cards.length = 0 ∨
        (dset.isNumeric = true ∧ aset.suit = dset.suit) := by
      rcases hla with ⟨hne1, -, suit, hall⟩ | ⟨c, hc, hk⟩
      · rcases hld with h0 | ⟨v, hv, hvk⟩ | ⟨hne2, -, suit2, hall2⟩
        · rw [h0] at hds
          simp only [analyzeDefenseSet, List.length_nil, if_true, Except.ok.injEq] at hds
          subst hds
          exact Or.inr (Or.inr (Or.inr (Or.inl rfl)))
        · exact Or.inr (Or.inr (Or.inl ((analyzeDefenseSet_vaccine hds).mpr ⟨v, hv, hvk⟩)))
        · obtain ⟨a, ha⟩ := List.exists_mem_of_ne_nil _ hne1
          obtain ⟨d, hd⟩ := List.exists_mem_of_ne_nil _ hne2
          obtain ⟨-, -, -, a4⟩ := analyzePlayedSet_number has ha (hall a ha).1
          rcases analyzeDefenseSet_ok hds with ⟨h0, -⟩ | ⟨-, hds2⟩
          · exact absurd h0 hne2
          · obtain ⟨-, b2, -, b4⟩ := analyzePlayedSet_number hds2 hd (hall2 d hd).1
            refine Or.inr (Or.inr (Or.inr (Or.inr ⟨b2, ?_⟩)))
            rw [← a4, ← b4]
            exact hsa a ha d hd (hall a ha).1 (hall2 d hd).1
      · obtain ⟨first, rest, hfr, hkind⟩ := analyzePlayedSet_kind has
        rw [hc] at hfr
        simp only [List.cons.injEq] at hfr
        rw [← hfr.1] at hkind
        rcases hk with hk | hk
        · exact Or.inl (by rw [hkind, hk])
        · exact Or.inr (Or.inl (by rw [hkind, hk]))
    obtain ⟨d3, w, l, hres⟩ := resolveChallenge_total
      (duelAtResolve g opts att1 dfd1 (cardsAt att.Hand opts.AttackerCards)
        (cardsAt dfd.Hand opts.DefenderCards)) htot
    exact ⟨_, _, Challenge_of_stages hne hpa hpd ha0 hra has hrd hds hres⟩

/-- C14: when attacker and defender are distinct living players of the
game, the attacker selects at least one index and both selections are
distinct in-range indices, the call succeeds exactly when the attacker's
cards are a legal attack, the defender's cards a legal defence, and number
cards played by both sides are of one suit. -/
theorem valid_challenge (g : Game) (opts : ChallengeOptions) (att dfd : Player)
    (hne : opts.AttackerID ≠ opts.DefenderID)
    (hpa : g.playerByID opts.AttackerID = .ok att)
    (hpd : g.playerByID opts.DefenderID = .ok dfd)
    (ha0 : opts.AttackerCards ≠ [])
    (hand : opts.AttackerCards.Nodup)
    (har : ∀ i ∈ opts.AttackerCards, 0 ≤ i ∧ i < (att.Hand.length : Int))
    (hdnd : opts.DefenderCards.Nodup)
    (hdr : ∀ i ∈ opts.DefenderCards, 0 ≤ i ∧ i < (dfd.Hand.length : Int)) :
    (∃ g1 o, Challenge g opts = (g1, .ok o)) ↔
      (LegalAttack (cardsAt att.Hand opts.AttackerCards) ∧
        LegalDefence (cardsAt dfd.Hand opts.DefenderCards) ∧
        SuitsAgree (cardsAt att.Hand opts.AttackerCards)
          (cardsAt dfd.Hand opts.DefenderCards)) :=
  Challenge_succeeds_iff g opts att dfd hne hpa hpd ha0 hand har hdnd hdr

theorem valid_challenge_witness :
    (∃ g1 o, Challenge spadeDuel ⟨0, 1, [0, 1], [0, 1]⟩ = (g1, .ok o)) ↔
      (LegalAttack [⟨CardKindNumber, SuitSpade, 9⟩, ⟨CardKindNumber, SuitSpade, 8⟩] ∧
        LegalDefence [⟨CardKindNumber, SuitSpade, 5⟩, ⟨CardKindNumber, SuitSpade, 4⟩] ∧
        SuitsAgree [⟨CardKindNumber, SuitSpade, 9⟩, ⟨CardKindNumber, SuitSpade, 8⟩]
          [⟨CardKindNumber, SuitSpade, 5⟩, ⟨CardKindNumber, SuitSpade, 4⟩]) :=
  valid_challenge spadeDuel ⟨0, 1, [0, 1], [0, 1]⟩
    (examplePlayer 0 "A" IdentityHuman
      [⟨CardKindNumber, SuitSpade, 9⟩, ⟨CardKindNumber, SuitSpade, 8⟩,
        ⟨CardKindNumber, SuitSpade, 13⟩, ⟨CardKindNumber, SuitHeart, 2⟩])
    (examplePlayer 1 "B" IdentityHuman
      [⟨CardKindNumber, SuitSpade, 5⟩, ⟨CardKindNumber, SuitSpade, 4⟩,
        ⟨CardKindNumber, SuitSpade, 12⟩, ⟨CardKindNumber, SuitClub, 7⟩])
    (by decide) rfl rfl (by decide) (by decide) (by decide) (by decide) (by decide)

/-! ## Selections of hand indices -/

theorem mem_cardsAt {hand : List Card} {indices : List Int} {c : Card} :
    c ∈ cardsAt hand indices ↔ ∃ i ∈ indices, handCard hand i = some c := by
  unfold cardsAt
  rw [List.mem_filterMap]
  constructor
  · rintro ⟨i, hi, hc⟩
    exact ⟨i, (List.perm_insertionSort _ _).mem_iff.mp hi, hc⟩
  · rintro ⟨i, hi, hc⟩
    exact ⟨i, (List.perm_insertionSort _ _).mem_iff.mpr hi, hc⟩

theorem cardsAt_of_sorted (hand : List Card) {indices : List Int}
    (h : indices.Pairwise (fun a b => a < b)) :
    cardsAt hand indices = indices.filterMap (handCard hand) := by
  unfold cardsAt
  rw [List.Sorted.insertionSort_eq (h.imp (fun hab => le_of_lt hab))]

theorem filterMap_handCard_length (hand : List Card) :
    ∀ (indices : List Int), (∀ i ∈ indices, ∃ c, handCard hand i = some c) →
      (indices.filterMap (handCard hand)).length = indices.length
  | [], _ => rfl
  | i :: rest, h => by
    obtain ⟨c, hc⟩ := h i (List.mem_cons_self _ _)
    rw [List.filterMap_cons, hc]
    simp only [List.length_cons]
    rw [filterMap_handCard_length hand rest (fun j hj => h j (List.mem_cons_of_mem _ hj))]

theorem handCard_some {hand : List Card} {i : Int} {c : Card}
    (h : handCard hand i = some c) : 0 ≤ i ∧ i < (hand.length : Int) ∧ c ∈ hand := by
  unfold handCard at h
  split at h
  · simp at h
  · have := (List.getElem?_eq_some_iff.mp h).1
    exact ⟨by omega, by omega, List.getElem?_mem h⟩

/-- A number selection is a legal attack and a legal defence, made of
distinct in-range indices. -/
theorem NumberSelection.spec {hand : List Card} {indices : List Int} {suit : Suit}
    (h : NumberSelection hand indices suit) :
    indices.Nodup ∧ (∀ i ∈ indices, 0 ≤ i ∧ i < (hand.length : Int)) ∧
      isNumberPlay (cardsAt hand indices) ∧
      (∀ c ∈ cardsAt hand indices, c.Kind = CardKindNumber ∧ c.Suit = suit) := by
  obtain ⟨hne, hlen, hs, hall⟩ := h
  have hmem : ∀ c ∈ cardsAt hand indices, c.Kind = CardKindNumber ∧ c.Suit = suit := by
    intro c hc
    obtain ⟨i, hi, hci⟩ := mem_cardsAt.mp hc
    obtain ⟨c2, h2, h3⟩ := hall i hi
    rw [hci] at h2
    cases h2
    exact h3
  have hl : (cardsAt hand indices).length = indices.length := by
    rw [cardsAt_of_sorted hand hs]
    exact filterMap_handCard_length hand indices
      (fun i hi => (hall i hi).imp (fun c hc => hc.1))
  refine ⟨hs.imp (fun hab => ne_of_lt hab), ?_, ⟨?_, by omega, suit, hmem⟩, hmem⟩
  · intro i hi
    obtain ⟨c, hc, -⟩ := hall i hi
    exact ⟨(handCard_some hc).1, (handCard_some hc).2.1⟩
  · intro e
    rw [e] at hl
    exact hne (List.length_eq_zero.mp hl.symm)

theorem uniqueSortedLoop_none (handSize : Int) :
    ∀ (L : List Int) (prev : Option Int), L.Pairwise (fun a b => a ≤ b) →
      (∀ p, prev = some p → ∀ i ∈ L, p ≤ i) →
      uniqueSortedLoop handSize prev L = none →
      L.Pairwise (fun a b => a < b) ∧ (∀ p, prev = some p → ∀ i ∈ L, p < i) ∧
        ∀ i ∈ L, 0 ≤ i ∧ i < handSize
  | [], _, _, _, _ => by simp
  | idx :: rest, prev, hs, hp, h => by
    rw [uniqueSortedLoop] at h
    split at h
    · simp at h
    · rename_i hr
      split at h
      · simp at h
      · rename_i hprev
        obtain ⟨hle, hs'⟩ := List.pairwise_cons.mp hs
        obtain ⟨ih1, ih2, ih3⟩ := uniqueSortedLoop_none handSize rest (some idx) hs'
          (fun p hp2 i hi => by cases hp2; exact hle i hi) h
        refine ⟨List.pairwise_cons.mpr ⟨fun i hi => ih2 idx rfl i hi, ih1⟩, ?_, ?_⟩
        · intro p hp2 i hi
          have h1 : p ≤ idx := hp p hp2 idx (List.mem_cons_self _ _)
          have h2 : p ≠ idx := fun e => hprev (by rw [hp2, e])
          rcases List.mem_cons.mp hi with e | hi
          · rw [e]; omega
          · have := ih2 idx rfl i hi
            omega
        · intro i hi
          rcases List.mem_cons.mp hi with e | hi
          · rw [e]; omega
          · exact ih3 i hi

/-- An accepted selection is the input sorted: strictly ascending indices
of the hand. -/
theorem uniqueSortedIndices_ok {indices out : List Int} {handSize : Int}
    (h : uniqueSortedIndices indices handSize = .ok out) :
    out = indices.insertionSort (fun a b => a ≤ b) ∧ out.Pairwise (fun a b => a < b) ∧
      (∀ i ∈ out, 0 ≤ i ∧ i < handSize) ∧ out.Perm indices := by
  unfold uniqueSortedIndices at h
  split at h
  · simp at h
  · rename_i hl
    simp only [Except.ok.injEq] at h
    subst h
    obtain ⟨h1, -, h3⟩ := uniqueSortedLoop_none handSize _ none
      (List.sorted_insertionSort _ _) (fun p hp => by simp at hp) hl
    exact ⟨rfl, h1, h3, List.perm_insertionSort _ _⟩

theorem ensureNumericLoop_ok (hand : List Card) (suit : Suit) :
    ∀ (L : List Int), ensureNumericLoop hand suit L = some none →
      ∀ i ∈ L, ∃ c, handCard hand i = some c ∧ c.Kind = CardKindNumber ∧ c.Suit = suit
  | [], _ => by simp
  | idx :: rest, h => by
    rw [ensureNumericLoop] at h
    split at h
    · simp at h
    · rename_i card hc
      split at h
      · simp at h
      · rename_i hk
        split at h
        · simp at h
        · rename_i hsu
          intro i hi
          rcases List.mem_cons.mp hi with e | hi
          · subst e
            exact ⟨card, hc, by simpa using hk, by simpa using hsu⟩
          · exact ensureNumericLoop_ok hand suit rest h i hi

theorem ensureNumericSelection_ok {player : Player} {indices : List Int} {suit : Suit}
    (h : ensureNumericSelection player indices = some (.ok suit)) :
    indices ≠ [] ∧
      ∀ i ∈ indices, ∃ c, handCard player.Hand i = some c ∧ c.Kind = CardKindNumber ∧
        c.Suit = suit := by
  unfold ensureNumericSelection at h
  split at h
  · simp at h
  · rename_i first rest
    split at h
    · simp at h
    · rename_i card hc
      split at h
      · simp at h
      · simp at h
      · rename_i hl
        simp only [Option.some.injEq, Except.ok.injEq] at h
        subst h
        exact ⟨by simp, ensureNumericLoop_ok _ _ _ hl⟩

theorem ensureDefenseLoop_ok (hand : List Card) (suit : Suit) :
    ∀ (L : List Int), ensureDefenseLoop hand suit L = some none →
      ∀ i ∈ L, ∃ c, handCard hand i = some c ∧ c.Kind = CardKindNumber ∧ c.Suit = suit
  | [], _ => by simp
  | idx :: rest, h => by
    rw [ensureDefenseLoop] at h
    split at h
    · simp at h
    · rename_i card hc
      split at h
      · simp at h
      · rename_i hk
        intro i hi
        rcases List.mem_cons.mp hi with e | hi
        · subst e
          refine ⟨card, hc, ?_, ?_⟩
          · by_contra hh; exact hk (Or.inl hh)
          · by_contra hh; exact hk (Or.inr hh)
        · exact ensureDefenseLoop_ok hand suit rest h i hi

theorem ensureDefenseMatchesSuit_ok {player : Player} {indices : List Int} {suit : Suit}
    (h : ensureDefenseMatchesSuit player indices suit = some none) :
    indices.length ≤ 5 ∧
      ∀ i ∈ indices, ∃ c, handCard player.Hand i = some c ∧ c.Kind = CardKindNumber ∧
        c.Suit = suit := by
  unfold ensureDefenseMatchesSuit at h
  split at h
  · simp at h
  · rename_i hl
    exact ⟨by omega, ensureDefenseLoop_ok _ _ _ h⟩

/-! ## The selections of the bots -/

theorem mem_suitCandidates {hand : List Card} {suit : Suit} {ic : Nat × Card} :
    ic ∈ suitCandidates hand suit ↔
      hand[ic.1]? = some ic.2 ∧ ic.2.Kind = CardKindNumber ∧ ic.2.Suit = suit := by
  unfold suitCandidates
  rw [List.mem_filter, List.mem_enum_iff_getElem?]
  simp

theorem suitCandidates_nodup (hand : List Card) (suit : Suit) :
    ((suitCandidates hand suit).map Prod.fst).Nodup := by
  have h : ((suitCandidates hand suit).map Prod.fst).Sublist (hand.enum.map Prod.fst) :=
    (List.filter_sublist _).map _
  rw [List.enum_map_fst] at h
  exact List.Nodup.sublist h (List.nodup_range _)

theorem handCard_natCast {hand : List Card} {i : Nat} {c : Card} (h : hand[i]? = some c) :
    handCard hand (i : Int) = some c := by
  unfold handCard
  rw [if_neg (by omega)]
  simpa using h

/-- Positions taken from the candidates of a suit, as hand indices: they
are distinct and each is a number card of the suit. -/
theorem candidate_indices {hand : List Card} {suit : Suit} {L : List (Nat × Card)}
    (hsub : ∀ ic ∈ L, ic ∈ suitCandidates hand suit) (hnd : (L.map Prod.fst).Nodup) :
    (L.map (fun ic => (ic.1 : Int))).Nodup ∧
      ∀ i ∈ L.map (fun ic => (ic.1 : Int)), ∃ c, handCard hand i = some c ∧
        c.Kind = CardKindNumber ∧ c.Suit = suit := by
  constructor
  · have : L.map (fun ic => (ic.1 : Int)) = List.map Int.ofNat (List.map Prod.fst L) := by
      rw [List.map_map]; rfl
    rw [this]
    exact hnd.map (fun a b hab => Int.ofNat.inj hab)
  · intro i hi
    rw [List.mem_map] at hi
    obtain ⟨ic, hic, e⟩ := hi
    subst e
    obtain ⟨h1, h2, h3⟩ := mem_suitCandidates.mp (hsub ic hic)
    exact ⟨ic.2, handCard_natCast h1, h2, h3⟩

theorem sortByValueDesc_perm (L : List (Nat × Card)) : (sortByValueDesc L).Perm L :=
  List.perm_insertionSort _ _

theorem uniquePrefixLoop_spec (n : Nat) :
    ∀ (L selected seen : List Int), selected.Nodup → (∀ x ∈ selected, x ∈ seen) →
      selected.length ≤ n →
      (uniquePrefixLoop n L selected seen).Nodup ∧
        (∀ x ∈ uniquePrefixLoop n L selected seen, x ∈ selected ∨ x ∈ L) ∧
        (uniquePrefixLoop n L selected seen).length ≤ n
  | [], selected, seen, hnd, _, hlen => by
    simp only [uniquePrefixLoop]
    exact ⟨hnd, fun x hx => Or.inl hx, hlen⟩
  | idx :: rest, selected, seen, hnd, hseen, hlen => by
    rw [uniquePrefixLoop]
    split
    · exact ⟨hnd, fun x hx => Or.inl hx, hlen⟩
    · rename_i hl
      split
      · obtain ⟨h1, h2, h3⟩ := uniquePrefixLoop_spec n rest selected seen hnd hseen hlen
        exact ⟨h1, fun x hx => (h2 x hx).imp id (List.mem_cons_of_mem _), h3⟩
      · rename_i hns
        obtain ⟨h1, h2, h3⟩ := uniquePrefixLoop_spec n rest (selected ++ [idx]) (idx :: seen)
          (by
            rw [List.nodup_append]
            refine ⟨hnd, List.nodup_singleton _, ?_⟩
            intro a ha hb
            rw [List.mem_singleton] at hb
            subst hb
            exact hns (hseen a ha))
          (by
            intro x hx
            rcases List.mem_append.mp hx with hx | hx
            · exact List.mem_cons_of_mem _ (hseen x hx)
            · rw [List.mem_singleton] at hx; rw [hx]; exact List.mem_cons_self _ _)
          (by simp only [List.length_append, List.length_singleton]; omega)
        refine ⟨h1, ?_, h3⟩
        intro x hx
        rcases h2 x hx with hx | hx
        · rcases List.mem_append.mp hx with hx | hx
          · exact Or.inl hx
          · rw [List.mem_singleton] at hx; rw [hx]; exact Or.inr (List.mem_cons_self _ _)
        · exact Or.inr (List.mem_cons_of_mem _ hx)

theorem sorted_nodup_strict {L : List Int} (hnd : L.Nodup) :
    (L.insertionSort (fun a b => a ≤ b)).Pairwise (fun a b => a < b) := by
  have hs : (L.insertionSort (fun a b => a ≤ b)).Pairwise (fun a b => a ≤ b) :=
    List.sorted_insertionSort _ _
  have hn : (L.insertionSort (fun a b => a ≤ b)).Pairwise (fun a b => a ≠ b) :=
    (List.perm_insertionSort _ _).nodup_iff.mpr hnd
  exact (hs.and hn).imp (fun h => lt_of_le_of_ne h.1 h.2)

/-- The defence a bot selects: strictly ascending indices of number cards
of the suit, no more than the limit. -/
theorem selectBotDefenseIndices_spec (player : Player) (suit : Suit) (limit : Nat) :
    (selectBotDefenseIndices player suit limit).Pairwise (fun a b => a < b) ∧
      (selectBotDefenseIndices player suit limit).length ≤ limit ∧
      ∀ i ∈ selectBotDefenseIndices player suit limit, ∃ c,
        handCard player.Hand i = some c ∧ c.Kind = CardKindNumber ∧ c.Suit = suit := by
  unfold selectBotDefenseIndices
  split
  · simp
  · obtain ⟨c1, c2⟩ := @candidate_indices player.Hand suit
      (sortByValueDesc (suitCandidates player.Hand suit))
      (fun ic hic => (sortByValueDesc_perm _).mem_iff.mp hic)
      (((sortByValueDesc_perm _).map _).nodup_iff.mpr (suitCandidates_nodup _ _))
    obtain ⟨h1, h2, h3⟩ := uniquePrefixLoop_spec
      (if limit > (suitCandidates player.Hand suit).length then
        (suitCandidates player.Hand suit).length else limit)
      ((sortByValueDesc (suitCandidates player.Hand suit)).map (fun ic => (ic.1 : Int)))
      [] [] List.nodup_nil (fun x hx => absurd hx (List.not_mem_nil _)) (Nat.zero_le _)
    unfold uniquePrefix
    refine ⟨sorted_nodup_strict h1, ?_, ?_⟩
    · rw [(List.perm_insertionSort _ _).length_eq]
      refine le_trans h3 ?_
      split <;> omega
    · intro i hi
      have hi2 := (List.perm_insertionSort _ _).mem_iff.mp hi
      rcases h2 i hi2 with hx | hx
      · exact absurd hx (List.not_mem_nil _)
      · exact c2 i hx

/-- The defence a bot selects against a play of at most five cards is empty
or a number selection of the suit. -/
theorem selectBotDefenseIndices_selection (player : Player) (suit : Suit) {limit : Nat}
    (hl : limit ≤ 5) :
    selectBotDefenseIndices player suit limit = [] ∨
      NumberSelection player.Hand (selectBotDefenseIndices player suit limit) suit := by
  obtain ⟨h1, h2, h3⟩ := selectBotDefenseIndices_spec player suit limit
  by_cases he : selectBotDefenseIndices player suit limit = []
  · exact Or.inl he
  · exact Or.inr ⟨he, by omega, h1, h3⟩

theorem strongestLoop_spec (hand : List Card) :
    ∀ (suits : List Suit) (best : Int × Suit × List Int),
      (best.2.2.Nodup ∧ best.2.2.length ≤ 5 ∧
        ∀ i ∈ best.2.2, ∃ c, handCard hand i = some c ∧ c.Kind = CardKindNumber ∧
          c.Suit = best.2.1) →
      ((strongestLoop hand suits best).2.2.Nodup ∧
        (strongestLoop hand suits best).2.2.length ≤ 5 ∧
        ∀ i ∈ (strongestLoop hand suits best).2.2, ∃ c, handCard hand i = some c ∧
          c.Kind = CardKindNumber ∧ c.Suit = (strongestLoop hand suits best).2.1)
  | [], best, h => by simpa [strongestLoop] using h
  | suit :: rest, best, h => by
    rw [strongestLoop]
    split
    · apply strongestLoop_spec hand rest
      obtain ⟨c1, c2⟩ := @candidate_indices hand suit
        ((sortByValueDesc (suitCandidates hand suit)).take 5)
        (fun ic hic => (sortByValueDesc_perm _).mem_iff.mp (List.mem_of_mem_take hic))
        (List.Nodup.sublist ((List.take_sublist _ _).map _)
          (((sortByValueDesc_perm _).map _).nodup_iff.mpr (suitCandidates_nodup _ _)))
      refine ⟨c1, ?_, c2⟩
      simp only [List.length_map, List.length_take]
      omega
    · exact strongestLoop_spec hand rest best h

/-- The play a bot selects is empty or a number selection of the suit it
returns. -/
theorem selectStrongestNumericSet_selection (player : Player) (order : List Suit) :
    (selectStrongestNumericSet player order).2 = [] ∨
      NumberSelection player.Hand (selectStrongestNumericSet player order).2
        (selectStrongestNumericSet player order).1 := by
  obtain ⟨h1, h2, h3⟩ := strongestLoop_spec player.Hand
    (iterationOrder (numberSuits player.Hand) order) (-1, "", [])
    ⟨List.nodup_nil, by simp, fun i hi => absurd hi (List.not_mem_nil _)⟩
  by_cases he : (selectStrongestNumericSet player order).2 = []
  · exact Or.inl he
  · refine Or.inr ⟨he, ?_, ?_, ?_⟩
    · unfold selectStrongestNumericSet
      simp only
      rw [(List.perm_insertionSort _ _).length_eq]
      exact h2
    · unfold selectStrongestNumericSet
      exact sorted_nodup_strict h1
    · intro i hi
      unfold selectStrongestNumericSet at hi ⊢
      exact h3 i ((List.perm_insertionSort _ _).mem_iff.mp hi)

theorem foldl_values_ge :
    ∀ (L : List (Nat × Card)) (acc : Int), 0 ≤ acc → acc + 13 * L.length < 2 ^ 62 →
      (∀ ic ∈ L, 1 ≤ ic.2.Value ∧ ic.2.Value ≤ 13) →
      acc + L.length ≤ L.foldl (fun a ic => wrapInt (a + ic.2.Value)) acc
  | [], acc, _, _, _ => by simp
  | ic :: rest, acc, h0, hb, hv => by
    obtain ⟨v1, v2⟩ := hv ic (List.mem_cons_self _ _)
    simp only [List.length_cons, Nat.cast_add, Nat.cast_one] at hb ⊢
    rw [List.foldl_cons, wrapInt_of_small (by omega) (by omega)]
    have := foldl_values_ge rest (acc + ic.2.Value) (by omega) (by omega)
      (fun x hx => hv x (List.mem_cons_of_mem _ hx))
    omega

theorem suitCandidates_ne_nil {hand : List Card} {suit : Suit} {c : Card} (hc : c ∈ hand)
    (hk : c.Kind = CardKindNumber) (hs : c.Suit = suit) : suitCandidates hand suit ≠ [] := by
  obtain ⟨i, hi⟩ := List.getElem?_of_mem hc
  have : (i, c) ∈ suitCandidates hand suit := mem_suitCandidates.mpr ⟨hi, hk, hs⟩
  exact List.ne_nil_of_mem this

theorem strongestLoop_found (hand : List Card)
    (hv : ∀ c ∈ hand, c.Kind = CardKindNumber → 1 ≤ c.Value ∧ c.Value ≤ 13) :
    ∀ (suits : List Suit) (best : Int × Suit × List Int),
      (∀ s ∈ suits, suitCandidates hand s ≠ []) →
      ((suits ≠ [] ∧ best.1 = -1) ∨ (1 ≤ best.1 ∧ best.2.2 ≠ [])) →
      1 ≤ (strongestLoop hand suits best).1 ∧ (strongestLoop hand suits best).2.2 ≠ []
  | [], best, _, h => by
    rcases h with ⟨h, -⟩ | h
    · exact absurd rfl h
    · simpa [strongestLoop] using h
  | suit :: rest, best, hs, h => by
    have hne : (sortByValueDesc (suitCandidates hand suit)).take 5 ≠ [] := by
      have h1 := hs suit (List.mem_cons_self _ _)
      have h2 : (sortByValueDesc (suitCandidates hand suit)).length =
          (suitCandidates hand suit).length := (sortByValueDesc_perm _).length_eq
      have h3 : 0 < (suitCandidates hand suit).length := List.length_pos.mpr h1
      intro e
      have := congrArg List.length e
      simp only [List.length_take, List.length_nil] at this
      omega
    have hscore : 1 ≤ ((sortByValueDesc (suitCandidates hand suit)).take 5).foldl
        (fun acc ic => wrapInt (acc + ic.2.Value)) 0 := by
      have hl : ((sortByValueDesc (suitCandidates hand suit)).take 5).length ≤ 5 := by
        simp only [List.length_take]; omega
      have hl2 : 0 < ((sortByValueDesc (suitCandidates hand suit)).take 5).length :=
        List.length_pos.mpr hne
      have := foldl_values_ge ((sortByValueDesc (suitCandidates hand suit)).take 5) 0
        (le_refl 0) (by
          have : (((sortByValueDesc (suitCandidates hand suit)).take 5).length : Int) ≤ 5 := by
            exact_mod_cast hl
          omega)
        (fun ic hic => by
          have hm := (sortByValueDesc_perm _).mem_iff.mp (List.mem_of_mem_take hic)
          obtain ⟨m1, m2, -⟩ := mem_suitCandidates.mp hm
          exact hv ic.2 (List.getElem?_mem m1) m2)
      omega
    rw [strongestLoop]
    split
    · apply strongestLoop_found hand hv rest _
        (fun s hs2 => hs s (List.mem_cons_of_mem _ hs2))
      right
      exact ⟨hscore, by simpa using hne⟩
    · rename_i hgt
      apply strongestLoop_found hand hv rest _
        (fun s hs2 => hs s (List.mem_cons_of_mem _ hs2))
      rcases h with ⟨-, h⟩ | h
      · rw [h] at hgt
        omega
      · exact Or.inr h

theorem mem_numberSuits {hand : List Card} {s : Suit} :
    s ∈ numberSuits hand ↔ ∃ c ∈ hand, c.Kind = CardKindNumber ∧ c.Suit = s := by
  unfold numberSuits
  rw [List.mem_dedup, List.mem_map]
  constructor
  · rintro ⟨c, hc, e⟩
    rw [List.mem_filter] at hc
    exact ⟨c, hc.1, by simpa using hc.2, e⟩
  · rintro ⟨c, hc, hk, e⟩
    exact ⟨c, List.mem_filter.mpr ⟨hc, by simpa using hk⟩, e⟩

theorem mem_iterationOrder {keys order : List Suit} {s : Suit} :
    s ∈ iterationOrder keys order ↔ s ∈ keys := by
  unfold iterationOrder
  simp only [List.mem_append, List.mem_filter, List.mem_dedup, decide_eq_true_eq]
  constructor
  · rintro (h | h)
    · exact h.2
    · exact h.1
  · intro h
    by_cases ho : s ∈ order
    · exact Or.inl ⟨ho, h⟩
    · exact Or.inr ⟨h, ho⟩

/-- A bot holding a number card, all of deck value, finds a play. -/
theorem selectStrongestNumericSet_ne_nil (player : Player) (order : List Suit)
    (hv : ∀ c ∈ player.Hand, c.Kind = CardKindNumber → 1 ≤ c.Value ∧ c.Value ≤ 13)
    {c : Card} (hc : c ∈ player.Hand) (hk : c.Kind = CardKindNumber) :
    (selectStrongestNumericSet player order).2 ≠ [] := by
  have hkeys : c.Suit ∈ iterationOrder (numberSuits player.Hand) order :=
    mem_iterationOrder.mpr (mem_numberSuits.mpr ⟨c, hc, hk, rfl⟩)
  obtain ⟨-, h2⟩ := strongestLoop_found player.Hand hv
    (iterationOrder (numberSuits player.Hand) order) (-1, "", [])
    (fun s hs => by
      obtain ⟨c2, hc2, hk2, hs2⟩ := mem_numberSuits.mp (mem_iterationOrder.mp hs)
      exact suitCandidates_ne_nil hc2 hk2 hs2)
    (Or.inl ⟨List.ne_nil_of_mem hkeys, rfl⟩)
  unfold selectStrongestNumericSet
  intro e
  apply h2
  have := congrArg List.length e
  rw [(List.perm_insertionSort _ _).length_eq] at this
  exact List.length_eq_zero.mp this

/-! ## Number cards keep their deck values -/

theorem buildNumberDeck_values (n : Nat) :
    ∀ c ∈ buildNumberDeck n, 1 ≤ c.Value ∧ c.Value ≤ 13 := by
  intro c hc
  simp only [buildNumberDeck, List.mem_flatten, List.mem_replicate] at hc
  obtain ⟨l, ⟨_, hl⟩, hc⟩ := hc
  subst hl
  simp only [buildNumberDeckCopy, List.mem_flatMap, List.mem_map, List.mem_range] at hc
  obtain ⟨suit, _, v, hv, e⟩ := hc
  rw [← e]
  simp at hv
  obtain ⟨a, ha, e2⟩ := hv
  subst e2
  simp only
  omega

theorem zipWith_AddCard_all (P : Card → Prop) :
    ∀ (ps : List Player) (cs : List Card),
      (∀ p ∈ ps, ∀ c ∈ p.Hand, P c) → (∀ c ∈ cs, P c) →
      ∀ q ∈ List.zipWith Player.AddCard ps cs, ∀ c ∈ q.Hand, P c
  | [], _, _, _ => by simp
  | p :: ps, [], _, _ => by simp
  | p :: ps, c :: cs, hp, hc => by
    intro q hq
    simp only [List.zipWith_cons_cons, List.mem_cons] at hq
    rcases hq with e | hq
    · subst e
      intro x hx
      simp only [Player.AddCard, List.mem_append, List.mem_singleton] at hx
      rcases hx with hx | hx
      · exact hp p (List.mem_cons_self _ _) x hx
      · rw [hx]; exact hc c (List.mem_cons_self _ _)
    · exact zipWith_AddCard_all P ps cs (fun p hp' => hp p (List.mem_cons_of_mem _ hp'))
        (fun c hc' => hc c (List.mem_cons_of_mem _ hc')) q hq

theorem dealLoop_all (P : Card → Prop) :
    ∀ (n i : Nat) (g g1 : Game), dealLoop n i g = .ok g1 →
      n * g.Players.length ≤ g.cardDeck.length →
      (∀ c ∈ g.cardDeck, P c) → (∀ p ∈ g.Players, ∀ c ∈ p.Hand, P c) →
      ∀ q ∈ g1.Players, ∀ c ∈ q.Hand, P c
  | 0, i, g, g1, h, _, _, hp => by
    simp only [dealLoop, Except.ok.injEq] at h
    subst h
    exact hp
  | n + 1, i, g, g1, h, hlen, hdeck, hp => by
    have hlen1 : g.Players.length ≤ g.cardDeck.length := by
      have : g.Players.length ≤ (n + 1) * g.Players.length :=
        Nat.le_mul_of_pos_left _ (by omega)
      omega
    rw [dealLoop, dealRound_ok i g.Players [] g hlen1] at h
    simp only [List.nil_append] at h
    have hlenz : (List.zipWith Player.AddCard g.Players
        (g.cardDeck.take g.Players.length)).length = g.Players.length := by
      simp [hlen1]
    exact dealLoop_all P n (i + 1) _ g1 h
      (by
        simp only [hlenz, List.length_drop]
        have : (n + 1) * g.Players.length = n * g.Players.length + g.Players.length := by
          ring
        omega)
      (fun c hc => hdeck c (List.mem_of_mem_drop hc))
      (zipWith_AddCard_all P _ _ hp (fun c hc => hdeck c (List.mem_of_mem_take hc)))

/-- A new game holds deck values only. -/
theorem NewGame_deckValues {names : List String} {rng : Rng} {g : Game}
    (h : NewGame names rng = .ok g) : g.DeckValues := by
  have hlen := NewGame_ok_length h
  rw [NewGame_of_length names rng hlen] at h
  have hpdeck : (shuffleCards (shuffleIdentities rng buildIdentityDeck).2
      (buildNumberDeck numericDeckCopies)).1.Perm (buildNumberDeck numericDeckCopies) :=
    Shuffle_perm _ _
  generalize hdk : (shuffleCards (shuffleIdentities rng buildIdentityDeck).2
      (buildNumberDeck numericDeckCopies)).1 = deck at *
  generalize (shuffleCards (shuffleIdentities rng buildIdentityDeck).2
      (buildNumberDeck numericDeckCopies)).2 = rng2 at *
  generalize (shuffleIdentities rng buildIdentityDeck).1 = identities at *
  have hplen : (names.enum.map (fun (x : Nat × String) =>
      newPlayer x.1 x.2 (identities.getD x.1 IdentityHuman))).length = 8 := by
    simp [List.enum_length, hlen]
  have hdlen : deck.length = 156 := by rw [hpdeck.length_eq, buildNumberDeck_length]
  have hnew : ∀ p ∈ names.enum.map (fun (x : Nat × String) =>
      newPlayer x.1 x.2 (identities.getD x.1 IdentityHuman)), p.Hand = [] := by
    intro p hp
    simp only [List.mem_map] at hp
    obtain ⟨x, _, hx⟩ := hp
    subst hx
    simp [newPlayer]
  obtain ⟨g1, d1, d2, d3, -⟩ := dealLoop_ok initialHandSize 0 0
    { Players := names.enum.map (fun (x : Nat × String) =>
        newPlayer x.1 x.2 (identities.getD x.1 IdentityHuman)),
      cardDeck := deck, cardDiscarded := [], Round := 0, MaxRounds := maxGameRounds,
      rng := rng2, logs := [] }
    (by simp only [hplen, hdlen, initialHandSize]; decide)
    (fun c hc => buildNumberDeck_number c (hpdeck.mem_iff.mp hc))
    (fun p hp => by simp [hnew p hp])
  have hval := dealLoop_all (fun c => 1 ≤ c.Value ∧ c.Value ≤ 13) initialHandSize 0 _ g1 d1
    (by simp only [hplen, hdlen, initialHandSize]; decide)
    (fun c hc => buildNumberDeck_values _ c (hpdeck.mem_iff.mp hc))
    (fun p hp c hc => by rw [hnew p hp] at hc; exact absurd hc (List.not_mem_nil _))
  rw [d1] at h
  simp only [Except.ok.injEq] at h
  subst h
  have hg1len : g1.Players.length = 8 := by
    have := congrArg List.length d2
    simpa [List.enum_length, hlen] using this
  obtain ⟨i0, i1, -, -, -, hseat⟩ := special_cards_getElem g1 (by omega)
  obtain ⟨-, -, f3⟩ := special_cards_frame g1
  intro p hp c hc hk
  obtain ⟨k, hkp⟩ := List.getElem?_of_mem hp
  have hk8 : k < g1.Players.length := by
    rw [← f3]; exact (List.getElem?_eq_some_iff.mp hkp).1
  obtain ⟨q, hq⟩ : ∃ q, g1.Players[k]? = some q := ⟨_, List.getElem?_eq_getElem hk8⟩
  have hq3 := d3 q (List.getElem?_mem hq)
  rw [hseat k q hq hq3.2] at hkp
  have e := Option.some.inj hkp
  subst e
  simp only [List.mem_append, List.mem_singleton] at hc
  rcases hc with ((hc | hc) | hc) | hc
  · exact hval q (List.getElem?_mem hq) c hc
  · rw [hc] at hk; exact absurd hk (by decide)
  · split at hc
    · rw [List.mem_singleton] at hc; rw [hc] at hk; exact absurd hk (by decide)
    · exact absurd hc (List.not_mem_nil _)
  · split at hc
    · rw [List.mem_singleton] at hc; rw [hc] at hk; exact absurd hk (by decide)
    · exact absurd hc (List.not_mem_nil _)

theorem Transfer_number_mem {winner winner2 loser loser2 : Player} {committed : List Card}
    {infection : Bool} {stolen : Option Card}
    (h : Transfer winner winner2 loser loser2 committed infection stolen) {c : Card}
    (hk : c.Kind = CardKindNumber) (hc : c ∈ winner2.Hand ∨ c ∈ loser2.Hand) :
    c ∈ winner.Hand ∨ c ∈ loser.Hand := by
  obtain ⟨h1, rest, h2, h3, -, h5⟩ := h
  have hrest : ∀ x ∈ rest, x ∈ loser.Hand := fun x hx =>
    h2.mem_iff.mpr (List.mem_append_right _ hx)
  rcases hc with hc | hc
  · have := h1.mem_iff.mp hc
    simp only [List.mem_append, Option.mem_toList] at this
    rcases this with (hw | hcm) | hst
    · exact Or.inl hw
    · exact Or.inr (h2.mem_iff.mpr (List.mem_append_left _ hcm))
    · exact Or.inr (hrest c (h5 c hst).2)
  · have : c ∈ rest ++ (if infection = true ∧ countKind CardKindZombie rest = 0 then
        [Card.ofKind CardKindZombie] else []) :=
      h3.mem_iff.mpr (List.mem_append_right _ hc)
    rcases List.mem_append.mp this with hr | hm
    · exact Or.inr (hrest c hr)
    · split at hm
      · rw [List.mem_singleton] at hm; rw [hm] at hk; exact absurd hk (by decide)
      · exact absurd hm (List.not_mem_nil _)

/-- Reading a list after two writes at different positions. -/
theorem getElem?_set_set {α : Type} (L : List α) {a d : Nat} (x y : α) (hne : a ≠ d)
    (ha : a < L.length) (hd : d < L.length) (k : Nat) :
    ((L.set a x).set d y)[k]? =
      if k = d then some y else if k = a then some x else L[k]? := by
  simp only [List.getElem?_set, List.length_set]
  by_cases hkd : k = d
  · subst hkd; simp [hd]
  · rw [if_neg (fun e => hkd e.symm), if_neg hkd]
    by_cases hka : k = a
    · subst hka; simp [ha]
    · rw [if_neg (fun e => hka e.symm), if_neg hka]

/-- What a failing call leaves of the hands: every player is who they
were, holding no card they did not hold before. -/
theorem Challenge_error_players {g g1 : Game} {opts : ChallengeOptions} {e : String}
    (h : Challenge g opts = (g1, .error e)) :
    g1 = { g with Players := g1.Players } ∧ g1.Players.length = g.Players.length ∧
      ∀ (k : Nat) (p1 : Player), g1.Players[k]? = some p1 →
        ∃ p, g.Players[k]? = some p ∧ p1 = { p with Hand := p1.Hand } ∧
          (∀ c ∈ p1.Hand, c ∈ p.Hand) ∧
          (k ≠ opts.AttackerID.toNat → k ≠ opts.DefenderID.toNat → p1 = p) := by
  rcases Challenge_error h with e1 | ⟨att, dfd, att2, dfd2, hne, hpa, hpd, hg1, hcase⟩
  · subst e1
    exact ⟨rfl, rfl, fun k p1 hp1 => ⟨p1, hp1, rfl, fun c hc => hc, fun _ _ => rfl⟩⟩
  · obtain ⟨ha0, hga, -⟩ := playerByID_ok hpa
    obtain ⟨hd0, hgd, -⟩ := playerByID_ok hpd
    have hla : opts.AttackerID.toNat < g.Players.length :=
      (List.getElem?_eq_some_iff.mp hga).1
    have hld : opts.DefenderID.toNat < g.Players.length :=
      (List.getElem?_eq_some_iff.mp hgd).1
    have hne' : opts.AttackerID.toNat ≠ opts.DefenderID.toNat := by omega
    have hatt : att2 = { att with Hand := att2.Hand } ∧ ∀ c ∈ att2.Hand, c ∈ att.Hand := by
      rcases hcase with ⟨hra, -⟩ | ⟨att1, hra, e2, -⟩
      · obtain ⟨r1, r2, -⟩ := removeCardsByIndices_error hra
        exact ⟨r1, fun c hc => r2.subset hc⟩
      · obtain ⟨-, r2, r3, -⟩ := removeCardsByIndices_ok hra
        subst e2
        refine ⟨?_, fun c hc => ?_⟩
        · rw [restoreHand_eq, r2]
        · have := (restoreHand_perm _ _).mem_iff.mp hc
          exact r3.mem_iff.mpr (List.mem_append.mpr (List.mem_append.mp this).symm)
    have hdfd : dfd2 = { dfd with Hand := dfd2.Hand } ∧ ∀ c ∈ dfd2.Hand, c ∈ dfd.Hand := by
      rcases hcase with ⟨-, e2⟩ | ⟨att1, -, -, ⟨-, e2⟩ | hrd | ⟨dfd1, hrd, e2⟩⟩
      · subst e2; exact ⟨rfl, fun c hc => hc⟩
      · subst e2; exact ⟨rfl, fun c hc => hc⟩
      · obtain ⟨r1, r2, -⟩ := removeCardsByIndices_error hrd
        exact ⟨r1, fun c hc => r2.subset hc⟩
      · obtain ⟨-, r2, r3, -⟩ := removeCardsByIndices_ok hrd
        subst e2
        refine ⟨?_, fun c hc => ?_⟩
        · rw [restoreHand_eq, r2]
        · have := (restoreHand_perm _ _).mem_iff.mp hc
          exact r3.mem_iff.mpr (List.mem_append.mpr (List.mem_append.mp this).symm)
    refine ⟨by rw [hg1], by rw [hg1]; simp, ?_⟩
    intro k p1 hp1
    rw [hg1] at hp1
    simp only at hp1
    rw [getElem?_set_set _ _ _ hne' hla hld] at hp1
    by_cases hkd : k = opts.DefenderID.toNat
    · rw [if_pos hkd] at hp1
      have e3 := Option.some.inj hp1
      subst e3
      exact ⟨dfd, by rw [hkd]; exact hgd, hdfd.1, hdfd.2, fun _ h2 => absurd hkd h2⟩
    · rw [if_neg hkd] at hp1
      by_cases hka : k = opts.AttackerID.toNat
      · rw [if_pos hka] at hp1
        have e3 := Option.some.inj hp1
        subst e3
        exact ⟨att, by rw [hka]; exact hga, hatt.1, hatt.2, fun h1 _ => absurd hka h1⟩
      · rw [if_neg hka] at hp1
        exact ⟨p1, hp1, rfl, fun c hc => hc, fun _ _ => rfl⟩

/-- A call, successful or not, keeps the number cards at deck values. -/
theorem Challenge_deckValues {g g1 : Game} {opts : ChallengeOptions}
    {res : Except String ChallengeOutcome} (h : Challenge g opts = (g1, res))
    (hv : g.DeckValues) : g1.DeckValues := by
  cases res with
  | error e =>
    obtain ⟨-, -, h3⟩ := Challenge_error_players h
    intro p1 hp1 c hc hk
    obtain ⟨k, hkp⟩ := List.getElem?_of_mem hp1
    obtain ⟨p, hp, -, hsub, -⟩ := h3 k p1 hkp
    exact hv p (List.getElem?_mem hp) c (hsub c hc) hk
  | ok o =>
    obtain ⟨att', dfd', -, -, -, -, -, -, -, -, -, -, hpa, hpd, -⟩ := Challenge_ok h
    obtain ⟨-, hatt, -⟩ := playerByID_ok hpa
    obtain ⟨-, hdfd, -⟩ := playerByID_ok hpd
    obtain ⟨-, -, -, -, -, -, -, -, -, -, -, -, -, -, -, -, -, -, hframe, -, -, -, -, -⟩ :=
      Challenge_run h hatt hdfd
    obtain ⟨att2, dfd2, hga, hgd, hcase⟩ := Challenge_transfer h hatt hdfd
    have hmem : ∀ c, c.Kind = CardKindNumber → (c ∈ att2.Hand ∨ c ∈ dfd2.Hand) →
        c ∈ att'.Hand ∨ c ∈ dfd'.Hand := by
      intro c hk hc
      rcases hcase with ⟨-, -, -, p1, p2⟩ | ⟨-, -, ht⟩ | ⟨-, -, -, ht⟩
      · exact hc.imp (fun x => p1.mem_iff.mp x) (fun x => p2.mem_iff.mp x)
      · exact Transfer_number_mem ht hk hc
      · exact (Transfer_number_mem ht hk hc.symm).symm
    have hold : ∀ c, c.Kind = CardKindNumber → (c ∈ att'.Hand ∨ c ∈ dfd'.Hand) →
        1 ≤ c.Value ∧ c.Value ≤ 13 := by
      intro c hk hc
      rcases hc with hc | hc
      · exact hv att' (List.getElem?_mem hatt) c hc hk
      · exact hv dfd' (List.getElem?_mem hdfd) c hc hk
    intro p1 hp1 c hc hk
    obtain ⟨k, hkp⟩ := List.getElem?_of_mem hp1
    by_cases hka : k = opts.AttackerID.toNat
    · rw [hka, hga] at hkp
      have e := Option.some.inj hkp
      subst e
      exact hold c hk (hmem c hk (Or.inl hc))
    · by_cases hkd : k = opts.DefenderID.toNat
      · rw [hkd, hgd] at hkp
        have e := Option.some.inj hkp
        subst e
        exact hold c hk (hmem c hk (Or.inr hc))
      · rw [hframe k hka hkd] at hkp
        exact hv p1 (List.getElem?_mem hkp) c hc hk

/-! ## Rooms: seats and players -/

theorem Room.seatAt_some {r : Room} {idx : Int} {seat : Seat} (h : r.seatAt idx = some seat) :
    0 ≤ idx ∧ r.seats[idx.toNat]? = some seat := by
  unfold Room.seatAt at h
  split at h
  · simp at h
  · exact ⟨by omega, h⟩

theorem Room.getSeatLocked_some {r : Room} {idx : Int} {seat : Seat}
    (h : r.getSeatLocked idx = some seat) : 0 ≤ idx ∧ r.seats[idx.toNat]? = some seat := by
  unfold Room.getSeatLocked at h
  split at h
  · simp at h
  · exact ⟨by omega, h⟩

theorem Room.seatAt_of_get {r : Room} {i : Nat} {seat : Seat} (h : r.seats[i]? = some seat) :
    r.seatAt (i : Int) = some seat := by
  unfold Room.seatAt
  rw [if_neg (by omega)]
  simpa using h

/-- The living player of a seat of a well-formed room sits at the seat's
own position in the game. -/
theorem Room.livePlayer_some {r : Room} (hwf : r.WellFormed) {i : Nat} {seat : Seat}
    {p : Player} (hs : r.seats[i]? = some seat) (h : r.livePlayer seat = some p) :
    ∃ g, r.game = some g ∧ g.Players[i]? = some p ∧ p.Alive = true ∧
      seat.Index = (i : Int) ∧ seat.Player = some i := by
  obtain ⟨h1, h2⟩ := hwf i seat hs
  unfold Room.livePlayer Room.playerOf at h
  split at h
  · rename_i q hq
    split at hq
    · rename_i j g hj hg
      split at h
      · rename_i ha
        simp only [Option.some.injEq] at h
        subst h
        have hji : j = i := by
          rcases h2 with h2 | h2
          · rw [hj] at h2; simp at h2
          · rw [hj] at h2; exact Option.some.inj h2
        subst hji
        exact ⟨g, hg, hq, ha, h1, hj⟩
      · simp at h
    · simp at hq
  · simp at h

theorem Room.livePlayer_of_get {r : Room} {g : Game} {seat : Seat} {i : Nat} {p : Player}
    (hg : r.game = some g) (hp : seat.Player = some i) (hgp : g.Players[i]? = some p)
    (ha : p.Alive = true) : r.livePlayer seat = some p := by
  unfold Room.livePlayer Room.playerOf
  rw [hp, hg]
  simp only
  rw [hgp]
  simp [ha]

theorem playerByID_of_get {g : Game} {i : Nat} {p : Player} (h : g.Players[i]? = some p)
    (ha : p.Alive = true) : g.playerByID (i : Int) = .ok p := by
  have hl := (List.getElem?_eq_some_iff.mp h).1
  unfold Game.playerByID
  rw [if_neg (by omega)]
  simp only [Int.toNat_ofNat, h, ha]
  rfl

/-! ## Rooms: plays that always succeed -/

/-- A number selection against an empty defence or a number selection of
the same suit is settled. -/
theorem Challenge_number_selection {g : Game} {a d : Nat} {att dfd : Player}
    {acards dcards : List Int} {suit : Suit} (hne : a ≠ d)
    (ha : g.Players[a]? = some att) (haa : att.Alive = true)
    (hd : g.Players[d]? = some dfd) (hda : dfd.Alive = true)
    (hsel : NumberSelection att.Hand acards suit)
    (hdef : dcards = [] ∨ NumberSelection dfd.Hand dcards suit) :
    ∃ g1 o, Challenge g ⟨(a : Int), (d : Int), acards, dcards⟩ = (g1, .ok o) := by
  obtain ⟨s1, s2, s3, s4⟩ := hsel.spec
  have hdspec : dcards.Nodup ∧ (∀ i ∈ dcards, 0 ≤ i ∧ i < (dfd.Hand.length : Int)) ∧
      LegalDefence (cardsAt dfd.Hand dcards) ∧
      (∀ c ∈ cardsAt dfd.Hand dcards, c.Suit = suit) := by
    rcases hdef with e | hdsel
    · subst e
      exact ⟨List.nodup_nil, fun i hi => absurd hi (List.not_mem_nil _), Or.inl rfl,
        fun c hc => by simp [cardsAt] at hc⟩
    · obtain ⟨t1, t2, t3, t4⟩ := hdsel.spec
      exact ⟨t1, t2, Or.inr (Or.inr t3), fun c hc => (t4 c hc).2⟩
  obtain ⟨d1, d2, d3, d4⟩ := hdspec
  exact (Challenge_succeeds_iff g ⟨(a : Int), (d : Int), acards, dcards⟩ att dfd
    (by simpa using hne) (playerByID_of_get ha haa) (playerByID_of_get hd hda) hsel.1 s1 s2
    d1 d2).mpr ⟨Or.inl s3, d3, fun x hx y hy _ _ => by rw [(s4 x hx).2, d4 y hy]⟩

/-- A single zombie card or shotgun against an empty defence is settled. -/
theorem Challenge_special_card {g : Game} {a d : Nat} {att dfd : Player} {i : Int} {c : Card}
    (hne : a ≠ d) (ha : g.Players[a]? = some att) (haa : att.Alive = true)
    (hd : g.Players[d]? = some dfd) (hda : dfd.Alive = true)
    (hc : handCard att.Hand i = some c)
    (hk : c.Kind = CardKindZombie ∨ c.Kind = CardKindShotgun) :
    ∃ g1 o, Challenge g ⟨(a : Int), (d : Int), [i], []⟩ = (g1, .ok o) := by
  have hcards : cardsAt att.Hand [i] = [c] := by
    simp [cardsAt, hc]
  refine (Challenge_succeeds_iff g ⟨(a : Int), (d : Int), [i], []⟩ att dfd
    (by simpa using hne) (playerByID_of_get ha haa) (playerByID_of_get hd hda) (by simp)
    (List.nodup_singleton _)
    (fun j hj => by
      rw [List.mem_singleton] at hj
      subst hj
      exact ⟨(handCard_some hc).1, (handCard_some hc).2.1⟩)
    List.nodup_nil (fun j hj => absurd hj (List.not_mem_nil _))).mpr ⟨?_, Or.inl rfl, ?_⟩
  · exact Or.inr ⟨c, hcards, hk⟩
  · intro x _ y hy
    simp [cardsAt] at hy

/-! ## Rooms: turn advance and bookkeeping -/

theorem Room.finishGameLocked_eq (r : Room) :
    r.finishGameLocked = r ∨ r.finishGameLocked = { r with status := RoomStatusFinished } := by
  unfold Room.finishGameLocked
  split
  · exact Or.inl rfl
  · exact Or.inr rfl

/-- What advancing the turn leaves alone. -/
theorem Room.advanceTurnLocked_frame {r r1 : Room} (h : r.advanceTurnLocked = some r1) :
    r1.seats = r.seats ∧ r1.pendingChallenge = r.pendingChallenge ∧ r1.rng = r.rng ∧
      (r1.status = r.status ∨ r1.status = RoomStatusFinished) ∧
      (r1.game = r.game ∨
        ∃ g round, r.game = some g ∧ r1.game = some { g with Round := round }) := by
  unfold Room.advanceTurnLocked at h
  split at h
  · simp only [Option.some.injEq] at h
    subst h
    exact ⟨rfl, rfl, rfl, Or.inl rfl, Or.inl rfl⟩
  · rename_i g hg
    split at h
    · simp only [Option.some.injEq] at h
      subst h
      rcases r.finishGameLocked_eq with e | e <;> rw [e] <;> simp
    · split at h
      · simp at h
      · rename_i next hnext
        split at h
        · dsimp only at h
          split at h
          · simp only [Option.some.injEq] at h
            subst h
            rcases Room.finishGameLocked_eq { r with currentRound := r.currentRound + 1 }
              with e | e <;> rw [e] <;> simp
          · split at h
            · simp at h
            · rename_i next2 hnext2
              split at h
              · simp only [Option.some.injEq] at h
                subst h
                rcases Room.finishGameLocked_eq
                  { r with currentRound := r.currentRound + 1,
                           game := some { g with Round := r.currentRound + 1 } }
                  with e | e <;> rw [e] <;> simp [hg]
              · simp only [Option.some.injEq] at h
                subst h
                simp [hg]
        · split at h
          · dsimp only at h
            split at h
            · simp only [Option.some.injEq] at h
              subst h
              rcases Room.finishGameLocked_eq { r with currentRound := r.currentRound + 1 }
                with e | e <;> rw [e] <;> simp
            · simp only [Option.some.injEq] at h
              subst h
              simp [hg]
          · simp only [Option.some.injEq] at h
            subst h
            simp

theorem Seat.forget_eq {s s1 : Seat} (h : s1.forget = s.forget) :
    s1.Index = s.Index ∧ s1.Player = s.Player ∧ s1.Client = s.Client ∧
      s1.Name = s.Name ∧ s1.Token = s.Token ∧ s1.Bot.isSome = s.Bot.isSome := by
  obtain ⟨i, n, t, c, b, p⟩ := s
  obtain ⟨i1, n1, t1, c1, b1, p1⟩ := s1
  simp only [Seat.forget, Seat.mk.injEq] at h
  obtain ⟨e1, e2, e3, e4, e5, e6⟩ := h
  refine ⟨e1, e6, e4, e2, e3, ?_⟩
  cases b <;> cases b1 <;> simp_all

theorem seats_forget_get {xs ys : List Seat} (h : ys.map Seat.forget = xs.map Seat.forget)
    {i : Nat} {s1 : Seat} (hs : ys[i]? = some s1) :
    ∃ s, xs[i]? = some s ∧ s1.forget = s.forget := by
  have := congrArg (fun l => l[i]?) h
  simp only [List.getElem?_map, hs, Option.map_some'] at this
  cases hx : xs[i]? with
  | none => rw [hx] at this; simp at this
  | some s =>
    rw [hx] at this
    simp only [Option.map_some', Option.some.injEq] at this
    exact ⟨s, rfl, this⟩

theorem set_of_getElem? {α : Type} {L : List α} {i : Nat} {x : α} (h : L[i]? = some x) :
    L.set i x = L := by
  apply List.ext_getElem?
  intro k
  rw [List.getElem?_set]
  split
  · rename_i hik
    subst hik
    rw [if_pos (List.getElem?_eq_some_iff.mp h).1, h]
  · rfl

theorem Room.clearZombieKnowledge_frame (r : Room) (t : Int) :
    (r.clearZombieKnowledge t).seats.map Seat.forget = r.seats.map Seat.forget ∧
      r.clearZombieKnowledge t = { r with seats := (r.clearZombieKnowledge t).seats } := by
  refine ⟨?_, rfl⟩
  unfold Room.clearZombieKnowledge
  simp only [List.map_map]
  apply List.map_congr_left
  intro s _
  obtain ⟨i, n, tk, c, b, p⟩ := s
  cases b <;> simp [Seat.forget]

theorem Room.foldl_clearZombieKnowledge_frame :
    ∀ (ids : List Int) (r : Room),
      (ids.foldl Room.clearZombieKnowledge r).seats.map Seat.forget =
          r.seats.map Seat.forget ∧
        ids.foldl Room.clearZombieKnowledge r =
          { r with seats := (ids.foldl Room.clearZombieKnowledge r).seats }
  | [], r => ⟨rfl, rfl⟩
  | t :: rest, r => by
    obtain ⟨h1, h2⟩ := Room.foldl_clearZombieKnowledge_frame rest (r.clearZombieKnowledge t)
    obtain ⟨h3, h4⟩ := r.clearZombieKnowledge_frame t
    rw [List.foldl_cons]
    refine ⟨h1.trans h3, ?_⟩
    rw [h2, h4]

theorem Room.registerInfectionKnowledge_frame (r : Room) (a t : Int) :
    (r.registerInfectionKnowledge a t).seats.map Seat.forget = r.seats.map Seat.forget ∧
      r.registerInfectionKnowledge a t =
        { r with seats := (r.registerInfectionKnowledge a t).seats } := by
  unfold Room.registerInfectionKnowledge
  split
  · exact ⟨rfl, rfl⟩
  · rename_i seat hseat
    split
    · exact ⟨rfl, rfl⟩
    · rename_i bot hbot
      refine ⟨?_, rfl⟩
      obtain ⟨-, hget⟩ := Room.getSeatLocked_some hseat
      simp only [List.map_set]
      have : (r.seats.map Seat.forget)[a.toNat]? = some seat.forget := by
        rw [List.getElem?_map, hget]; rfl
      have e : ∀ ks : List Int, Seat.forget
          { seat with Bot := some { bot with KnownZombies := ks } } = seat.forget := by
        intro ks
        obtain ⟨i, n, tk, c, b, p⟩ := seat
        simp only at hbot
        subst hbot
        simp [Seat.forget]
      rw [e]
      exact set_of_getElem? this

/-- A `resolveChallengeLocked` that returns an error changed nothing but
the game, as the failing `Challenge` left it. -/
theorem Room.resolveChallengeLocked_error {r r1 : Room} {a d : Int} {ac dc : List Int}
    {e : String} (h : r.resolveChallengeLocked a d ac dc = some (r1, some e)) :
    (r.game = none ∧ r1 = r) ∨
      ∃ g g1, r.game = some g ∧ Challenge g ⟨a, d, ac, dc⟩ = (g1, .error e) ∧
        r1 = { r with game := some g1 } := by
  unfold Room.resolveChallengeLocked at h
  split at h
  · rename_i hg
    split at h
    · simp only [Option.some.injEq, Prod.mk.injEq] at h
      exact Or.inl ⟨hg, h.1.symm⟩
    · simp at h
  · rename_i g hg
    split at h
    · rename_i g1 e1 hc
      simp only [Option.some.injEq, Prod.mk.injEq] at h
      obtain ⟨h1, h2⟩ := h
      subst h2
      exact Or.inr ⟨g, g1, hg, hc, h1.symm⟩
    · rename_i g1 o hc
      dsimp only at h
      split at h
      · simp at h
      · simp at h

/-- A `resolveChallengeLocked` that returns without error settled the
challenge, cleared the pending challenge and advanced the turn. -/
theorem Room.resolveChallengeLocked_ok {r r1 : Room} {a d : Int} {ac dc : List Int}
    (h : r.resolveChallengeLocked a d ac dc = some (r1, none)) :
    ∃ g g1 o, r.game = some g ∧ Challenge g ⟨a, d, ac, dc⟩ = (g1, .ok o) ∧
      r1.pendingChallenge = none ∧ r1.seats.map Seat.forget = r.seats.map Seat.forget ∧
      r1.rng = r.rng ∧ (r1.status = r.status ∨ r1.status = RoomStatusFinished) ∧
      ∃ round, r1.game = some { g1 with Round := round } := by
  unfold Room.resolveChallengeLocked at h
  split at h
  · split at h
    · simp at h
    · simp at h
  · rename_i g hg
    split at h
    · simp at h
    · rename_i g1 o hc
      dsimp only at h
      split at h
      · simp at h
      · rename_i r5 hadv
        simp only [Option.some.injEq, Prod.mk.injEq, and_true] at h
        subst h
        obtain ⟨f1, f2, f3, f4, f5⟩ := Room.advanceTurnLocked_frame hadv
        refine ⟨g, g1, o, hg, hc, ?_, ?_, ?_, ?_, ?_⟩
        · rw [f2, (Room.foldl_clearZombieKnowledge_frame _ _).2,
            (Room.foldl_clearZombieKnowledge_frame _ _).2]
          split
          · rw [(Room.registerInfectionKnowledge_frame _ _ _).2]
          · rfl
        · rw [f1, (Room.foldl_clearZombieKnowledge_frame _ _).1,
            (Room.foldl_clearZombieKnowledge_frame _ _).1]
          split
          · rw [(Room.registerInfectionKnowledge_frame _ _ _).1]
          · rfl
        · rw [f3, (Room.foldl_clearZombieKnowledge_frame _ _).2,
            (Room.foldl_clearZombieKnowledge_frame _ _).2]
          split
          · rw [(Room.registerInfectionKnowledge_frame _ _ _).2]
          · rfl
        · have hst : (List.foldl Room.clearZombieKnowledge
              (List.foldl Room.clearZombieKnowledge
                (if o.Infection = true then
                  ({ r with game := some g1, pendingChallenge := none } :
                    Room).registerInfectionKnowledge a d
                else { r with game := some g1, pendingChallenge := none })
                o.ConvertedToHuman) o.Eliminated).status = r.status := by
            rw [(Room.foldl_clearZombieKnowledge_frame _ _).2,
              (Room.foldl_clearZombieKnowledge_frame _ _).2]
            split
            · rw [(Room.registerInfectionKnowledge_frame _ _ _).2]
            · rfl
          rw [← hst]
          exact f4
        · have hgm : (List.foldl Room.clearZombieKnowledge
              (List.foldl Room.clearZombieKnowledge
                (if o.Infection = true then
                  ({ r with game := some g1, pendingChallenge := none } :
                    Room).registerInfectionKnowledge a d
                else { r with game := some g1, pendingChallenge := none })
                o.ConvertedToHuman) o.Eliminated).game = some g1 := by
            rw [(Room.foldl_clearZombieKnowledge_frame _ _).2,
              (Room.foldl_clearZombieKnowledge_frame _ _).2]
            split
            · rw [(Room.registerInfectionKnowledge_frame _ _ _).2]
            · rfl
          rcases f5 with f5 | ⟨g2, round, f5, f6⟩
          · exact ⟨g1.Round, by rw [f5, hgm]⟩
          · rw [hgm] at f5
            cases f5
            exact ⟨round, f6⟩

/-! ## Rooms: the ways through a challenge command -/

/-- Every way through `handleChallenge`: a rejection that leaves the room
alone, or a command of the seat whose turn it is against another living
seat, with an accepted selection that starts with a number card (and is
then a number selection, recorded as pending or resolved at once), a zombie
card played by a zombie, or a shotgun. -/
theorem Room.handleChallenge_cases {r r1 : Room} {c : Client} {payload : ChallengePayload}
    {res : Option String} (hwf : r.WellFormed)
    (h : r.handleChallenge c payload = some (r1, res)) :
    (r1 = r ∧ res.isSome = true) ∨
    ∃ (g : Game) (a d : Nat) (dseat : Seat) (att dfd : Player) (cards : List Int)
      (first : Card),
      r.status = RoomStatusRunning ∧ r.pendingChallenge = none ∧
      c.seatIndex = r.currentTurn ∧ c.seatIndex = (a : Int) ∧ payload.TargetID = (d : Int) ∧
      a ≠ d ∧ r.game = some g ∧ r.seats[d]? = some dseat ∧
      g.Players[a]? = some att ∧ att.Alive = true ∧
      g.Players[d]? = some dfd ∧ dfd.Alive = true ∧
      uniqueSortedIndices payload.Cards att.Hand.length = .ok cards ∧
      cards.head?.bind (handCard att.Hand) = some first ∧
      ((first.Kind = CardKindNumber ∧ ∃ suit, NumberSelection att.Hand cards suit ∧
          ((dfd.HasSuit suit = true ∧ dseat.Bot = none ∧ res = none ∧
              r1 = { r with
                pendingChallenge := some ⟨(a : Int), (d : Int), cards, CardKindNumber, suit⟩ }) ∨
            (dfd.HasSuit suit = true ∧ dseat.Bot.isSome = true ∧
              r.resolveChallengeLocked a d cards
                (selectBotDefenseIndices dfd suit cards.length) = some (r1, res)) ∨
            (dfd.HasSuit suit = false ∧
              r.resolveChallengeLocked a d cards [] = some (r1, res)))) ∨
        (first.Kind = CardKindZombie ∧ att.IsZombie = true ∧
          r.resolveChallengeLocked a d cards [] = some (r1, res)) ∨
        (first.Kind = CardKindShotgun ∧
          r.resolveChallengeLocked a d cards [] = some (r1, res))) := by
  unfold Room.handleChallenge at h
  split at h
  · simp only [Option.some.injEq, Prod.mk.injEq] at h
    exact Or.inl ⟨h.1.symm, by rw [← h.2]; rfl⟩
  · rename_i hturn
    unfold Room.ensurePlayerTurnLocked at hturn
    split at hturn
    · simp at hturn
    · rename_i hrun
      split at hturn
      · simp at hturn
      · rename_i hct
        have hrun' : r.status = RoomStatusRunning := by
          by_contra hh; exact hrun hh
        have hct' : c.seatIndex = r.currentTurn := by
          by_contra hh; exact hct hh
        split at h
        · simp only [Option.some.injEq, Prod.mk.injEq] at h
          exact Or.inl ⟨h.1.symm, by rw [← h.2]; rfl⟩
        · rename_i hpend
          have hpend' : r.pendingChallenge = none := by
            cases hp : r.pendingChallenge with
            | none => rfl
            | some p => rw [hp] at hpend; simp at hpend
          split at h
          · simp at h
          · rename_i aseat haseat
            obtain ⟨ha0, hags⟩ := Room.seatAt_some haseat
            split at h
            · simp only [Option.some.injEq, Prod.mk.injEq] at h
              exact Or.inl ⟨h.1.symm, by rw [← h.2]; rfl⟩
            · rename_i att hatt
              obtain ⟨g, hg, hga, haa, hai, -⟩ := Room.livePlayer_some hwf hags hatt
              split at h
              · simp only [Option.some.injEq, Prod.mk.injEq] at h
                exact Or.inl ⟨h.1.symm, by rw [← h.2]; rfl⟩
              · rename_i dseat dfd hdef
                obtain ⟨ds, hds1, hds2⟩ := Option.bind_eq_some.mp hdef
                obtain ⟨dp, hdp1, hdp2⟩ := Option.map_eq_some'.mp hds2
                simp only [Prod.mk.injEq] at hdp2
                obtain ⟨e1, e2⟩ := hdp2
                subst e1 e2
                obtain ⟨hd0, hdgs⟩ := Room.getSeatLocked_some hds1
                obtain ⟨g', hg', hgd, hda, hdi, -⟩ := Room.livePlayer_some hwf hdgs hdp1
                rw [hg] at hg'
                cases hg'
                split at h
                · simp only [Option.some.injEq, Prod.mk.injEq] at h
                  exact Or.inl ⟨h.1.symm, by rw [← h.2]; rfl⟩
                · rename_i hself
                  have hne : c.seatIndex.toNat ≠ payload.TargetID.toNat := by
                    intro e
                    apply hself
                    rw [hdi, hai, e]
                  split at h
                  · simp only [Option.some.injEq, Prod.mk.injEq] at h
                    exact Or.inl ⟨h.1.symm, by rw [← h.2]; rfl⟩
                  · split at h
                    · simp only [Option.some.injEq, Prod.mk.injEq] at h
                      exact Or.inl ⟨h.1.symm, by rw [← h.2]; rfl⟩
                    · rename_i cards hnorm
                      unfold normalizeCardSelection Player.HandSize at hnorm
                      split at h
                      · simp at h
                      · rename_i first hfirst
                        have hia : aseat.Index = ((c.seatIndex.toNat : Nat) : Int) := hai
                        have hid : ds.Index = ((payload.TargetID.toNat : Nat) : Int) := hdi
                        rw [hia, hid] at h
                        split at h
                        · -- a number card comes first
                          rename_i hkind
                          split at h
                          · simp at h
                          · simp only [Option.some.injEq, Prod.mk.injEq] at h
                            exact Or.inl ⟨h.1.symm, by rw [← h.2]; rfl⟩
                          · rename_i suit hsuit
                            obtain ⟨n1, n2⟩ := ensureNumericSelection_ok hsuit
                            obtain ⟨u1, u2, u3, u4⟩ := uniqueSortedIndices_ok hnorm
                            split at h
                            · simp only [Option.some.injEq, Prod.mk.injEq] at h
                              exact Or.inl ⟨h.1.symm, by rw [← h.2]; rfl⟩
                            · rename_i hfive
                              have hsel : NumberSelection att.Hand cards suit :=
                                ⟨n1, by omega, u2, n2⟩
                              right
                              refine ⟨g, _, _, ds, att, dp, cards, first, hrun', hpend', hct',
                                (Int.toNat_of_nonneg ha0).symm,
                                (Int.toNat_of_nonneg hd0).symm, hne, hg, hdgs, hga, haa, hgd,
                                hda, hnorm, hfirst, Or.inl ⟨hkind, suit, hsel, ?_⟩⟩
                              split at h
                              · rename_i hhas
                                simp only [Bool.and_eq_true] at hhas
                                split at h
                                · rename_i b hb
                                  exact Or.inr (Or.inl ⟨hhas.1, by rw [hb]; rfl, h⟩)
                                · rename_i hb
                                  simp only [Option.some.injEq, Prod.mk.injEq] at h
                                  exact Or.inl ⟨hhas.1, hb, h.2.symm, h.1.symm⟩
                              · rename_i hhas
                                refine Or.inr (Or.inr ⟨?_, h⟩)
                                simp only [Bool.and_eq_true, hda, and_true] at hhas
                                simpa using hhas
                        · rename_i hkind
                          split at h
                          · simp only [Option.some.injEq, Prod.mk.injEq] at h
                            exact Or.inl ⟨h.1.symm, by rw [← h.2]; rfl⟩
                          · rename_i hz
                            right
                            exact ⟨g, _, _, ds, att, dp, cards, first, hrun', hpend', hct',
                              (Int.toNat_of_nonneg ha0).symm,
                              (Int.toNat_of_nonneg hd0).symm, hne, hg, hdgs, hga, haa, hgd,
                              hda, hnorm, hfirst,
                              Or.inr (Or.inl ⟨hkind, by simpa using hz, h⟩)⟩
                        · rename_i hkind
                          right
                          exact ⟨g, _, _, ds, att, dp, cards, first, hrun', hpend', hct',
                            (Int.toNat_of_nonneg ha0).symm,
                            (Int.toNat_of_nonneg hd0).symm, hne, hg, hdgs, hga, haa, hgd,
                            hda, hnorm, hfirst, Or.inr (Or.inr ⟨hkind, h⟩)⟩
                        · simp only [Option.some.injEq, Prod.mk.injEq] at h
                          exact Or.inl ⟨h.1.symm, by rw [← h.2]; rfl⟩

/-- Every way through `handleDefenseResponse`: a rejection that leaves the
room alone, or the answer of the pending defender with an accepted
selection, handed to `resolveChallengeLocked`. -/
theorem Room.handleDefenseResponse_cases {r r1 : Room} {c : Client}
    {payload : DefensePayload} {res : Option String}
    (h : r.handleDefenseResponse c payload = some (r1, res)) :
    (r1 = r ∧ res.isSome = true) ∨
    ∃ (p : ZombieHunt.pendingChallenge) (seat : Seat) (player : Player)
      (defense : List Int),
      r.pendingChallenge = some p ∧ c.seatIndex = p.DefenderSeat ∧
      r.seatAt c.seatIndex = some seat ∧ r.playerOf seat = some player ∧
      normalizeDefenseSelection payload.Cards player.Hand.length = .ok defense ∧
      (p.AttackKind = CardKindNumber → defense ≠ [] → defense.length ≤ 5 ∧
        ∀ i ∈ defense, ∃ card, handCard player.Hand i = some card ∧
          card.Kind = CardKindNumber ∧ card.Suit = p.AttackSuit) ∧
      r.resolveChallengeLocked p.AttackerSeat p.DefenderSeat p.AttackerCards defense =
        some (r1, res) := by
  unfold Room.handleDefenseResponse at h
  split at h
  · simp only [Option.some.injEq, Prod.mk.injEq] at h
    exact Or.inl ⟨h.1.symm, by rw [← h.2]; rfl⟩
  · rename_i p hp
    split at h
    · simp only [Option.some.injEq, Prod.mk.injEq] at h
      exact Or.inl ⟨h.1.symm, by rw [← h.2]; rfl⟩
    · rename_i hseat
      have hseat' : c.seatIndex = p.DefenderSeat := by
        by_contra hh; exact hseat hh
      split at h
      · simp at h
      · rename_i player hplayer
        obtain ⟨seat, hs1, hs2⟩ := Option.bind_eq_some.mp hplayer
        split at h
        · simp only [Option.some.injEq, Prod.mk.injEq] at h
          exact Or.inl ⟨h.1.symm, by rw [← h.2]; rfl⟩
        · rename_i defense hnorm
          split at h
          · simp at h
          · simp only [Option.some.injEq, Prod.mk.injEq] at h
            exact Or.inl ⟨h.1.symm, by rw [← h.2]; rfl⟩
          · rename_i hcheck
            right
            refine ⟨p, seat, player, defense, hp, hseat', hs1, hs2, hnorm, ?_, h⟩
            intro hk hne
            rw [if_pos ⟨hk, List.length_pos.mpr hne⟩] at hcheck
            exact ensureDefenseMatchesSuit_ok hcheck

theorem normalizeDefenseSelection_ok {indices out : List Int} {handSize : Int}
    (h : normalizeDefenseSelection indices handSize = .ok out) :
    out.Pairwise (fun a b => a < b) ∧ (∀ i ∈ out, 0 ≤ i ∧ i < handSize) := by
  unfold normalizeDefenseSelection at h
  split at h
  · simp only [Except.ok.injEq] at h
    subst h
    simp
  · obtain ⟨-, h2, h3, -⟩ := uniqueSortedIndices_ok h
    exact ⟨h2, h3⟩

/-! ## Rooms: the turn of a bot -/

theorem findCardKind_spec {player : Player} {kind : CardKind}
    (h : findCardKind player kind ≥ 0) :
    ∃ c, handCard player.Hand (findCardKind player kind) = some c ∧ c.Kind = kind := by
  unfold findCardKind at h ⊢
  split at h
  · rename_i hlt
    rw [if_pos hlt]
    refine ⟨player.Hand[player.Hand.findIdx (fun c => decide (c.Kind = kind))],
      handCard_natCast (List.getElem?_eq_getElem hlt), ?_⟩
    have := @List.findIdx_getElem _ (fun c => decide (c.Kind = kind)) player.Hand hlt
    simpa using this
  · omega

theorem Room.botCandidates_subset (r : Room) (known : List Int) (wantKnown : Bool) :
    ∀ (targets cs : List Int), r.botCandidates known wantKnown targets = some cs →
      ∀ t ∈ cs, t ∈ targets
  | [], cs, h => by
    simp only [Room.botCandidates, Option.some.injEq] at h
    subst h
    simp
  | tid :: rest, cs, h => by
    rw [Room.botCandidates] at h
    split at h
    · simp at h
    · split at h
      · simp at h
      · rename_i cs1 hcs1
        have ih := Room.botCandidates_subset r known wantKnown rest cs1 hcs1
        split at h
        · simp only [Option.some.injEq] at h
          subst h
          exact fun t ht => List.mem_cons_of_mem _ (ih t ht)
        · split at h
          · simp only [Option.some.injEq] at h
            subst h
            intro t ht
            rcases List.mem_cons.mp ht with e | ht
            · rw [e]; exact List.mem_cons_self _ _
            · exact List.mem_cons_of_mem _ (ih t ht)
          · simp only [Option.some.injEq] at h
            subst h
            exact fun t ht => List.mem_cons_of_mem _ (ih t ht)

theorem Room.drawTarget_mem {r : Room} {list : List Int} {t : Int} {rng1 : Rng}
    (h : r.drawTarget list = some (t, rng1)) : t ∈ list := by
  unfold Room.drawTarget at h
  split at h
  · simp at h
  · rename_i t1 ht1
    simp only [Option.some.injEq, Prod.mk.injEq] at h
    rw [← h.1]
    exact List.getElem?_mem ht1

/-- What a bot settles on: a target among the living other seats, and a
single zombie card, a single shotgun, or the strongest number play of its
hand. -/
theorem Room.chooseBotAttack_some {r : Room} {bot : BotPlayer} {attacker : Player}
    {targets : List Int} {order : List Suit} {a : botAttack}
    (h : r.chooseBotAttack bot attacker targets order = some (some a)) :
    a.targetIndex ∈ targets ∧
      ((a.attackKind = CardKindZombie ∧ ∃ i c, a.attackCards = [i] ∧
          handCard attacker.Hand i = some c ∧ c.Kind = CardKindZombie) ∨
        (a.attackKind = CardKindShotgun ∧ ∃ i c, a.attackCards = [i] ∧
          handCard attacker.Hand i = some c ∧ c.Kind = CardKindShotgun) ∨
        (a.attackKind = CardKindNumber ∧
          a.attackCards = (selectStrongestNumericSet attacker order).2 ∧
          a.attackSuit = (selectStrongestNumericSet attacker order).1 ∧
          a.attackCards ≠ [])) := by
  unfold Room.chooseBotAttack at h
  split at h
  · simp at h
  · rename_i a1 hz
    simp only [Option.some.injEq] at h
    subst h
    unfold Room.botZombieAttack at hz
    split at hz
    · rename_i hidx
      split at hz
      · simp at hz
      · rename_i cands hcands
        have hsub : ∀ t ∈ (if cands.length = 0 then targets else cands), t ∈ targets := by
          intro t ht
          split at ht
          · exact ht
          · exact Room.botCandidates_subset r _ _ _ _ hcands _ ht
        generalize (if cands.length = 0 then targets else cands) = L at hz hsub
        split at hz
        · split at hz
          · simp at hz
          · rename_i t rng1 hdraw
            simp only [Option.some.injEq] at hz
            subst hz
            obtain ⟨c, hc, hk⟩ := findCardKind_spec hidx
            exact ⟨hsub _ (Room.drawTarget_mem hdraw), Or.inl ⟨rfl, _, c, rfl, hc, hk⟩⟩
        · simp at hz
    · simp at hz
  · split at h
    · simp at h
    · rename_i a1 hs
      simp only [Option.some.injEq] at h
      subst h
      unfold Room.botShotgunAttack at hs
      split at hs
      · rename_i hidx
        split at hs
        · simp at hs
        · rename_i cands hcands
          split at hs
          · split at hs
            · simp at hs
            · rename_i t rng1 hdraw
              simp only [Option.some.injEq] at hs
              subst hs
              obtain ⟨c, hc, hk⟩ := findCardKind_spec hidx
              exact ⟨Room.botCandidates_subset r _ _ _ _ hcands _
                (Room.drawTarget_mem hdraw), Or.inr (Or.inl ⟨rfl, _, c, rfl, hc, hk⟩)⟩
          · simp at hs
      · simp at hs
    · unfold Room.botNumberAttack at h
      split at h
      · simp at h
      · rename_i hlen
        split at h
        · simp at h
        · rename_i t rng1 hdraw
          simp only [Option.some.injEq] at h
          subst h
          refine ⟨Room.drawTarget_mem hdraw, Or.inr (Or.inr ⟨rfl, rfl, rfl, ?_⟩)⟩
          intro e
          have e1 : (selectStrongestNumericSet attacker order).2 = [] := e
          exact hlen (by rw [e1]; rfl)

/-- A bot passes only when its hand offers no number play. -/
theorem Room.chooseBotAttack_none {r : Room} {bot : BotPlayer} {attacker : Player}
    {targets : List Int} {order : List Suit}
    (h : r.chooseBotAttack bot attacker targets order = some none) :
    (selectStrongestNumericSet attacker order).2 = [] := by
  unfold Room.chooseBotAttack at h
  split at h
  · simp at h
  · simp at h
  · split at h
    · simp at h
    · simp at h
    · unfold Room.botNumberAttack at h
      split at h
      · rename_i hlen
        exact List.length_eq_zero.mp hlen
      · split at h
        · simp at h
        · simp at h

theorem Room.mem_aliveTargetsLocked {r : Room} (hwf : r.WellFormed) {exclude t : Int} :
    t ∈ r.aliveTargetsLocked exclude ↔
      ∃ (i : Nat) (seat : Seat), r.seats[i]? = some seat ∧ t = (i : Int) ∧ t ≠ exclude ∧
        r.seatAlive seat = true := by
  unfold Room.aliveTargetsLocked
  rw [List.mem_map]
  constructor
  · rintro ⟨seat, hs, e⟩
    rw [List.mem_filter] at hs
    obtain ⟨hm, hp⟩ := hs
    simp only [Bool.and_eq_true, decide_eq_true_eq] at hp
    obtain ⟨i, hi⟩ := List.getElem?_of_mem hm
    have := (hwf i seat hi).1
    exact ⟨i, seat, hi, by rw [← e, this], by rw [← e]; exact hp.1, hp.2⟩
  · rintro ⟨i, seat, hi, e, hne, ha⟩
    have := (hwf i seat hi).1
    refine ⟨seat, List.mem_filter.mpr ⟨List.getElem?_mem hi, ?_⟩, by rw [e, this]⟩
    simp only [Bool.and_eq_true, decide_eq_true_eq]
    exact ⟨by rw [this, ← e]; exact hne, ha⟩

theorem Room.seatAlive_iff {r : Room} {seat : Seat} :
    r.seatAlive seat = true ↔ ∃ p, r.livePlayer seat = some p := by
  unfold Room.seatAlive
  exact Option.isSome_iff_exists

theorem dropError_some {x : Option (Room × Option String)} {r1 : Room}
    (h : dropError x = some r1) : ∃ res, x = some (r1, res) := by
  unfold dropError at h
  split at h
  · simp at h
  · rename_i r2 res
    simp only [Option.some.injEq] at h
    subst h
    exact ⟨res, rfl⟩

/-- Every way through the locked body of `executeBotTurn`. -/
theorem Room.executeBotTurn_cases {r r1 : Room} {bot : BotPlayer} {order : List Suit}
    (h : r.executeBotTurn bot order = some r1) :
    r1 = r ∨
    (r.status = RoomStatusRunning ∧ r.currentTurn = bot.SeatIndex ∧
      ∃ seat, r.seatAt bot.SeatIndex = some seat ∧
        ((r.livePlayer seat = none ∧ r.advanceTurnLocked = some r1) ∨
          ∃ attacker, r.livePlayer seat = some attacker ∧
            ((r.aliveTargetsLocked bot.SeatIndex = [] ∧ r.advanceTurnLocked = some r1) ∨
              (r.chooseBotAttack bot attacker (r.aliveTargetsLocked bot.SeatIndex) order =
                  some none ∧ r.advanceTurnLocked = some r1) ∨
              ∃ a dseat,
                r.chooseBotAttack bot attacker (r.aliveTargetsLocked bot.SeatIndex) order =
                  some (some a) ∧
                r.seatAt a.targetIndex = some dseat ∧
                ((r.livePlayer dseat = none ∧
                    ({ r with rng := a.rng } : Room).advanceTurnLocked = some r1) ∨
                  ∃ defender, r.livePlayer dseat = some defender ∧
                    ((a.attackKind = CardKindNumber ∧ defender.HasSuit a.attackSuit = true ∧
                        dseat.Bot.isSome = true ∧
                        ∃ res, ({ r with rng := a.rng } : Room).resolveChallengeLocked
                          seat.Index dseat.Index a.attackCards
                          (selectBotDefenseIndices defender a.attackSuit
                            a.attackCards.length) = some (r1, res)) ∨
                      (a.attackKind = CardKindNumber ∧
                        defender.HasSuit a.attackSuit = true ∧ dseat.Bot = none ∧
                        r1 = { r with
                          rng := a.rng,
                          pendingChallenge := some ⟨seat.Index, dseat.Index, a.attackCards,
                            CardKindNumber, a.attackSuit⟩ }) ∨
                      (¬ (a.attackKind = CardKindNumber ∧
                          defender.HasSuit a.attackSuit = true) ∧
                        ∃ res, ({ r with rng := a.rng } : Room).resolveChallengeLocked
                          seat.Index dseat.Index a.attackCards [] = some (r1, res))))))) := by
  unfold Room.executeBotTurn at h
  split at h
  · simp only [Option.some.injEq] at h
    exact Or.inl h.symm
  · rename_i hguard
    have hrun : r.status = RoomStatusRunning := by
      by_contra hh; exact hguard (Or.inl hh)
    have hturn : r.currentTurn = bot.SeatIndex := by
      by_contra hh; exact hguard (Or.inr hh)
    right
    refine ⟨hrun, hturn, ?_⟩
    split at h
    · simp at h
    · rename_i seat hseat
      refine ⟨seat, hseat, ?_⟩
      split at h
      · rename_i hlive
        exact Or.inl ⟨hlive, h⟩
      · rename_i attacker hlive
        refine Or.inr ⟨attacker, hlive, ?_⟩
        split at h
        · rename_i hlen
          exact Or.inl ⟨List.length_eq_zero.mp hlen, h⟩
        · split at h
          · simp at h
          · rename_i hchoose
            exact Or.inr (Or.inl ⟨hchoose, h⟩)
          · rename_i a hchoose
            split at h
            · simp at h
            · rename_i dseat hdseat
              refine Or.inr (Or.inr ⟨a, dseat, hchoose, hdseat, ?_⟩)
              split at h
              · rename_i hdl
                exact Or.inl ⟨hdl, h⟩
              · rename_i defender hdl
                refine Or.inr ⟨defender, hdl, ?_⟩
                split at h
                · rename_i hnum
                  simp only [Bool.and_eq_true, decide_eq_true_eq] at hnum
                  split at h
                  · rename_i b hb
                    exact Or.inl ⟨hnum.1, hnum.2, by rw [hb]; rfl, dropError_some h⟩
                  · rename_i hb
                    simp only [Option.some.injEq] at h
                    exact Or.inr (Or.inl ⟨hnum.1, hnum.2, hb, h.symm⟩)
                · rename_i hnum
                  simp only [Bool.and_eq_true, decide_eq_true_eq] at hnum
                  exact Or.inr (Or.inr ⟨hnum, dropError_some h⟩)

/-! ## Rooms: what every reachable room satisfies -/

theorem Room.Inv_newRoom (id name : String) (capacity : Int) (rng : Rng) :
    (NewRoom id name capacity rng).Inv := by
  refine ⟨?_, fun _ => rfl, fun h => absurd rfl h, fun p hp => by simp [NewRoom] at hp⟩
  intro i seat hs
  simp only [NewRoom, List.getElem?_map] at hs
  cases hr : (List.range (if capacity ≤ 0 then 8 else capacity).toNat)[i]? with
  | none => rw [hr] at hs; simp at hs
  | some j =>
    rw [hr] at hs
    simp only [Option.map_some', Option.some.injEq] at hs
    have hj : j = i := by
      obtain ⟨h2, h3⟩ := List.getElem?_eq_some_iff.mp hr
      simpa using h3.symm
    subst hs hj
    exact ⟨rfl, Or.inl rfl⟩

/-- The invariant reads the seats only through their indices and player
pointers. -/
theorem Room.Inv_of_seats {r r1 : Room} (hinv : r.Inv)
    (hs : r1.seats.map (fun s => (s.Index, s.Player)) =
      r.seats.map (fun s => (s.Index, s.Player)))
    (hst : r1.status = r.status) (hg : r1.game = r.game)
    (hp : r1.pendingChallenge = r.pendingChallenge) (ht : r1.currentTurn = r.currentTurn) :
    r1.Inv := by
  obtain ⟨i1, i2, i3, i4⟩ := hinv
  have hget : ∀ (i : Nat) (s1 : Seat), r1.seats[i]? = some s1 →
      ∃ s, r.seats[i]? = some s ∧ s1.Index = s.Index ∧ s1.Player = s.Player := by
    intro i s1 hs1
    have := congrArg (fun l => l[i]?) hs
    simp only [List.getElem?_map, hs1, Option.map_some'] at this
    cases hx : r.seats[i]? with
    | none => rw [hx] at this; simp at this
    | some s =>
      rw [hx] at this
      simp only [Option.map_some', Option.some.injEq, Prod.mk.injEq] at this
      exact ⟨s, rfl, this.1, this.2⟩
  have hlen : r1.seats.length = r.seats.length := by
    have := congrArg List.length hs
    simpa using this
  refine ⟨?_, ?_, ?_, ?_⟩
  · intro i s1 hs1
    obtain ⟨s, h1, h2, h3⟩ := hget i s1 hs1
    rw [h2, h3]
    exact i1 i s h1
  · rw [hst, hp]; exact i2
  · rw [hst]
    intro hne
    obtain ⟨g, g1, g2, g3, g4⟩ := i3 hne
    refine ⟨g, by rw [hg, g1], by rw [hlen, g2], g3, ?_⟩
    intro i s1 hs1
    obtain ⟨s, h1, -, h3⟩ := hget i s1 hs1
    rw [h3]
    exact g4 i s h1
  · intro p hp1
    rw [hp] at hp1
    obtain ⟨g, att, dfd, q1, q2, q3⟩ := i4 p hp1
    exact ⟨g, att, dfd, by rw [hg, q1], by rw [ht]; exact q2, q3⟩

theorem Room.assignHostLocked_eq (r : Room) :
    r.assignHostLocked = { r with hostSeat := r.assignHostLocked.hostSeat } := by
  unfold Room.assignHostLocked
  split
  · rfl
  · split <;> rfl

theorem map_key_set {L : List Seat} {pos : Nat} {seat seat1 : Seat}
    (h : L[pos]? = some seat) (hi : seat1.Index = seat.Index)
    (hp : seat1.Player = seat.Player) :
    (L.set pos seat1).map (fun s => (s.Index, s.Player)) =
      L.map (fun s => (s.Index, s.Player)) := by
  rw [List.map_set, hi, hp]
  apply set_of_getElem?
  rw [List.getElem?_map, h]
  rfl

theorem enum_find_get {L : List Seat} {f : Nat × Seat → Bool} {pos : Nat} {seat : Seat}
    (h : L.enum.find? f = some (pos, seat)) : L[pos]? = some seat :=
  List.mk_mem_enum_iff_getElem?.mp (List.mem_of_find?_eq_some h)

theorem Room.Inv_addBot {r : Room} (name : String) (hinv : r.Inv) : (r.addBot name).1.Inv := by
  unfold Room.addBot
  split
  · exact hinv
  · split
    · exact hinv
    · rename_i pos seat hfind
      exact Room.Inv_of_seats hinv (map_key_set (enum_find_get hfind) rfl rfl) rfl rfl rfl rfl

theorem Room.Inv_removeBot {r : Room} (seatIdx : Int) (hinv : r.Inv) :
    (r.removeBot seatIdx).1.Inv := by
  unfold Room.removeBot
  split
  · exact hinv
  · split
    · exact hinv
    · rename_i seat hseat
      split
      · exact hinv
      · have hkey : ((r.seats.set seatIdx.toNat
            (if seat.Client.isNone = true then
              { seat with Bot := none, Name := "", Token := "" }
            else { seat with Bot := none })).map (fun s => (s.Index, s.Player))) =
            r.seats.map (fun s => (s.Index, s.Player)) := by
          apply map_key_set hseat <;> split <;> rfl
        dsimp only
        split
        · rw [Room.assignHostLocked_eq]
          exact Room.Inv_of_seats hinv hkey rfl rfl rfl rfl
        · exact Room.Inv_of_seats hinv hkey rfl rfl rfl rfl

theorem Room.Inv_join {r : Room} (c : Client) (hinv : r.Inv) : (r.Join c).1.Inv := by
  unfold Room.Join
  dsimp only
  split
  · rename_i pos seat hfind
    have hget : r.seats[pos]? = some seat := by
      split at hfind
      · exact enum_find_get hfind
      · simp at hfind
    split
    · exact hinv
    · rw [Room.assignHostLocked_eq]
      exact Room.Inv_of_seats hinv (map_key_set hget rfl rfl) rfl rfl rfl rfl
  · split
    · exact hinv
    · split
      · exact hinv
      · rename_i pos seat hfind
        rw [Room.assignHostLocked_eq]
        exact Room.Inv_of_seats hinv (map_key_set (enum_find_get hfind) rfl rfl) rfl rfl rfl
          rfl

theorem Room.Inv_setSeat {r : Room} (hinv : r.Inv) {pos : Nat} {seat seat2 : Seat}
    (hget : r.seats[pos]? = some seat) (h1 : seat2.Index = seat.Index)
    (h2 : seat2.Player = seat.Player) (b : Prop) [Decidable b] :
    (if b then ({ r with seats := r.seats.set pos seat2 } : Room).assignHostLocked
      else { r with seats := r.seats.set pos seat2 }).Inv := by
  split
  · rw [Room.assignHostLocked_eq]
    exact Room.Inv_of_seats hinv (map_key_set hget h1 h2) rfl rfl rfl rfl
  · exact Room.Inv_of_seats hinv (map_key_set hget h1 h2) rfl rfl rfl rfl

theorem Room.Inv_onClientLeft {r : Room} (c : Client) (hinv : r.Inv) :
    (r.onClientLeft c).Inv := by
  unfold Room.onClientLeft
  split
  · split
    · exact hinv
    · rename_i seat hseat
      split
      · refine Room.Inv_setSeat hinv hseat ?_ ?_ _
        · by_cases hr : r.status = RoomStatusRunning <;>
            by_cases hb : seat.Bot.isNone = true <;> simp [hr, hb]
        · by_cases hr : r.status = RoomStatusRunning <;>
            by_cases hb : seat.Bot.isNone = true <;> simp [hr, hb]
      · exact hinv
  · exact hinv

theorem Room.Inv_delayedReset {r : Room} (hinv : r.Inv) : r.delayedReset.Inv := by
  unfold Room.delayedReset
  split
  · exact hinv
  · obtain ⟨i1, -, -, -⟩ := hinv
    refine ⟨?_, fun _ => rfl, fun h => absurd rfl h,
      fun p hp => by simp [Room.resetToLobbyLocked] at hp⟩
    intro i seat hs
    simp only [Room.resetToLobbyLocked, List.getElem?_map] at hs
    cases hx : r.seats[i]? with
    | none => rw [hx] at hs; simp at hs
    | some s =>
      rw [hx] at hs
      simp only [Option.map_some', Option.some.injEq] at hs
      subst hs
      exact ⟨(i1 i s hx).1, Or.inl rfl⟩

theorem NewGame_players_length {names : List String} {rng : Rng} {g : Game}
    (h : NewGame names rng = .ok g) : g.Players.length = names.length := by
  have hlen := NewGame_ok_length h
  obtain ⟨g1, -, -, -, h1, -, -, -, -, h6, -⟩ := NewGame_anatomy names rng hlen
  rw [h1] at h
  simp only [Except.ok.injEq] at h
  subst h
  rw [h6, hlen]

theorem Game.DeckValues_round {g : Game} (n : Int) (h : g.DeckValues) :
    ({ g with Round := n } : Game).DeckValues := by
  intro p hp c hc hk
  exact h p hp c hc hk

theorem Room.Inv_startGame {r r1 : Room} {res : Option String} (gameRng : Rng)
    (hinv : r.Inv) (h : r.StartGame gameRng = some (r1, res)) : r1.Inv := by
  unfold Room.StartGame at h
  split at h
  · simp only [Option.some.injEq, Prod.mk.injEq] at h
    rw [← h.1]; exact hinv
  · rename_i hlobby
    have hlobby' : r.status = RoomStatusLobby := by
      by_contra hh; exact hlobby hh
    obtain ⟨i1, i2, -, -⟩ := hinv
    have hpend : r.pendingChallenge = none := i2 (by rw [hlobby']; decide)
    dsimp only at h
    have hseat1 : ∀ (i : Nat) (s1 : Seat),
        (r.seats.mapIdx (fun i seat =>
          match seat.Client with
          | some _ => seat
          | none =>
            { seat with
              Bot := some { SeatIndex := (i : Int), Name := "機器人" ++ toString (i + 1),
                            KnownZombies := [] },
              Name := "機器人" ++ toString (i + 1) }))[i]? = some s1 →
        ∃ s, r.seats[i]? = some s ∧ s1.Index = s.Index ∧ s1.Player = s.Player := by
      intro i s1 hs1
      rw [List.getElem?_mapIdx] at hs1
      cases hx : r.seats[i]? with
      | none => rw [hx] at hs1; simp at hs1
      | some s =>
        rw [hx] at hs1
        simp only [Option.map_some', Option.some.injEq] at hs1
        subst hs1
        refine ⟨s, rfl, ?_, ?_⟩ <;> split <;> rfl
    split at h
    · rename_i e hng
      simp only [Option.some.injEq, Prod.mk.injEq] at h
      rw [← h.1]
      refine ⟨?_, fun _ => hpend, fun hne => absurd hlobby' hne,
        fun p hp => by rw [hpend] at hp; simp at hp⟩
      intro i s1 hs1
      obtain ⟨s, h1, h2, h3⟩ := hseat1 i s1 hs1
      rw [h2, h3]
      exact i1 i s h1
    · rename_i g hng
      split at h
      · simp at h
      · rename_i next hnext
        simp only [Option.some.injEq, Prod.mk.injEq] at h
        rw [← h.1]
        have hgl := NewGame_players_length hng
        simp only [List.length_map, List.length_mapIdx] at hgl
        refine ⟨?_, fun _ => hpend, fun _ => ⟨_, rfl, ?_, ?_, ?_⟩,
          fun p hp => by rw [hpend] at hp; simp at hp⟩
        · intro i s2 hs2
          simp only [List.getElem?_mapIdx] at hs2
          cases hx : r.seats[i]? with
          | none => rw [hx] at hs2; simp at hs2
          | some s =>
            rw [hx] at hs2
            simp only [Option.map_some', Option.some.injEq] at hs2
            subst hs2
            refine ⟨?_, Or.inr rfl⟩
            have := (i1 i s hx).1
            simp only
            split <;> exact this
        · simp only [List.length_mapIdx]
          exact hgl
        · exact Game.DeckValues_round _ (NewGame_deckValues hng)
        · intro i s2 hs2
          simp only [List.getElem?_mapIdx] at hs2
          cases hx : r.seats[i]? with
          | none => rw [hx] at hs2; simp at hs2
          | some s =>
            rw [hx] at hs2
            simp only [Option.map_some', Option.some.injEq] at hs2
            subst hs2
            rfl

theorem Room.resolve_not_error {r r1 : Room} {a d : Int} {ac dc : List Int} {e : String}
    (h : r.resolveChallengeLocked a d ac dc = some (r1, some e)) {g g1 : Game}
    {o : ChallengeOutcome} (hg : r.game = some g)
    (hc : Challenge g ⟨a, d, ac, dc⟩ = (g1, .ok o)) : False := by
  rcases Room.resolveChallengeLocked_error h with ⟨h1, -⟩ | ⟨g', g1', h1, h2, -⟩
  · rw [hg] at h1; simp at h1
  · rw [hg] at h1
    cases h1
    rw [hc] at h2
    simp at h2

theorem Challenge_players_length {g g1 : Game} {opts : ChallengeOptions}
    {res : Except String ChallengeOutcome} (h : Challenge g opts = (g1, res)) :
    g1.Players.length = g.Players.length := by
  cases res with
  | error e => exact (Challenge_error_players h).2.1
  | ok o =>
    obtain ⟨att', dfd', -, -, -, -, -, -, -, -, -, -, hpa, hpd, -⟩ := Challenge_ok h
    obtain ⟨-, hatt, -⟩ := playerByID_ok hpa
    obtain ⟨-, hdfd, -⟩ := playerByID_ok hpd
    obtain ⟨-, -, -, -, -, -, -, -, -, -, -, -, -, -, -, -, -, -, -, hlen, -⟩ :=
      Challenge_run h hatt hdfd
    exact hlen

/-- A challenge resolved in a room that is not in its lobby leaves a room
in order, with no challenge pending. -/
theorem Room.Inv_resolve_ok {r r1 : Room} {a d : Int} {ac dc : List Int} (hinv : r.Inv)
    (hrun : r.status ≠ RoomStatusLobby)
    (h : r.resolveChallengeLocked a d ac dc = some (r1, none)) : r1.Inv := by
  obtain ⟨g, g1, o, hg, hc, hpend, hseats, -, -, round, hgame⟩ :=
    Room.resolveChallengeLocked_ok h
  obtain ⟨i1, -, i3, -⟩ := hinv
  obtain ⟨g', hg', hlen, hdv, hpl⟩ := i3 hrun
  rw [hg] at hg'
  cases hg'
  have hget : ∀ (i : Nat) (s1 : Seat), r1.seats[i]? = some s1 →
      ∃ s, r.seats[i]? = some s ∧ s1.Index = s.Index ∧ s1.Player = s.Player := by
    intro i s1 hs1
    obtain ⟨s, h1, h2⟩ := seats_forget_get hseats hs1
    exact ⟨s, h1, (Seat.forget_eq h2).1, (Seat.forget_eq h2).2.1⟩
  refine ⟨?_, fun _ => hpend, fun _ => ⟨_, hgame, ?_, ?_, ?_⟩,
    fun p hp => by rw [hpend] at hp; simp at hp⟩
  · intro i s1 hs1
    obtain ⟨s, h1, h2, h3⟩ := hget i s1 hs1
    rw [h2, h3]
    exact i1 i s h1
  · have h1 := congrArg List.length hseats
    simp only [List.length_map] at h1
    simp only
    rw [Challenge_players_length hc, hlen, h1]
  · exact Game.DeckValues_round _ (Challenge_deckValues hc hdv)
  · intro i s1 hs1
    obtain ⟨s, h1, -, h3⟩ := hget i s1 hs1
    rw [h3]
    exact hpl i s h1

/-- A challenge that fails while none is pending leaves a room in order. -/
theorem Room.Inv_resolve_error {r r1 : Room} {a d : Int} {ac dc : List Int} {e : String}
    (hinv : r.Inv) (hp : r.pendingChallenge = none)
    (h : r.resolveChallengeLocked a d ac dc = some (r1, some e)) : r1.Inv := by
  rcases Room.resolveChallengeLocked_error h with ⟨-, h1⟩ | ⟨g, g1, hg, hc, h1⟩
  · rw [h1]; exact hinv
  · subst h1
    obtain ⟨i1, i2, i3, -⟩ := hinv
    refine ⟨i1, i2, ?_, fun p hp1 => by
      have : r.pendingChallenge = some p := hp1
      rw [hp] at this
      simp at this⟩
    intro hne
    obtain ⟨g', hg', hlen, hdv, hpl⟩ := i3 hne
    rw [hg] at hg'
    cases hg'
    exact ⟨g1, rfl, by rw [Challenge_players_length hc]; exact hlen,
      Challenge_deckValues hc hdv, hpl⟩

theorem Room.Inv_handleChallenge {r r1 : Room} {res : Option String} (c : Client)
    (payload : ChallengePayload) (hinv : r.Inv)
    (h : r.handleChallenge c payload = some (r1, res)) : r1.Inv := by
  rcases Room.handleChallenge_cases hinv.1 h with ⟨h1, -⟩ |
    ⟨g, a, d, dseat, att, dfd, cards, first, hrun, hpend, hturn, hca, hcd, hne, hg, hds,
      hga, haa, hgd, hda, hnorm, hfirst, hcase⟩
  · rw [h1]; exact hinv
  · have hnl : r.status ≠ RoomStatusLobby := by rw [hrun]; decide
    have hres : ∀ dc, r.resolveChallengeLocked a d cards dc = some (r1, res) → r1.Inv := by
      intro dc hr
      cases res with
      | none => exact Room.Inv_resolve_ok hinv hnl hr
      | some e => exact Room.Inv_resolve_error hinv hpend hr
    rcases hcase with ⟨-, suit, hsel, hc⟩ | ⟨-, -, hr⟩ | ⟨-, hr⟩
    · rcases hc with ⟨-, -, -, h1⟩ | ⟨-, -, hr⟩ | ⟨-, hr⟩
      · subst h1
        obtain ⟨i1, i2, i3, i4⟩ := hinv
        refine ⟨i1, fun hh => absurd hrun hh, i3, ?_⟩
        intro p hp
        simp only [Option.some.injEq] at hp
        subst hp
        refine ⟨g, att, dfd, hg, by rw [← hturn, hca], by simp, by simp, ?_, ?_, haa, ?_,
          hda, rfl, hsel⟩
        · simp only [ne_eq, Nat.cast_inj]; exact hne
        · simpa using hga
        · simpa using hgd
      · exact hres _ hr
      · exact hres _ hr
    · exact hres _ hr
    · exact hres _ hr

/-- The answer of a defender to a pending challenge that is in order is
always settled. -/
theorem Room.defense_succeeds {r : Room} (hinv : r.Inv) {p : ZombieHunt.pendingChallenge}
    {seat : Seat} {player : Player} {defense : List Int}
    (hp : r.pendingChallenge = some p)
    (hseat : r.seatAt p.DefenderSeat = some seat) (hplayer : r.playerOf seat = some player)
    (hnorm : normalizeDefenseSelection defense player.Hand.length = .ok defense ∨
      (defense.Pairwise (fun a b => a < b)))
    (hcheck : p.AttackKind = CardKindNumber → defense ≠ [] → defense.length ≤ 5 ∧
      ∀ i ∈ defense, ∃ card, handCard player.Hand i = some card ∧
        card.Kind = CardKindNumber ∧ card.Suit = p.AttackSuit) :
    ∃ g g1 o, r.game = some g ∧
      Challenge g ⟨p.AttackerSeat, p.DefenderSeat, p.AttackerCards, defense⟩ =
        (g1, .ok o) := by
  obtain ⟨i1, i2, i3, i4⟩ := hinv
  obtain ⟨g, att, dfd, hg, -, ha0, hd0, hne, hga, haa, hgd, hda, hkind, hsel⟩ := i4 p hp
  have hrun : r.status = RoomStatusRunning := by
    by_contra hh
    rw [i2 hh] at hp
    simp at hp
  obtain ⟨g', hg', -, -, hpl⟩ := i3 (by rw [hrun]; decide)
  rw [hg] at hg'
  cases hg'
  obtain ⟨-, hsg⟩ := Room.seatAt_some hseat
  have hpp := hpl _ seat hsg
  have hpd : player = dfd := by
    unfold Room.playerOf at hplayer
    rw [hpp, hg] at hplayer
    simp only at hplayer
    rw [hgd] at hplayer
    exact (Option.some.inj hplayer).symm
  subst hpd
  have hsorted : defense.Pairwise (fun a b => a < b) := by
    rcases hnorm with hn | hn
    · exact (normalizeDefenseSelection_ok hn).1
    · exact hn
  have hdef : defense = [] ∨ NumberSelection player.Hand defense p.AttackSuit := by
    by_cases he : defense = []
    · exact Or.inl he
    · obtain ⟨c1, c2⟩ := hcheck hkind he
      exact Or.inr ⟨he, c1, hsorted, c2⟩
  obtain ⟨g1, o, hc⟩ := Challenge_number_selection
    (show p.AttackerSeat.toNat ≠ p.DefenderSeat.toNat by omega) hga haa hgd hda hsel hdef
  rw [Int.toNat_of_nonneg ha0, Int.toNat_of_nonneg hd0] at hc
  exact ⟨g, g1, o, hg, hc⟩

theorem Room.Inv_handleDefenseResponse {r r1 : Room} {res : Option String} (c : Client)
    (payload : DefensePayload) (hinv : r.Inv)
    (h : r.handleDefenseResponse c payload = some (r1, res)) : r1.Inv := by
  rcases Room.handleDefenseResponse_cases h with ⟨h1, -⟩ |
    ⟨p, seat, player, defense, hp, hci, hseat, hplayer, hnorm, hcheck, hr⟩
  · rw [h1]; exact hinv
  · have hrun : r.status = RoomStatusRunning := by
      by_contra hh
      rw [hinv.2.1 hh] at hp
      simp at hp
    rw [hci] at hseat
    obtain ⟨g, g1, o, hg, hc⟩ := Room.defense_succeeds hinv hp hseat hplayer
      (Or.inr (normalizeDefenseSelection_ok hnorm).1) hcheck
    cases res with
    | none => exact Room.Inv_resolve_ok hinv (by rw [hrun]; decide) hr
    | some e => exact (Room.resolve_not_error hr hg hc).elim

/-- Passing the turn while no challenge is pending keeps a started room in
order. -/
theorem Room.Inv_advance {r r1 : Room} (hinv : r.Inv) (hnl : r.status ≠ RoomStatusLobby)
    (hp : r.pendingChallenge = none) (h : r.advanceTurnLocked = some r1) : r1.Inv := by
  obtain ⟨hs, hpe, -, -, hg⟩ := Room.advanceTurnLocked_frame h
  obtain ⟨i1, -, i3, -⟩ := hinv
  obtain ⟨g, hg0, hlen, hdv, hpl⟩ := i3 hnl
  refine ⟨?_, fun _ => hpe.trans hp, fun _ => ?_,
    fun p hp1 => by rw [hpe, hp] at hp1; simp at hp1⟩
  · intro i s hs1
    rw [hs] at hs1
    exact i1 i s hs1
  · rcases hg with hg | ⟨g', round, hg', hg1⟩
    · exact ⟨g, by rw [hg, hg0], by rw [hs]; exact hlen, hdv, by rw [hs]; exact hpl⟩
    · rw [hg0] at hg'
      cases hg'
      exact ⟨_, hg1, by rw [hs]; exact hlen, Game.DeckValues_round _ hdv,
        by rw [hs]; exact hpl⟩

theorem Room.Inv_rng {r : Room} (hinv : r.Inv) (x : Rng) : ({ r with rng := x } : Room).Inv :=
  Room.Inv_of_seats hinv rfl rfl rfl rfl rfl

/-- Where the seats of a bot and of its chosen target sit in the game. -/
theorem Room.bot_turn_facts {r : Room} (hwf : r.WellFormed) {bot : BotPlayer}
    {seat dseat : Seat} {attacker defender : Player} {a : botAttack} {order : List Suit}
    (hseat : r.seatAt bot.SeatIndex = some seat)
    (hlive : r.livePlayer seat = some attacker)
    (hchoose : r.chooseBotAttack bot attacker (r.aliveTargetsLocked bot.SeatIndex) order =
      some (some a))
    (hdseat : r.seatAt a.targetIndex = some dseat)
    (hdl : r.livePlayer dseat = some defender) :
    ∃ (g : Game) (i j : Nat), r.game = some g ∧ i ≠ j ∧ seat.Index = (i : Int) ∧
      dseat.Index = (j : Int) ∧ bot.SeatIndex = (i : Int) ∧
      g.Players[i]? = some attacker ∧ attacker.Alive = true ∧
      g.Players[j]? = some defender ∧ defender.Alive = true := by
  obtain ⟨h0, hs⟩ := Room.seatAt_some hseat
  obtain ⟨g, hg, hga, haa, hsi, -⟩ := Room.livePlayer_some hwf hs hlive
  obtain ⟨h0d, hsd⟩ := Room.seatAt_some hdseat
  obtain ⟨g', hg', hgd, hda, hdi, -⟩ := Room.livePlayer_some hwf hsd hdl
  rw [hg] at hg'
  cases hg'
  obtain ⟨hmem, -⟩ := Room.chooseBotAttack_some hchoose
  obtain ⟨k, ks, -, -, hne, -⟩ := (Room.mem_aliveTargetsLocked hwf).mp hmem
  exact ⟨g, _, _, hg, by omega, hsi, hdi, (Int.toNat_of_nonneg h0).symm, hga, haa, hgd, hda⟩

/-- The challenge a bot issues is always settled. -/
theorem Room.bot_challenge_succeeds {r : Room} (hwf : r.WellFormed) {bot : BotPlayer}
    {seat dseat : Seat} {attacker defender : Player} {a : botAttack} {order : List Suit}
    (hseat : r.seatAt bot.SeatIndex = some seat)
    (hlive : r.livePlayer seat = some attacker)
    (hchoose : r.chooseBotAttack bot attacker (r.aliveTargetsLocked bot.SeatIndex) order =
      some (some a))
    (hdseat : r.seatAt a.targetIndex = some dseat)
    (hdl : r.livePlayer dseat = some defender) (dc : List Int)
    (hdc : dc = [] ∨ (a.attackKind = CardKindNumber ∧
      dc = selectBotDefenseIndices defender a.attackSuit a.attackCards.length)) :
    ∃ g g1 o, r.game = some g ∧
      Challenge g ⟨seat.Index, dseat.Index, a.attackCards, dc⟩ = (g1, .ok o) := by
  obtain ⟨g, i, j, hg, hne, hsi, hdi, -, hga, haa, hgd, hda⟩ :=
    Room.bot_turn_facts hwf hseat hlive hchoose hdseat hdl
  rw [hsi, hdi]
  obtain ⟨-, hkind⟩ := Room.chooseBotAttack_some hchoose
  have hnum : a.attackKind = CardKindNumber →
      NumberSelection attacker.Hand a.attackCards a.attackSuit := by
    intro hk
    rcases hkind with ⟨h1, -⟩ | ⟨h1, -⟩ | ⟨-, h2, h3, h4⟩
    · rw [hk] at h1; exact absurd h1 (by decide)
    · rw [hk] at h1; exact absurd h1 (by decide)
    · rcases selectStrongestNumericSet_selection attacker order with hh | hh
      · rw [h2] at h4; exact absurd hh h4
      · rw [h2, h3]; exact hh
  rcases hdc with hdc | ⟨hk, hdc⟩
  · subst hdc
    rcases hkind with ⟨-, idx, c, h2, h3, h4⟩ | ⟨-, idx, c, h2, h3, h4⟩ | ⟨h1, -⟩
    · rw [h2]
      obtain ⟨g1, o, hc⟩ := Challenge_special_card hne hga haa hgd hda h3 (Or.inl h4)
      exact ⟨g, g1, o, hg, hc⟩
    · rw [h2]
      obtain ⟨g1, o, hc⟩ := Challenge_special_card hne hga haa hgd hda h3 (Or.inr h4)
      exact ⟨g, g1, o, hg, hc⟩
    · obtain ⟨g1, o, hc⟩ := Challenge_number_selection hne hga haa hgd hda (hnum h1)
        (Or.inl rfl)
      exact ⟨g, g1, o, hg, hc⟩
  · have hsel := hnum hk
    obtain ⟨g1, o, hc⟩ := Challenge_number_selection hne hga haa hgd hda hsel
      (show dc = [] ∨ NumberSelection defender.Hand dc a.attackSuit by
        rw [hdc]
        exact selectBotDefenseIndices_selection defender a.attackSuit hsel.2.1)
    exact ⟨g, g1, o, hg, hc⟩

/-- While a challenge is pending in a room in order, the seat whose turn it
is holds a living player with a number card and a living opponent. -/
theorem Room.pending_blocks_pass {r : Room} (hinv : r.Inv)
    {p : ZombieHunt.pendingChallenge} (hp : r.pendingChallenge = some p) {seat : Seat}
    (hseat : r.seatAt r.currentTurn = some seat) :
    ∃ attacker, r.livePlayer seat = some attacker ∧
      r.aliveTargetsLocked r.currentTurn ≠ [] ∧
      ∀ order, (selectStrongestNumericSet attacker order).2 ≠ [] := by
  obtain ⟨i1, i2, i3, i4⟩ := hinv
  obtain ⟨g, att, dfd, hg, hturn, ha0, hd0, hne, hga, haa, hgd, hda, hkind, hsel⟩ := i4 p hp
  have hrun : r.status = RoomStatusRunning := by
    by_contra hh
    rw [i2 hh] at hp
    simp at hp
  obtain ⟨g', hg', hlen, hdv, hpl⟩ := i3 (by rw [hrun]; decide)
  rw [hg] at hg'
  cases hg'
  obtain ⟨-, hsg⟩ := Room.seatAt_some hseat
  rw [← hturn] at hsg
  have hpp := hpl _ seat hsg
  refine ⟨att, Room.livePlayer_of_get hg hpp hga haa, ?_, ?_⟩
  · have hlt : p.DefenderSeat.toNat < r.seats.length := by
      rw [← hlen]
      exact (List.getElem?_eq_some_iff.mp hgd).1
    have hds : r.seats[p.DefenderSeat.toNat]? = some (r.seats[p.DefenderSeat.toNat]) :=
      List.getElem?_eq_getElem hlt
    have hdl := Room.livePlayer_of_get hg (hpl _ _ hds) hgd hda
    have hmem : p.DefenderSeat ∈ r.aliveTargetsLocked r.currentTurn :=
      (Room.mem_aliveTargetsLocked i1).mpr ⟨_, _, hds, (Int.toNat_of_nonneg hd0).symm,
        by rw [← hturn]; exact fun hh => hne hh.symm, Room.seatAlive_iff.mpr ⟨_, hdl⟩⟩
    exact List.ne_nil_of_mem hmem
  · intro order
    obtain ⟨hnil, -, -, hall⟩ := hsel
    obtain ⟨idx, rest, hcons⟩ := List.exists_cons_of_ne_nil hnil
    obtain ⟨c, hc, hk, -⟩ := hall idx (by rw [hcons]; exact List.mem_cons_self _ _)
    exact selectStrongestNumericSet_ne_nil att order
      (fun c1 hc1 hk1 => hdv att (List.getElem?_mem hga) c1 hc1 hk1) (handCard_some hc).2.2 hk

theorem Room.Inv_executeBotTurn {r r1 : Room} (bot : BotPlayer) (order : List Suit)
    (hinv : r.Inv) (h : r.executeBotTurn bot order = some r1) : r1.Inv := by
  rcases Room.executeBotTurn_cases h with h1 | ⟨hrun, hturn, seat, hseat, hcase⟩
  · rw [h1]; exact hinv
  · have hnl : r.status ≠ RoomStatusLobby := by rw [hrun]; decide
    have hwf := hinv.1
    -- passing is only possible while no challenge is pending
    have hpass : ∀ {x : Rng}, (r.livePlayer seat = none ∨
        r.aliveTargetsLocked bot.SeatIndex = [] ∨
        ∃ attacker, r.livePlayer seat = some attacker ∧
          (selectStrongestNumericSet attacker order).2 = []) →
        ({ r with rng := x } : Room).advanceTurnLocked = some r1 → r1.Inv := by
      intro x hwhy hadv
      have hpn : r.pendingChallenge = none := by
        cases hpe : r.pendingChallenge with
        | none => rfl
        | some p =>
          exfalso
          rw [← hturn] at hseat
          obtain ⟨attacker, b1, b2, b3⟩ := Room.pending_blocks_pass hinv hpe hseat
          rw [hturn] at b2
          rcases hwhy with w | w | ⟨att2, w1, w2⟩
          · rw [w] at b1; simp at b1
          · exact b2 w
          · rw [b1] at w1
            cases w1
            exact b3 order w2
      exact Room.Inv_advance (Room.Inv_rng hinv x) hnl hpn hadv
    rcases hcase with ⟨hl, hadv⟩ | ⟨attacker, hlive, hcase⟩
    · exact hpass (x := r.rng) (Or.inl hl) hadv
    · rcases hcase with ⟨ht, hadv⟩ | ⟨hnone, hadv⟩ | ⟨a, dseat, hchoose, hdseat, hcase⟩
      · exact hpass (x := r.rng) (Or.inr (Or.inl ht)) hadv
      · exact hpass (x := r.rng)
          (Or.inr (Or.inr ⟨attacker, hlive, Room.chooseBotAttack_none hnone⟩)) hadv
      · rcases hcase with ⟨hdl, hadv⟩ | ⟨defender, hdl, hcase⟩
        · exfalso
          obtain ⟨hmem, -⟩ := Room.chooseBotAttack_some hchoose
          obtain ⟨k, ks, hks, hk, -, hal⟩ := (Room.mem_aliveTargetsLocked hwf).mp hmem
          have := Room.seatAt_of_get hks
          rw [← hk, hdseat] at this
          cases this
          obtain ⟨q, hq⟩ := Room.seatAlive_iff.mp hal
          rw [hdl] at hq
          simp at hq
        · have hres : ∀ dc res, (dc = [] ∨ (a.attackKind = CardKindNumber ∧
              dc = selectBotDefenseIndices defender a.attackSuit a.attackCards.length)) →
              ({ r with rng := a.rng } : Room).resolveChallengeLocked seat.Index
                dseat.Index a.attackCards dc = some (r1, res) → r1.Inv := by
            intro dc res hdc hr
            obtain ⟨g, g1, o, hg, hc⟩ := Room.bot_challenge_succeeds hwf hseat hlive hchoose
              hdseat hdl dc hdc
            cases res with
            | none => exact Room.Inv_resolve_ok (Room.Inv_rng hinv a.rng) hnl hr
            | some e =>
              exact (Room.resolve_not_error hr (show ({ r with rng := a.rng } : Room).game =
                some g from hg) hc).elim
          rcases hcase with ⟨hk, -, -, res, hr⟩ | ⟨hk, -, -, h1⟩ | ⟨-, res, hr⟩
          · exact hres _ res (Or.inr ⟨hk, rfl⟩) hr
          · subst h1
            obtain ⟨g, i, j, hg, hne, hsi, hdi, hbi, hga, haa, hgd, hda⟩ :=
              Room.bot_turn_facts hwf hseat hlive hchoose hdseat hdl
            obtain ⟨-, hkind⟩ := Room.chooseBotAttack_some hchoose
            have hsel : NumberSelection attacker.Hand a.attackCards a.attackSuit := by
              rcases hkind with ⟨h1, -⟩ | ⟨h1, -⟩ | ⟨-, h2, h3, h4⟩
              · rw [hk] at h1; exact absurd h1 (by decide)
              · rw [hk] at h1; exact absurd h1 (by decide)
              · rcases selectStrongestNumericSet_selection attacker order with hh | hh
                · rw [h2] at h4; exact absurd hh h4
                · rw [h2, h3]; exact hh
            obtain ⟨i1, i2, i3, i4⟩ := hinv
            refine ⟨i1, fun hh => absurd hrun hh, i3, ?_⟩
            intro p hp
            simp only [Option.some.injEq] at hp
            subst hp
            refine ⟨g, attacker, defender, hg, ?_, ?_, ?_, ?_, ?_, haa, ?_, hda, rfl, hsel⟩
            · show seat.Index = r.currentTurn
              rw [hturn, hsi, hbi]
            · show 0 ≤ seat.Index
              rw [hsi]; simp
            · show 0 ≤ dseat.Index
              rw [hdi]; simp
            · show seat.Index ≠ dseat.Index
              rw [hsi, hdi]
              exact_mod_cast hne
            · show g.Players[seat.Index.toNat]? = some attacker
              rw [hsi]; simpa using hga
            · show g.Players[dseat.Index.toNat]? = some defender
              rw [hdi]; simpa using hgd
          · exact hres _ res (Or.inl rfl) hr

/-- Every room that the commands can produce is in order. -/
theorem Room.Reachable.inv {r : Room} (h : r.Reachable) : r.Inv := by
  induction h with
  | newRoom id name capacity rng => exact Room.Inv_newRoom id name capacity rng
  | join c _ ih => exact Room.Inv_join c ih
  | clientLeft c _ ih => exact Room.Inv_onClientLeft c ih
  | addBot name _ ih => exact Room.Inv_addBot name ih
  | removeBot seatIdx _ ih => exact Room.Inv_removeBot seatIdx ih
  | startGame gameRng _ hs ih => exact Room.Inv_startGame gameRng ih hs
  | challenge c payload _ hs ih => exact Room.Inv_handleChallenge c payload ih hs
  | defense c payload _ hs ih => exact Room.Inv_handleDefenseResponse c payload ih hs
  | botTurn bot order _ hs ih => exact Room.Inv_executeBotTurn bot order ih hs
  | reset _ ih => exact Room.Inv_delayedReset ih

/-! ## Rooms: rejected challenges -/

theorem exampleRoom_wellFormed (pending : Option ZombieHunt.pendingChallenge) :
    (exampleRoom pending).WellFormed := by
  intro i seat h
  have h1 : ((List.range 8).map exampleSeat)[i]? = some seat := h
  rw [List.getElem?_map] at h1
  cases hx : (List.range 8)[i]? with
  | none => rw [hx] at h1; simp at h1
  | some j =>
    rw [hx] at h1
    have hj := (List.getElem?_eq_some_iff.mp hx).2
    rw [List.getElem_range] at hj
    subst hj
    simp only [Option.map_some', Option.some.injEq] at h1
    subst h1
    exact ⟨rfl, Or.inr rfl⟩

/-- A call whose attack is turned down by the analysis, after the cards left
the hand, writes the attacker back with the hand restored and sorted. -/
theorem Challenge_attack_rejected {g : Game} {opts : ChallengeOptions}
    {att dfd att1 : Player} {cards : List Card} {e : String}
    (hne : opts.AttackerID ≠ opts.DefenderID)
    (hpa : g.playerByID opts.AttackerID = .ok att)
    (hpd : g.playerByID opts.DefenderID = .ok dfd) (ha0 : opts.AttackerCards ≠ [])
    (hrem : removeCardsByIndices att opts.AttackerCards = (att1, .ok cards))
    (han : analyzePlayedSet cards true = .error e) :
    Challenge g opts =
      ({ g with
          Players := (g.Players.set opts.AttackerID.toNat (restoreHand att1 cards)).set
            opts.DefenderID.toNat dfd }, .error e) := by
  have hl : ¬ opts.AttackerCards.length = 0 := fun hh => ha0 (List.length_eq_zero.mp hh)
  unfold Challenge
  rw [if_neg hne]
  simp only [hpa, hpd, if_neg hl, hrem, han]
  rfl

/-- The extent of what a rejected challenge command can change.  A command
that handleChallenge turns down in a well-formed room leaves the room as it
was, except when the selection holds at least two cards, one of them a
zombie card or a shotgun: then status, turn, round, pending challenge,
seats, roles, alive flags and all other hands are as before, and the hand of
the sender holds the same cards as before, in sorted order. -/
theorem rejected_challenge_state (r r1 : Room) (c : Client) (payload : ChallengePayload)
    (e : String) (hwf : r.WellFormed)
    (h : r.handleChallenge c payload = some (r1, some e)) :
    r1 = r ∨
    ∃ (g : Game) (att : Player) (hand : List Card), r.game = some g ∧
      g.Players[c.seatIndex.toNat]? = some att ∧ hand.Perm att.Hand ∧
      2 ≤ payload.Cards.length ∧
      (∃ i ∈ payload.Cards, ∃ card, handCard att.Hand i = some card ∧
        (card.Kind = CardKindZombie ∨ card.Kind = CardKindShotgun)) ∧
      r1 = { r with
        game := some { g with
          Players := g.Players.set c.seatIndex.toNat (sortHand { att with Hand := hand }) } } := by
  rcases Room.handleChallenge_cases hwf h with ⟨h1, -⟩ |
    ⟨g, a, d, dseat, att, dfd, cards, first, hrun, hpend, hturn, hca, hcd, hne, hg, hds,
      hga, haa, hgd, hda, hnorm, hfirst, hcase⟩
  · exact Or.inl h1
  · obtain ⟨-, hsorted, hrange, hperm⟩ := uniqueSortedIndices_ok hnorm
    have hnd : cards.Nodup := hsorted.imp (fun hab => ne_of_lt hab)
    -- a number selection is never turned down by the game
    have hnumber : ∀ suit dc, NumberSelection att.Hand cards suit →
        (dc = [] ∨ NumberSelection dfd.Hand dc suit) →
        r.resolveChallengeLocked a d cards dc = some (r1, some e) → False := by
      intro suit dc hsel hdc hr
      obtain ⟨g1, o, hc⟩ := Challenge_number_selection hne hga haa hgd hda hsel hdc
      exact Room.resolve_not_error hr hg hc
    -- a selection that starts with a special card
    have hspecial : (first.Kind = CardKindZombie ∨ first.Kind = CardKindShotgun) →
        r.resolveChallengeLocked a d cards [] = some (r1, some e) →
        r1 = r ∨
        ∃ (g : Game) (att : Player) (hand : List Card), r.game = some g ∧
          g.Players[c.seatIndex.toNat]? = some att ∧ hand.Perm att.Hand ∧
          2 ≤ payload.Cards.length ∧
          (∃ i ∈ payload.Cards, ∃ card, handCard att.Hand i = some card ∧
            (card.Kind = CardKindZombie ∨ card.Kind = CardKindShotgun)) ∧
          r1 = { r with
            game := some { g with
              Players := g.Players.set c.seatIndex.toNat
                (sortHand { att with Hand := hand }) } } := by
      intro hk hr
      rcases Room.resolveChallengeLocked_error hr with ⟨hgn, -⟩ | ⟨g', g1, hg', hc, hr1⟩
      · rw [hg] at hgn; simp at hgn
      · rw [hg] at hg'
        cases hg'
        -- the first card of the selection
        cases hcs : cards with
        | nil => rw [hcs] at hfirst; simp at hfirst
        | cons idx rest =>
          rw [hcs] at hfirst
          simp only [List.head?_cons, Option.some_bind] at hfirst
          have hpa := playerByID_of_get hga haa
          have hpd := playerByID_of_get hgd hda
          have hrest : rest ≠ [] := by
            intro hh
            rw [hcs, hh] at hc
            obtain ⟨g2, o, hc2⟩ := Challenge_special_card hne hga haa hgd hda hfirst hk
            rw [hc2] at hc
            simp at hc
          obtain ⟨att1, hrem, hatt1, hperm1⟩ := removeCardsByIndices_valid att hnd hrange
          cases han : analyzePlayedSet (cardsAt att.Hand cards) true with
          | ok s =>
            exfalso
            have hlegal := (analyzePlayedSet_attack _).mp ⟨s, han⟩
            obtain ⟨g2, o, hc2⟩ := (Challenge_succeeds_iff g ⟨(a : Int), (d : Int), cards, []⟩
              att dfd (by simpa using hne) hpa hpd (by rw [hcs]; simp) hnd hrange
              List.nodup_nil (fun i hi => absurd hi (List.not_mem_nil _))).mpr
              ⟨hlegal, Or.inl (by simp [cardsAt]),
                fun x _ y hy => absurd hy (by simp [cardsAt])⟩
            rw [hc2] at hc
            simp at hc
          | error e2 =>
            have hc2 := @Challenge_attack_rejected g ⟨(a : Int), (d : Int), cards, []⟩
              att dfd att1 _ e2 (by simpa using hne) hpa hpd
              (by rw [hcs]; simp) hrem han
            rw [hc2] at hc
            simp only [Prod.mk.injEq] at hc
            have hset : ((g.Players.set a
                (restoreHand att1 (cardsAt att.Hand cards))).set d dfd) =
                g.Players.set a (restoreHand att1 (cardsAt att.Hand cards)) := by
              apply set_of_getElem?
              rw [List.getElem?_set_ne hne]
              exact hgd
            have hrestore : restoreHand att1 (cardsAt att.Hand cards) =
                sortHand { att with Hand := att1.Hand ++ cardsAt att.Hand cards } := by
              unfold restoreHand
              rw [hatt1]
            right
            refine ⟨g, att, att1.Hand ++ cardsAt att.Hand cards, hg, ?_,
              (List.perm_append_comm.trans hperm1.symm), ?_, ⟨idx, ?_, first, hfirst, hk⟩, ?_⟩
            · rw [hca]; simpa using hga
            · rw [← hperm.length_eq, hcs]
              cases rest with
              | nil => exact absurd rfl hrest
              | cons x xs => simp
            · exact hperm.mem_iff.mp (by rw [hcs]; exact List.mem_cons_self _ _)
            · rw [hr1, ← hc.1, hca]
              simp only [Int.toNat_ofNat]
              rw [← hrestore, ← hset]
              simp
    rcases hcase with ⟨-, suit, hsel, hc⟩ | ⟨hk, -, hr⟩ | ⟨hk, hr⟩
    · rcases hc with ⟨-, -, hres, -⟩ | ⟨-, -, hr⟩ | ⟨-, hr⟩
      · simp at hres
      · exact (hnumber suit _ hsel
          (selectBotDefenseIndices_selection dfd suit hsel.2.1) hr).elim
      · exact (hnumber suit [] hsel (Or.inl rfl) hr).elim
    · exact hspecial (Or.inl hk) hr
    · exact hspecial (Or.inr hk) hr

theorem rejected_challenge_state_witness :
    (exampleRoom none).WellFormed ∧
      ((exampleRoom none).handleChallenge (exampleClient 0) ⟨1, [2, 3]⟩ =
        some (resortedRoom, some "特殊牌一次只能出一張")) ∧
      (resortedRoom = exampleRoom none ∨
        ∃ (g : Game) (att : Player) (hand : List Card), (exampleRoom none).game = some g ∧
          g.Players[(exampleClient 0).seatIndex.toNat]? = some att ∧ hand.Perm att.Hand ∧
          2 ≤ [(2 : Int), 3].length ∧
          (∃ i ∈ [(2 : Int), 3], ∃ card, handCard att.Hand i = some card ∧
            (card.Kind = CardKindZombie ∨ card.Kind = CardKindShotgun)) ∧
          resortedRoom =
            { exampleRoom none with
              game := some { g with
                Players := g.Players.set (exampleClient 0).seatIndex.toNat
                  (sortHand { att with Hand := hand }) } }) :=
  ⟨exampleRoom_wellFormed none, rfl,
    rejected_challenge_state (exampleRoom none) _ (exampleClient 0) ⟨1, [2, 3]⟩ _
      (exampleRoom_wellFormed none) rfl⟩

/-- C15, as the code runs: a rejected challenge command that changes the
room.  In the running example room the player of seat 0, whose turn it is,
selects the shotgun and the vaccine against seat 1; handleChallenge returns
an error, and the hand of seat 0, dealt as heart two, spade nine, shotgun,
vaccine, now starts with the spade nine, so the indices the player holds no
longer name the same cards.  A selection of two number cards of different
suits, by the same player in the same room, is turned down with the room
exactly as it was: the number branch checks the whole selection before
anything is written, the branches for the zombie card and the shotgun look
at the first card only. -/
theorem rejected_challenge_state_counterexample :
    (∃ r1 e, (exampleRoom none).handleChallenge (exampleClient 0) ⟨1, [2, 3]⟩ =
        some (r1, some e) ∧
      ((exampleRoom none).game.bind (fun g => g.Players[0]?)).map (fun p => p.Hand) =
        some [⟨CardKindNumber, SuitHeart, 2⟩, ⟨CardKindNumber, SuitSpade, 9⟩,
          Card.ofKind CardKindShotgun, Card.ofKind CardKindVaccine] ∧
      (r1.game.bind (fun g => g.Players[0]?)).map (fun p => p.Hand) =
        some [⟨CardKindNumber, SuitSpade, 9⟩, ⟨CardKindNumber, SuitHeart, 2⟩,
          Card.ofKind CardKindShotgun, Card.ofKind CardKindVaccine] ∧
      r1 ≠ exampleRoom none) ∧
    ∃ e, (exampleRoom none).handleChallenge (exampleClient 0) ⟨1, [0, 1]⟩ =
      some (exampleRoom none, some e) :=
  ⟨⟨_, _, rfl, rfl, rfl, by decide⟩, _, rfl⟩

/-! ## Rooms: a game played from the lobby -/

theorem Room.Reachable.joins :
    ∀ (cs : List Client) (r : Room), r.Reachable →
      (cs.foldl (fun r c => (r.Join c).1) r).Reachable
  | [], _, h => h
  | c :: cs, r, h => Room.Reachable.joins cs (r.Join c).1 (Room.Reachable.join c h)

theorem fullLobby_reachable : fullLobby.Reachable :=
  Room.Reachable.joins _ _ (Room.Reachable.newRoom _ _ _ _)

set_option maxRecDepth 100000 in
theorem runningRoom_start : fullLobby.StartGame [1] = some (runningRoom, none) := by rfl

theorem runningRoom_reachable : runningRoom.Reachable :=
  Room.Reachable.startGame [1] fullLobby_reachable runningRoom_start

set_option maxRecDepth 100000 in
theorem pendingRoom_challenge :
    rejoinedRoom.handleChallenge { seatedClient 0 with id := 8 } ⟨1, [0]⟩ =
      some (pendingRoom, none) := by rfl

theorem pendingRoom_reachable : pendingRoom.Reachable :=
  Room.Reachable.challenge _ _
    (Room.Reachable.join _ (Room.Reachable.clientLeft _ runningRoom_reachable))
    pendingRoom_challenge

set_option maxRecDepth 100000 in
theorem pendingRoom_pending :
    pendingRoom.pendingChallenge = some ⟨0, 1, [0], CardKindNumber, SuitSpade⟩ := by rfl

set_option maxRecDepth 100000 in
/-- The schedule behind the bot turn that ignores a pending challenge: the
player of seat 0 loses the connection on their own turn, which starts a bot
turn; the player comes back with the seat token and challenges seat 1 with
a number card, which seat 1 has to answer; then the bot turn runs.  It plays
the zombie card of seat 0 at seat 1, drops the pending challenge and passes
the turn to seat 1. -/
theorem stale_bot_turn :
    pendingRoom.Reachable ∧ pendingRoom.currentTurn = 0 ∧
    (leftRoom.seats[0]?).map (fun s => s.Bot) = some (some ⟨0, "P (AI)", []⟩) ∧
    pendingRoom.pendingChallenge = some ⟨0, 1, [0], CardKindNumber, SuitSpade⟩ ∧
    ∃ r1, pendingRoom.executeBotTurn ⟨0, "P (AI)", []⟩ [] = some r1 ∧
      r1.pendingChallenge = none ∧ r1.currentTurn = 1 ∧
      (pendingRoom.game.bind (fun g => g.Players[1]?)).map (fun p => p.currentIdentity) =
        some IdentityHuman ∧
      (r1.game.bind (fun g => g.Players[1]?)).map (fun p => p.currentIdentity) =
        some IdentityZombie :=
  ⟨pendingRoom_reachable, by rfl, by rfl, by rfl, _, by rfl, by rfl, by rfl, by rfl, by rfl⟩

set_option maxRecDepth 100000 in
/-- A rejected challenge that reorders a hand, in a room reached from the
lobby: seat 0 selects its shotgun and its zombie card against seat 1 right
after StartGame; the command is turned down and the hand, dealt starting
with spade two, spade ten, heart five, comes back starting with the two
spade twos. -/
theorem rejected_challenge_reachable :
    runningRoom.Reachable ∧
    ∃ r1 e, runningRoom.handleChallenge (seatedClient 0) ⟨1, [15, 16]⟩ = some (r1, some e) ∧
      (runningRoom.game.bind (fun g => g.Players[0]?)).map (fun p => p.Hand.take 3) =
        some [⟨CardKindNumber, SuitSpade, 2⟩, ⟨CardKindNumber, SuitSpade, 10⟩,
          ⟨CardKindNumber, SuitHeart, 5⟩] ∧
      (r1.game.bind (fun g => g.Players[0]?)).map (fun p => p.Hand.take 3) =
        some [⟨CardKindNumber, SuitSpade, 2⟩, ⟨CardKindNumber, SuitSpade, 2⟩,
          ⟨CardKindNumber, SuitSpade, 6⟩] :=
  ⟨runningRoom_reachable, _, _, by rfl, by rfl, by rfl⟩

/-! ## Rooms: the pending challenge -/

/-- C17: in every room reachable from NewRoom through Join, onClientLeft,
addBot, removeBot, StartGame, handleChallenge, handleDefenseResponse, the
locked body of executeBotTurn and the delayed reset to the lobby, either no
challenge is pending or the room is Running. -/
theorem pending_only_while_running (r : Room) (h : r.Reachable) :
    r.pendingChallenge = none ∨ r.status = RoomStatusRunning := by
  by_cases hs : r.status = RoomStatusRunning
  · exact Or.inr hs
  · exact Or.inl (h.inv.2.1 hs)

theorem pending_only_while_running_witness :
    pendingRoom.Reachable ∧ pendingRoom.pendingChallenge ≠ none ∧
      (pendingRoom.pendingChallenge = none ∨ pendingRoom.status = RoomStatusRunning) :=
  ⟨pendingRoom_reachable, by rw [pendingRoom_pending]; simp,
    pending_only_while_running pendingRoom pendingRoom_reachable⟩

/-- C16: in a reachable room, handleDefenseResponse returns an error, and the
room as it was, when no challenge is pending and when the sender does not
sit on the pending defender seat; and whenever it returns an error, whatever
the cause, the room it returns is the room as it was: pending challenge,
turn, round, hands, roles and alive flags included. -/
theorem defense_rejection (r : Room) (c : Client) (payload : DefensePayload)
    (hr : r.Reachable) :
    (r.pendingChallenge = none →
      ∃ e, r.handleDefenseResponse c payload = some (r, some e)) ∧
    (∀ p, r.pendingChallenge = some p → c.seatIndex ≠ p.DefenderSeat →
      ∃ e, r.handleDefenseResponse c payload = some (r, some e)) ∧
    (∀ r1 e, r.handleDefenseResponse c payload = some (r1, some e) → r1 = r) := by
  refine ⟨?_, ?_, ?_⟩
  · intro hp
    refine ⟨"目前沒有待防禦的挑戰", ?_⟩
    unfold Room.handleDefenseResponse
    rw [hp]
  · intro p hp hne
    refine ⟨"非指定防守者", ?_⟩
    unfold Room.handleDefenseResponse
    rw [hp]
    simp only [if_pos hne]
  · intro r1 e h
    rcases Room.handleDefenseResponse_cases h with ⟨h1, -⟩ |
      ⟨p, seat, player, defense, hp, hci, hseat, hplayer, hnorm, hcheck, hres⟩
    · exact h1
    · rw [hci] at hseat
      obtain ⟨g, g1, o, hg, hc⟩ := Room.defense_succeeds hr.inv hp hseat hplayer
        (Or.inr (normalizeDefenseSelection_ok hnorm).1) hcheck
      exact (Room.resolve_not_error hres hg hc).elim

theorem defense_rejection_witness :
    pendingRoom.Reachable ∧
      pendingRoom.pendingChallenge = some ⟨0, 1, [0], CardKindNumber, SuitSpade⟩ ∧
      (pendingRoom.pendingChallenge = none →
        ∃ e, pendingRoom.handleDefenseResponse (seatedClient 1) ⟨[99]⟩ =
          some (pendingRoom, some e)) ∧
      (∀ p, pendingRoom.pendingChallenge = some p →
        (seatedClient 1).seatIndex ≠ p.DefenderSeat →
        ∃ e, pendingRoom.handleDefenseResponse (seatedClient 1) ⟨[99]⟩ =
          some (pendingRoom, some e)) ∧
      (∀ r1 e, pendingRoom.handleDefenseResponse (seatedClient 1) ⟨[99]⟩ =
        some (r1, some e) → r1 = pendingRoom) :=
  ⟨pendingRoom_reachable, pendingRoom_pending,
    defense_rejection pendingRoom (seatedClient 1) ⟨[99]⟩ pendingRoom_reachable⟩

/-- C18: executeBotTurn has no guard on the pending challenge.  In the
running example room, with the challenge of seat 0 at seat 1 waiting for its
answer, the locked body of executeBotTurn for a bot of seat 0 plays the spade
nine at seat 6, takes the heart eight, eliminates seat 6, drops the pending
challenge and passes the turn to seat 1. -/
theorem bot_turn_ignores_pending :
    (exampleRoom (some spadeNinePending)).status = RoomStatusRunning ∧
    (exampleRoom (some spadeNinePending)).pendingChallenge = some spadeNinePending ∧
    ∃ r1, (exampleRoom (some spadeNinePending)).executeBotTurn ⟨0, "P (AI)", []⟩ [] = some r1 ∧
      r1.pendingChallenge = none ∧ r1.currentTurn = 1 ∧
      (r1.game.bind (fun g => g.Players[0]?)).map (fun p => p.Hand) =
        some [⟨CardKindNumber, SuitSpade, 9⟩, ⟨CardKindNumber, SuitHeart, 2⟩,
          ⟨CardKindNumber, SuitHeart, 8⟩, Card.ofKind CardKindShotgun,
          Card.ofKind CardKindVaccine] ∧
      (r1.game.bind (fun g => g.Players[6]?)).map (fun p => (p.Alive, p.Hand)) =
        some (false, []) :=
  ⟨rfl, rfl, _, rfl, rfl, rfl, rfl, rfl⟩

/-! ## Rooms: where a number attack goes -/

/-- C19: when handleChallenge accepts a selection of number cards of one
suit, played in a well-formed room: against a defender who holds the suit
and whose seat has no bot, the room returned is the room as it was with the
challenge recorded as pending (attacker seat, defender seat, the selection
in ascending order, the suit), so no hand, role, alive flag, turn or round
changes; against a defender who holds the suit and whose seat has a bot,
the challenge is settled at once with the defence the bot picks, and none
is pending afterwards; against a defender without the suit it is settled at
once with an empty defence, and none is pending afterwards. -/
theorem number_attack_routing (r r1 : Room) (c : Client) (payload : ChallengePayload)
    (g : Game) (att dfd : Player) (dseat : Seat) (suit : Suit) (hwf : r.WellFormed)
    (h : r.handleChallenge c payload = some (r1, none)) (hg : r.game = some g)
    (hatt : g.Players[c.seatIndex.toNat]? = some att)
    (hdfd : g.Players[payload.TargetID.toNat]? = some dfd)
    (hds : r.seats[payload.TargetID.toNat]? = some dseat)
    (hnum : ∀ i ∈ payload.Cards, ∃ card, handCard att.Hand i = some card ∧
      card.Kind = CardKindNumber ∧ card.Suit = suit) :
    (dfd.HasSuit suit = true → dseat.Bot = none →
      r1 = { r with
        pendingChallenge := some ⟨c.seatIndex, payload.TargetID,
          payload.Cards.insertionSort (fun a b => a ≤ b), CardKindNumber, suit⟩ }) ∧
    (dfd.HasSuit suit = true → dseat.Bot.isSome = true →
      r1.pendingChallenge = none ∧
      ∃ g1 o round,
        Challenge g ⟨c.seatIndex, payload.TargetID,
          payload.Cards.insertionSort (fun a b => a ≤ b),
          selectBotDefenseIndices dfd suit payload.Cards.length⟩ = (g1, .ok o) ∧
        r1.game = some { g1 with Round := round }) ∧
    (dfd.HasSuit suit = false →
      r1.pendingChallenge = none ∧
      ∃ g1 o round,
        Challenge g ⟨c.seatIndex, payload.TargetID,
          payload.Cards.insertionSort (fun a b => a ≤ b), []⟩ = (g1, .ok o) ∧
        r1.game = some { g1 with Round := round }) := by
  rcases Room.handleChallenge_cases hwf h with ⟨-, h1⟩ |
    ⟨g', a, d, dseat', att', dfd', cards, first, hrun, hpend, hturn, hca, hcd, hne, hg', hds',
      hga, haa, hgd, hda, hnorm, hfirst, hcase⟩
  · simp at h1
  · rw [hg] at hg'
    cases hg'
    rw [hca] at hatt
    rw [hcd] at hdfd hds
    simp only [Int.toNat_ofNat] at hatt hdfd hds
    rw [hga] at hatt
    rw [hgd] at hdfd
    rw [hds'] at hds
    cases hatt
    cases hdfd
    cases hds
    obtain ⟨hcards, -, -, hperm⟩ := uniqueSortedIndices_ok hnorm
    -- the first card of the selection is a number card of the suit
    have hfk : first.Kind = CardKindNumber ∧ (∀ s, NumberSelection att.Hand cards s →
        s = suit) := by
      cases hcs : cards with
      | nil => rw [hcs] at hfirst; simp at hfirst
      | cons idx rest =>
        rw [hcs] at hfirst
        simp only [List.head?_cons, Option.some_bind] at hfirst
        have hmem : idx ∈ cards := by rw [hcs]; exact List.mem_cons_self _ _
        obtain ⟨card, hc1, hc2, hc3⟩ := hnum idx (hperm.mem_iff.mp hmem)
        rw [hfirst] at hc1
        cases hc1
        refine ⟨hc2, fun s hs => ?_⟩
        obtain ⟨card2, hd1, -, hd3⟩ := hs.2.2.2 idx (by rw [← hcs]; exact hmem)
        rw [hfirst] at hd1
        cases hd1
        rw [← hd3, hc3]
    have hsolve : ∀ dc, r.resolveChallengeLocked a d cards dc = some (r1, none) →
        r1.pendingChallenge = none ∧
        ∃ g1 o round, Challenge g ⟨(a : Int), (d : Int), cards, dc⟩ = (g1, .ok o) ∧
          r1.game = some { g1 with Round := round } := by
      intro dc hr
      obtain ⟨g2, g1, o, hg2, hc, hp, -, -, -, round, hgame⟩ :=
        Room.resolveChallengeLocked_ok hr
      rw [hg] at hg2
      cases hg2
      exact ⟨hp, g1, o, round, hc, hgame⟩
    rw [hca, hcd, ← hcards, ← hperm.length_eq]
    rcases hcase with ⟨-, s, hsel, hc⟩ | ⟨hk, -⟩ | ⟨hk, -⟩
    · have hs := hfk.2 s hsel
      subst hs
      rcases hc with ⟨h1, h2, -, h4⟩ | ⟨h1, h2, hr⟩ | ⟨h1, hr⟩
      · refine ⟨fun _ _ => h4, fun _ hb => ?_, fun hn => ?_⟩
        · rw [h2] at hb; simp at hb
        · rw [h1] at hn; simp at hn
      · refine ⟨fun _ hb => ?_, fun _ _ => hsolve _ hr, fun hn => ?_⟩
        · rw [hb] at h2; simp at h2
        · rw [h1] at hn; simp at hn
      · refine ⟨fun hy => ?_, fun hy => ?_, fun _ => hsolve _ hr⟩
        · rw [h1] at hy; simp at hy
        · rw [h1] at hy; simp at hy
    · rw [hfk.1] at hk; exact absurd hk (by decide)
    · rw [hfk.1] at hk; exact absurd hk (by decide)

theorem number_attack_routing_witness :
    (exampleRoom none).WellFormed ∧
    (exampleRoom none).handleChallenge (exampleClient 0) ⟨1, [1]⟩ =
      some (exampleRoom (some spadeNinePending), none) ∧
    ((examplePlayer 1 "B" IdentityHuman
        [⟨CardKindNumber, SuitSpade, 5⟩, ⟨CardKindNumber, SuitHeart, 13⟩]).HasSuit
          SuitSpade = true →
      (exampleSeat 1).Bot = none →
      exampleRoom (some spadeNinePending) =
        { exampleRoom none with
          pendingChallenge := some ⟨(exampleClient 0).seatIndex, 1,
            [(1 : Int)].insertionSort (fun a b => a ≤ b), CardKindNumber, SuitSpade⟩ }) :=
  ⟨exampleRoom_wellFormed none, rfl,
    (number_attack_routing (exampleRoom none) (exampleRoom (some spadeNinePending))
      (exampleClient 0) ⟨1, [1]⟩ (exampleGame tablePlayers [3, 1, 4])
      (examplePlayer 0 "A" IdentityHuman
        [⟨CardKindNumber, SuitHeart, 2⟩, ⟨CardKindNumber, SuitSpade, 9⟩,
          Card.ofKind CardKindShotgun, Card.ofKind CardKindVaccine])
      (examplePlayer 1 "B" IdentityHuman
        [⟨CardKindNumber, SuitSpade, 5⟩, ⟨CardKindNumber, SuitHeart, 13⟩])
      (exampleSeat 1) SuitSpade (exampleRoom_wellFormed none) rfl rfl rfl rfl rfl
      (fun i hi => by
        rw [List.mem_singleton] at hi
        subst hi
        exact ⟨_, rfl, rfl, rfl⟩)).1⟩

/-! ## Rooms: one round of turns -/

theorem tmod_natCast (s o n : Nat) :
    Int.tmod ((s : Int) + (o : Int)) (n : Int) = (((s + o) % n : Nat) : Int) := by
  have h : (s : Int) + (o : Int) = ((s + o : Nat) : Int) := by push_cast; rfl
  rw [h, ← Int.ofNat_tmod]

/-- The scan of findNextAlive stops at the first offset whose seat is alive. -/
theorem Room.findNextAliveLoop_found {r : Room} {g : Game} (hg : r.game = some g) (s : Nat)
    (hn : 0 < r.seats.length) :
    ∀ (m a o : Nat), a ≤ o → o < a + m →
      r.aliveAt ((s + o) % r.seats.length) = true →
      (∀ j, a ≤ j → j < o → r.aliveAt ((s + j) % r.seats.length) = false) →
      r.findNextAliveLoop (s : Int) (List.range' a m) =
        some (((s + o) % r.seats.length : Nat) : Int)
  | 0, a, o, h1, h2, _, _ => by omega
  | m + 1, a, o, h1, h2, h3, h4 => by
    rw [List.range'_succ, Room.findNextAliveLoop, hg]
    simp only
    rw [tmod_natCast]
    have hlt : (s + a) % r.seats.length < r.seats.length := Nat.mod_lt _ hn
    have hseat : r.seatAt (((s + a) % r.seats.length : Nat) : Int) =
        some (r.seats[(s + a) % r.seats.length]) :=
      Room.seatAt_of_get (List.getElem?_eq_getElem hlt)
    rw [hseat]
    simp only
    have hal : r.aliveAt ((s + a) % r.seats.length) =
        r.seatAlive (r.seats[(s + a) % r.seats.length]) := by
      unfold Room.aliveAt
      rw [List.getElem?_eq_getElem hlt]
    by_cases hoa : o = a
    · subst hoa
      rw [← hal, h3]
      simp
    · have hf := h4 a (le_refl _) (by omega)
      rw [hal] at hf
      rw [hf]
      simp only [Bool.false_eq_true, if_false]
      exact Room.findNextAliveLoop_found hg s hn m (a + 1) o (by omega) (by omega) h3
        (fun j hj1 hj2 => h4 j (by omega) hj2)

/-- The next living seat above the start, when there is one. -/
theorem Room.findNextAlive_above {r : Room} {g : Game} (hg : r.game = some g) {s t : Nat}
    (hst : s < t) (ht : t < r.seats.length) (hal : r.aliveAt t = true)
    (hbetween : ∀ j, s < j → j < t → r.aliveAt j = false) :
    r.findNextAlive (s : Int) = some (t : Int) := by
  unfold Room.findNextAlive
  have h := Room.findNextAliveLoop_found hg s (by omega) r.seats.length 1 (t - s) (by omega)
    (by omega)
    (by
      have : s + (t - s) = t := by omega
      rw [this, Nat.mod_eq_of_lt ht]
      exact hal)
    (fun j hj1 hj2 => by
      rw [Nat.mod_eq_of_lt (by omega)]
      exact hbetween _ (by omega) (by omega))
  rw [h]
  have : s + (t - s) = t := by omega
  rw [this, Nat.mod_eq_of_lt ht]

/-- The next living seat after the last one: the scan wraps around. -/
theorem Room.findNextAlive_wrap {r : Room} {g : Game} (hg : r.game = some g) {s t : Nat}
    (hts : t ≤ s) (hs : s < r.seats.length) (hal : r.aliveAt t = true)
    (habove : ∀ j, s < j → j < r.seats.length → r.aliveAt j = false)
    (hbelow : ∀ j, j < t → r.aliveAt j = false) :
    r.findNextAlive (s : Int) = some (t : Int) := by
  unfold Room.findNextAlive
  have hmod : (s + (r.seats.length - s + t)) % r.seats.length = t := by
    have : s + (r.seats.length - s + t) = t + r.seats.length := by omega
    rw [this, Nat.add_mod_right, Nat.mod_eq_of_lt (by omega)]
  have h := Room.findNextAliveLoop_found hg s (by omega) r.seats.length 1
    (r.seats.length - s + t) (by omega) (by omega)
    (by rw [hmod]; exact hal)
    (fun j hj1 hj2 => by
      by_cases hj : s + j < r.seats.length
      · rw [Nat.mod_eq_of_lt hj]
        exact habove _ (by omega) hj
      · have : s + j = (s + j - r.seats.length) + r.seats.length := by omega
        rw [this, Nat.add_mod_right, Nat.mod_eq_of_lt (by omega)]
        exact hbelow _ (by omega))
  rw [h, hmod]

theorem Room.mem_livingSeats {r : Room} {j : Nat} :
    j ∈ r.livingSeats ↔ j < r.seats.length ∧ r.aliveAt j = true := by
  unfold Room.livingSeats
  rw [List.mem_filter, List.mem_range]

theorem Room.livingSeats_sorted (r : Room) : r.livingSeats.Pairwise (fun a b => a < b) :=
  (List.pairwise_lt_range _).filter _

/-- The indices of a strictly ascending list follow its entries. -/
theorem pairwise_index_lt {L : List Nat} (h : L.Pairwise (fun a b => a < b)) {i j : Nat}
    (hi : i < L.length) (hj : j < L.length) (hlt : L[i] < L[j]) : i < j := by
  by_contra hc
  have hji : j ≤ i := by omega
  rcases Nat.lt_or_eq_of_le hji with h1 | h1
  · have := List.pairwise_iff_getElem.mp h j i hj hi h1
    omega
  · subst h1
    omega

/-- With the turn on a living seat that is not the last one, advanceTurnLocked
hands the turn to the next living seat and touches nothing else. -/
theorem Room.advanceTurnLocked_next {r : Room} {g : Game} (hg : r.game = some g)
    (hh : g.CountLivingIdentities.1 ≠ 0) (hz : g.CountLivingIdentities.2 ≠ 0)
    {s t : Nat} (hturn : r.currentTurn = (s : Int))
    (hnext : r.findNextAlive (s : Int) = some (t : Int)) (hst : s < t) :
    r.advanceTurnLocked = some { r with currentTurn := (t : Int) } := by
  unfold Room.advanceTurnLocked
  rw [hg]
  simp only
  rw [if_neg (by simp [hh, hz]), hturn, hnext]
  simp only
  rw [if_neg (by omega), if_neg (by omega)]

/-- With the turn on the last living seat, advanceTurnLocked counts one
round more and hands the turn to the first living seat. -/
theorem Room.advanceTurnLocked_wrap {r : Room} {g : Game} (hg : r.game = some g)
    (hh : g.CountLivingIdentities.1 ≠ 0) (hz : g.CountLivingIdentities.2 ≠ 0)
    (hround : r.currentRound < g.MaxRounds)
    {s t : Nat} (hturn : r.currentTurn = (s : Int))
    (hnext : r.findNextAlive (s : Int) = some (t : Int)) (hts : t ≤ s) :
    r.advanceTurnLocked =
      some { r with
        currentRound := r.currentRound + 1,
        game := some { g with Round := r.currentRound + 1 },
        currentTurn := (t : Int) } := by
  unfold Room.advanceTurnLocked
  rw [hg]
  simp only
  rw [if_neg (by simp [hh, hz]), hturn, hnext]
  simp only
  rw [if_neg (by omega), if_pos (by omega), if_neg (by omega)]

/-- C20: in a room whose game has a living human and a living zombie, with
fewer rounds played than the game allows and the turn on the lowest living
seat: after `k` calls of advanceTurnLocked in a row, for `k` below the number
of living seats, the turn is on the living seat number `k` in ascending
order and nothing else has changed, the round counter included; after as
many calls as there are living seats the turn is back on the lowest living
seat and the round counter, in the room and in the game, is one higher. -/
theorem turn_cycle (r : Room) (g : Game) (first : Nat) (rest : List Nat)
    (hg : r.game = some g) (hh : g.CountLivingIdentities.1 ≠ 0)
    (hz : g.CountLivingIdentities.2 ≠ 0) (hround : r.currentRound < g.MaxRounds)
    (hl : r.livingSeats = first :: rest) (hturn : r.currentTurn = (first : Int)) :
    (∀ (k seat : Nat), (first :: rest)[k]? = some seat →
      r.advanceTimes k = some { r with currentTurn := (seat : Int) }) ∧
    r.advanceTimes (first :: rest).length =
      some { r with
        currentRound := r.currentRound + 1,
        game := some { g with Round := r.currentRound + 1 },
        currentTurn := (first : Int) } := by
  have hsorted := r.livingSeats_sorted
  rw [hl] at hsorted
  have hmem : ∀ j, j ∈ first :: rest ↔ j < r.seats.length ∧ r.aliveAt j = true := by
    intro j
    rw [← hl]
    exact Room.mem_livingSeats
  -- a living seat sits at some position of the list
  have hpos : ∀ j, j < r.seats.length → r.aliveAt j = true →
      ∃ m, ∃ (hm : m < (first :: rest).length), (first :: rest)[m] = j := by
    intro j h1 h2
    exact List.mem_iff_getElem.mp ((hmem j).mpr ⟨h1, h2⟩)
  have hdead : ∀ j, j < r.seats.length → (∀ m (hm : m < (first :: rest).length),
      (first :: rest)[m] ≠ j) → r.aliveAt j = false := by
    intro j h1 h2
    cases hx : r.aliveAt j with
    | false => rfl
    | true =>
      obtain ⟨m, hm, he⟩ := hpos j h1 hx
      exact absurd he (h2 m hm)
  have hvisits : ∀ (k seat : Nat), (first :: rest)[k]? = some seat →
      r.advanceTimes k = some { r with currentTurn := (seat : Int) } := by
    intro k
    induction k with
    | zero =>
      intro seat hs
      simp only [List.getElem?_cons_zero, Option.some.injEq] at hs
      subst hs
      rw [← hturn]
      rfl
    | succ k ih =>
      intro seat hs
      obtain ⟨hk1, hseat⟩ := List.getElem?_eq_some_iff.mp hs
      have hk : k < (first :: rest).length := by omega
      have hprev := ih _ (List.getElem?_eq_getElem hk)
      rw [Room.advanceTimes, hprev, Option.some_bind]
      have hlt : (first :: rest)[k] < (first :: rest)[k + 1] :=
        List.pairwise_iff_getElem.mp hsorted k (k + 1) hk hk1 (by omega)
      have hin := (hmem _).mp (List.getElem_mem hk1)
      have hnext : ({ r with currentTurn := (((first :: rest)[k] : Nat) : Int) } :
          Room).findNextAlive (((first :: rest)[k] : Nat) : Int) =
          some (((first :: rest)[k + 1] : Nat) : Int) :=
        Room.findNextAlive_above (r := { r with
            currentTurn := (((first :: rest)[k] : Nat) : Int) }) hg hlt hin.1 hin.2
          (fun j hj1 hj2 => hdead j (by omega) (fun m hm he => by
            subst he
            have h1 := pairwise_index_lt hsorted hk hm hj1
            have h2 := pairwise_index_lt hsorted hm hk1 hj2
            omega))
      rw [Room.advanceTurnLocked_next (r := { r with
          currentTurn := (((first :: rest)[k] : Nat) : Int) }) hg hh hz rfl hnext hlt, hseat]
  refine ⟨hvisits, ?_⟩
  have hlast : rest.length < (first :: rest).length := by simp
  have hprev := hvisits rest.length _ (List.getElem?_eq_getElem hlast)
  have hlen : (first :: rest).length = rest.length + 1 := rfl
  rw [hlen, Room.advanceTimes, hprev, Option.some_bind]
  have hin0 := (hmem first).mp (List.mem_cons_self _ _)
  have hinl := (hmem _).mp (List.getElem_mem hlast)
  have hle : first ≤ (first :: rest)[rest.length] := by
    rcases Nat.eq_zero_or_pos rest.length with h0 | h0
    · simp [h0]
    · have := List.pairwise_iff_getElem.mp hsorted 0 rest.length (by simp) hlast h0
      simp only [List.getElem_cons_zero] at this
      omega
  have hnext : ({ r with currentTurn := (((first :: rest)[rest.length] : Nat) : Int) } :
      Room).findNextAlive (((first :: rest)[rest.length] : Nat) : Int) =
      some ((first : Nat) : Int) :=
    Room.findNextAlive_wrap (r := { r with
        currentTurn := (((first :: rest)[rest.length] : Nat) : Int) }) hg hle hinl.1 hin0.2
      (fun j hj1 hj2 => hdead j hj2 (fun m hm he => by
        subst he
        have h1 := pairwise_index_lt hsorted hlast hm hj1
        omega))
      (fun j hj => hdead j (by omega) (fun m hm he => by
        subst he
        have h1 := pairwise_index_lt hsorted hm (show 0 < (first :: rest).length by simp)
          (by simpa using hj)
        omega))
  rw [Room.advanceTurnLocked_wrap (r := { r with
      currentTurn := (((first :: rest)[rest.length] : Nat) : Int) }) hg hh hz hround rfl
    hnext hle]

theorem turn_cycle_witness :
    (exampleRoom none).livingSeats = [0, 1, 2, 3, 4, 5, 6, 7] ∧
    (exampleRoom none).currentRound < (exampleGame tablePlayers [3, 1, 4]).MaxRounds ∧
    ((∀ (k seat : Nat), [0, 1, 2, 3, 4, 5, 6, 7][k]? = some seat →
      (exampleRoom none).advanceTimes k =
        some { exampleRoom none with currentTurn := (seat : Int) }) ∧
    (exampleRoom none).advanceTimes 8 =
      some { exampleRoom none with
        currentRound := 2,
        game := some { exampleGame tablePlayers [3, 1, 4] with Round := 2 },
        currentTurn := 0 }) :=
  ⟨by decide, by decide,
    turn_cycle (exampleRoom none) (exampleGame tablePlayers [3, 1, 4]) 0
      [1, 2, 3, 4, 5, 6, 7] rfl (by decide) (by decide) (by decide) (by decide) rfl⟩

/-! ## The winner of a game -/

theorem countLiving_foldl (players : List Player) :
    ∀ (acc : Int × Int),
      players.foldl
        (fun acc p =>
          if !p.Alive then acc
          else if p.IsHuman then (acc.1 + 1, acc.2)
          else if p.IsZombie then (acc.1, acc.2 + 1)
          else acc) acc =
      (acc.1 + ((players.filter (fun p =>
          p.Alive && decide (p.currentIdentity = IdentityHuman))).length : Int),
        acc.2 + ((players.filter (fun p =>
          p.Alive && decide (p.currentIdentity = IdentityZombie))).length : Int)) := by
  induction players with
  | nil => intro acc; simp
  | cons p ps ih =>
    intro acc
    rw [List.foldl_cons, ih]
    cases ha : p.Alive <;> cases hi : p.currentIdentity <;>
      simp [List.filter_cons, ha, hi, Player.IsHuman, Player.IsZombie] <;> omega

theorem CountLivingIdentities_eq (g : Game) :
    g.CountLivingIdentities =
      (((g.livingOf IdentityHuman).length : Int), ((g.livingOf IdentityZombie).length : Int)) := by
  unfold Game.CountLivingIdentities Game.livingOf
  rw [countLiving_foldl]
  simp

theorem living_partition (players : List Player) :
    (players.filter (fun p => p.Alive && decide (p.currentIdentity = IdentityHuman))).length +
      (players.filter (fun p => p.Alive && decide (p.currentIdentity = IdentityZombie))).length =
      (players.filter (fun p => p.Alive)).length := by
  induction players with
  | nil => rfl
  | cons p ps ih =>
    cases ha : p.Alive <;> cases hi : p.currentIdentity <;>
      simp [List.filter_cons, ha, hi] <;> omega

/-- C22: DetermineWinner returns, next to the verdict, the number of alive
players whose current identity is human and the number of alive players whose
current identity is zombie; the verdict is true exactly when the first number
is at least the second; and the two numbers add up to the number of alive
players, so no eliminated player is counted. -/
theorem determine_winner (g : Game) :
    g.DetermineWinner.2.1 = ((g.livingOf IdentityHuman).length : Int) ∧
    g.DetermineWinner.2.2 = ((g.livingOf IdentityZombie).length : Int) ∧
    (g.DetermineWinner.1 = true ↔
      (g.livingOf IdentityHuman).length ≥ (g.livingOf IdentityZombie).length) ∧
    g.DetermineWinner.2.1 + g.DetermineWinner.2.2 = (g.AlivePlayers.length : Int) := by
  unfold Game.DetermineWinner
  rw [CountLivingIdentities_eq]
  refine ⟨rfl, rfl, ?_, ?_⟩
  · simp
  · have := living_partition g.Players
    unfold Game.livingOf Game.AlivePlayers
    simp only
    omega

/-! ## Removing cards from a hand -/

/-- C28: RemoveCards returns the removed cards by ascending index, not in
the order in which the indices were given.  Asked for the indices 2 and 0 of
a hand of spade nine, spade eight, heart king, it returns the spade nine
before the heart king, where the order of the selection puts the heart king
first. -/
theorem remove_cards_order :
    threeCards.Hand = [⟨CardKindNumber, SuitSpade, 9⟩, ⟨CardKindNumber, SuitSpade, 8⟩,
      ⟨CardKindNumber, SuitHeart, 13⟩] ∧
    threeCards.RemoveCards [2, 0] =
      ({ threeCards with Hand := [⟨CardKindNumber, SuitSpade, 8⟩] },
        .ok [⟨CardKindNumber, SuitSpade, 9⟩, ⟨CardKindNumber, SuitHeart, 13⟩]) ∧
    [(2 : Int), 0].filterMap (handCard threeCards.Hand) =
      [⟨CardKindNumber, SuitHeart, 13⟩, ⟨CardKindNumber, SuitSpade, 9⟩] ∧
    ([⟨CardKindNumber, SuitSpade, 9⟩, ⟨CardKindNumber, SuitHeart, 13⟩] : List Card) ≠
      [(2 : Int), 0].filterMap (handCard threeCards.Hand) :=
  ⟨rfl, rfl, by decide, by decide⟩

/-- C26: the suit selectStrongestNumericSet returns depends on the order in
which the range loop visits the suit map.  For a hand of a spade five and a
heart five the two suits tie at five points: visiting spades first returns
the spade, visiting hearts first returns the heart, although the spade comes
first in the hand. -/
theorem strongest_set_order :
    selectStrongestNumericSet twoFives [SuitSpade, SuitHeart] = (SuitSpade, [0]) ∧
    selectStrongestNumericSet twoFives [SuitHeart, SuitSpade] = (SuitHeart, [1]) := by
  refine ⟨by decide, by decide⟩

theorem RemoveCards_eq (p : Player) (indices : List Int) :
    p.RemoveCards indices = removeCardsByIndices p indices := by
  unfold removeCardsByIndices
  split
  · rename_i h
    unfold Player.RemoveCards
    rw [if_pos h]
  · rfl

theorem enumFrom_keep_cons_of_mem (T : List Int) (x : Card) (xs : List Card) {n : Nat}
    (h : (n : Int) ∈ T) :
    (((x :: xs).enumFrom n).filter (fun ic => decide ((ic.1 : Int) ∉ T))).map Prod.snd =
      ((xs.enumFrom (n + 1)).filter (fun ic => decide ((ic.1 : Int) ∉ T))).map Prod.snd := by
  rw [List.enumFrom_cons, List.filter_cons]
  simp [h]

theorem enumFrom_keep_cons_of_not_mem (T : List Int) (x : Card) (xs : List Card) {n : Nat}
    (h : (n : Int) ∉ T) :
    (((x :: xs).enumFrom n).filter (fun ic => decide ((ic.1 : Int) ∉ T))).map Prod.snd =
      x :: ((xs.enumFrom (n + 1)).filter
        (fun ic => decide ((ic.1 : Int) ∉ T))).map Prod.snd := by
  rw [List.enumFrom_cons, List.filter_cons]
  simp [h]

/-- Positions from `n` on that stay all: nothing listed is that high. -/
theorem enumFrom_keep_all (S : List Int) :
    ∀ (hand : List Card) (n : Nat), (∀ s ∈ S, s < (n : Int)) →
      ((hand.enumFrom n).filter (fun ic => decide ((ic.1 : Int) ∉ S))).map Prod.snd = hand
  | [], _, _ => rfl
  | x :: xs, n, h => by
    have hn : (n : Int) ∉ S := fun hm => by have := h _ hm; omega
    rw [enumFrom_keep_cons_of_not_mem S x xs hn,
      enumFrom_keep_all S xs (n + 1) (fun s hs => by have := h s hs; push_cast; omega)]

/-- Erasing a position above all listed ones is listing it as well. -/
theorem enumFrom_keep_eraseIdx (S : List Int) :
    ∀ (hand : List Card) (n idx : Nat), (∀ s ∈ S, s < ((n + idx : Nat) : Int)) →
      idx < hand.length →
      (((hand.eraseIdx idx).enumFrom n).filter
          (fun ic => decide ((ic.1 : Int) ∉ S))).map Prod.snd =
        ((hand.enumFrom n).filter
          (fun ic => decide ((ic.1 : Int) ∉ ((n + idx : Nat) : Int) :: S))).map Prod.snd
  | [], _, _, _, hl => by simp at hl
  | x :: xs, n, 0, h, _ => by
    rw [List.eraseIdx_cons_zero, Nat.add_zero,
      enumFrom_keep_cons_of_mem _ x xs (List.mem_cons_self _ _),
      enumFrom_keep_all S xs n (fun s hs => by simpa using h s hs)]
    exact (enumFrom_keep_all _ xs (n + 1) (fun s hs => by
      rcases List.mem_cons.mp hs with e | hs
      · rw [e]; push_cast; omega
      · have := h s hs
        push_cast at this ⊢
        omega)).symm
  | x :: xs, n, k + 1, h, hl => by
    rw [List.eraseIdx_cons_succ]
    have hne : (n : Int) ≠ ((n + (k + 1) : Nat) : Int) := by push_cast; omega
    have ih := enumFrom_keep_eraseIdx S xs (n + 1) k
      (fun s hs => by
        have := h s hs
        push_cast at this ⊢
        omega)
      (by simpa using hl)
    have he : ((n + 1 + k : Nat) : Int) = ((n + (k + 1) : Nat) : Int) := by
      push_cast; omega
    rw [he] at ih
    by_cases hn : (n : Int) ∈ S
    · rw [enumFrom_keep_cons_of_mem S x _ hn,
        enumFrom_keep_cons_of_mem _ x xs (List.mem_cons_of_mem _ hn)]
      exact ih
    · rw [enumFrom_keep_cons_of_not_mem S x _ hn,
        enumFrom_keep_cons_of_not_mem _ x xs (fun hm => by
          rcases List.mem_cons.mp hm with e | hm
          · exact hne e
          · exact hn hm), ih]

theorem handWithout_eraseIdx (hand : List Card) {idx : Int} (S : List Int) (h0 : 0 ≤ idx)
    (hl : idx.toNat < hand.length) (hS : ∀ s ∈ S, s < idx) :
    handWithout (hand.eraseIdx idx.toNat) S = handWithout hand (idx :: S) := by
  have he : ((0 + idx.toNat : Nat) : Int) = idx := by
    rw [Nat.zero_add]; exact Int.toNat_of_nonneg h0
  have := enumFrom_keep_eraseIdx S hand 0 idx.toNat (fun s hs => by rw [he]; exact hS s hs) hl
  rw [he] at this
  exact this

/-- The hand the loop of RemoveCards leaves: the positions it went through
are gone, the other cards stay in their order. -/
theorem removeCardsLoop_hand :
    ∀ (L : List Int) (p : Player) (seen : List Int) (removed : List Card) (p1 : Player)
      (out : List Card),
      removeCardsLoop L p seen removed = (p1, .ok out) →
      L.Pairwise (fun a b => b < a) → p1.Hand = handWithout p.Hand L
  | [], p, seen, removed, p1, out, h, _ => by
    simp only [removeCardsLoop, Prod.mk.injEq] at h
    rw [← h.1]
    exact (enumFrom_keep_all [] p.Hand 0 (fun s hs => absurd hs (List.not_mem_nil _))).symm
  | idx :: rest, p, seen, removed, p1, out, h, hs => by
    obtain ⟨hlt, hs'⟩ := List.pairwise_cons.mp hs
    rw [removeCardsLoop] at h
    split at h
    · simp at h
    · split at h
      · simp at h
      · rename_i p2 card hrm
        obtain ⟨h0, hget, hp2⟩ := RemoveCardAt_ok hrm
        have ih := removeCardsLoop_hand rest p2 _ _ p1 out h hs'
        rw [ih, hp2]
        exact handWithout_eraseIdx p.Hand rest h0 (List.getElem?_eq_some_iff.mp hget).1 hlt

theorem handWithout_congr (hand : List Card) {S T : List Int} (h : ∀ i, i ∈ S ↔ i ∈ T) :
    handWithout hand S = handWithout hand T := by
  unfold handWithout
  congr 1
  apply List.filter_congr
  intro ic _
  simp only [h]

/-- The hand a successful removal leaves. -/
theorem removeCardsByIndices_hand {p p1 : Player} {indices : List Int} {cards : List Card}
    (h : removeCardsByIndices p indices = (p1, .ok cards)) :
    p1.Hand = handWithout p.Hand indices := by
  obtain ⟨-, -, -, hnd, -⟩ := removeCardsByIndices_ok h
  unfold removeCardsByIndices at h
  split at h
  · rename_i hl
    simp only [Prod.mk.injEq] at h
    rw [← h.1, List.length_eq_zero.mp hl]
    exact (enumFrom_keep_all [] p.Hand 0 (fun s hs => absurd hs (List.not_mem_nil _))).symm
  · unfold Player.RemoveCards at h
    split at h
    · rename_i hl
      simp only [Prod.mk.injEq] at h
      rw [← h.1, List.length_eq_zero.mp hl]
      exact (enumFrom_keep_all [] p.Hand 0
        (fun s hs => absurd hs (List.not_mem_nil _))).symm
    · split at h
      · simp at h
      · rename_i p2 removed hloop
        simp only [Prod.mk.injEq] at h
        have hperm2 : (sortDescending indices).Perm indices := List.perm_insertionSort _ _
        have hsorted : (sortDescending indices).Pairwise (fun a b => b ≤ a) := by
          haveI : IsTotal Int (fun a b => b ≤ a) := ⟨fun a b => le_total b a⟩
          haveI : IsTrans Int (fun a b => b ≤ a) := ⟨fun a b c h1 h2 => le_trans h2 h1⟩
          exact List.sorted_insertionSort _ _
        have hstrict : (sortDescending indices).Pairwise (fun a b => b < a) :=
          (hsorted.and (hperm2.nodup_iff.mpr hnd)).imp
            (fun hh => lt_of_le_of_ne hh.1 (Ne.symm hh.2))
        rw [← h.1, removeCardsLoop_hand _ _ _ _ _ _ hloop hstrict]
        exact handWithout_congr _ (fun k => hperm2.mem_iff)

/-- C29: RemoveCards succeeds exactly on indices that lie within the hand
and do not repeat; it then leaves the hand without those positions, the
other cards in their order, and returns the cards of those positions (by
ascending index).  RemoveCardAt fails exactly on an index outside the hand,
and then leaves the player alone; on an index within the hand it returns the
card there and erases that position only. -/
theorem remove_cards_contract (p : Player) (indices : List Int) (i : Int) :
    ((∃ p1 cards, p.RemoveCards indices = (p1, .ok cards)) ↔
      ((∀ k ∈ indices, 0 ≤ k ∧ k < (p.Hand.length : Int)) ∧ indices.Nodup)) ∧
    (∀ p1 cards, p.RemoveCards indices = (p1, .ok cards) →
      p1 = { p with Hand := handWithout p.Hand indices } ∧
        cards = (indices.insertionSort (fun a b => a ≤ b)).filterMap (handCard p.Hand) ∧
        cards.length = indices.length) ∧
    ((∃ p1 e, p.RemoveCardAt i = (p1, .error e)) ↔ (i < 0 ∨ (p.Hand.length : Int) ≤ i)) ∧
    (∀ p1 e, p.RemoveCardAt i = (p1, .error e) → p1 = p) ∧
    (∀ p1 card, p.RemoveCardAt i = (p1, .ok card) →
      handCard p.Hand i = some card ∧ p1 = { p with Hand := p.Hand.eraseIdx i.toNat }) := by
  refine ⟨⟨?_, ?_⟩, ?_, ⟨?_, ?_⟩, ?_, ?_⟩
  · rintro ⟨p1, cards, h⟩
    rw [RemoveCards_eq] at h
    obtain ⟨-, -, -, hnd, hr⟩ := removeCardsByIndices_ok h
    exact ⟨fun k hk => ⟨(hr k hk).1, by have := (hr k hk).2; omega⟩, hnd⟩
  · rintro ⟨hr, hnd⟩
    obtain ⟨p1, h, -⟩ := removeCardsByIndices_valid p hnd hr
    exact ⟨p1, _, by rw [RemoveCards_eq]; exact h⟩
  · intro p1 cards h
    have h' := h
    rw [RemoveCards_eq] at h'
    obtain ⟨hc, hp1, hperm, hnd, hr⟩ := removeCardsByIndices_ok h'
    have hhand : p1.Hand = handWithout p.Hand indices := removeCardsByIndices_hand h'
    refine ⟨by rw [hp1, hhand], hc, ?_⟩
    rw [hc, cardsAt, filterMap_handCard_length, (List.perm_insertionSort _ _).length_eq]
    intro k hk
    have := hr k ((List.perm_insertionSort _ _).mem_iff.mp hk)
    refine ⟨p.Hand[k.toNat], ?_⟩
    unfold handCard
    rw [if_neg (by omega)]
    exact List.getElem?_eq_getElem this.2
  · rintro ⟨p1, e, h⟩
    unfold Player.RemoveCardAt at h
    split at h
    · rename_i hout
      rcases hout with h1 | h1
      · exact Or.inl h1
      · exact Or.inr h1
    · rename_i hin
      split at h
      · rename_i hnone
        have := List.getElem?_eq_none_iff.mp hnone
        exact Or.inr (by omega)
      · simp at h
  · intro hout
    refine ⟨p, "玩家 " ++ p.Name ++ " 的手牌索引超出範圍", ?_⟩
    unfold Player.RemoveCardAt
    rw [if_pos (by rcases hout with h1 | h1; exact Or.inl h1; exact Or.inr h1)]
  · intro p1 e h
    exact RemoveCardAt_error h
  · intro p1 card h
    obtain ⟨h0, hget, hp1⟩ := RemoveCardAt_ok h
    refine ⟨?_, hp1⟩
    unfold handCard
    rw [if_neg (by omega)]
    exact hget

/-! ## The order of a hand -/

theorem CardKind.toNat_injective {a b : CardKind} (h : a.toNat = b.toNat) : a = b := by
  cases a <;> cases b <;> first | rfl | (simp [CardKind.toNat] at h)

theorem cardLess_iff (a b : Card) : cardLess a b = true ↔ cardKey a < cardKey b := by
  unfold cardLess cardKey
  rw [Prod.Lex.lt_iff]
  by_cases hk : a.Kind = b.Kind
  · have hk2 : a.Kind.toNat = b.Kind.toNat := by rw [hk]
    simp only [ne_eq, hk, not_true_eq_false, if_false, lt_self_iff_false, false_or, true_and]
    rw [Prod.Lex.lt_iff]
    by_cases hs : a.Suit = b.Suit
    · simp [hs]
    · have hs2 : a.Suit.data ≠ b.Suit.data := fun hh => hs (String.ext hh)
      simp [hs, hs2]
  · have hk2 : a.Kind.toNat ≠ b.Kind.toNat := fun hh => hk (CardKind.toNat_injective hh)
    simp [hk, hk2]

theorem cardLess_false_iff (a b : Card) : cardLess b a = false ↔ cardKey a ≤ cardKey b := by
  rw [← not_lt, ← cardLess_iff]
  simp

theorem sortHand_sorted (p : Player) : HandSorted (sortHand p).Hand := by
  haveI : IsTotal Card (fun a b => cardLess b a = false) :=
    ⟨fun a b => by
      rw [cardLess_false_iff, cardLess_false_iff]
      exact le_total _ _⟩
  haveI : IsTrans Card (fun a b => cardLess b a = false) :=
    ⟨fun a b c h1 h2 => by
      rw [cardLess_false_iff] at h1 h2 ⊢
      exact le_trans h1 h2⟩
  exact List.sorted_insertionSort _ _

theorem HandSorted.sublist {hand sub : List Card} (h : HandSorted hand)
    (hs : sub.Sublist hand) : HandSorted sub :=
  List.Pairwise.sublist hs h

theorem handWithout_sublist (hand : List Card) (indices : List Int) :
    (handWithout hand indices).Sublist hand := by
  unfold handWithout
  have h1 : (hand.enum.filter (fun ic => decide ((ic.1 : Int) ∉ indices))).Sublist hand.enum :=
    List.filter_sublist _
  have h2 := h1.map Prod.snd
  rwa [List.enum_map_snd] at h2

/-- What stealRandomNumericCard does to the order of the two hands: the
loser keeps the order, the winner's hand stays sorted. -/
theorem stealRandomNumericCard_order (d : Duel) {w l : Side} (hwl : w ≠ l) :
    ((stealRandomNumericCard d w l).1.player l).Hand.Sublist (d.player l).Hand ∧
    (HandSorted (d.player w).Hand →
      HandSorted ((stealRandomNumericCard d w l).1.player w).Hand) := by
  have hlw : l ≠ w := fun e => hwl e.symm
  by_cases hnil : numericIndices (d.player l).Hand = []
  · have h0 : stealRandomNumericCard d w l = (d, none) := by
      unfold stealRandomNumericCard
      simp [hnil]
    rw [h0]
    exact ⟨List.Sublist.refl _, fun h => h⟩
  · have hpos : 0 < (numericIndices (d.player l).Hand).length :=
      List.length_pos.mpr hnil
    have hdraw := Intn_lt d.rng hpos
    obtain ⟨choice, hchoice⟩ : ∃ choice,
        (numericIndices (d.player l).Hand)[(d.rng.Intn
          (numericIndices (d.player l).Hand).length).1]? = some choice :=
      ⟨_, List.getElem?_eq_getElem hdraw⟩
    obtain ⟨card, hcard, -⟩ := mem_numericIndices (List.getElem?_mem hchoice)
    have hl1 : ({ d with rng := (d.rng.Intn
        (numericIndices (d.player l).Hand).length).2 } : Duel).player l = d.player l := by
      cases l <;> rfl
    have hrm := RemoveCardAt_of_get (p := d.player l) hcard
    have h0 : stealRandomNumericCard d w l =
        ((({ d with rng := (d.rng.Intn (numericIndices (d.player l).Hand).length).2 } :
            Duel).setPlayer l { d.player l with Hand := (d.player l).Hand.eraseIdx choice
              }).setPlayer w (sortHand ((d.player w).AddCard card)), some card) := by
      unfold stealRandomNumericCard
      simp only [List.length_eq_zero, hnil, if_false, hchoice, hl1, hrm]
      have hw1 : (({ d with rng := (d.rng.Intn
          (numericIndices (d.player l).Hand).length).2 } : Duel).setPlayer l
            { d.player l with Hand := (d.player l).Hand.eraseIdx choice }).player w =
          d.player w := by
        rw [Duel.player_setPlayer_of_ne _ _ hlw]
        cases w <;> rfl
      rw [hw1]
    rw [h0]
    refine ⟨?_, fun _ => ?_⟩
    · simp only [Duel.player_setPlayer_of_ne _ _ hwl, Duel.player_setPlayer_self]
      exact List.eraseIdx_sublist _ _
    · simp only [Duel.player_setPlayer_self]
      exact sortHand_sorted _

/-- What the settlement does to the order of the two hands: the winner ends
with a sorted hand, the loser with cards of the hand held at the resolution,
in their order. -/
theorem settleChallenge_order (d : Duel) {w l : Side} (hwl : w ≠ l) :
    HandSorted ((settleChallenge d ⟨some w, some l, none⟩).player w).Hand ∧
    ((settleChallenge d ⟨some w, some l, none⟩).player l).Hand.Sublist (d.player l).Hand := by
  have hlw : l ≠ w := fun e => hwl e.symm
  obtain ⟨d3, hd3, hd3w, hd3l⟩ : ∃ d3 : Duel,
      settleChallenge d ⟨some w, some l, none⟩ =
        (let stolen := stealRandomNumericCard d3 w l
         let d4 :=
            match stolen.2 with
            | none => stolen.1
            | some card =>
              ({ stolen.1 with outcome := { stolen.1.outcome with StolenCard := some card } }).note
                ((stolen.1.player w).Name ++ " 從 " ++ (stolen.1.player l).Name ++ " 抽走 " ++
                  card.String)
         if (d4.player l).HandSize = 0 && (d4.player l).Alive then
            eliminatePlayer d4 l "手牌耗盡"
         else d4) ∧
      d3.player w = { d.player w with Hand := (sortHand { d.player w with
        Hand := ((d.player w).Hand ++ d.outcome.AttackerCards) ++ d.outcome.DefenderCards }).Hand } ∧
      d3.player l = d.player l := by
    refine ⟨_, rfl, ?_, ?_⟩
    · simp only [Duel.player_addLog, Duel.player_withOutcome, Duel.player_setPlayer_self,
        foldl_AddCard]
      rfl
    · simp only [Duel.player_addLog, Duel.player_withOutcome,
        Duel.player_setPlayer_of_ne _ _ hwl]
  obtain ⟨o1, o2⟩ := stealRandomNumericCard_order d3 hwl
  have hws : HandSorted (d3.player w).Hand := by
    rw [hd3w]
    exact sortHand_sorted _
  have o3 := o2 hws
  rw [hd3l] at o1
  generalize stealRandomNumericCard d3 w l = stolen at hd3 o1 o3
  obtain ⟨d3', st⟩ := stolen
  simp only at hd3 o1 o3
  obtain ⟨d4, hd4, hd4w, hd4l⟩ : ∃ d4 : Duel,
      settleChallenge d ⟨some w, some l, none⟩ =
        (if (d4.player l).HandSize = 0 && (d4.player l).Alive then
            eliminatePlayer d4 l "手牌耗盡"
         else d4) ∧
      d4.player w = d3'.player w ∧ d4.player l = d3'.player l := by
    cases st with
    | none => exact ⟨d3', hd3, rfl, rfl⟩
    | some card => exact ⟨_, hd3, by simp, by simp⟩
  rw [hd4]
  split
  · rw [eliminatePlayer_player_of_ne _ _ hlw, eliminatePlayer_player_self, hd4w, hd4l]
    exact ⟨o3, o1⟩
  · rw [hd4w, hd4l]
    exact ⟨o3, o1⟩

theorem restoreHand_sorted (p : Player) (cards : List Card) :
    HandSorted (restoreHand p cards).Hand := by
  unfold restoreHand
  exact sortHand_sorted _

theorem resolve_infection_hand (d : Duel) {aset dset : playedSet}
    (hk : aset.kind = CardKindZombie) (hv : dset.kind ≠ CardKindVaccine) :
    ∃ (d3 : Duel),
      resolveChallenge d aset dset = (d3, ⟨some Side.attacker, some Side.defender, none⟩) ∧
      d3.attacker = d.attacker ∧
      (d3.defender.Hand = d.defender.Hand ∨ HandSorted d3.defender.Hand) := by
  unfold resolveChallenge
  rw [if_pos hk, if_neg hv]
  dsimp only
  split
  · exact ⟨_, rfl, rfl, Or.inr (sortHand_sorted _)⟩
  · exact ⟨_, rfl, rfl, Or.inl rfl⟩

/-- What a resolution without error does to the order of a hand: it leaves
the hand as it is, or it leaves it sorted. -/
theorem resolveChallenge_order {d d3 : Duel} {aset dset : playedSet} {w l : Option Side}
    (h : resolveChallenge d aset dset = (d3, ⟨w, l, none⟩)) (hal : d.defender.Alive = true) :
    (d3.attacker.Hand = d.attacker.Hand ∨ HandSorted d3.attacker.Hand) ∧
    (d3.defender.Hand = d.defender.Hand ∨ HandSorted d3.defender.Hand) := by
  by_cases hz : aset.kind = CardKindZombie
  · have hns : aset.kind ≠ CardKindShotgun := by rw [hz]; decide
    by_cases hv : dset.kind = CardKindVaccine
    · obtain ⟨d3', r1, r2, r3, -⟩ := resolve_vaccine d hns hv
      rw [r1] at h
      simp only [Prod.mk.injEq] at h
      rw [← h.1, r2, r3]
      exact ⟨Or.inl rfl, Or.inl rfl⟩
    · obtain ⟨d3', r1, r2, r3⟩ := resolve_infection_hand d hz hv
      rw [r1] at h
      simp only [Prod.mk.injEq] at h
      rw [← h.1, r2]
      exact ⟨Or.inl rfl, r3⟩
  · by_cases hs : aset.kind = CardKindShotgun
    · cases hzz : d.defender.IsZombie with
      | false =>
        obtain ⟨d3', r1, r2, r3, -⟩ := resolve_shotgun_miss d dset hs hzz
        rw [r1] at h
        simp only [Prod.mk.injEq] at h
        rw [← h.1, r2, r3]
        exact ⟨Or.inl rfl, Or.inl rfl⟩
      | true =>
        obtain ⟨d3', r1, r2, r3, -⟩ := resolve_shotgun_hit d dset hs hzz hal
        rw [r1] at h
        simp only [Prod.mk.injEq] at h
        rw [← h.1, r2, r3]
        exact ⟨Or.inl rfl, Or.inl rfl⟩
    · by_cases hv : dset.kind = CardKindVaccine
      · obtain ⟨d3', r1, r2, r3, -⟩ := resolve_vaccine d hs hv
        rw [r1] at h
        simp only [Prod.mk.injEq] at h
        rw [← h.1, r2, r3]
        exact ⟨Or.inl rfl, Or.inl rfl⟩
      · by_cases hc : dset.cards.length = 0
        · obtain ⟨d3', r1, r2, r3, -⟩ := resolve_forced d hz hs hv hc
          rw [r1] at h
          simp only [Prod.mk.injEq] at h
          rw [← h.1, r2, r3]
          exact ⟨Or.inl rfl, Or.inl rfl⟩
        · cases hn : dset.isNumeric with
          | false =>
            rw [resolve_error_shape d hz hs hv hc hn] at h
            simp at h
          | true =>
            by_cases hsuit : aset.suit = dset.suit
            · rcases lt_trichotomy aset.total dset.total with hlt | heq | hgt
              · obtain ⟨d3', r1, r2, r3, -⟩ :=
                  resolve_defender_stronger d hz hs hv hc hn hsuit hlt
                rw [r1] at h
                simp only [Prod.mk.injEq] at h
                rw [← h.1, r2, r3]
                exact ⟨Or.inl rfl, Or.inl rfl⟩
              · obtain ⟨d3', r1, r2, r3, -⟩ := resolve_tie d hz hs hv hc hn hsuit heq
                rw [r1] at h
                simp only [Prod.mk.injEq] at h
                rw [← h.1, r2, r3]
                exact ⟨Or.inr (restoreHand_sorted _ _), Or.inr (restoreHand_sorted _ _)⟩
              · obtain ⟨d3', r1, r2, r3, -⟩ :=
                  resolve_attacker_stronger d hz hs hv hc hn hsuit hgt
                rw [r1] at h
                simp only [Prod.mk.injEq] at h
                rw [← h.1, r2, r3]
                exact ⟨Or.inl rfl, Or.inl rfl⟩
            · rw [resolve_error_suit d hz hs hv hc hn hsuit] at h
              simp at h

/-- C30 (amended): after a successful Challenge the hand of the recorded
winner is sorted by (kind, suit, value), and after a tie both hands are;
the hand of the recorded loser is either sorted or made of cards of the
hand held before the call, in the order they had there, so that it is sorted
whenever it was sorted before the call. -/
theorem hands_after_challenge (g g1 : Game) (opts : ChallengeOptions) (o : ChallengeOutcome)
    (att dfd : Player) (hok : Challenge g opts = (g1, .ok o))
    (hatt : g.Players[opts.AttackerID.toNat]? = some att)
    (hdfd : g.Players[opts.DefenderID.toNat]? = some dfd) :
    ∃ att2 dfd2, g1.Players[opts.AttackerID.toNat]? = some att2 ∧
      g1.Players[opts.DefenderID.toNat]? = some dfd2 ∧
      ((o.WinnerID = none ∧ o.LoserID = none ∧ HandSorted att2.Hand ∧
          HandSorted dfd2.Hand) ∨
        (o.WinnerID = some att.ID ∧ o.LoserID = some dfd.ID ∧ HandSorted att2.Hand ∧
          (HandSorted dfd2.Hand ∨ dfd2.Hand.Sublist dfd.Hand) ∧
          (HandSorted dfd.Hand → HandSorted dfd2.Hand)) ∨
        (o.WinnerID = some dfd.ID ∧ o.LoserID = some att.ID ∧ HandSorted dfd2.Hand ∧
          (HandSorted att2.Hand ∨ att2.Hand.Sublist att.Hand) ∧
          (HandSorted att.Hand → HandSorted att2.Hand))) := by
  obtain ⟨att', dfd', att1, dfd1, acards, dcards, aset, dset, d3, w, l, hne, hpa, hpd, hra,
    -, hrd, -, hres, hg1, ho⟩ := Challenge_ok hok
  obtain ⟨ha0, hga, haa⟩ := playerByID_ok hpa
  obtain ⟨hd0, hgd, hda⟩ := playerByID_ok hpd
  rw [hatt] at hga
  rw [hdfd] at hgd
  have e1 : att' = att := (Option.some.inj hga).symm
  have e2 : dfd' = dfd := (Option.some.inj hgd).symm
  subst e1 e2
  obtain ⟨-, a2, -⟩ := removeCardsByIndices_ok hra
  obtain ⟨-, b2, -⟩ := removeCardsByIndices_ok hrd
  have asub : att1.Hand.Sublist att'.Hand := by
    rw [removeCardsByIndices_hand hra]; exact handWithout_sublist _ _
  have dsub : dfd1.Hand.Sublist dfd'.Hand := by
    rw [removeCardsByIndices_hand hrd]; exact handWithout_sublist _ _
  obtain ⟨c1, c2, -, -⟩ :=
    commit_players (g := g) (settleChallenge d3 ⟨w, l, none⟩) hne ha0 hd0
      (List.getElem?_eq_some_iff.mp hatt).1 (List.getElem?_eq_some_iff.mp hdfd).1
  rw [← hg1] at c1 c2
  refine ⟨_, _, c1, c2, ?_⟩
  have hal : (duelAtResolve g opts att1 dfd1 acards dcards).defender.Alive = true := by
    rw [duelAtResolve, b2]; exact hda
  have hIDa : (duelAtResolve g opts att1 dfd1 acards dcards).attacker.ID = att'.ID := by
    rw [duelAtResolve, a2]
  have hIDd : (duelAtResolve g opts att1 dfd1 acards dcards).defender.ID = dfd'.ID := by
    rw [duelAtResolve, b2]
  obtain ⟨k1, k2⟩ := resolveChallenge_order hres hal
  have k1' : HandSorted d3.attacker.Hand ∨ d3.attacker.Hand.Sublist att'.Hand := by
    rcases k1 with k | k
    · exact Or.inr (by rw [k]; exact asub)
    · exact Or.inl k
  have k2' : HandSorted d3.defender.Hand ∨ d3.defender.Hand.Sublist dfd'.Hand := by
    rcases k2 with k | k
    · exact Or.inr (by rw [k]; exact dsub)
    · exact Or.inl k
  have hloser : ∀ {before after mid : List Card},
      (HandSorted mid ∨ mid.Sublist before) → after.Sublist mid →
      (HandSorted after ∨ after.Sublist before) ∧ (HandSorted before → HandSorted after) := by
    intro before after mid hm ha
    rcases hm with hm | hm
    · exact ⟨Or.inl (hm.sublist ha), fun _ => hm.sublist ha⟩
    · exact ⟨Or.inr (ha.trans hm), fun hb => hb.sublist (ha.trans hm)⟩
  rcases resolveChallenge_shape hres rfl hal with
    ⟨e1, e2, t1, t2, t3, t4, -, -⟩ |
    ⟨ws, ls, e1, e2, hwl, q1, q2, -, q4, q5, -⟩
  · subst e1 e2
    rw [settleChallenge_tie] at ho ⊢
    refine Or.inl ⟨by rw [ho, t3]; rfl, by rw [ho, t4]; rfl, ?_, ?_⟩
    · rw [t1]; exact restoreHand_sorted _ _
    · rw [t2]; exact restoreHand_sorted _ _
  · subst e1 e2
    obtain ⟨st, hw, hl, notes, -, -, -, -, -, -, s7⟩ := settleChallenge_spec d3 hwl
    obtain ⟨o1, o2⟩ := settleChallenge_order d3 hwl
    cases ws <;> cases ls
    · exact absurd rfl hwl
    · -- the attacker wins
      simp only [Duel.player] at s7 q4 q5 o1 o2
      rw [hIDa] at q4
      rw [hIDd] at q5
      obtain ⟨z1, z2⟩ := hloser (k2'.elim Or.inl Or.inr) o2
      exact Or.inr (Or.inl ⟨by rw [ho, s7, q4], by rw [ho, s7, q5], o1, z1, z2⟩)
    · -- the defender wins
      simp only [Duel.player] at s7 q4 q5 o1 o2
      rw [hIDd] at q4
      rw [hIDa] at q5
      obtain ⟨z1, z2⟩ := hloser (k1'.elim Or.inl Or.inr) o2
      exact Or.inr (Or.inr ⟨by rw [ho, s7, q4], by rw [ho, s7, q5], o1, z1, z2⟩)
    · exact absurd rfl hwl

theorem hands_after_challenge_witness :
    ∃ g1 o, Challenge dealtHands ⟨0, 1, [0], [2]⟩ = (g1, .ok o) ∧
      ∃ att2 dfd2, g1.Players[0]? = some att2 ∧ g1.Players[1]? = some dfd2 ∧
        ((o.WinnerID = none ∧ o.LoserID = none ∧ HandSorted att2.Hand ∧
            HandSorted dfd2.Hand) ∨
          (o.WinnerID = some 0 ∧ o.LoserID = some 1 ∧ HandSorted att2.Hand ∧
            (HandSorted dfd2.Hand ∨ dfd2.Hand.Sublist
              [⟨CardKindNumber, SuitHeart, 2⟩, ⟨CardKindNumber, SuitClub, 7⟩,
                ⟨CardKindNumber, SuitSpade, 5⟩, ⟨CardKindNumber, SuitDiamond, 3⟩]) ∧
            (HandSorted [⟨CardKindNumber, SuitHeart, 2⟩, ⟨CardKindNumber, SuitClub, 7⟩,
                ⟨CardKindNumber, SuitSpade, 5⟩, ⟨CardKindNumber, SuitDiamond, 3⟩] →
              HandSorted dfd2.Hand)) ∨
          (o.WinnerID = some 1 ∧ o.LoserID = some 0 ∧ HandSorted dfd2.Hand ∧
            (HandSorted att2.Hand ∨ att2.Hand.Sublist [⟨CardKindNumber, SuitSpade, 9⟩]) ∧
            (HandSorted [⟨CardKindNumber, SuitSpade, 9⟩] → HandSorted att2.Hand))) :=
  ⟨_, _, rfl, hands_after_challenge dealtHands _ ⟨0, 1, [0], [2]⟩ _
    (examplePlayer 0 "A" IdentityHuman [⟨CardKindNumber, SuitSpade, 9⟩])
    (examplePlayer 1 "B" IdentityHuman
      [⟨CardKindNumber, SuitHeart, 2⟩, ⟨CardKindNumber, SuitClub, 7⟩,
        ⟨CardKindNumber, SuitSpade, 5⟩, ⟨CardKindNumber, SuitDiamond, 3⟩]) rfl rfl rfl⟩

/-- C30 (as stated, refuted): a human with a spade nine challenges a human
whose hand is, in the order of the deal, heart two, club seven, spade five,
diamond three, and who answers with the spade five.  The call succeeds, the
attacker wins and draws the diamond three; the defender is left with heart
two before club seven, which is not sorted: clubs sort before hearts. -/
theorem hands_after_challenge_counterexample :
    ∃ g1 o, Challenge dealtHands ⟨0, 1, [0], [2]⟩ = (g1, .ok o) ∧
      o.WinnerID = some 0 ∧ o.LoserID = some 1 ∧
      (g1.Players[1]?).map (fun p => p.Hand) =
        some [⟨CardKindNumber, SuitHeart, 2⟩, ⟨CardKindNumber, SuitClub, 7⟩] ∧
      cardLess ⟨CardKindNumber, SuitClub, 7⟩ ⟨CardKindNumber, SuitHeart, 2⟩ = true ∧
      ¬ HandSorted [⟨CardKindNumber, SuitHeart, 2⟩, ⟨CardKindNumber, SuitClub, 7⟩] :=
  ⟨_, _, rfl, rfl, rfl, rfl, by decide, by unfold HandSorted; decide⟩

/-! ## The cards a bot selects -/

theorem sortByValueDesc_sorted (L : List (Nat × Card)) :
    (sortByValueDesc L).Pairwise (fun a b => b.2.Value ≤ a.2.Value) := by
  haveI : IsTotal (Nat × Card) (fun a b => b.2.Value ≤ a.2.Value) :=
    ⟨fun a b => le_total b.2.Value a.2.Value⟩
  haveI : IsTrans (Nat × Card) (fun a b => b.2.Value ≤ a.2.Value) :=
    ⟨fun a b c h1 h2 => le_trans h2 h1⟩
  exact List.sorted_insertionSort _ _

/-- On indices that do not repeat, the loop of uniquePrefix takes the first
`n` of them. -/
theorem uniquePrefixLoop_take (n : Nat) :
    ∀ (L selected seen : List Int), L.Nodup → (∀ x ∈ L, x ∉ seen) → selected.length ≤ n →
      uniquePrefixLoop n L selected seen = selected ++ L.take (n - selected.length)
  | [], selected, seen, _, _, _ => by simp [uniquePrefixLoop]
  | idx :: rest, selected, seen, hnd, hseen, hlen => by
    rw [uniquePrefixLoop]
    by_cases h1 : selected.length ≥ n
    · rw [if_pos h1]
      have : n - selected.length = 0 := by omega
      rw [this]
      simp
    · rw [if_neg h1, if_neg (hseen idx (List.mem_cons_self _ _))]
      obtain ⟨hni, hnd'⟩ := List.nodup_cons.mp hnd
      rw [uniquePrefixLoop_take n rest (selected ++ [idx]) (idx :: seen) hnd'
        (fun x hx hm => by
          rcases List.mem_cons.mp hm with e | hm
          · exact hni (e ▸ hx)
          · exact hseen x (List.mem_cons_of_mem _ hx) hm)
        (by simp only [List.length_append, List.length_singleton]; omega)]
      have hk : n - selected.length = (n - (selected ++ [idx]).length) + 1 := by
        simp only [List.length_append, List.length_singleton]; omega
      rw [hk, List.take_succ_cons]
      simp

theorem uniquePrefix_of_nodup {L : List Int} (hnd : L.Nodup) (n : Nat) :
    uniquePrefix L n = (L.take n).insertionSort (fun a b => a ≤ b) := by
  unfold uniquePrefix
  rw [uniquePrefixLoop_take n L [] [] hnd (fun x _ hm => absurd hm (List.not_mem_nil _))
    (Nat.zero_le _)]
  simp

theorem suitCandidates_map_snd (hand : List Card) (suit : Suit) :
    (suitCandidates hand suit).map Prod.snd =
      hand.filter (fun c => decide (c.Kind = CardKindNumber) && decide (c.Suit = suit)) := by
  unfold suitCandidates
  have h := List.filter_map (f := Prod.snd)
    (p := fun (c : Card) => decide (c.Kind = CardKindNumber) && decide (c.Suit = suit))
    (l := hand.enum)
  rw [List.enum_map_snd] at h
  rw [h]
  rfl

theorem suitCandidates_length (hand : List Card) (suit : Suit) :
    (suitCandidates hand suit).length = suitCount hand suit := by
  unfold suitCount
  rw [← suitCandidates_map_snd, List.length_map]

/-- The first `n` candidates by falling value: as many as asked for, if there
are that many; their positions do not repeat and hold number cards of the
suit; and no candidate left out is worth more than one of them. -/
theorem topCandidates_spec (hand : List Card) (suit : Suit) (n : Nat) :
    (((sortByValueDesc (suitCandidates hand suit)).take n).map
        (fun ic => (ic.1 : Int))).length = min n (suitCount hand suit) ∧
    (((sortByValueDesc (suitCandidates hand suit)).take n).map
        (fun ic => (ic.1 : Int))).Nodup ∧
    (∀ i ∈ ((sortByValueDesc (suitCandidates hand suit)).take n).map
        (fun ic => (ic.1 : Int)), ∃ c, handCard hand i = some c ∧
          c.Kind = CardKindNumber ∧ c.Suit = suit) ∧
    TopOfSuit hand suit (((sortByValueDesc (suitCandidates hand suit)).take n).map
        (fun ic => (ic.1 : Int))) := by
  have hperm := sortByValueDesc_perm (suitCandidates hand suit)
  obtain ⟨c1, c2⟩ := @candidate_indices hand suit
    ((sortByValueDesc (suitCandidates hand suit)).take n)
    (fun ic hic => hperm.mem_iff.mp (List.mem_of_mem_take hic))
    (List.Nodup.sublist ((List.take_sublist _ _).map _)
      ((hperm.map _).nodup_iff.mpr (suitCandidates_nodup _ _)))
  refine ⟨?_, c1, c2, ?_⟩
  · rw [List.length_map, List.length_take, hperm.length_eq, suitCandidates_length]
  · intro i hi j hj ci cj hci hcj hk hs
    rw [List.mem_map] at hi
    obtain ⟨ic, hic, e⟩ := hi
    subst e
    have hicC := hperm.mem_iff.mp (List.mem_of_mem_take hic)
    have h1 := handCard_natCast (mem_suitCandidates.mp hicC).1
    rw [h1] at hci
    cases hci
    obtain ⟨hj0, hjl, -⟩ := handCard_some hcj
    have hget : hand[j.toNat]? = some cj := by
      unfold handCard at hcj
      rw [if_neg (by omega)] at hcj
      exact hcj
    have hjc : (j.toNat, cj) ∈ sortByValueDesc (suitCandidates hand suit) :=
      hperm.mem_iff.mpr (mem_suitCandidates.mpr ⟨hget, hk, hs⟩)
    rw [← List.take_append_drop n (sortByValueDesc (suitCandidates hand suit))] at hjc
    rcases List.mem_append.mp hjc with hin | hin
    · exfalso
      apply hj
      rw [List.mem_map]
      exact ⟨(j.toNat, cj), hin, Int.toNat_of_nonneg hj0⟩
    · have hs := sortByValueDesc_sorted (suitCandidates hand suit)
      rw [← List.take_append_drop n (sortByValueDesc (suitCandidates hand suit))] at hs
      exact (List.pairwise_append.mp hs).2.2 ic hic (j.toNat, cj) hin

theorem TopOfSuit.of_perm {hand : List Card} {suit : Suit} {sel sel2 : List Int}
    (h : TopOfSuit hand suit sel) (hp : sel2.Perm sel) : TopOfSuit hand suit sel2 :=
  fun i hi j hj => h i (hp.mem_iff.mp hi) j (fun hm => hj (hp.mem_iff.mpr hm))

/-- The defence selectBotDefenseIndices picks: as many cards as the limit
asks for, if the hand holds that many of the suit, else all of them; by
ascending position; number cards of the suit; the highest ones. -/
theorem selectBotDefenseIndices_top (player : Player) (suit : Suit) (limit : Nat) :
    (selectBotDefenseIndices player suit limit).length =
      min limit (suitCount player.Hand suit) ∧
    (selectBotDefenseIndices player suit limit).Pairwise (fun a b => a < b) ∧
    (∀ i ∈ selectBotDefenseIndices player suit limit, ∃ c,
      handCard player.Hand i = some c ∧ c.Kind = CardKindNumber ∧ c.Suit = suit) ∧
    TopOfSuit player.Hand suit (selectBotDefenseIndices player suit limit) := by
  obtain ⟨s1, -, s3⟩ := selectBotDefenseIndices_spec player suit limit
  refine ⟨?_, s1, s3, ?_⟩
  · unfold selectBotDefenseIndices
    split
    · rename_i h0
      rw [← suitCandidates_length, h0]
      simp
    · have hnd := ((sortByValueDesc_perm (suitCandidates player.Hand suit)).map
        Prod.fst).nodup_iff.mpr (suitCandidates_nodup _ _)
      obtain ⟨c1, -⟩ := @candidate_indices player.Hand suit
        (sortByValueDesc (suitCandidates player.Hand suit))
        (fun ic hic => (sortByValueDesc_perm _).mem_iff.mp hic) hnd
      rw [uniquePrefix_of_nodup c1, (List.perm_insertionSort _ _).length_eq, List.length_take,
        List.length_map, (sortByValueDesc_perm _).length_eq, suitCandidates_length]
      split <;> omega
  · unfold selectBotDefenseIndices
    split
    · intro i hi
      exact absurd hi (List.not_mem_nil _)
    · have hnd := ((sortByValueDesc_perm (suitCandidates player.Hand suit)).map
        Prod.fst).nodup_iff.mpr (suitCandidates_nodup _ _)
      obtain ⟨c1, -⟩ := @candidate_indices player.Hand suit
        (sortByValueDesc (suitCandidates player.Hand suit))
        (fun ic hic => (sortByValueDesc_perm _).mem_iff.mp hic) hnd
      rw [uniquePrefix_of_nodup c1]
      refine TopOfSuit.of_perm ?_ (List.perm_insertionSort _ _)
      rw [← List.map_take]
      exact (topCandidates_spec player.Hand suit _).2.2.2

/-- C24 (amended): the defence a bot submits against a number attack holds
as many cards as the attack, or all its cards of the suit if it holds fewer:
selectBotDefenseIndices returns, by ascending position, min(limit, n) number
cards of the suit out of the n the hand holds, and no card of the suit it
leaves out is worth more than one it returns; handleChallenge and the locked
body of executeBotTurn settle a number attack on a bot that holds the suit
with that selection, the limit being the number of attacking cards. -/
theorem bot_defence_selection (player : Player) (suit : Suit) (limit : Nat) :
    ((selectBotDefenseIndices player suit limit).length =
        min limit (suitCount player.Hand suit) ∧
      (selectBotDefenseIndices player suit limit).Pairwise (fun a b => a < b) ∧
      (∀ i ∈ selectBotDefenseIndices player suit limit, ∃ c,
        handCard player.Hand i = some c ∧ c.Kind = CardKindNumber ∧ c.Suit = suit) ∧
      TopOfSuit player.Hand suit (selectBotDefenseIndices player suit limit)) ∧
    (∀ (r r1 : Room) (c : Client) (payload : ChallengePayload) (res : Option String)
      (g : Game) (att dfd : Player) (dseat : Seat),
      r.WellFormed → r.handleChallenge c payload = some (r1, res) → r.game = some g →
      g.Players[c.seatIndex.toNat]? = some att →
      g.Players[payload.TargetID.toNat]? = some dfd →
      r.seats[payload.TargetID.toNat]? = some dseat →
      (∀ i ∈ payload.Cards, ∃ card, handCard att.Hand i = some card ∧
        card.Kind = CardKindNumber ∧ card.Suit = suit) →
      dfd.HasSuit suit = true → dseat.Bot.isSome = true →
      (r1 = r ∧ res.isSome = true) ∨
        r.resolveChallengeLocked c.seatIndex payload.TargetID
          (payload.Cards.insertionSort (fun a b => a ≤ b))
          (selectBotDefenseIndices dfd suit payload.Cards.length) = some (r1, res)) ∧
    (∀ (r r1 : Room) (bot : BotPlayer) (order : List Suit) (seat dseat : Seat)
      (attacker defender : Player) (a : botAttack),
      r.executeBotTurn bot order = some r1 →
      r.seatAt bot.SeatIndex = some seat → r.livePlayer seat = some attacker →
      r.chooseBotAttack bot attacker (r.aliveTargetsLocked bot.SeatIndex) order =
        some (some a) →
      r.seatAt a.targetIndex = some dseat → r.livePlayer dseat = some defender →
      a.attackKind = CardKindNumber → defender.HasSuit a.attackSuit = true →
      dseat.Bot.isSome = true →
      r1 = r ∨
        ∃ res, ({ r with rng := a.rng } : Room).resolveChallengeLocked seat.Index dseat.Index
          a.attackCards
          (selectBotDefenseIndices defender a.attackSuit a.attackCards.length) =
            some (r1, res)) := by
  refine ⟨selectBotDefenseIndices_top player suit limit, ?_, ?_⟩
  · intro r r1 c payload res g att dfd dseat hwf h hg hatt hdfd hds hnum hhas hbot
    rcases Room.handleChallenge_cases hwf h with h1 |
      ⟨g', a, d, dseat', att', dfd', cards, first, hrun, hpend, hturn, hca, hcd, hne, hg', hds',
        hga, haa, hgd, hda, hnorm, hfirst, hcase⟩
    · exact Or.inl h1
    · right
      rw [hg] at hg'
      cases hg'
      rw [hca] at hatt
      rw [hcd] at hdfd hds
      simp only [Int.toNat_ofNat] at hatt hdfd hds
      rw [hga] at hatt
      rw [hgd] at hdfd
      rw [hds'] at hds
      cases hatt
      cases hdfd
      cases hds
      obtain ⟨hcards, -, -, hperm⟩ := uniqueSortedIndices_ok hnorm
      have hfk : first.Kind = CardKindNumber ∧ (∀ s, NumberSelection att.Hand cards s →
          s = suit) := by
        cases hcs : cards with
        | nil => rw [hcs] at hfirst; simp at hfirst
        | cons idx rest =>
          rw [hcs] at hfirst
          simp only [List.head?_cons, Option.some_bind] at hfirst
          have hmem : idx ∈ cards := by rw [hcs]; exact List.mem_cons_self _ _
          obtain ⟨card, hc1, hc2, hc3⟩ := hnum idx (hperm.mem_iff.mp hmem)
          rw [hfirst] at hc1
          cases hc1
          refine ⟨hc2, fun s hs => ?_⟩
          obtain ⟨card2, hd1, -, hd3⟩ := hs.2.2.2 idx (by rw [← hcs]; exact hmem)
          rw [hfirst] at hd1
          cases hd1
          rw [← hd3, hc3]
      rw [hca, hcd, ← hcards, ← hperm.length_eq]
      rcases hcase with ⟨-, s, hsel, hc⟩ | ⟨hk, -⟩ | ⟨hk, -⟩
      · have hs := hfk.2 s hsel
        subst hs
        rcases hc with ⟨-, h2, -⟩ | ⟨-, -, hr⟩ | ⟨h1, -⟩
        · rw [h2] at hbot; simp at hbot
        · exact hr
        · rw [h1] at hhas; simp at hhas
      · rw [hfk.1] at hk; exact absurd hk (by decide)
      · rw [hfk.1] at hk; exact absurd hk (by decide)
  · intro r r1 bot order seat dseat attacker defender a h hseat hlive hchoose hdseat hdl hk
      hhas hbot
    rcases Room.executeBotTurn_cases h with h1 | ⟨-, -, seat', hseat', hcase⟩
    · exact Or.inl h1
    · right
      rw [hseat] at hseat'
      cases hseat'
      rcases hcase with ⟨hl, -⟩ | ⟨attacker', hlive', hcase⟩
      · rw [hlive] at hl; simp at hl
      · rw [hlive] at hlive'
        cases hlive'
        rcases hcase with ⟨ht, -⟩ | ⟨hnone, -⟩ | ⟨a', dseat', hchoose', hdseat', hcase⟩
        · have := (Room.chooseBotAttack_some hchoose).1
          rw [ht] at this
          exact absurd this (List.not_mem_nil _)
        · rw [hchoose] at hnone; simp at hnone
        · rw [hchoose] at hchoose'
          cases hchoose'
          rw [hdseat] at hdseat'
          cases hdseat'
          rcases hcase with ⟨hdl', -⟩ | ⟨defender', hdl', hcase⟩
          · rw [hdl] at hdl'; simp at hdl'
          · rw [hdl] at hdl'
            cases hdl'
            rcases hcase with ⟨-, -, -, res, hr⟩ | ⟨-, -, hb, -⟩ | ⟨hnot, -⟩
            · exact ⟨res, hr⟩
            · rw [hb] at hbot; simp at hbot
            · exact absurd ⟨hk, hhas⟩ hnot

theorem botTable_wellFormed : botTable.WellFormed := by
  intro i seat h
  have h1 : (exampleSeat 0 :: (List.range' 1 7).map exampleBotSeat)[i]? = some seat := h
  cases i with
  | zero =>
    simp only [List.getElem?_cons_zero, Option.some.injEq] at h1
    subst h1
    exact ⟨rfl, Or.inr rfl⟩
  | succ k =>
    rw [List.getElem?_cons_succ, List.getElem?_map] at h1
    cases hx : (List.range' 1 7)[k]? with
    | none => rw [hx] at h1; simp at h1
    | some j =>
      rw [hx] at h1
      have hj := (List.getElem?_eq_some_iff.mp hx).2
      rw [List.getElem_range'] at hj
      simp only [Option.map_some', Option.some.injEq] at h1
      subst h1
      have e : j = k + 1 := by omega
      subst e
      exact ⟨rfl, Or.inr rfl⟩

theorem bot_defence_selection_witness :
    botTable.WellFormed ∧
    ((botTable.handleChallenge (exampleClient 0) ⟨1, [1]⟩).map Prod.snd = some none) ∧
    (∀ r1 res, botTable.handleChallenge (exampleClient 0) ⟨1, [1]⟩ = some (r1, res) →
      (r1 = botTable ∧ res.isSome = true) ∨
        botTable.resolveChallengeLocked (exampleClient 0).seatIndex 1
          ([(1 : Int)].insertionSort (fun a b => a ≤ b))
          (selectBotDefenseIndices
            (examplePlayer 1 "B" IdentityHuman
              [⟨CardKindNumber, SuitSpade, 5⟩, ⟨CardKindNumber, SuitSpade, 6⟩])
            SuitSpade [(1 : Int)].length) = some (r1, res)) :=
  ⟨botTable_wellFormed, rfl, fun r1 res h =>
    (bot_defence_selection
      (examplePlayer 1 "B" IdentityHuman
        [⟨CardKindNumber, SuitSpade, 5⟩, ⟨CardKindNumber, SuitSpade, 6⟩])
      SuitSpade 1).2.1 botTable r1 (exampleClient 0) ⟨1, [1]⟩ res _
      (examplePlayer 0 "A" IdentityHuman
        [⟨CardKindNumber, SuitHeart, 2⟩, ⟨CardKindNumber, SuitSpade, 9⟩,
          Card.ofKind CardKindShotgun, Card.ofKind CardKindVaccine])
      (examplePlayer 1 "B" IdentityHuman
        [⟨CardKindNumber, SuitSpade, 5⟩, ⟨CardKindNumber, SuitSpade, 6⟩])
      (exampleBotSeat 1) botTable_wellFormed h rfl rfl rfl rfl
      (fun i hi => by
        rw [List.mem_singleton] at hi
        subst hi
        exact ⟨_, rfl, rfl, rfl⟩)
      (by decide) rfl⟩

/-- C24 (as stated, refuted): in the example room with bots, seat 0 plays
its spade nine at the bot of seat 1, which holds a spade five and a spade
six.  The bot answers with one card, the spade six, not with min(5, 2) = 2
cards: the attacker wins, although the two spades together beat the nine,
takes the six, draws the five, and seat 1 is out of the game. -/
theorem bot_defence_selection_counterexample :
    suitCount [⟨CardKindNumber, SuitSpade, 5⟩, ⟨CardKindNumber, SuitSpade, 6⟩] SuitSpade = 2 ∧
    selectBotDefenseIndices
      (examplePlayer 1 "B" IdentityHuman
        [⟨CardKindNumber, SuitSpade, 5⟩, ⟨CardKindNumber, SuitSpade, 6⟩])
      SuitSpade [(1 : Int)].length = [1] ∧
    botTable.handleChallenge (exampleClient 0) ⟨1, [1]⟩ =
      botTable.resolveChallengeLocked 0 1 [1] [1] ∧
    ∃ r1, botTable.handleChallenge (exampleClient 0) ⟨1, [1]⟩ = some (r1, none) ∧
      (r1.game.bind (fun g => g.Players[0]?)).map (fun p => p.Hand) =
        some [⟨CardKindNumber, SuitSpade, 5⟩, ⟨CardKindNumber, SuitSpade, 6⟩,
          ⟨CardKindNumber, SuitSpade, 9⟩, ⟨CardKindNumber, SuitHeart, 2⟩,
          Card.ofKind CardKindShotgun, Card.ofKind CardKindVaccine] ∧
      (r1.game.bind (fun g => g.Players[1]?)).map (fun p => (p.Alive, p.Hand)) =
        some (false, []) :=
  ⟨by decide, by decide, rfl, _, rfl, rfl, rfl⟩

/-- The loop of selectStrongestNumericSet returns its start value or the
score, the suit and the first five candidates of one of the suits; its score
is at least the start score and the score of every suit visited. -/
theorem strongestLoop_max (hand : List Card) :
    ∀ (suits : List Suit) (best : Int × Suit × List Int),
      (strongestLoop hand suits best = best ∨
        ∃ s ∈ suits, strongestLoop hand suits best =
          (((sortByValueDesc (suitCandidates hand s)).take 5).foldl
              (fun acc ic => wrapInt (acc + ic.2.Value)) 0,
            s,
            ((sortByValueDesc (suitCandidates hand s)).take 5).map (fun ic => (ic.1 : Int)))) ∧
      best.1 ≤ (strongestLoop hand suits best).1 ∧
      ∀ s ∈ suits, ((sortByValueDesc (suitCandidates hand s)).take 5).foldl
          (fun acc ic => wrapInt (acc + ic.2.Value)) 0 ≤ (strongestLoop hand suits best).1
  | [], best => by
    simp [strongestLoop]
  | suit :: rest, best => by
    rw [strongestLoop]
    split
    · rename_i hgt
      obtain ⟨i1, i2, i3⟩ := strongestLoop_max hand rest
        (((sortByValueDesc (suitCandidates hand suit)).take 5).foldl
            (fun acc ic => wrapInt (acc + ic.2.Value)) 0,
          suit,
          ((sortByValueDesc (suitCandidates hand suit)).take 5).map (fun ic => (ic.1 : Int)))
      refine ⟨Or.inr ?_, ?_, ?_⟩
      · rcases i1 with e | ⟨s, hs, e⟩
        · exact ⟨suit, List.mem_cons_self _ _, e⟩
        · exact ⟨s, List.mem_cons_of_mem _ hs, e⟩
      · simp only at i2
        omega
      · intro s hs
        rcases List.mem_cons.mp hs with e | hs
        · rw [e]; exact i2
        · exact i3 s hs
    · rename_i hgt
      obtain ⟨i1, i2, i3⟩ := strongestLoop_max hand rest best
      refine ⟨?_, i2, ?_⟩
      · rcases i1 with e | ⟨s, hs, e⟩
        · exact Or.inl e
        · exact Or.inr ⟨s, List.mem_cons_of_mem _ hs, e⟩
      · intro s hs
        rcases List.mem_cons.mp hs with e | hs
        · rw [e]; omega
        · exact i3 s hs

/-- On values from 1 to 13 the running score of at most five cards never
wraps: it is the sum of the values. -/
theorem foldl_values_sum :
    ∀ (L : List (Nat × Card)) (acc : Int), 0 ≤ acc → acc + 13 * L.length < 2 ^ 62 →
      (∀ ic ∈ L, 1 ≤ ic.2.Value ∧ ic.2.Value ≤ 13) →
      L.foldl (fun a ic => wrapInt (a + ic.2.Value)) acc =
        acc + (L.map (fun ic => ic.2.Value)).sum
  | [], acc, _, _, _ => by simp
  | ic :: rest, acc, h0, hb, hv => by
    obtain ⟨v1, v2⟩ := hv ic (List.mem_cons_self _ _)
    simp only [List.length_cons] at hb
    rw [List.foldl_cons, wrapInt_of_small (by omega) (by omega),
      foldl_values_sum rest (acc + ic.2.Value) (by omega) (by push_cast at hb ⊢; omega)
        (fun x hx => hv x (List.mem_cons_of_mem _ hx))]
    simp only [List.map_cons, List.sum_cons]
    omega

/-- The values of the candidates sorted by falling value are the values of
the cards of the suit, sorted. -/
theorem sortByValueDesc_values (hand : List Card) (suit : Suit) :
    (sortByValueDesc (suitCandidates hand suit)).map (fun ic => ic.2.Value) =
      ((hand.filter (fun c => decide (c.Kind = CardKindNumber) && decide (c.Suit = suit))).map
        (fun c => c.Value)).insertionSort (fun a b => b ≤ a) := by
  haveI : IsTotal Int (fun a b => b ≤ a) := ⟨fun a b => le_total b a⟩
  haveI : IsTrans Int (fun a b => b ≤ a) := ⟨fun a b c h1 h2 => le_trans h2 h1⟩
  haveI : IsAntisymm Int (fun a b => b ≤ a) := ⟨fun a b h1 h2 => le_antisymm h2 h1⟩
  apply List.eq_of_perm_of_sorted (r := fun a b => b ≤ a)
  · have h1 := (sortByValueDesc_perm (suitCandidates hand suit)).map (fun ic => ic.2.Value)
    have h2 : (suitCandidates hand suit).map (fun ic => ic.2.Value) =
        (hand.filter (fun c => decide (c.Kind = CardKindNumber) &&
          decide (c.Suit = suit))).map (fun c => c.Value) := by
      rw [← suitCandidates_map_snd, List.map_map]
      rfl
    rw [h2] at h1
    exact h1.trans (List.perm_insertionSort _ _).symm
  · exact (sortByValueDesc_sorted _).map _ (fun a b h => h)
  · exact List.sorted_insertionSort _ _

/-- The score the loop gives a suit is the sum of its five highest values. -/
theorem suit_score (hand : List Card)
    (hv : ∀ c ∈ hand, c.Kind = CardKindNumber → 1 ≤ c.Value ∧ c.Value ≤ 13) (suit : Suit) :
    ((sortByValueDesc (suitCandidates hand suit)).take 5).foldl
        (fun acc ic => wrapInt (acc + ic.2.Value)) 0 = topFiveSum hand suit := by
  rw [foldl_values_sum _ 0 (le_refl _)
    (by
      have : ((sortByValueDesc (suitCandidates hand suit)).take 5).length ≤ 5 := by
        rw [List.length_take]; omega
      have h2 : (13 : Int) * ((sortByValueDesc (suitCandidates hand suit)).take 5).length ≤
          65 := by omega
      have h3 : (65 : Int) < 2 ^ 62 := by norm_num
      omega)
    (fun ic hic => by
      have hm := (sortByValueDesc_perm _).mem_iff.mp (List.mem_of_mem_take hic)
      obtain ⟨h1, h2, -⟩ := mem_suitCandidates.mp hm
      exact hv ic.2 (List.getElem?_mem h1) h2)]
  unfold topFiveSum
  rw [zero_add, ← sortByValueDesc_values, List.map_take]

/-- The values at the first candidates add up to the values of the
candidates. -/
theorem selectionSum_candidates (hand : List Card) (suit : Suit) (n : Nat)
    {sel : List Int}
    (hp : sel.Perm (((sortByValueDesc (suitCandidates hand suit)).take n).map
      (fun ic => (ic.1 : Int)))) :
    selectionSum hand sel =
      (((sortByValueDesc (suitCandidates hand suit)).take n).map
        (fun ic => ic.2.Value)).sum := by
  unfold selectionSum
  have h1 := ((hp.filterMap (handCard hand)).map (fun c => c.Value)).sum_eq
  rw [h1, List.filterMap_map]
  congr 1
  have h2 : ∀ (L : List (Nat × Card)), (∀ ic ∈ L, ic ∈ suitCandidates hand suit) →
      (L.filterMap (handCard hand ∘ fun ic => (ic.1 : Int))).map (fun c => c.Value) =
        L.map (fun ic => ic.2.Value) := by
    intro L
    induction L with
    | nil => intro _; rfl
    | cons ic rest ih =>
      intro hm
      have hc := handCard_natCast (mem_suitCandidates.mp (hm ic (List.mem_cons_self _ _))).1
      rw [List.filterMap_cons]
      simp only [Function.comp_apply, hc, List.map_cons]
      rw [ih (fun x hx => hm x (List.mem_cons_of_mem _ hx))]
  exact h2 _ (fun ic hic =>
    (sortByValueDesc_perm _).mem_iff.mp (List.mem_of_mem_take hic))

/-- C25: for a hand whose number cards carry values from 1 to 13, whatever
the order in which the suits are visited: selectStrongestNumericSet returns
no index exactly when the hand holds no number card; otherwise it returns
one to five ascending positions of number cards of the suit it returns, as
many as min(5, number of cards of that suit), none of the cards of that suit
it leaves out being worth more than one it returns, and their values add up
to at least the sum of the five highest values of every suit. -/
theorem strongest_set (player : Player) (order : List Suit)
    (hv : ∀ c ∈ player.Hand, c.Kind = CardKindNumber → 1 ≤ c.Value ∧ c.Value ≤ 13) :
    ((selectStrongestNumericSet player order).2 = [] ↔
      ∀ c ∈ player.Hand, c.Kind ≠ CardKindNumber) ∧
    ((selectStrongestNumericSet player order).2 ≠ [] →
      NumberSelection player.Hand (selectStrongestNumericSet player order).2
        (selectStrongestNumericSet player order).1 ∧
      (selectStrongestNumericSet player order).2.length =
        min 5 (suitCount player.Hand (selectStrongestNumericSet player order).1) ∧
      TopOfSuit player.Hand (selectStrongestNumericSet player order).1
        (selectStrongestNumericSet player order).2 ∧
      ∀ suit, topFiveSum player.Hand suit ≤
        selectionSum player.Hand (selectStrongestNumericSet player order).2) := by
  have hcand : ∀ s ∈ iterationOrder (numberSuits player.Hand) order,
      suitCandidates player.Hand s ≠ [] := by
    intro s hs
    obtain ⟨c2, hc2, hk2, hs2⟩ := mem_numberSuits.mp (mem_iterationOrder.mp hs)
    exact suitCandidates_ne_nil hc2 hk2 hs2
  refine ⟨⟨?_, ?_⟩, ?_⟩
  · intro he c hc hk
    exact selectStrongestNumericSet_ne_nil player order hv hc hk he
  · intro hno
    have hkeys : iterationOrder (numberSuits player.Hand) order = [] := by
      apply List.eq_nil_iff_forall_not_mem.mpr
      intro s hs
      obtain ⟨c, hc, hk, -⟩ := mem_numberSuits.mp (mem_iterationOrder.mp hs)
      exact hno c hc hk
    unfold selectStrongestNumericSet
    rw [hkeys]
    rfl
  · intro hne
    have hsel := (selectStrongestNumericSet_selection player order).resolve_left hne
    refine ⟨hsel, ?_⟩
    obtain ⟨m1, -, m3⟩ := strongestLoop_max player.Hand
      (iterationOrder (numberSuits player.Hand) order) (-1, "", [])
    rcases m1 with e | ⟨s, hs, e⟩
    · exfalso
      apply hne
      unfold selectStrongestNumericSet
      rw [e]
      rfl
    · have e1 : (selectStrongestNumericSet player order).1 = s := by
        unfold selectStrongestNumericSet
        rw [e]
      have e2 : (selectStrongestNumericSet player order).2 =
          (((sortByValueDesc (suitCandidates player.Hand s)).take 5).map
            (fun ic => (ic.1 : Int))).insertionSort (fun a b => a ≤ b) := by
        unfold selectStrongestNumericSet
        rw [e]
      obtain ⟨t1, -, -, t4⟩ := topCandidates_spec player.Hand s 5
      have hsum : selectionSum player.Hand (selectStrongestNumericSet player order).2 =
          topFiveSum player.Hand s := by
        rw [e2, selectionSum_candidates player.Hand s 5 (List.perm_insertionSort _ _)]
        unfold topFiveSum
        rw [← sortByValueDesc_values, List.map_take]
      rw [e1, hsum]
      refine ⟨?_, ?_, ?_⟩
      · rw [e2, (List.perm_insertionSort _ _).length_eq]
        exact t1
      · rw [e2]
        exact t4.of_perm (List.perm_insertionSort _ _)
      · intro suit
        rw [e] at m3
        simp only at m3
        by_cases hin : suit ∈ iterationOrder (numberSuits player.Hand) order
        · have := m3 suit hin
          rw [suit_score player.Hand hv, suit_score player.Hand hv] at this
          exact this
        · have h0 : topFiveSum player.Hand suit = 0 := by
            unfold topFiveSum
            have : player.Hand.filter (fun c => decide (c.Kind = CardKindNumber) &&
                decide (c.Suit = suit)) = [] := by
              apply List.eq_nil_iff_forall_not_mem.mpr
              intro c hc
              rw [List.mem_filter] at hc
              simp only [Bool.and_eq_true, decide_eq_true_eq] at hc
              exact hin (mem_iterationOrder.mpr (mem_numberSuits.mpr ⟨c, hc.1, hc.2.1, hc.2.2⟩))
            rw [this]
            rfl
          obtain ⟨f1, -⟩ := strongestLoop_found player.Hand hv
            (iterationOrder (numberSuits player.Hand) order) (-1, "", []) hcand
            (Or.inl ⟨List.ne_nil_of_mem hs, rfl⟩)
          rw [e] at f1
          simp only at f1
          rw [suit_score player.Hand hv] at f1
          omega

theorem strongest_set_witness :
    (∀ c ∈ sixSpades.Hand, c.Kind = CardKindNumber → 1 ≤ c.Value ∧ c.Value ≤ 13) ∧
    selectStrongestNumericSet sixSpades [SuitHeart, SuitSpade] = (SuitSpade, [1, 2, 3, 4, 5]) ∧
    (((selectStrongestNumericSet sixSpades [SuitHeart, SuitSpade]).2 = [] ↔
      ∀ c ∈ sixSpades.Hand, c.Kind ≠ CardKindNumber) ∧
    ((selectStrongestNumericSet sixSpades [SuitHeart, SuitSpade]).2 ≠ [] →
      NumberSelection sixSpades.Hand (selectStrongestNumericSet sixSpades [SuitHeart, SuitSpade]).2
        (selectStrongestNumericSet sixSpades [SuitHeart, SuitSpade]).1 ∧
      (selectStrongestNumericSet sixSpades [SuitHeart, SuitSpade]).2.length =
        min 5 (suitCount sixSpades.Hand
          (selectStrongestNumericSet sixSpades [SuitHeart, SuitSpade]).1) ∧
      TopOfSuit sixSpades.Hand (selectStrongestNumericSet sixSpades [SuitHeart, SuitSpade]).1
        (selectStrongestNumericSet sixSpades [SuitHeart, SuitSpade]).2 ∧
      ∀ suit, topFiveSum sixSpades.Hand suit ≤
        selectionSum sixSpades.Hand
          (selectStrongestNumericSet sixSpades [SuitHeart, SuitSpade]).2)) :=
  ⟨by decide, by decide,
    strongest_set sixSpades [SuitHeart, SuitSpade] (by decide)⟩

/-! ## The attack a bot chooses -/

theorem findCardKind_nonneg {player : Player} {kind : CardKind}
    (h : ∃ c ∈ player.Hand, c.Kind = kind) : findCardKind player kind ≥ 0 := by
  obtain ⟨c, hc, hk⟩ := h
  unfold findCardKind
  rw [if_pos (List.findIdx_lt_length_of_exists ⟨c, hc, by simpa using hk⟩)]
  exact Int.natCast_nonneg _

theorem findCardKind_neg {player : Player} {kind : CardKind}
    (h : ∀ c ∈ player.Hand, c.Kind ≠ kind) : ¬ findCardKind player kind ≥ 0 := by
  intro h0
  obtain ⟨c, hc, hk⟩ := findCardKind_spec h0
  exact h c (handCard_some hc).2.2 hk

/-- Over living seats the two candidate loops of executeBotTurn are filters. -/
theorem Room.botCandidates_filter (r : Room) (known : List Int) (want : Bool) :
    ∀ targets : List Int,
      (∀ t ∈ targets, ∃ seat, r.seatAt t = some seat ∧ r.seatAlive seat = true) →
      r.botCandidates known want targets =
        some (targets.filter (fun t => decide (decide (t ∈ known) = want)))
  | [], _ => rfl
  | tid :: rest, h => by
    obtain ⟨seat, hs, ha⟩ := h tid (List.mem_cons_self _ _)
    rw [Room.botCandidates, hs]
    simp only
    rw [Room.botCandidates_filter r known want rest
      (fun t ht => h t (List.mem_cons_of_mem _ ht))]
    simp only [ha, Bool.not_true, Bool.false_eq_true, if_false]
    by_cases hk : decide (tid ∈ known) = want
    · rw [if_pos hk, List.filter_cons_of_pos (by simpa using hk)]
    · rw [if_neg hk, List.filter_cons_of_neg (by simpa using hk)]

theorem Room.drawTarget_total (r : Room) {list : List Int} (h : list ≠ []) :
    ∃ t rng1, r.drawTarget list = some (t, rng1) := by
  have hlt : (r.rng.Intn list.length).1 < list.length :=
    Intn_lt _ (List.length_pos.mpr h)
  unfold Room.drawTarget
  rw [List.getElem?_eq_getElem hlt]
  exact ⟨_, _, rfl⟩

theorem Room.aliveTargetsLocked_seat {r : Room} (hwf : r.WellFormed) {exclude t : Int}
    (h : t ∈ r.aliveTargetsLocked exclude) :
    t ≠ exclude ∧ ∃ seat, r.seatAt t = some seat ∧ r.seatAlive seat = true := by
  obtain ⟨i, seat, hi, e, hne, ha⟩ := (Room.mem_aliveTargetsLocked hwf).mp h
  refine ⟨hne, seat, ?_, ha⟩
  unfold Room.seatAt
  rw [e, if_neg (by omega), Int.toNat_ofNat, hi]

/-- The zombie-card branch: a bot that holds a zombie card plays it, at a
seat it does not know as a zombie if there is one among the targets. -/
theorem Room.botZombieAttack_holding {r : Room} (hwf : r.WellFormed) (bot : BotPlayer)
    (attacker : Player) (hne : r.aliveTargetsLocked bot.SeatIndex ≠ [])
    (hz : ∃ c ∈ attacker.Hand, c.Kind = CardKindZombie) :
    ∃ t rng1,
      r.botZombieAttack bot attacker (r.aliveTargetsLocked bot.SeatIndex) =
        some (some ⟨[findCardKind attacker CardKindZombie], CardKindZombie, "", t, rng1⟩) ∧
      t ∈ r.aliveTargetsLocked bot.SeatIndex ∧
      ((∃ u ∈ r.aliveTargetsLocked bot.SeatIndex, u ∉ bot.KnownZombies) →
        t ∉ bot.KnownZombies) := by
  have hall : ∀ t ∈ r.aliveTargetsLocked bot.SeatIndex,
      ∃ seat, r.seatAt t = some seat ∧ r.seatAlive seat = true :=
    fun t ht => (Room.aliveTargetsLocked_seat hwf ht).2
  unfold Room.botZombieAttack
  rw [if_pos (findCardKind_nonneg hz), Room.botCandidates_filter r _ _ _ hall]
  simp only
  generalize hT : r.aliveTargetsLocked bot.SeatIndex = T at hne
  generalize hC : T.filter (fun t => decide (decide (t ∈ bot.KnownZombies) = false)) = C
  have hL : (if C.length = 0 then T else C) ≠ [] := by
    split
    · exact hne
    · rename_i h0
      intro hnil
      exact h0 (by rw [hnil]; rfl)
  obtain ⟨t, rng1, hdraw⟩ := r.drawTarget_total hL
  rw [if_pos (List.length_pos.mpr hL), hdraw]
  refine ⟨t, rng1, rfl, ?_, ?_⟩
  · have hm := Room.drawTarget_mem hdraw
    split at hm
    · exact hm
    · rw [← hC] at hm
      exact (List.mem_filter.mp hm).1
  · rintro ⟨u, hu, hk⟩
    have huC : u ∈ C := by
      rw [← hC]
      exact List.mem_filter.mpr ⟨hu, by simpa using hk⟩
    have hm := Room.drawTarget_mem hdraw
    rw [if_neg (by
      intro h0
      rw [List.length_eq_zero] at h0
      rw [h0] at huC
      exact absurd huC (List.not_mem_nil _))] at hm
    rw [← hC] at hm
    simpa using (List.mem_filter.mp hm).2

/-- The shotgun branch: a bot that holds a shotgun and knows a zombie among
the targets fires at a seat it knows as a zombie. -/
theorem Room.botShotgunAttack_holding {r : Room} (hwf : r.WellFormed) (bot : BotPlayer)
    (attacker : Player)
    (hs : ∃ c ∈ attacker.Hand, c.Kind = CardKindShotgun)
    (hk : ∃ u ∈ r.aliveTargetsLocked bot.SeatIndex, u ∈ bot.KnownZombies) :
    ∃ t rng1,
      r.botShotgunAttack bot attacker (r.aliveTargetsLocked bot.SeatIndex) =
        some (some ⟨[findCardKind attacker CardKindShotgun], CardKindShotgun, "", t, rng1⟩) ∧
      t ∈ r.aliveTargetsLocked bot.SeatIndex ∧ t ∈ bot.KnownZombies := by
  have hall : ∀ t ∈ r.aliveTargetsLocked bot.SeatIndex,
      ∃ seat, r.seatAt t = some seat ∧ r.seatAlive seat = true :=
    fun t ht => (Room.aliveTargetsLocked_seat hwf ht).2
  unfold Room.botShotgunAttack
  rw [if_pos (findCardKind_nonneg hs), Room.botCandidates_filter r _ _ _ hall]
  simp only
  obtain ⟨u, hu, huk⟩ := hk
  have hC : (r.aliveTargetsLocked bot.SeatIndex).filter
      (fun t => decide (decide (t ∈ bot.KnownZombies) = true)) ≠ [] := by
    intro hnil
    have : u ∈ (r.aliveTargetsLocked bot.SeatIndex).filter
        (fun t => decide (decide (t ∈ bot.KnownZombies) = true)) :=
      List.mem_filter.mpr ⟨hu, by simpa using huk⟩
    rw [hnil] at this
    exact absurd this (List.not_mem_nil _)
  obtain ⟨t, rng1, hdraw⟩ := r.drawTarget_total hC
  rw [if_pos (List.length_pos.mpr hC), hdraw]
  have hm := List.mem_filter.mp (Room.drawTarget_mem hdraw)
  exact ⟨t, rng1, rfl, hm.1, by simpa using hm.2⟩

theorem Room.botZombieAttack_without {r : Room} (bot : BotPlayer) (attacker : Player)
    (targets : List Int) (h : ∀ c ∈ attacker.Hand, c.Kind ≠ CardKindZombie) :
    r.botZombieAttack bot attacker targets = some none := by
  unfold Room.botZombieAttack
  rw [if_neg (findCardKind_neg h)]

/-- The attack of a bot never panics over the living other seats. -/
theorem Room.chooseBotAttack_total {r : Room} (hwf : r.WellFormed) (bot : BotPlayer)
    (attacker : Player) (order : List Suit)
    (hne : r.aliveTargetsLocked bot.SeatIndex ≠ []) :
    ∃ x, r.chooseBotAttack bot attacker (r.aliveTargetsLocked bot.SeatIndex) order =
      some x := by
  have hall : ∀ t ∈ r.aliveTargetsLocked bot.SeatIndex,
      ∃ seat, r.seatAt t = some seat ∧ r.seatAlive seat = true :=
    fun t ht => (Room.aliveTargetsLocked_seat hwf ht).2
  unfold Room.chooseBotAttack
  by_cases hz : ∃ c ∈ attacker.Hand, c.Kind = CardKindZombie
  · obtain ⟨t, rng1, h, -⟩ := Room.botZombieAttack_holding hwf bot attacker hne hz
    rw [h]
    exact ⟨_, rfl⟩
  · rw [Room.botZombieAttack_without bot attacker _ (by
      intro c hc hk
      exact hz ⟨c, hc, hk⟩)]
    simp only
    have hshot : ∃ y, r.botShotgunAttack bot attacker
        (r.aliveTargetsLocked bot.SeatIndex) = some y := by
      unfold Room.botShotgunAttack
      split
      · rw [Room.botCandidates_filter r _ _ _ hall]
        simp only
        split
        · rename_i hpos
          obtain ⟨t, rng1, hdraw⟩ := r.drawTarget_total (List.length_pos.mp hpos)
          rw [hdraw]
          exact ⟨_, rfl⟩
        · exact ⟨_, rfl⟩
      · exact ⟨_, rfl⟩
    obtain ⟨y, hy⟩ := hshot
    rw [hy]
    cases y with
    | some a => exact ⟨_, rfl⟩
    | none =>
      simp only
      unfold Room.botNumberAttack
      split
      · exact ⟨_, rfl⟩
      · obtain ⟨t, rng1, hdraw⟩ := r.drawTarget_total hne
        rw [hdraw]
        exact ⟨_, rfl⟩

/-- C27: the attack decision of a bot with at least one living other seat.
The decision never panics.  A bot holding a zombie card plays exactly that
card, at a living other seat that is not among its known zombies whenever
there is such a seat.  A bot without a zombie card that holds a shotgun and
knows a zombie among the living other seats plays exactly the shotgun, at a
seat among its known zombies.  Whatever is chosen, the target is a living
seat other than the bot's own; the room generator is arbitrary throughout. -/
theorem bot_attack_choice (r : Room) (bot : BotPlayer) (attacker : Player)
    (order : List Suit) (hwf : r.WellFormed)
    (hne : r.aliveTargetsLocked bot.SeatIndex ≠ []) :
    (∃ x, r.chooseBotAttack bot attacker (r.aliveTargetsLocked bot.SeatIndex) order =
      some x) ∧
    ((∃ c ∈ attacker.Hand, c.Kind = CardKindZombie) →
      ∃ a i c, r.chooseBotAttack bot attacker (r.aliveTargetsLocked bot.SeatIndex) order =
          some (some a) ∧
        a.attackKind = CardKindZombie ∧ a.attackCards = [i] ∧
        handCard attacker.Hand i = some c ∧ c.Kind = CardKindZombie ∧
        a.targetIndex ∈ r.aliveTargetsLocked bot.SeatIndex ∧
        ((∃ u ∈ r.aliveTargetsLocked bot.SeatIndex, u ∉ bot.KnownZombies) →
          a.targetIndex ∉ bot.KnownZombies)) ∧
    ((∀ c ∈ attacker.Hand, c.Kind ≠ CardKindZombie) →
      (∃ c ∈ attacker.Hand, c.Kind = CardKindShotgun) →
      (∃ u ∈ r.aliveTargetsLocked bot.SeatIndex, u ∈ bot.KnownZombies) →
      ∃ a i c, r.chooseBotAttack bot attacker (r.aliveTargetsLocked bot.SeatIndex) order =
          some (some a) ∧
        a.attackKind = CardKindShotgun ∧ a.attackCards = [i] ∧
        handCard attacker.Hand i = some c ∧ c.Kind = CardKindShotgun ∧
        a.targetIndex ∈ r.aliveTargetsLocked bot.SeatIndex ∧
        a.targetIndex ∈ bot.KnownZombies) ∧
    (∀ a, r.chooseBotAttack bot attacker (r.aliveTargetsLocked bot.SeatIndex) order =
        some (some a) →
      a.targetIndex ≠ bot.SeatIndex ∧
      ∃ seat p, r.seatAt a.targetIndex = some seat ∧ r.livePlayer seat = some p ∧
        p.Alive = true) := by
  refine ⟨Room.chooseBotAttack_total hwf bot attacker order hne, ?_, ?_, ?_⟩
  · intro hz
    obtain ⟨t, rng1, h, hm, hk⟩ := Room.botZombieAttack_holding hwf bot attacker hne hz
    obtain ⟨c, hc, hkind⟩ := findCardKind_spec (findCardKind_nonneg hz)
    refine ⟨⟨[findCardKind attacker CardKindZombie], CardKindZombie, "", t, rng1⟩, _, c,
      ?_, rfl, rfl, hc, hkind, hm, hk⟩
    unfold Room.chooseBotAttack
    rw [h]
  · intro hnz hs hk
    obtain ⟨t, rng1, h, hm, hkn⟩ := Room.botShotgunAttack_holding hwf bot attacker hs hk
    obtain ⟨c, hc, hkind⟩ := findCardKind_spec (findCardKind_nonneg hs)
    refine ⟨⟨[findCardKind attacker CardKindShotgun], CardKindShotgun, "", t, rng1⟩, _, c,
      ?_, rfl, rfl, hc, hkind, hm, hkn⟩
    unfold Room.chooseBotAttack
    rw [Room.botZombieAttack_without bot attacker _ hnz]
    simp only
    rw [h]
  · intro a ha
    obtain ⟨hne1, seat, hs, hal⟩ :=
      Room.aliveTargetsLocked_seat hwf (Room.chooseBotAttack_some ha).1
    obtain ⟨p, hp⟩ := Room.seatAlive_iff.mp hal
    refine ⟨hne1, seat, p, hs, hp, ?_⟩
    unfold Room.livePlayer at hp
    split at hp
    · split at hp
      · rename_i halive
        simp only [Option.some.injEq] at hp
        rw [← hp]
        exact halive
      · simp at hp
    · simp at hp

/-- The bot on seat 2 of the example room, holding a club four and a zombie
card and knowing seat 5 as a zombie, bites a seat other than 5. -/
theorem bot_attack_choice_witness :
    (exampleRoom none).WellFormed ∧
    (exampleRoom none).aliveTargetsLocked 2 ≠ [] ∧
    ∃ a i c, (exampleRoom none).chooseBotAttack ⟨2, "bot", [5]⟩
          (examplePlayer 2 "C" IdentityZombie
            [⟨CardKindNumber, SuitClub, 4⟩, Card.ofKind CardKindZombie])
          ((exampleRoom none).aliveTargetsLocked 2) [] = some (some a) ∧
        a.attackKind = CardKindZombie ∧ a.attackCards = [i] ∧
        handCard (examplePlayer 2 "C" IdentityZombie
            [⟨CardKindNumber, SuitClub, 4⟩, Card.ofKind CardKindZombie]).Hand i = some c ∧
        c.Kind = CardKindZombie ∧
        a.targetIndex ∈ (exampleRoom none).aliveTargetsLocked 2 ∧
        ((∃ u ∈ (exampleRoom none).aliveTargetsLocked 2, u ∉ [(5 : Int)]) →
          a.targetIndex ∉ [(5 : Int)]) :=
  ⟨exampleRoom_wellFormed none, by decide,
    (bot_attack_choice (exampleRoom none) ⟨2, "bot", [5]⟩
      (examplePlayer 2 "C" IdentityZombie
        [⟨CardKindNumber, SuitClub, 4⟩, Card.ofKind CardKindZombie]) []
      (exampleRoom_wellFormed none) (by decide)).2.1
      ⟨Card.ofKind CardKindZombie, by decide, rfl⟩⟩

/-! ## Starting a game -/

theorem NewGame_error_length {names : List String} {rng : Rng} {e : String}
    (h : NewGame names rng = .error e) : names.length ≠ 8 := by
  intro h8
  obtain ⟨g, -, -, -, hok, -⟩ := NewGame_anatomy names rng h8
  rw [hok] at h
  cases h

/-- With the first seat alive, the scan of findNextAlive from -1 stops at
seat 0. -/
theorem Room.findNextAlive_first {r : Room} {x : Option Int}
    (h : r.findNextAlive (-1) = x) {g : Game} (hg : r.game = some g) (seat : Seat)
    (h0 : r.seats[0]? = some seat) (ha : r.seatAlive seat = true) : x = some 0 := by
  have hlen : 0 < r.seats.length := (List.getElem?_eq_some_iff.mp h0).1
  obtain ⟨n, hn⟩ : ∃ n, r.seats.length = n + 1 := ⟨r.seats.length - 1, by omega⟩
  unfold Room.findNextAlive at h
  rw [hn, List.range'_succ, Room.findNextAliveLoop, hg] at h
  simp only at h
  have ht : Int.tmod (-1 + ((1 : Nat) : Int)) (r.seats.length : Int) = ((0 : Nat) : Int) := by
    simp
  rw [ht, Room.seatAt_of_get h0] at h
  simp only [ha, if_true] at h
  rw [← h]
  rfl

theorem Room.StartGame_error {r r1 : Room} {gameRng : Rng} {e : String}
    (h : r.StartGame gameRng = some (r1, some e)) :
    r1.status = r.status ∧ r1.currentTurn = r.currentTurn := by
  unfold Room.StartGame at h
  split at h
  · simp only [Option.some.injEq, Prod.mk.injEq] at h
    rw [← h.1]
    exact ⟨rfl, rfl⟩
  · dsimp only at h
    split at h
    · simp only [Option.some.injEq, Prod.mk.injEq] at h
      rw [← h.1]
      exact ⟨rfl, rfl⟩
    · split at h
      · simp at h
      · simp at h

/-- A StartGame that returns no error ran in a lobby of eight seats and
left a running game of eight living players bound to the seats, in round 1
with seat 0 to play. -/
theorem Room.StartGame_ok {r r1 : Room} {gameRng : Rng}
    (h : r.StartGame gameRng = some (r1, none)) :
    r.status = RoomStatusLobby ∧ r.seats.length = 8 ∧ r1.status = RoomStatusRunning ∧
      r1.currentRound = 1 ∧ r1.currentTurn = 0 ∧
      r1.pendingChallenge = r.pendingChallenge ∧ r1.seats.length = 8 ∧
      ∃ g, r1.game = some g ∧ g.Round = 1 ∧ g.Players.length = 8 ∧
        ∀ (i : Nat) (seat : Seat), r1.seats[i]? = some seat →
          (seat.Client.isSome = true ∨ seat.Bot.isSome = true) ∧ seat.Player = some i ∧
          ∃ p, g.Players[i]? = some p ∧ p.ID = (i : Int) ∧ p.Alive = true := by
  unfold Room.StartGame at h
  split at h
  · simp at h
  · rename_i hlobby
    have hlobby' : r.status = RoomStatusLobby := by
      by_contra hh; exact hlobby hh
    dsimp only at h
    split at h
    · simp at h
    · rename_i g hng
      have hlen := NewGame_ok_length hng
      obtain ⟨g', ids, i0, i1, hok, -, -, -, -, hpl, -, -, -, hk⟩ :=
        NewGame_anatomy _ gameRng hlen
      rw [hng] at hok
      cases hok
      simp only [List.length_map, List.length_mapIdx] at hlen
      have hseats : ∀ (i : Nat) (seat : Seat),
          ((r.seats.mapIdx (fun i seat =>
            match seat.Client with
            | some _ => seat
            | none =>
              { seat with
                Bot := some { SeatIndex := (i : Int), Name := "機器人" ++ toString (i + 1),
                              KnownZombies := [] },
                Name := "機器人" ++ toString (i + 1) })).mapIdx
            (fun i seat => { seat with Player := some i }))[i]? = some seat →
          (seat.Client.isSome = true ∨ seat.Bot.isSome = true) ∧ seat.Player = some i ∧
          ∃ p, g.Players[i]? = some p ∧ p.ID = (i : Int) ∧ p.Alive = true := by
        intro i seat hs
        simp only [List.getElem?_mapIdx] at hs
        cases hx : r.seats[i]? with
        | none => rw [hx] at hs; simp at hs
        | some s =>
          have hi : i < 8 := by
            rw [← hlen]
            exact (List.getElem?_eq_some_iff.mp hx).1
          rw [hx] at hs
          simp only [Option.map_some', Option.some.injEq] at hs
          subst hs
          obtain ⟨p, -, hp, hid, -, -, -, hal, -⟩ := hk i hi
          refine ⟨?_, rfl, p, hp, hid, hal⟩
          cases hc : s.Client with
          | some c => left; simp [hc]
          | none => right; simp [hc]
      split at h
      · simp at h
      · rename_i next hnext
        simp only [Option.some.injEq, Prod.mk.injEq, and_true] at h
        have hs0 : r.seats[0]? = some (r.seats[0]) :=
          List.getElem?_eq_getElem (by omega)
        obtain ⟨p0, -, hp0, -, -, -, -, hal0, -⟩ := hk 0 (by omega)
        have hnext0 : some next = some 0 := by
          refine Room.findNextAlive_first hnext rfl
            ({ (match (r.seats[0]).Client with
              | some _ => r.seats[0]
              | none =>
                { r.seats[0] with
                  Bot := some { SeatIndex := ((0 : Nat) : Int),
                                Name := "機器人" ++ toString (0 + 1),
                                KnownZombies := [] },
                  Name := "機器人" ++ toString (0 + 1) }) with Player := some 0 })
            ?_ ?_
          · simp only [List.getElem?_mapIdx, hs0, Option.map_some']
          · exact Room.seatAlive_iff.mpr ⟨p0, Room.livePlayer_of_get rfl rfl hp0 hal0⟩
        cases hnext0
        rw [← h]
        refine ⟨hlobby', hlen, rfl, rfl, rfl, rfl, ?_, _, rfl, rfl, hpl, hseats⟩
        simp only [List.length_mapIdx]
        exact hlen

/-- In a lobby of eight seats StartGame succeeds. -/
theorem Room.StartGame_total {r : Room} (gameRng : Rng) (hl : r.status = RoomStatusLobby)
    (h8 : r.seats.length = 8) : ∃ r1, r.StartGame gameRng = some (r1, none) := by
  have key : ∀ x, r.StartGame gameRng = x → ∃ r1, x = some (r1, none) := by
    intro x hx
    unfold Room.StartGame at hx
    rw [if_neg (by rw [hl]; simp)] at hx
    dsimp only at hx
    split at hx
    · rename_i e hng
      exact absurd (by simp only [List.length_map, List.length_mapIdx]; exact h8)
        (NewGame_error_length hng)
    · rename_i g hng
      obtain ⟨g', ids, i0, i1, hok, -, -, -, -, hpl, -, -, -, hk⟩ :=
        NewGame_anatomy _ gameRng (NewGame_ok_length hng)
      rw [hng] at hok
      cases hok
      have hs0 : r.seats[0]? = some (r.seats[0]) :=
        List.getElem?_eq_getElem (by omega)
      obtain ⟨p0, -, hp0, -, -, -, -, hal0, -⟩ := hk 0 (by omega)
      split at hx
      · rename_i hnext
        have hnext0 : none = some (0 : Int) := by
          refine Room.findNextAlive_first hnext rfl
            ({ (match (r.seats[0]).Client with
              | some _ => r.seats[0]
              | none =>
                { r.seats[0] with
                  Bot := some { SeatIndex := ((0 : Nat) : Int),
                                Name := "機器人" ++ toString (0 + 1),
                                KnownZombies := [] },
                  Name := "機器人" ++ toString (0 + 1) }) with Player := some 0 })
            ?_ ?_
          · simp only [List.getElem?_mapIdx, hs0, Option.map_some']
          · exact Room.seatAlive_iff.mpr ⟨p0, Room.livePlayer_of_get rfl rfl hp0 hal0⟩
        cases hnext0
      · exact ⟨_, hx.symm⟩
  exact key _ rfl

/-- C23: StartGame.  Outside the lobby it returns its error and the room
is the one it was called on.  Whenever it returns no error the room was a
lobby of eight seats and afterwards the status is Running, every seat holds
a client or a bot, seat i is bound to player i of the game, whose ID is i
and who is alive, the round of the room and of the game is 1, the turn is
on seat 0, which is the first living seat, and the pending challenge is the
one of the room before, which is none in every reachable room.  In a lobby
of eight seats StartGame does succeed. -/
theorem start_game (r : Room) (gameRng : Rng) :
    (r.status ≠ RoomStatusLobby →
      r.StartGame gameRng = some (r, some "遊戲已在進行或結束")) ∧
    (∀ r1, r.StartGame gameRng = some (r1, none) →
      r.status = RoomStatusLobby ∧ r.seats.length = 8 ∧
      r1.status = RoomStatusRunning ∧ r1.seats.length = 8 ∧
      (∀ seat ∈ r1.seats, seat.Client.isSome = true ∨ seat.Bot.isSome = true) ∧
      (∃ g, r1.game = some g ∧ g.Round = 1 ∧ g.Players.length = 8 ∧
        ∀ (i : Nat) (seat : Seat), r1.seats[i]? = some seat →
          seat.Player = some i ∧
          ∃ p, g.Players[i]? = some p ∧ p.ID = (i : Int) ∧ p.Alive = true) ∧
      r1.currentRound = 1 ∧ r1.currentTurn = 0 ∧ r1.aliveAt 0 = true ∧
      r1.pendingChallenge = r.pendingChallenge ∧
      (r.Reachable → r1.pendingChallenge = none)) ∧
    (r.status = RoomStatusLobby → r.seats.length = 8 →
      ∃ r1, r.StartGame gameRng = some (r1, none)) := by
  refine ⟨?_, ?_, fun hl h8 => Room.StartGame_total gameRng hl h8⟩
  · intro hnl
    unfold Room.StartGame
    rw [if_pos hnl]
  · intro r1 h
    obtain ⟨h1, h2, h3, h4, h5, h6, h7, g, hg, hround, hpl, hseats⟩ := Room.StartGame_ok h
    refine ⟨h1, h2, h3, h7, ?_, ⟨g, hg, hround, hpl, ?_⟩, h4, h5, ?_, h6, ?_⟩
    · intro seat hm
      obtain ⟨i, hi⟩ := List.getElem?_of_mem hm
      exact (hseats i seat hi).1
    · intro i seat hi
      exact (hseats i seat hi).2
    · have hs0 : r1.seats[0]? = some (r1.seats[0]) :=
        List.getElem?_eq_getElem (by omega)
      obtain ⟨-, hp, p, hgp, -, hal⟩ := hseats 0 _ hs0
      unfold Room.aliveAt
      rw [hs0]
      exact Room.seatAlive_iff.mpr ⟨p, Room.livePlayer_of_get hg hp hgp hal⟩
    · intro hr
      rw [h6]
      exact hr.inv.2.1 (by rw [h1]; decide)

/-- The full lobby is reachable and StartGame turns it into the running
room, with no challenge pending. -/
theorem start_game_witness :
    fullLobby.Reachable ∧ fullLobby.StartGame [1] = some (runningRoom, none) ∧
      runningRoom.status = RoomStatusRunning ∧ runningRoom.currentTurn = 0 ∧
      runningRoom.pendingChallenge = none :=
  ⟨fullLobby_reachable, runningRoom_start,
    ((start_game fullLobby [1]).2.1 runningRoom runningRoom_start).2.2.1,
    ((start_game fullLobby [1]).2.1 runningRoom runningRoom_start).2.2.2.2.2.2.2.1,
    ((start_game fullLobby [1]).2.1 runningRoom runningRoom_start).2.2.2.2.2.2.2.2.2.2
      fullLobby_reachable⟩

/-! ## The turn index of reachable rooms -/

theorem Room.TurnSet_of_eq {r r1 : Room} (h : r.TurnSet) (hs : r1.status = r.status)
    (ht : r1.currentTurn = r.currentTurn) : r1.TurnSet := by
  intro hnl
  rw [ht]
  exact h (by rw [← hs]; exact hnl)

theorem Room.TurnSet_join {r : Room} (c : Client) (h : r.TurnSet) : (r.Join c).1.TurnSet := by
  unfold Room.Join
  dsimp only
  split
  · split
    · exact h
    · rw [Room.assignHostLocked_eq]
      exact Room.TurnSet_of_eq h rfl rfl
  · split
    · exact h
    · split
      · exact h
      · rw [Room.assignHostLocked_eq]
        exact Room.TurnSet_of_eq h rfl rfl

theorem Room.TurnSet_addBot {r : Room} (name : String) (h : r.TurnSet) :
    (r.addBot name).1.TurnSet := by
  unfold Room.addBot
  split
  · exact h
  · split
    · exact h
    · exact Room.TurnSet_of_eq h rfl rfl

theorem Room.TurnSet_removeBot {r : Room} (seatIdx : Int) (h : r.TurnSet) :
    (r.removeBot seatIdx).1.TurnSet := by
  unfold Room.removeBot
  split
  · exact h
  · split
    · exact h
    · split
      · exact h
      · dsimp only
        split
        · rw [Room.assignHostLocked_eq]
          exact Room.TurnSet_of_eq h rfl rfl
        · exact Room.TurnSet_of_eq h rfl rfl

theorem Room.TurnSet_setSeat {r : Room} (h : r.TurnSet) (pos : Nat) (seat2 : Seat)
    (b : Prop) [Decidable b] :
    (if b then ({ r with seats := r.seats.set pos seat2 } : Room).assignHostLocked
      else { r with seats := r.seats.set pos seat2 }).TurnSet := by
  split
  · rw [Room.assignHostLocked_eq]
    exact Room.TurnSet_of_eq h rfl rfl
  · exact Room.TurnSet_of_eq h rfl rfl

theorem Room.TurnSet_onClientLeft {r : Room} (c : Client) (h : r.TurnSet) :
    (r.onClientLeft c).TurnSet := by
  unfold Room.onClientLeft
  split
  · split
    · exact h
    · split
      · exact Room.TurnSet_setSeat h _ _ _
      · exact h
  · exact h

theorem Room.TurnSet_delayedReset {r : Room} (h : r.TurnSet) : r.delayedReset.TurnSet := by
  unfold Room.delayedReset
  split
  · exact h
  · intro hnl
    exact absurd rfl hnl

/-- What the scan of findNextAlive returns is -1 or the index of a seat. -/
theorem Room.findNextAliveLoop_range (r : Room) (start : Int) :
    ∀ (offsets : List Nat) (x : Int), r.findNextAliveLoop start offsets = some x →
      (∀ o ∈ offsets, 0 ≤ start + (o : Int)) → x = -1 ∨ 0 ≤ x
  | [], x, h, _ => by
    simp only [Room.findNextAliveLoop, Option.some.injEq] at h
    exact Or.inl h.symm
  | o :: rest, x, h, hall => by
    rw [Room.findNextAliveLoop] at h
    split at h
    · exact Room.findNextAliveLoop_range r start rest x h
        (fun o1 ho1 => hall o1 (List.mem_cons_of_mem _ ho1))
    · split at h
      · simp at h
      · split at h
        · simp only [Option.some.injEq] at h
          rw [← h]
          exact Or.inr (Int.tmod_nonneg _ (hall o (List.mem_cons_self _ _)))
        · exact Room.findNextAliveLoop_range r start rest x h
            (fun o1 ho1 => hall o1 (List.mem_cons_of_mem _ ho1))

theorem Room.findNextAlive_range {r : Room} {start x : Int}
    (h : r.findNextAlive start = some x) (hs : -1 ≤ start) : x = -1 ∨ 0 ≤ x := by
  unfold Room.findNextAlive at h
  refine Room.findNextAliveLoop_range r start _ x h ?_
  intro o ho
  have := (List.mem_range'_1.mp ho).1
  omega

theorem Room.finishGameLocked_turn (r : Room) :
    r.finishGameLocked.currentTurn = r.currentTurn := by
  unfold Room.finishGameLocked
  split <;> rfl

/-- advanceTurnLocked keeps the turn on a seat index. -/
theorem Room.advanceTurnLocked_turn {r r1 : Room} (h : r.advanceTurnLocked = some r1)
    (h0 : 0 ≤ r.currentTurn) : 0 ≤ r1.currentTurn := by
  unfold Room.advanceTurnLocked at h
  split at h
  · simp only [Option.some.injEq] at h
    rw [← h]; exact h0
  · split at h
    · simp only [Option.some.injEq] at h
      rw [← h, Room.finishGameLocked_turn]; exact h0
    · split at h
      · simp at h
      · rename_i next hnext
        have hn := Room.findNextAlive_range hnext (by omega)
        split at h
        · dsimp only at h
          split at h
          · simp only [Option.some.injEq] at h
            rw [← h, Room.finishGameLocked_turn]; exact h0
          · split at h
            · simp at h
            · rename_i next2 hnext2
              have hn2 := Room.findNextAlive_range hnext2 (le_refl _)
              split at h
              · simp only [Option.some.injEq] at h
                rw [← h, Room.finishGameLocked_turn]; exact h0
              · rename_i hne
                simp only [Option.some.injEq] at h
                rw [← h]
                rcases hn2 with hn2 | hn2
                · exact absurd hn2 hne
                · exact hn2
        · rename_i hne
          have hnext0 : 0 ≤ next := by
            rcases hn with hn | hn
            · exact absurd hn hne
            · exact hn
          split at h
          · dsimp only at h
            split at h
            · simp only [Option.some.injEq] at h
              rw [← h, Room.finishGameLocked_turn]; exact h0
            · simp only [Option.some.injEq] at h
              rw [← h]; exact hnext0
          · simp only [Option.some.injEq] at h
            rw [← h]; exact hnext0

theorem Room.TurnSet_advance {r r1 : Room} (h : r.TurnSet) (hnl : r.status ≠ RoomStatusLobby)
    (hadv : r.advanceTurnLocked = some r1) : r1.TurnSet :=
  fun _ => Room.advanceTurnLocked_turn hadv (h hnl)

theorem Room.TurnSet_resolve {r r1 : Room} {a d : Int} {ac dc : List Int}
    {res : Option String} (h : r.TurnSet) (hnl : r.status ≠ RoomStatusLobby)
    (hres : r.resolveChallengeLocked a d ac dc = some (r1, res)) : r1.TurnSet := by
  cases res with
  | some e =>
    rcases Room.resolveChallengeLocked_error hres with ⟨-, h1⟩ | ⟨g, g1, -, -, h1⟩
    · rw [h1]; exact h
    · rw [h1]; exact Room.TurnSet_of_eq h rfl rfl
  | none =>
    unfold Room.resolveChallengeLocked at hres
    split at hres
    · split at hres
      · simp at hres
      · simp at hres
    · rename_i g hg
      split at hres
      · simp at hres
      · rename_i g1 o hc
        dsimp only at hres
        split at hres
        · simp at hres
        · rename_i r5 hadv
          simp only [Option.some.injEq, Prod.mk.injEq, and_true] at hres
          subst hres
          have hst : (List.foldl Room.clearZombieKnowledge
              (List.foldl Room.clearZombieKnowledge
                (if o.Infection = true then
                  ({ r with game := some g1, pendingChallenge := none } :
                    Room).registerInfectionKnowledge a d
                else { r with game := some g1, pendingChallenge := none })
                o.ConvertedToHuman) o.Eliminated).status = r.status := by
            rw [(Room.foldl_clearZombieKnowledge_frame _ _).2,
              (Room.foldl_clearZombieKnowledge_frame _ _).2]
            split
            · rw [(Room.registerInfectionKnowledge_frame _ _ _).2]
            · rfl
          have hct : (List.foldl Room.clearZombieKnowledge
              (List.foldl Room.clearZombieKnowledge
                (if o.Infection = true then
                  ({ r with game := some g1, pendingChallenge := none } :
                    Room).registerInfectionKnowledge a d
                else { r with game := some g1, pendingChallenge := none })
                o.ConvertedToHuman) o.Eliminated).currentTurn = r.currentTurn := by
            rw [(Room.foldl_clearZombieKnowledge_frame _ _).2,
              (Room.foldl_clearZombieKnowledge_frame _ _).2]
            split
            · rw [(Room.registerInfectionKnowledge_frame _ _ _).2]
            · rfl
          exact Room.TurnSet_advance (Room.TurnSet_of_eq h hst hct) (by rw [hst]; exact hnl)
            hadv

theorem Room.TurnSet_startGame {r r1 : Room} {res : Option String} (gameRng : Rng)
    (h : r.TurnSet) (hs : r.StartGame gameRng = some (r1, res)) : r1.TurnSet := by
  cases res with
  | some e =>
    obtain ⟨h1, h2⟩ := Room.StartGame_error hs
    exact Room.TurnSet_of_eq h h1 h2
  | none =>
    intro _
    rw [(Room.StartGame_ok hs).2.2.2.2.1]

theorem Room.TurnSet_handleChallenge {r r1 : Room} {res : Option String} (c : Client)
    (payload : ChallengePayload) (hwf : r.WellFormed) (h : r.TurnSet)
    (hs : r.handleChallenge c payload = some (r1, res)) : r1.TurnSet := by
  rcases Room.handleChallenge_cases hwf hs with ⟨h1, -⟩ |
    ⟨g, a, d, dseat, att, dfd, cards, first, hrun, -, -, -, -, -, -, -, -, -, -, -, -, -, hcase⟩
  · rw [h1]; exact h
  · have hnl : r.status ≠ RoomStatusLobby := by rw [hrun]; decide
    rcases hcase with ⟨-, suit, -, hc⟩ | ⟨-, -, hc⟩ | ⟨-, hc⟩
    · rcases hc with ⟨-, -, -, h1⟩ | ⟨-, -, hc⟩ | ⟨-, hc⟩
      · rw [h1]; exact Room.TurnSet_of_eq h rfl rfl
      · exact Room.TurnSet_resolve h hnl hc
      · exact Room.TurnSet_resolve h hnl hc
    · exact Room.TurnSet_resolve h hnl hc
    · exact Room.TurnSet_resolve h hnl hc

theorem Room.TurnSet_handleDefenseResponse {r r1 : Room} {res : Option String} (c : Client)
    (payload : DefensePayload) (hinv : r.Inv) (h : r.TurnSet)
    (hs : r.handleDefenseResponse c payload = some (r1, res)) : r1.TurnSet := by
  rcases Room.handleDefenseResponse_cases hs with ⟨h1, -⟩ |
    ⟨p, seat, player, defense, hp, -, -, -, -, -, hc⟩
  · rw [h1]; exact h
  · have hnl : r.status ≠ RoomStatusLobby := by
      intro hl
      have := hinv.2.1 (by rw [hl]; decide)
      rw [hp] at this
      cases this
    exact Room.TurnSet_resolve h hnl hc

theorem Room.TurnSet_executeBotTurn {r r1 : Room} (bot : BotPlayer) (order : List Suit)
    (h : r.TurnSet) (hs : r.executeBotTurn bot order = some r1) : r1.TurnSet := by
  rcases Room.executeBotTurn_cases hs with h1 | ⟨hrun, -, seat, -, hcase⟩
  · rw [h1]; exact h
  · have hnl : r.status ≠ RoomStatusLobby := by rw [hrun]; decide
    have hrng : ∀ x : Rng, ({ r with rng := x } : Room).TurnSet :=
      fun x => Room.TurnSet_of_eq h rfl rfl
    rcases hcase with ⟨-, hadv⟩ | ⟨attacker, -, hcase⟩
    · exact Room.TurnSet_advance h hnl hadv
    · rcases hcase with ⟨-, hadv⟩ | ⟨-, hadv⟩ | ⟨a, dseat, -, -, hcase⟩
      · exact Room.TurnSet_advance h hnl hadv
      · exact Room.TurnSet_advance h hnl hadv
      · rcases hcase with ⟨-, hadv⟩ | ⟨defender, -, hcase⟩
        · exact Room.TurnSet_advance (hrng a.rng) hnl hadv
        · rcases hcase with ⟨-, -, -, res, hc⟩ | ⟨-, -, -, h1⟩ | ⟨-, res, hc⟩
          · exact Room.TurnSet_resolve (hrng a.rng) hnl hc
          · rw [h1]; exact Room.TurnSet_of_eq h rfl rfl
          · exact Room.TurnSet_resolve (hrng a.rng) hnl hc

/-- In every reachable room outside the lobby the turn is on a seat index
that is not negative. -/
theorem Room.Reachable.turnSet {r : Room} (h : r.Reachable) : r.TurnSet := by
  induction h with
  | newRoom id name capacity rng => intro hnl; exact absurd rfl hnl
  | join c _ ih => exact Room.TurnSet_join c ih
  | clientLeft c _ ih => exact Room.TurnSet_onClientLeft c ih
  | addBot name _ ih => exact Room.TurnSet_addBot name ih
  | removeBot seatIdx _ ih => exact Room.TurnSet_removeBot seatIdx ih
  | startGame gameRng _ hs ih => exact Room.TurnSet_startGame gameRng ih hs
  | challenge c payload hr hs ih => exact Room.TurnSet_handleChallenge c payload hr.inv.1 ih hs
  | defense c payload hr hs ih => exact Room.TurnSet_handleDefenseResponse c payload hr.inv ih hs
  | botTurn bot order _ hs ih => exact Room.TurnSet_executeBotTurn bot order ih hs
  | reset _ ih => exact Room.TurnSet_delayedReset ih

/-! ## What advanceTurnLocked decides -/

/-- The loop of findNextAlive from a seat index is the search for the first
living seat among the seats the offsets lead to. -/
theorem Room.findNextAliveLoop_scan {r : Room} {g : Game} (hg : r.game = some g) (s : Nat)
    (hn : 0 < r.seats.length) :
    ∀ offsets : List Nat,
      r.findNextAliveLoop (s : Int) offsets =
        some (match (offsets.map (fun o => (s + o) % r.seats.length)).find? r.aliveAt with
          | some x => (x : Int)
          | none => -1)
  | [] => rfl
  | o :: rest => by
    rw [Room.findNextAliveLoop, hg]
    simp only
    rw [tmod_natCast]
    have hlt : (s + o) % r.seats.length < r.seats.length := Nat.mod_lt _ hn
    have hseat : r.seatAt (((s + o) % r.seats.length : Nat) : Int) =
        some (r.seats[(s + o) % r.seats.length]) :=
      Room.seatAt_of_get (List.getElem?_eq_getElem hlt)
    rw [hseat]
    simp only
    have hal : r.aliveAt ((s + o) % r.seats.length) =
        r.seatAlive (r.seats[(s + o) % r.seats.length]) := by
      unfold Room.aliveAt
      rw [List.getElem?_eq_getElem hlt]
    rw [List.map_cons, List.find?_cons, ← hal]
    cases hv : r.aliveAt ((s + o) % r.seats.length) with
    | true => simp
    | false =>
      simp only [Bool.false_eq_true, if_false]
      exact Room.findNextAliveLoop_scan hg s hn rest

theorem Room.findNextAlive_scan {r : Room} {g : Game} (hg : r.game = some g) (s : Nat)
    (hn : 0 < r.seats.length) :
    r.findNextAlive (s : Int) =
      some (match r.nextLivingSeat s with
        | some x => (x : Int)
        | none => -1) :=
  Room.findNextAliveLoop_scan hg s hn _

/-- Going round the table from any seat meets every seat. -/
theorem round_reaches (s k n : Nat) (hk : k < n) :
    ∃ o, 1 ≤ o ∧ o < 1 + n ∧ (s + o) % n = k := by
  have hn : 0 < n := by omega
  have ha : s % n < n := Nat.mod_lt _ hn
  have key : ∀ o, (s + o) % n = (s % n + o) % n := fun o =>
    (Nat.mod_add_mod s n o).symm
  rcases Nat.lt_trichotomy k (s % n) with h | h | h
  · refine ⟨k + n - s % n, by omega, by omega, ?_⟩
    rw [key, show s % n + (k + n - s % n) = k + n by omega, Nat.add_mod_right,
      Nat.mod_eq_of_lt hk]
  · refine ⟨n, by omega, by omega, ?_⟩
    rw [Nat.add_mod_right, h]
  · refine ⟨k - s % n, by omega, by omega, ?_⟩
    rw [key, show s % n + (k - s % n) = k by omega, Nat.mod_eq_of_lt hk]

theorem Room.nextLivingSeat_some {r : Room} (s : Nat) {k : Nat} (hk : k < r.seats.length)
    (ha : r.aliveAt k = true) :
    ∃ x, r.nextLivingSeat s = some x ∧ r.aliveAt x = true ∧ x < r.seats.length := by
  cases hf : r.nextLivingSeat s with
  | none =>
    exfalso
    unfold Room.nextLivingSeat at hf
    rw [List.find?_eq_none] at hf
    obtain ⟨o, h1, h2, h3⟩ := round_reaches s k r.seats.length hk
    have hm : k ∈ (List.range' 1 r.seats.length).map (fun o => (s + o) % r.seats.length) :=
      List.mem_map.mpr ⟨o, List.mem_range'_1.mpr ⟨h1, h2⟩, h3⟩
    exact hf k hm ha
  | some x =>
    unfold Room.nextLivingSeat at hf
    refine ⟨x, rfl, List.find?_some hf, ?_⟩
    obtain ⟨o, -, ho⟩ := List.mem_map.mp (List.mem_of_find?_eq_some hf)
    rw [← ho]
    exact Nat.mod_lt _ (by omega)

/-- A living player of the game of a room whose seats are bound to the
players sits on a living seat. -/
theorem Room.aliveAt_of_living {r : Room} {g : Game} (hg : r.game = some g)
    (hlen : g.Players.length = r.seats.length)
    (hbind : ∀ (i : Nat) (seat : Seat), r.seats[i]? = some seat → seat.Player = some i)
    {p : Player} (hp : p ∈ g.Players) (ha : p.Alive = true) :
    ∃ k, k < r.seats.length ∧ r.aliveAt k = true := by
  obtain ⟨k, hk⟩ := List.getElem?_of_mem hp
  have hkl : k < r.seats.length := by
    rw [← hlen]
    exact (List.getElem?_eq_some_iff.mp hk).1
  have hs : r.seats[k]? = some (r.seats[k]) := List.getElem?_eq_getElem hkl
  refine ⟨k, hkl, ?_⟩
  unfold Room.aliveAt
  rw [hs]
  exact Room.seatAlive_iff.mpr ⟨p, Room.livePlayer_of_get hg (hbind k _ hs) hk ha⟩

theorem Room.finishGameLocked_status {r : Room} {g : Game} (hg : r.game = some g) :
    r.finishGameLocked.status = RoomStatusFinished := by
  unfold Room.finishGameLocked
  rw [hg]

/-- A running room the operations can reach has a game with one player per
seat, every seat bound to the player at its own position, and the turn on a
seat index that is not negative. -/
theorem Room.Reachable.seated {r : Room} (hr : r.Reachable)
    (hrun : r.status = RoomStatusRunning) :
    ∃ g, r.game = some g ∧ g.Players.length = r.seats.length ∧
      (∀ (i : Nat) (seat : Seat), r.seats[i]? = some seat → seat.Player = some i) ∧
      0 ≤ r.currentTurn := by
  have hnl : r.status ≠ RoomStatusLobby := by rw [hrun]; decide
  obtain ⟨-, -, i3, -⟩ := hr.inv
  obtain ⟨g, hg, hlen, -, hbind⟩ := i3 hnl
  exact ⟨g, hg, hlen, hbind, hr.turnSet hnl⟩

theorem exampleRoom_bound (pending : Option ZombieHunt.pendingChallenge) (i : Nat)
    (seat : Seat) (h : (exampleRoom pending).seats[i]? = some seat) : seat.Player = some i := by
  have h1 : ((List.range 8).map exampleSeat)[i]? = some seat := h
  rw [List.getElem?_map] at h1
  cases hx : (List.range 8)[i]? with
  | none => rw [hx] at h1; simp at h1
  | some j =>
    rw [hx] at h1
    have hj := (List.getElem?_eq_some_iff.mp hx).2
    rw [List.getElem_range] at hj
    subst hj
    simp only [Option.map_some', Option.some.injEq] at h1
    subst h1
    rfl

/-- C21: advanceTurnLocked on a running room whose game has one player per
seat, with every seat bound to the player at its own position and the turn
on a seat index, as in every running room the operations can reach, with
fewer than 2^62 seats and a round counter that is a 64-bit integer below the
largest one.  Under these bounds the increment of the round counter and the
sums `start + offset` of findNextAlive do not wrap in 64-bit arithmetic, so
that the integers of the model are the integers of the code.  The call
returns; the status afterwards is Finished exactly when no human is alive,
or no zombie is alive, or the next living seat, found going round the table
from the seat after the current one, has an index that is at most the
current turn while the round counter plus one exceeds the maximum of the
game.  In every other case the status is still Running and the turn is on
that next living seat. -/
theorem advance_turn (r : Room) (g : Game) (hrun : r.status = RoomStatusRunning)
    (hg : r.game = some g) (hlen : g.Players.length = r.seats.length)
    (hbind : ∀ (i : Nat) (seat : Seat), r.seats[i]? = some seat → seat.Player = some i)
    (h0 : 0 ≤ r.currentTurn) (hturn : r.currentTurn < (r.seats.length : Int))
    (hseats : (r.seats.length : Int) < 2 ^ 62)
    (hlow : -(2 ^ 63) ≤ r.currentRound) (hround : r.currentRound < 2 ^ 63 - 1) :
    (wrapInt (r.currentRound + 1) = r.currentRound + 1 ∧
      ∀ o : Nat, o ≤ r.seats.length →
        wrapInt (r.currentTurn + (o : Int)) = r.currentTurn + (o : Int)) ∧
    ∃ r1, r.advanceTurnLocked = some r1 ∧
      (r1.status = RoomStatusFinished ↔
        (g.livingOf IdentityHuman = [] ∨ g.livingOf IdentityZombie = [] ∨
          ∃ next, r.nextLivingSeat r.currentTurn.toNat = some next ∧
            (next : Int) ≤ r.currentTurn ∧ r.currentRound + 1 > g.MaxRounds)) ∧
      (r1.status ≠ RoomStatusFinished →
        r1.status = RoomStatusRunning ∧
        ∃ next, r.nextLivingSeat r.currentTurn.toNat = some next ∧
          r.aliveAt next = true ∧ r1.currentTurn = (next : Int)) := by
  refine ⟨⟨wrapInt_of_small (by omega) (by omega),
    fun o ho => wrapInt_of_small (by omega) (by omega)⟩, ?_⟩
  obtain ⟨s, hs⟩ : ∃ s : Nat, r.currentTurn = (s : Int) :=
    ⟨r.currentTurn.toNat, (Int.toNat_of_nonneg h0).symm⟩
  have hsn : r.currentTurn.toNat = s := by rw [hs]; exact Int.toNat_ofNat s
  rw [hsn]
  have hcount := CountLivingIdentities_eq g
  have hc1 : g.CountLivingIdentities.1 = 0 ↔ g.livingOf IdentityHuman = [] := by
    rw [hcount]
    simp
  have hc2 : g.CountLivingIdentities.2 = 0 ↔ g.livingOf IdentityZombie = [] := by
    rw [hcount]
    simp
  by_cases hc : g.livingOf IdentityHuman = [] ∨ g.livingOf IdentityZombie = []
  · have hadv : r.advanceTurnLocked = some r.finishGameLocked := by
      unfold Room.advanceTurnLocked
      rw [hg]
      simp only
      rw [if_pos (by rw [hc1, hc2]; exact hc)]
    have hfin := Room.finishGameLocked_status hg
    refine ⟨_, hadv, ⟨fun _ => ?_, fun _ => hfin⟩, fun hne => absurd hfin hne⟩
    rcases hc with hc | hc
    · exact Or.inl hc
    · exact Or.inr (Or.inl hc)
  · have hh : g.CountLivingIdentities.1 ≠ 0 := fun h => hc (Or.inl (hc1.mp h))
    have hz : g.CountLivingIdentities.2 ≠ 0 := fun h => hc (Or.inr (hc2.mp h))
    obtain ⟨p, hp⟩ := List.exists_mem_of_ne_nil _ (fun h => hc (Or.inl h))
    unfold Game.livingOf at hp
    rw [List.mem_filter] at hp
    obtain ⟨k, hk, hak⟩ := Room.aliveAt_of_living hg hlen hbind hp.1
      (by
        have := hp.2
        simp only [Bool.and_eq_true] at this
        exact this.1)
    obtain ⟨x, hx, hax, hxn⟩ := Room.nextLivingSeat_some s hk hak
    have hfind : r.findNextAlive (s : Int) = some (x : Int) := by
      rw [Room.findNextAlive_scan hg s (by omega), hx]
    by_cases hle : x ≤ s
    · by_cases hround : r.currentRound + 1 > g.MaxRounds
      · have hadv : r.advanceTurnLocked =
            some ({ r with currentRound := r.currentRound + 1 } : Room).finishGameLocked := by
          unfold Room.advanceTurnLocked
          rw [hg]
          simp only
          rw [if_neg (by simp [hh, hz]), hs, hfind]
          simp only
          rw [if_neg (by omega), if_pos (by omega), if_pos hround]
        have hfin : (({ r with currentRound := r.currentRound + 1 } :
            Room).finishGameLocked).status = RoomStatusFinished :=
          Room.finishGameLocked_status hg
        refine ⟨_, hadv, ⟨fun _ => ?_, fun _ => hfin⟩, fun hne => absurd hfin hne⟩
        exact Or.inr (Or.inr ⟨x, hx, by omega, hround⟩)
      · have hadv := Room.advanceTurnLocked_wrap hg hh hz (by omega) hs hfind hle
        refine ⟨_, hadv, ⟨fun h => ?_, fun h => ?_⟩, fun _ => ⟨hrun, x, hx, hax, rfl⟩⟩
        · have h1 : r.status = RoomStatusFinished := h
          rw [hrun] at h1
          cases h1
        · rcases h with h | h | ⟨y, hy, -, hr1⟩
          · exact absurd (Or.inl h) hc
          · exact absurd (Or.inr h) hc
          · exact absurd hr1 hround
    · have hadv := Room.advanceTurnLocked_next hg hh hz hs hfind (by omega)
      refine ⟨_, hadv, ⟨fun h => ?_, fun h => ?_⟩, fun _ => ⟨hrun, x, hx, hax, rfl⟩⟩
      · have h1 : r.status = RoomStatusFinished := h
        rw [hrun] at h1
        cases h1
      · rcases h with h | h | ⟨y, hy, hyle, -⟩
        · exact absurd (Or.inl h) hc
        · exact absurd (Or.inr h) hc
        · rw [hx] at hy
          cases hy
          omega

/-- In the example room, with the turn on seat 0 and everybody alive,
advanceTurnLocked returns a room with the outcome of C21. -/
theorem advance_turn_witness :
    (exampleRoom none).status = RoomStatusRunning ∧
    (exampleRoom none).game = some (exampleGame tablePlayers [3, 1, 4]) ∧
    (exampleGame tablePlayers [3, 1, 4]).Players.length = (exampleRoom none).seats.length ∧
    (0 : Int) ≤ (exampleRoom none).currentTurn ∧
    (exampleRoom none).currentTurn < ((exampleRoom none).seats.length : Int) ∧
    ((exampleRoom none).seats.length : Int) < 2 ^ 62 ∧
    -(2 ^ 63) ≤ (exampleRoom none).currentRound ∧
    (exampleRoom none).currentRound < 2 ^ 63 - 1 ∧
    (wrapInt ((exampleRoom none).currentRound + 1) = (exampleRoom none).currentRound + 1 ∧
      ∀ o : Nat, o ≤ (exampleRoom none).seats.length →
        wrapInt ((exampleRoom none).currentTurn + (o : Int)) =
          (exampleRoom none).currentTurn + (o : Int)) ∧
    ∃ r1, (exampleRoom none).advanceTurnLocked = some r1 ∧
      (r1.status = RoomStatusFinished ↔
        ((exampleGame tablePlayers [3, 1, 4]).livingOf IdentityHuman = [] ∨
          (exampleGame tablePlayers [3, 1, 4]).livingOf IdentityZombie = [] ∨
          ∃ next, (exampleRoom none).nextLivingSeat (exampleRoom none).currentTurn.toNat =
              some next ∧
            (next : Int) ≤ (exampleRoom none).currentTurn ∧
            (exampleRoom none).currentRound + 1 >
              (exampleGame tablePlayers [3, 1, 4]).MaxRounds)) ∧
      (r1.status ≠ RoomStatusFinished →
        r1.status = RoomStatusRunning ∧
        ∃ next, (exampleRoom none).nextLivingSeat (exampleRoom none).currentTurn.toNat =
            some next ∧
          (exampleRoom none).aliveAt next = true ∧ r1.currentTurn = (next : Int)) :=
  ⟨rfl, rfl, rfl, by decide, by decide, by decide, by decide, by decide,
    advance_turn (exampleRoom none) (exampleGame tablePlayers [3, 1, 4]) rfl rfl rfl
      (exampleRoom_bound none) (by decide) (by decide) (by decide) (by decide) (by decide)⟩

/-! ## What no challenge changes -/

/-- The part of a player that no challenge rewrites. -/
theorem sortHand_core (p : Player) :
    (sortHand p).ID = p.ID ∧ (sortHand p).Name = p.Name ∧
      (sortHand p).originalIdentity = p.originalIdentity ∧
      (sortHand p).currentIdentity = p.currentIdentity ∧ (sortHand p).Alive = p.Alive :=
  ⟨rfl, rfl, rfl, rfl, rfl⟩

/-- A resolution, with or without error, keeps id, name and original
identity of both players and never brings a player back to life. -/
theorem resolveChallenge_core (d : Duel) (aset dset : playedSet) (s : Side) :
    ((resolveChallenge d aset dset).1.player s).ID = (d.player s).ID ∧
    ((resolveChallenge d aset dset).1.player s).Name = (d.player s).Name ∧
    ((resolveChallenge d aset dset).1.player s).originalIdentity =
      (d.player s).originalIdentity ∧
    (((resolveChallenge d aset dset).1.player s).Alive = true → (d.player s).Alive = true) := by
  unfold resolveChallenge
  split_ifs <;> cases s <;>
    simp [convertToHuman, declareWinner, Duel.note, Duel.setPlayer, Duel.player,
      eliminatePlayer, Player.SetIdentity, sortHand, Player.AddCard, foldl_AddCard] <;>
    (try split_ifs) <;> simp_all

/-- The two players of a settled duel, against the duel handed to
resolveChallenge: id, name, original identity and current identity are
those the resolution left, and nobody comes back to life. -/
theorem settleChallenge_core {d d3 : Duel} {aset dset : playedSet} {w l : Option Side}
    (h : resolveChallenge d aset dset = (d3, ⟨w, l, none⟩))
    (hinf : d.outcome.Infection = false) (hal : d.defender.Alive = true) (s : Side) :
    ((settleChallenge d3 ⟨w, l, none⟩).player s).ID = (d3.player s).ID ∧
    ((settleChallenge d3 ⟨w, l, none⟩).player s).Name = (d3.player s).Name ∧
    ((settleChallenge d3 ⟨w, l, none⟩).player s).originalIdentity =
      (d3.player s).originalIdentity ∧
    ((settleChallenge d3 ⟨w, l, none⟩).player s).currentIdentity =
      (d3.player s).currentIdentity ∧
    (((settleChallenge d3 ⟨w, l, none⟩).player s).Alive = true → (d3.player s).Alive = true) ∧
    (settleChallenge d3 ⟨w, l, none⟩).outcome.Infection = d3.outcome.Infection ∧
    (settleChallenge d3 ⟨w, l, none⟩).outcome.ConvertedToHuman =
      d3.outcome.ConvertedToHuman ∧
    (settleChallenge d3 ⟨w, l, none⟩).outcome.ForcedReveal = d3.outcome.ForcedReveal := by
  rcases resolveChallenge_shape h hinf hal with ⟨e1, e2, -⟩ | ⟨ws, ls, e1, e2, hne, -⟩
  · subst e1 e2
    rw [settleChallenge_tie]
    exact ⟨rfl, rfl, rfl, rfl, fun x => x, rfl, rfl, rfl⟩
  · subst e1 e2
    obtain ⟨st, hw, hl, notes, s1, s2, -, -, -, -, s7⟩ := settleChallenge_spec d3 hne
    have hs : s = ws ∨ s = ls := by
      cases s <;> cases ws <;> cases ls <;> first | exact absurd rfl hne | simp
    rcases hs with hs | hs
    · subst hs
      rw [s1, s7]
      exact ⟨rfl, rfl, rfl, rfl, fun x => x, rfl, rfl, rfl⟩
    · subst hs
      rw [s2, s7]
      refine ⟨rfl, rfl, rfl, rfl, fun x => ?_, rfl, rfl, rfl⟩
      simp only [Bool.and_eq_true] at x
      exact x.1

/-- What a successful challenge does to identities: the attacker keeps the
identity or is a zombie recorded as converted; the defender keeps the
identity or is a zombie after an infection; after an infection the defender
is a zombie. -/
theorem resolveChallenge_identity (d : Duel) (aset dset : playedSet) :
    ((resolveChallenge d aset dset).1.attacker.currentIdentity = d.attacker.currentIdentity ∨
      (d.attacker.currentIdentity = IdentityZombie ∧
        d.attacker.ID ∈ (resolveChallenge d aset dset).1.outcome.ConvertedToHuman)) ∧
    ((resolveChallenge d aset dset).1.defender.currentIdentity = d.defender.currentIdentity ∨
      (resolveChallenge d aset dset).1.defender.currentIdentity = IdentityZombie) ∧
    ((resolveChallenge d aset dset).1.outcome.Infection = true →
      d.outcome.Infection = true ∨
        (resolveChallenge d aset dset).1.defender.currentIdentity = IdentityZombie) := by
  unfold resolveChallenge
  split_ifs <;>
    simp [convertToHuman, declareWinner, Duel.note, Duel.setPlayer, Duel.player,
      eliminatePlayer, Player.SetIdentity, sortHand, Player.AddCard, foldl_AddCard,
      Player.IsZombie] <;>
    (try split_ifs) <;> simp_all [Player.IsZombie]

/-- What a call of Challenge, successful or not, leaves alone: the number
of players, the round counters and the two piles, and for every seat the
id, the name and the original identity; nobody comes back to life, and
only the seats of the attacker and the defender can change at all. -/
theorem Challenge_core {g g1 : Game} {opts : ChallengeOptions}
    {res : Except String ChallengeOutcome} (h : Challenge g opts = (g1, res)) :
    g1.Players.length = g.Players.length ∧ g1.Round = g.Round ∧
    g1.MaxRounds = g.MaxRounds ∧ g1.cardDeck = g.cardDeck ∧
    g1.cardDiscarded = g.cardDiscarded ∧
    ∀ (k : Nat) (p : Player), g.Players[k]? = some p →
      ∃ p1, g1.Players[k]? = some p1 ∧ p1.ID = p.ID ∧ p1.Name = p.Name ∧
        p1.originalIdentity = p.originalIdentity ∧ (p1.Alive = true → p.Alive = true) ∧
        (k ≠ opts.AttackerID.toNat → k ≠ opts.DefenderID.toNat → p1 = p) := by
  cases res with
  | error e =>
    obtain ⟨h1, h2, h3⟩ := Challenge_error_players h
    refine ⟨h2, by rw [h1], by rw [h1], by rw [h1], by rw [h1], ?_⟩
    intro k p hp
    have hk : k < g1.Players.length := by
      rw [h2]; exact (List.getElem?_eq_some_iff.mp hp).1
    obtain ⟨p', hp', e1, -, e3⟩ := h3 k _ (List.getElem?_eq_getElem hk)
    rw [hp] at hp'
    cases hp'
    refine ⟨_, List.getElem?_eq_getElem hk, by rw [e1], by rw [e1], by rw [e1], ?_, e3⟩
    intro ha
    rw [e1] at ha
    exact ha
  | ok o =>
    obtain ⟨att, dfd, -, -, -, -, -, -, d3', w', l', -, hpa, hpd, -, -, -, -, -, hg1, -⟩ :=
      Challenge_ok h
    obtain ⟨-, hatt, -⟩ := playerByID_ok hpa
    obtain ⟨-, hdfd, -⟩ := playerByID_ok hpd
    obtain ⟨att1, dfd1, aset, dset, d3, w, l, haa, hda, ha1, -, hd1, -, -, -, hres, hga, hgd,
      hframe, hlen, hdeck, hdisc, hne, -⟩ := Challenge_run h hatt hdfd
    have hal : (duelAtResolve g opts att1 dfd1 (cardsAt att.Hand opts.AttackerCards)
        (cardsAt dfd.Hand opts.DefenderCards)).defender.Alive = true := by
      rw [duelAtResolve, hd1]; exact hda
    have hd3 : (resolveChallenge (duelAtResolve g opts att1 dfd1
        (cardsAt att.Hand opts.AttackerCards) (cardsAt dfd.Hand opts.DefenderCards))
        aset dset).1 = d3 := by rw [hres]
    refine ⟨hlen, by rw [hg1]; rfl, by rw [hg1]; rfl, hdeck, hdisc, ?_⟩
    intro k p hp
    by_cases hka : k = opts.AttackerID.toNat
    · subst hka
      rw [hatt] at hp
      cases hp
      obtain ⟨c1, c2, c3, c4⟩ := resolveChallenge_core (duelAtResolve g opts att1 dfd1
        (cardsAt att.Hand opts.AttackerCards) (cardsAt dfd.Hand opts.DefenderCards))
        aset dset Side.attacker
      rw [hd3] at c1 c2 c3 c4
      obtain ⟨s1, s2, s3, -, s5, -⟩ := settleChallenge_core hres rfl hal Side.attacker
      have e1 : (duelAtResolve g opts att1 dfd1 (cardsAt att.Hand opts.AttackerCards)
          (cardsAt dfd.Hand opts.DefenderCards)).player Side.attacker = att1 := rfl
      rw [e1] at c1 c2 c3 c4
      refine ⟨_, hga, ?_, ?_, ?_, ?_, fun hh => absurd rfl hh⟩
      · exact s1.trans (c1.trans (by rw [ha1]))
      · exact s2.trans (c2.trans (by rw [ha1]))
      · exact s3.trans (c3.trans (by rw [ha1]))
      · intro _
        exact haa
    · by_cases hkd : k = opts.DefenderID.toNat
      · subst hkd
        rw [hdfd] at hp
        cases hp
        obtain ⟨c1, c2, c3, c4⟩ := resolveChallenge_core (duelAtResolve g opts att1 dfd1
          (cardsAt att.Hand opts.AttackerCards) (cardsAt dfd.Hand opts.DefenderCards))
          aset dset Side.defender
        rw [hd3] at c1 c2 c3 c4
        obtain ⟨s1, s2, s3, -, s5, -⟩ := settleChallenge_core hres rfl hal Side.defender
        have e1 : (duelAtResolve g opts att1 dfd1 (cardsAt att.Hand opts.AttackerCards)
            (cardsAt dfd.Hand opts.DefenderCards)).player Side.defender = dfd1 := rfl
        rw [e1] at c1 c2 c3 c4
        refine ⟨_, hgd, ?_, ?_, ?_, ?_, fun _ hh => absurd rfl hh⟩
        · exact s1.trans (c1.trans (by rw [hd1]))
        · exact s2.trans (c2.trans (by rw [hd1]))
        · exact s3.trans (c3.trans (by rw [hd1]))
        · intro _
          exact hda
      · exact ⟨p, by rw [hframe k hka hkd]; exact hp, rfl, rfl, rfl, fun x => x,
          fun _ _ => rfl⟩

/-- C31: no call of Challenge, whether it succeeds or fails, changes the
number of players or who sits where (id and name of every seat stay), the
original identity of a player, or brings an eliminated player back. -/
theorem challenge_keeps_players (g : Game) (opts : ChallengeOptions) :
    (Challenge g opts).1.Players.length = g.Players.length ∧
    (Challenge g opts).1.Players.map (fun p => (p.ID, p.Name, p.originalIdentity)) =
      g.Players.map (fun p => (p.ID, p.Name, p.originalIdentity)) ∧
    ∀ (k : Nat) (p p1 : Player), g.Players[k]? = some p →
      (Challenge g opts).1.Players[k]? = some p1 →
      p1.ID = p.ID ∧ p1.Name = p.Name ∧ p1.originalIdentity = p.originalIdentity ∧
        (p.Alive = false → p1.Alive = false) := by
  obtain ⟨h1, -, -, -, -, h6⟩ := Challenge_core (show Challenge g opts =
    ((Challenge g opts).1, (Challenge g opts).2) from rfl)
  have key : ∀ (k : Nat) (p p1 : Player), g.Players[k]? = some p →
      (Challenge g opts).1.Players[k]? = some p1 →
      p1.ID = p.ID ∧ p1.Name = p.Name ∧ p1.originalIdentity = p.originalIdentity ∧
        (p.Alive = false → p1.Alive = false) := by
    intro k p p1 hp hp1
    obtain ⟨p1', e, c1, c2, c3, c4, -⟩ := h6 k p hp
    rw [hp1] at e
    cases e
    refine ⟨c1, c2, c3, fun hd => ?_⟩
    cases ha : p1.Alive with
    | false => rfl
    | true => rw [c4 ha] at hd; cases hd
  refine ⟨h1, ?_, key⟩
  apply List.ext_getElem?
  intro k
  simp only [List.getElem?_map]
  cases hp : g.Players[k]? with
  | none =>
    have : (Challenge g opts).1.Players[k]? = none := by
      rw [List.getElem?_eq_none_iff, h1]
      exact List.getElem?_eq_none_iff.mp hp
    rw [this]
  | some p =>
    obtain ⟨p1, e, c1, c2, c3, -⟩ := h6 k p hp
    rw [e]
    simp [c1, c2, c3]

/-! ## Forced reveal and infection, as flags of the outcome -/

theorem resolveChallenge_flags (d : Duel) (aset dset : playedSet)
    (hf : d.outcome.ForcedReveal = false) (hi : d.outcome.Infection = false) :
    ((resolveChallenge d aset dset).1.outcome.ForcedReveal = true ↔
      (aset.kind ≠ CardKindZombie ∧ aset.kind ≠ CardKindShotgun ∧
        dset.kind ≠ CardKindVaccine ∧ dset.cards.length = 0)) ∧
    ((resolveChallenge d aset dset).1.outcome.Infection = true ↔
      (aset.kind = CardKindZombie ∧ dset.kind ≠ CardKindVaccine)) := by
  unfold resolveChallenge
  split_ifs <;>
    simp [convertToHuman, declareWinner, Duel.note, Duel.setPlayer, Duel.player,
      eliminatePlayer, Player.SetIdentity, sortHand, Player.AddCard, foldl_AddCard,
      Player.IsZombie] <;>
    (try split_ifs) <;> simp_all

/-- The cards a successful removal returns are as many as the indices. -/
theorem cardsAt_eq_nil_of_removed {p p1 : Player} {indices : List Int} {out : List Card}
    (h : removeCardsByIndices p indices = (p1, .ok out)) : out = [] ↔ indices = [] := by
  obtain ⟨h1, -, -, -, h5⟩ := removeCardsByIndices_ok h
  have hall : ∀ i ∈ indices.insertionSort (fun a b => a ≤ b),
      ∃ c, handCard p.Hand i = some c := by
    intro i hi
    obtain ⟨h0, hlt⟩ := h5 i ((List.perm_insertionSort _ _).mem_iff.mp hi)
    refine ⟨p.Hand[i.toNat], ?_⟩
    unfold handCard
    rw [if_neg (by omega)]
    exact List.getElem?_eq_getElem hlt
  have hlen : out.length = indices.length := by
    rw [h1]
    unfold cardsAt
    rw [filterMap_handCard_length p.Hand _ hall, List.length_insertionSort]
  constructor
  · intro e
    rw [e] at hlen
    exact List.length_eq_zero.mp hlen.symm
  · intro e
    rw [e] at hlen
    exact List.length_eq_zero.mp hlen

/-- The flags of a successful challenge, read off the two selections. -/
theorem Challenge_flags {g g1 : Game} {opts : ChallengeOptions} {o : ChallengeOutcome}
    {att dfd : Player} (hok : Challenge g opts = (g1, .ok o))
    (hatt : g.Players[opts.AttackerID.toNat]? = some att)
    (hdfd : g.Players[opts.DefenderID.toNat]? = some dfd) :
    (o.ForcedReveal = true ↔
      ((∀ c ∈ cardsAt att.Hand opts.AttackerCards, c.Kind = CardKindNumber) ∧
        opts.DefenderCards = [])) ∧
    (o.Infection = true ↔
      ((∃ c, cardsAt att.Hand opts.AttackerCards = [c] ∧ c.Kind = CardKindZombie) ∧
        ¬ ∃ v, cardsAt dfd.Hand opts.DefenderCards = [v] ∧ v.Kind = CardKindVaccine)) ∧
    LegalAttack (cardsAt att.Hand opts.AttackerCards) ∧
    LegalDefence (cardsAt dfd.Hand opts.DefenderCards) := by
  obtain ⟨att', dfd', att1', dfd1', acards, dcards, aset', dset', d3', w', l', -, hpa, hpd,
    hra, has', hrd, hds', -, -, -⟩ := Challenge_ok hok
  obtain ⟨-, hatt', -⟩ := playerByID_ok hpa
  obtain ⟨-, hdfd', -⟩ := playerByID_ok hpd
  rw [hatt] at hatt'
  rw [hdfd] at hdfd'
  cases hatt'
  cases hdfd'
  have hdnil := cardsAt_eq_nil_of_removed hrd
  obtain ⟨ea, -⟩ := removeCardsByIndices_ok hra
  obtain ⟨ed, -⟩ := removeCardsByIndices_ok hrd
  subst ea ed
  obtain ⟨att1, dfd1, aset, dset, d3, w, l, -, hda, -, -, hd1, -, has, hds, hres, -, -, -,
    -, -, -, -, ho⟩ := Challenge_run hok hatt hdfd
  have hal : (duelAtResolve g opts att1 dfd1 (cardsAt att.Hand opts.AttackerCards)
      (cardsAt dfd.Hand opts.DefenderCards)).defender.Alive = true := by
    rw [duelAtResolve, hd1]; exact hda
  obtain ⟨f1, f2⟩ := resolveChallenge_flags (duelAtResolve g opts att1 dfd1
    (cardsAt att.Hand opts.AttackerCards) (cardsAt dfd.Hand opts.DefenderCards)) aset dset
    rfl rfl
  simp only [hres] at f1 f2
  obtain ⟨-, -, -, -, -, s6, -, s8⟩ := settleChallenge_core hres rfl hal Side.attacker
  rw [← ho] at s6 s8
  -- the kinds of the two plays
  obtain ⟨hac, hak⟩ := analyzePlayedSet_ok has
  have hnum : (aset.kind ≠ CardKindZombie ∧ aset.kind ≠ CardKindShotgun) ↔
      ∀ c ∈ cardsAt att.Hand opts.AttackerCards, c.Kind = CardKindNumber := by
    rcases hak with ⟨hk, -, -, -, hall, -⟩ | ⟨c, hc, hck, hk, -, hv, -⟩
    · rw [hk]
      exact ⟨fun _ x hx => (hall x hx).1, fun _ => ⟨by decide, by decide⟩⟩
    · rw [hk, hc]
      constructor
      · rintro ⟨h1, h2⟩
        exfalso
        have h3 := hv rfl
        cases hkk : c.Kind with
        | CardKindNumber => exact hck hkk
        | CardKindZombie => exact h1 hkk
        | CardKindShotgun => exact h2 hkk
        | CardKindVaccine => exact h3 hkk
      · intro hh
        exact absurd (hh c (List.mem_singleton.mpr rfl)) hck
  have hzom : aset.kind = CardKindZombie ↔
      ∃ c, cardsAt att.Hand opts.AttackerCards = [c] ∧ c.Kind = CardKindZombie := by
    rcases hak with ⟨hk, -, -, -, hall, -⟩ | ⟨c, hc, hck, hk, -, hv, -⟩
    · rw [hk]
      constructor
      · intro hh; cases hh
      · rintro ⟨c, hc, hkc⟩
        have := (hall c (by rw [hc]; exact List.mem_singleton.mpr rfl)).1
        rw [hkc] at this
        cases this
    · rw [hk, hc]
      constructor
      · intro hh; exact ⟨c, rfl, hh⟩
      · rintro ⟨c2, hc2, hk2⟩
        rw [List.singleton_inj.mp hc2]
        exact hk2
  have hempty : (dset.kind ≠ CardKindVaccine ∧ dset.cards.length = 0) ↔
      opts.DefenderCards = [] := by
    rw [← hdnil]
    rcases analyzeDefenseSet_ok hds with ⟨h0, hz⟩ | ⟨hne, hd⟩
    · rw [hz]
      exact ⟨fun _ => h0, fun _ => ⟨by decide, rfl⟩⟩
    · obtain ⟨hdc, -⟩ := analyzePlayedSet_ok hd
      rw [hdc]
      constructor
      · rintro ⟨-, hh⟩
        exact List.length_eq_zero.mp hh
      · intro hh
        exact absurd hh hne
  refine ⟨?_, ?_, (analyzePlayedSet_attack _).mp ⟨aset, has⟩,
    (analyzeDefenseSet_defence _).mp ⟨dset, hds⟩⟩
  · rw [s8]
    exact f1.trans ⟨fun ⟨a, b, c, d⟩ => ⟨hnum.mp ⟨a, b⟩, hempty.mp ⟨c, d⟩⟩,
      fun ⟨x, y⟩ => ⟨(hnum.mpr x).1, (hnum.mpr x).2, (hempty.mpr y).1, (hempty.mpr y).2⟩⟩
  · rw [s6]
    exact f2.trans (and_congr hzom (not_congr (analyzeDefenseSet_vaccine hds)))

/-- C34: in every successful Challenge `ForcedReveal` is set exactly when
the attacker played number cards and the defender's index selection is
empty, whatever the defender holds; and when it is set the attacker is the
recorded winner and the defender the recorded loser. -/
theorem forced_reveal_iff (g g1 : Game) (opts : ChallengeOptions) (o : ChallengeOutcome)
    (att dfd : Player) (hok : Challenge g opts = (g1, .ok o))
    (hatt : g.Players[opts.AttackerID.toNat]? = some att)
    (hdfd : g.Players[opts.DefenderID.toNat]? = some dfd) :
    (o.ForcedReveal = true ↔
      ((∀ c ∈ cardsAt att.Hand opts.AttackerCards, c.Kind = CardKindNumber) ∧
        opts.DefenderCards = [])) ∧
    (o.ForcedReveal = true → o.WinnerID = some att.ID ∧ o.LoserID = some dfd.ID) := by
  obtain ⟨hf, -, -, -⟩ := Challenge_flags hok hatt hdfd
  refine ⟨hf, fun h => ?_⟩
  obtain ⟨hnum, hnil⟩ := hf.mp h
  obtain ⟨att1, dfd1, aset, dset, d3, w, l, -, -, ha1, -, hd1, -, has, hds, hres, -, -, -,
    -, -, -, -, ho⟩ := Challenge_run hok hatt hdfd
  obtain ⟨-, hak⟩ := analyzePlayedSet_ok has
  have hk : aset.kind = CardKindNumber := by
    rcases hak with ⟨hk, -⟩ | ⟨c, hc, hck, -⟩
    · exact hk
    · exact absurd (hnum c (by rw [hc]; exact List.mem_singleton.mpr rfl)) hck
  have hdz : dset = playedSet.zero := by
    have : cardsAt dfd.Hand opts.DefenderCards = [] := by rw [hnil]; rfl
    rw [this] at hds
    simpa [analyzeDefenseSet] using hds.symm
  subst hdz
  obtain ⟨d3', r1, r2, r3, notes, r5⟩ := resolve_forced
    (duelAtResolve g opts att1 dfd1 (cardsAt att.Hand opts.AttackerCards)
      (cardsAt dfd.Hand opts.DefenderCards))
    (show aset.kind ≠ CardKindZombie by rw [hk]; decide)
    (show aset.kind ≠ CardKindShotgun by rw [hk]; decide)
    (show playedSet.zero.kind ≠ CardKindVaccine by decide)
    (show playedSet.zero.cards.length = 0 from rfl)
  rw [r1] at hres
  simp only [Prod.mk.injEq, challengeResult.mk.injEq] at hres
  obtain ⟨e1, e2, e3, -⟩ := hres
  subst e1 e2 e3
  obtain ⟨st, hw, hl, notes2, s1, s2, s3, s4, s5, s6, s7⟩ :=
    settleChallenge_spec d3' (w := Side.attacker) (l := Side.defender) (by decide)
  constructor
  · rw [ho, s7]
    simp only [Duel.player]
    rw [r2, duelAtResolve, ha1]
  · rw [ho, s7]
    simp only [Duel.player]
    rw [r3, duelAtResolve, hd1]

/-- In `spadeDuel` seat 1 holds three spades and still answers the spade
nine with nothing: the reveal is forced and seat 0 wins. -/
theorem forced_reveal_iff_witness :
    ∃ g1 o, Challenge spadeDuel ⟨0, 1, [0], []⟩ = (g1, .ok o) ∧
      (examplePlayer 1 "B" IdentityHuman
        [⟨CardKindNumber, SuitSpade, 5⟩, ⟨CardKindNumber, SuitSpade, 4⟩,
          ⟨CardKindNumber, SuitSpade, 12⟩, ⟨CardKindNumber, SuitClub, 7⟩]).HasSuit
        SuitSpade = true ∧
      o.ForcedReveal = true ∧ o.WinnerID = some 0 ∧ o.LoserID = some 1 :=
  ⟨_, _, rfl, by decide,
    (forced_reveal_iff spadeDuel _ ⟨0, 1, [0], []⟩ _
      (examplePlayer 0 "A" IdentityHuman
        [⟨CardKindNumber, SuitSpade, 9⟩, ⟨CardKindNumber, SuitSpade, 8⟩,
          ⟨CardKindNumber, SuitSpade, 13⟩, ⟨CardKindNumber, SuitHeart, 2⟩])
      (examplePlayer 1 "B" IdentityHuman
        [⟨CardKindNumber, SuitSpade, 5⟩, ⟨CardKindNumber, SuitSpade, 4⟩,
          ⟨CardKindNumber, SuitSpade, 12⟩, ⟨CardKindNumber, SuitClub, 7⟩])
      rfl rfl rfl).1.mpr ⟨by decide, rfl⟩,
    (forced_reveal_iff spadeDuel _ ⟨0, 1, [0], []⟩ _
      (examplePlayer 0 "A" IdentityHuman
        [⟨CardKindNumber, SuitSpade, 9⟩, ⟨CardKindNumber, SuitSpade, 8⟩,
          ⟨CardKindNumber, SuitSpade, 13⟩, ⟨CardKindNumber, SuitHeart, 2⟩])
      (examplePlayer 1 "B" IdentityHuman
        [⟨CardKindNumber, SuitSpade, 5⟩, ⟨CardKindNumber, SuitSpade, 4⟩,
          ⟨CardKindNumber, SuitSpade, 12⟩, ⟨CardKindNumber, SuitClub, 7⟩])
      rfl rfl rfl).2 (by decide)⟩

/-! ## Calls that fail on well-formed selections -/

/-- C33: a call of Challenge that returns an error although both index
lists hold only distinct indices within the hands of the two players (the
attacker's and the defender's, when the lookups find them) restores every
hand up to order: each player afterwards is the player before with a hand
that is a permutation of the old one, so no role and no alive flag has
changed, and the log, the generator, the round counters and the piles are
those of the game before. -/
theorem failed_challenge_restores (g g1 : Game) (opts : ChallengeOptions) (e : String)
    (h : Challenge g opts = (g1, .error e))
    (hA : ∀ att, g.playerByID opts.AttackerID = .ok att →
      opts.AttackerCards.Nodup ∧
        ∀ i ∈ opts.AttackerCards, 0 ≤ i ∧ i < (att.Hand.length : Int))
    (hD : ∀ dfd, g.playerByID opts.DefenderID = .ok dfd →
      opts.DefenderCards.Nodup ∧
        ∀ i ∈ opts.DefenderCards, 0 ≤ i ∧ i < (dfd.Hand.length : Int)) :
    g1 = { g with Players := g1.Players } ∧ g1.logs = g.logs ∧
    g1.Players.length = g.Players.length ∧
    ∀ (k : Nat) (p : Player), g.Players[k]? = some p →
      ∃ p1, g1.Players[k]? = some p1 ∧ p1 = { p with Hand := p1.Hand } ∧
        p1.Hand.Perm p.Hand ∧ p1.currentIdentity = p.currentIdentity ∧
        p1.originalIdentity = p.originalIdentity ∧ p1.Alive = p.Alive := by
  have hfin : ∀ (k : Nat) (p p1 : Player), g1.Players[k]? = some p1 →
      p1 = { p with Hand := p1.Hand } → p1.Hand.Perm p.Hand →
      ∃ p1, g1.Players[k]? = some p1 ∧ p1 = { p with Hand := p1.Hand } ∧
        p1.Hand.Perm p.Hand ∧ p1.currentIdentity = p.currentIdentity ∧
        p1.originalIdentity = p.originalIdentity ∧ p1.Alive = p.Alive :=
    fun k p p1 h1 h2 h3 => ⟨p1, h1, h2, h3, by rw [h2], by rw [h2], by rw [h2]⟩
  rcases Challenge_error h with e1 | ⟨att, dfd, att2, dfd2, hne, hpa, hpd, hg1, hcase⟩
  · subst e1
    exact ⟨rfl, rfl, rfl, fun k p hp => hfin k p p hp rfl (List.Perm.refl _)⟩
  · obtain ⟨ha0, hga, -⟩ := playerByID_ok hpa
    obtain ⟨hd0, hgd, -⟩ := playerByID_ok hpd
    have hla : opts.AttackerID.toNat < g.Players.length :=
      (List.getElem?_eq_some_iff.mp hga).1
    have hld : opts.DefenderID.toNat < g.Players.length :=
      (List.getElem?_eq_some_iff.mp hgd).1
    have hne' : opts.AttackerID.toNat ≠ opts.DefenderID.toNat := by omega
    obtain ⟨hand, har⟩ := hA att hpa
    obtain ⟨hdnd, hdr⟩ := hD dfd hpd
    have hrestore : ∀ (p p1 : Player) (indices : List Int),
        removeCardsByIndices p indices = (p1, .ok (cardsAt p.Hand indices)) →
        restoreHand p1 (cardsAt p.Hand indices) =
          { p with Hand := (restoreHand p1 (cardsAt p.Hand indices)).Hand } ∧
        (restoreHand p1 (cardsAt p.Hand indices)).Hand.Perm p.Hand := by
      intro p p1 indices hr
      obtain ⟨-, r2, r3, -⟩ := removeCardsByIndices_ok hr
      refine ⟨?_, ?_⟩
      · rw [restoreHand_eq, r2]
      · exact (restoreHand_perm _ _).trans ((List.perm_append_comm).trans r3.symm)
    have hatt : att2 = { att with Hand := att2.Hand } ∧ att2.Hand.Perm att.Hand := by
      rcases hcase with ⟨hra, -⟩ | ⟨att1, hra, e2, -⟩
      · exact absurd ⟨hand, har⟩ (removeCardsByIndices_error hra).2.2
      · subst e2
        exact hrestore att att1 _ hra
    have hdfd : dfd2 = { dfd with Hand := dfd2.Hand } ∧ dfd2.Hand.Perm dfd.Hand := by
      rcases hcase with ⟨-, e2⟩ | ⟨att1, -, -, ⟨-, e2⟩ | hrd | ⟨dfd1, hrd, e2⟩⟩
      · subst e2; exact ⟨rfl, List.Perm.refl _⟩
      · subst e2; exact ⟨rfl, List.Perm.refl _⟩
      · exact absurd ⟨hdnd, hdr⟩ (removeCardsByIndices_error hrd).2.2
      · subst e2
        exact hrestore dfd dfd1 _ hrd
    refine ⟨by rw [hg1], by rw [hg1], by rw [hg1]; simp, ?_⟩
    intro k p hp
    have hget : g1.Players[k]? =
        if k = opts.DefenderID.toNat then some dfd2
        else if k = opts.AttackerID.toNat then some att2 else g.Players[k]? := by
      rw [hg1]
      exact getElem?_set_set g.Players att2 dfd2 hne' hla hld k
    by_cases hkd : k = opts.DefenderID.toNat
    · rw [if_pos hkd] at hget
      rw [hkd, hgd] at hp
      cases hp
      exact hfin k _ dfd2 hget hdfd.1 hdfd.2
    · rw [if_neg hkd] at hget
      by_cases hka : k = opts.AttackerID.toNat
      · rw [if_pos hka] at hget
        rw [hka, hga] at hp
        cases hp
        exact hfin k _ att2 hget hatt.1 hatt.2
      · rw [if_neg hka, hp] at hget
        exact hfin k p p hget rfl (List.Perm.refl _)

/-- In `spadeDuel` the attacker mixes a spade with a heart (indices 3 and
0 of a four-card hand), which the analysis rejects: the call fails. -/
theorem failed_challenge_restores_witness :
    ∃ g1 e, Challenge spadeDuel ⟨0, 1, [3, 0], []⟩ = (g1, .error e) ∧
      g1.logs = spadeDuel.logs ∧ g1.Players.length = spadeDuel.Players.length ∧
      ∀ (k : Nat) (p : Player), spadeDuel.Players[k]? = some p →
        ∃ p1, g1.Players[k]? = some p1 ∧ p1 = { p with Hand := p1.Hand } ∧
          p1.Hand.Perm p.Hand ∧ p1.currentIdentity = p.currentIdentity ∧
          p1.originalIdentity = p.originalIdentity ∧ p1.Alive = p.Alive :=
  ⟨_, _, rfl,
    (failed_challenge_restores spadeDuel _ ⟨0, 1, [3, 0], []⟩ _ rfl
      (fun att ha => by
        have : att = examplePlayer 0 "A" IdentityHuman
            [⟨CardKindNumber, SuitSpade, 9⟩, ⟨CardKindNumber, SuitSpade, 8⟩,
              ⟨CardKindNumber, SuitSpade, 13⟩, ⟨CardKindNumber, SuitHeart, 2⟩] :=
          (Except.ok.inj ha).symm
        subst this
        decide)
      (fun dfd _ => ⟨List.nodup_nil, fun i hi => absurd hi (List.not_mem_nil _)⟩)).2⟩

/-! ## Conservation of the cards in the hands -/

theorem handsOf_cons (p : Player) (ps : List Player) :
    handsOf (p :: ps) = p.Hand ++ handsOf ps := rfl

theorem handsOf_perm {l1 l2 : List Player} (h : l1.Perm l2) :
    (handsOf l1).Perm (handsOf l2) := by
  induction h with
  | nil => exact List.Perm.refl _
  | cons x _ ih => exact List.Perm.append_left _ ih
  | swap x y l =>
    simp only [handsOf_cons, ← List.append_assoc]
    exact List.Perm.append_right _ List.perm_append_comm
  | trans _ _ ih1 ih2 => exact ih1.trans ih2

/-- Replacing the player of one seat exchanges that player's hand. -/
theorem handsOf_set {l : List Player} {i : Nat} {y : Player} (x : Player)
    (h : l[i]? = some y) :
    (handsOf (l.set i x) ++ y.Hand).Perm (handsOf l ++ x.Hand) := by
  have hi : i < l.length := (List.getElem?_eq_some_iff.mp h).1
  have p1 := handsOf_perm (set_perm_cons_eraseIdx x l i hi)
  have p2 := handsOf_perm (perm_cons_eraseIdx_of_get l i y h)
  rw [handsOf_cons] at p1 p2
  refine (List.Perm.append_right _ p1).trans ?_
  refine List.Perm.trans ?_ (List.Perm.append_right _ p2.symm)
  rw [← Multiset.coe_eq_coe]
  simp only [← Multiset.coe_add]
  abel

/-- An infection is never the outcome of a tie. -/
theorem Challenge_infection_decisive {g g1 : Game} {opts : ChallengeOptions}
    {o : ChallengeOutcome} {att dfd : Player} (hok : Challenge g opts = (g1, .ok o))
    (hatt : g.Players[opts.AttackerID.toNat]? = some att)
    (hdfd : g.Players[opts.DefenderID.toNat]? = some dfd) (hinf : o.Infection = true) :
    o.WinnerID ≠ none := by
  obtain ⟨att1, dfd1, aset, dset, d3, w, l, -, -, -, -, -, -, has, hds, hres, -, -, -, -, -,
    -, -, ho⟩ := Challenge_run hok hatt hdfd
  obtain ⟨-, f2, -, -⟩ := Challenge_flags hok hatt hdfd
  obtain ⟨⟨c, hc, hck⟩, hnv⟩ := f2.mp hinf
  obtain ⟨first, rest, hcards, hkind⟩ := analyzePlayedSet_kind has
  rw [hc] at hcards
  cases hcards
  have hk : aset.kind = CardKindZombie := hkind.trans hck
  have hv : dset.kind ≠ CardKindVaccine :=
    fun h => hnv ((analyzeDefenseSet_vaccine hds).mp h)
  obtain ⟨d3', hres', -⟩ := resolve_infection
    (duelAtResolve g opts att1 dfd1 (cardsAt att.Hand opts.AttackerCards)
      (cardsAt dfd.Hand opts.DefenderCards)) hk hv
  rw [hres] at hres'
  cases hres'
  obtain ⟨st, hw, hl, notes, -, -, -, -, -, -, s7⟩ :=
    @settleChallenge_spec d3 Side.attacker Side.defender (by decide)
  rw [ho, s7]
  simp

/-- The two hands of a challenge, after against before: together they hold
the cards they held, and the zombie card an infection mints. -/
theorem Challenge_two_hands {g g1 : Game} {opts : ChallengeOptions}
    {o : ChallengeOutcome} {att dfd : Player} (hok : Challenge g opts = (g1, .ok o))
    (hatt : g.Players[opts.AttackerID.toNat]? = some att)
    (hdfd : g.Players[opts.DefenderID.toNat]? = some dfd) :
    ∃ att2 dfd2, g1.Players[opts.AttackerID.toNat]? = some att2 ∧
      g1.Players[opts.DefenderID.toNat]? = some dfd2 ∧
      (att2.Hand ++ dfd2.Hand).Perm (att.Hand ++ dfd.Hand ++ mintedCards o dfd) := by
  obtain ⟨att2, dfd2, hga, hgd, hcases⟩ := Challenge_transfer hok hatt hdfd
  obtain ⟨-, f2, -, hlegal⟩ := Challenge_flags hok hatt hdfd
  refine ⟨att2, dfd2, hga, hgd, ?_⟩
  rcases hcases with ⟨hw, -, -, p1, p2⟩ | ⟨-, -, ht⟩ | ⟨-, -, hinf, ht⟩
  · have hinf : o.Infection = false := by
      cases hi : o.Infection with
      | false => rfl
      | true => exact absurd hw (Challenge_infection_decisive hok hatt hdfd hi)
    have hm : mintedCards o dfd = [] := by
      unfold mintedCards
      rw [if_neg (by rw [hinf]; simp)]
    rw [hm, List.append_nil]
    exact List.Perm.append p1 p2
  · obtain ⟨h1, rest, h2, h3, -, -⟩ := ht
    have hz : o.Infection = true →
        countKind CardKindZombie (cardsAt dfd.Hand opts.DefenderCards) = 0 := by
      intro hi
      obtain ⟨-, hnv⟩ := f2.mp hi
      rcases hlegal with h | h | ⟨-, -, suit, h⟩
      · rw [h]; rfl
      · exact absurd h hnv
      · unfold countKind
        rw [List.length_eq_zero, List.filter_eq_nil_iff]
        intro c hc
        have := (h c hc).1
        simp [this]
    have hm : (if o.Infection = true ∧ countKind CardKindZombie rest = 0 then
        [Card.ofKind CardKindZombie] else []) = mintedCards o dfd := by
      unfold mintedCards
      by_cases hi : o.Infection = true
      · have e := countKind_perm (k := CardKindZombie) h2
        rw [countKind_append, hz hi, Nat.zero_add] at e
        rw [e]
      · rw [if_neg (fun h => hi h.1), if_neg (fun h => hi h.1)]
    rw [hm] at h3
    rw [← Multiset.coe_eq_coe] at h1 h2 h3 ⊢
    simp only [← Multiset.coe_add] at h1 h2 h3 ⊢
    rw [h1, h2]
    calc (att.Hand : Multiset Card) + ↑(cardsAt dfd.Hand opts.DefenderCards) +
          ↑o.StolenCard.toList + ↑dfd2.Hand
        = ↑att.Hand + ↑(cardsAt dfd.Hand opts.DefenderCards) +
            (↑o.StolenCard.toList + ↑dfd2.Hand) := by abel
      _ = ↑att.Hand + ↑(cardsAt dfd.Hand opts.DefenderCards) +
            (↑rest + ↑(mintedCards o dfd)) := by rw [h3]
      _ = _ := by abel
  · obtain ⟨h1, rest, h2, h3, -, -⟩ := ht
    have hm : mintedCards o dfd = [] := by
      unfold mintedCards
      rw [if_neg (by rw [hinf]; simp)]
    rw [if_neg (by rw [hinf]; simp), List.append_nil] at h3
    rw [hm, List.append_nil]
    rw [← Multiset.coe_eq_coe] at h1 h2 h3 ⊢
    simp only [← Multiset.coe_add] at h1 h2 h3 ⊢
    rw [h1, h2, h3]
    abel

/-- C35: a successful Challenge conserves the cards of the hands.  The
cards of all hands afterwards are, up to order, the cards of all hands
before and the cards minted: one zombie card when the outcome is an
infection of a defender who held no zombie card, nothing otherwise.  The
outcome is an infection exactly when the attack is one zombie card and the
defence is not one vaccine.  Hence the number of cards of every kind other
than the zombie card is unchanged in the hands, the number of zombie cards
grows by one in the case named and is unchanged otherwise, and the draw
pile and the discard pile are those of the game before. -/
theorem challenge_conserves_cards (g g1 : Game) (opts : ChallengeOptions)
    (o : ChallengeOutcome) (att dfd : Player) (hok : Challenge g opts = (g1, .ok o))
    (hatt : g.Players[opts.AttackerID.toNat]? = some att)
    (hdfd : g.Players[opts.DefenderID.toNat]? = some dfd) :
    g1.allHands.Perm (g.allHands ++ mintedCards o dfd) ∧
    (o.Infection = true ↔
      ((∃ c, cardsAt att.Hand opts.AttackerCards = [c] ∧ c.Kind = CardKindZombie) ∧
        ¬ ∃ v, cardsAt dfd.Hand opts.DefenderCards = [v] ∧ v.Kind = CardKindVaccine)) ∧
    (∀ k, k ≠ CardKindZombie → countKind k g1.allHands = countKind k g.allHands) ∧
    countKind CardKindZombie g1.allHands =
      countKind CardKindZombie g.allHands +
        (if o.Infection = true ∧ countKind CardKindZombie dfd.Hand = 0 then 1 else 0) ∧
    g1.cardDeck = g.cardDeck ∧ g1.cardDiscarded = g.cardDiscarded := by
  obtain ⟨_, _, _, _, _, _, _, -, -, -, -, -, -, -, -, -, -, -, hframe, hlen, hdeck, hdisc,
    hne, -⟩ := Challenge_run hok hatt hdfd
  obtain ⟨att2, dfd2, hga, hgd, htwo⟩ := Challenge_two_hands hok hatt hdfd
  obtain ⟨-, f2, -, -⟩ := Challenge_flags hok hatt hdfd
  have hla : opts.AttackerID.toNat < g.Players.length :=
    (List.getElem?_eq_some_iff.mp hatt).1
  have hld : opts.DefenderID.toNat < g.Players.length :=
    (List.getElem?_eq_some_iff.mp hdfd).1
  have hset : g1.Players =
      (g.Players.set opts.AttackerID.toNat att2).set opts.DefenderID.toNat dfd2 := by
    apply List.ext_getElem?
    intro k
    rw [getElem?_set_set g.Players att2 dfd2 hne hla hld k]
    by_cases hkd : k = opts.DefenderID.toNat
    · rw [if_pos hkd, hkd, hgd]
    · rw [if_neg hkd]
      by_cases hka : k = opts.AttackerID.toNat
      · rw [if_pos hka, hka, hga]
      · rw [if_neg hka]
        exact hframe k hka hkd
  have hd' : (g.Players.set opts.AttackerID.toNat att2)[opts.DefenderID.toNat]? =
      some dfd := by
    rw [List.getElem?_set, if_neg hne, hdfd]
  have s1 := handsOf_set dfd2 hd'
  have s2 := handsOf_set att2 hatt
  have hperm : g1.allHands.Perm (g.allHands ++ mintedCards o dfd) := by
    unfold Game.allHands
    rw [hset]
    rw [← Multiset.coe_eq_coe] at s1 s2 htwo ⊢
    simp only [← Multiset.coe_add] at s1 s2 htwo ⊢
    apply add_right_cancel (b := ((att.Hand : Multiset Card) + ↑dfd.Hand))
    calc (↑(handsOf ((g.Players.set opts.AttackerID.toNat att2).set
            opts.DefenderID.toNat dfd2)) : Multiset Card) + (↑att.Hand + ↑dfd.Hand)
        = ↑(handsOf ((g.Players.set opts.AttackerID.toNat att2).set
            opts.DefenderID.toNat dfd2)) + ↑dfd.Hand + ↑att.Hand := by abel
      _ = ↑(handsOf (g.Players.set opts.AttackerID.toNat att2)) + ↑dfd2.Hand +
            ↑att.Hand := by rw [s1]
      _ = ↑(handsOf (g.Players.set opts.AttackerID.toNat att2)) + ↑att.Hand +
            ↑dfd2.Hand := by abel
      _ = ↑(handsOf g.Players) + ↑att2.Hand + ↑dfd2.Hand := by rw [s2]
      _ = ↑(handsOf g.Players) + (↑att2.Hand + ↑dfd2.Hand) := by abel
      _ = ↑(handsOf g.Players) + (↑att.Hand + ↑dfd.Hand + ↑(mintedCards o dfd)) := by
        rw [htwo]
      _ = _ := by abel
  refine ⟨hperm, f2, ?_, ?_, hdeck, hdisc⟩
  · intro k hk
    rw [countKind_perm hperm, countKind_append]
    unfold mintedCards
    split
    · have : countKind k [Card.ofKind CardKindZombie] = 0 := by
        unfold countKind Card.ofKind
        simp [Ne.symm hk]
      rw [this, Nat.add_zero]
    · rfl
  · rw [countKind_perm hperm, countKind_append]
    unfold mintedCards
    split
    · rfl
    · rfl

/-- The zombie of `zombieVsHuman` infects a human who holds no zombie card:
one zombie card is minted, and nothing else changes in the hands. -/
theorem challenge_conserves_cards_witness :
    ∃ g1 o, Challenge zombieVsHuman ⟨0, 1, [2], []⟩ = (g1, .ok o) ∧
      mintedCards o (examplePlayer 1 "B" IdentityHuman
        [⟨CardKindNumber, SuitSpade, 5⟩, ⟨CardKindNumber, SuitSpade, 4⟩,
          ⟨CardKindNumber, SuitHeart, 13⟩, Card.ofKind CardKindVaccine]) =
        [Card.ofKind CardKindZombie] ∧
      g1.allHands.Perm (zombieVsHuman.allHands ++
        mintedCards o (examplePlayer 1 "B" IdentityHuman
          [⟨CardKindNumber, SuitSpade, 5⟩, ⟨CardKindNumber, SuitSpade, 4⟩,
            ⟨CardKindNumber, SuitHeart, 13⟩, Card.ofKind CardKindVaccine])) :=
  ⟨_, _, rfl, by decide,
    (challenge_conserves_cards zombieVsHuman _ ⟨0, 1, [2], []⟩ _
      (examplePlayer 0 "A" IdentityZombie
        [⟨CardKindNumber, SuitSpade, 9⟩, ⟨CardKindNumber, SuitSpade, 8⟩,
          Card.ofKind CardKindZombie, Card.ofKind CardKindShotgun])
      (examplePlayer 1 "B" IdentityHuman
        [⟨CardKindNumber, SuitSpade, 5⟩, ⟨CardKindNumber, SuitSpade, 4⟩,
          ⟨CardKindNumber, SuitHeart, 13⟩, Card.ofKind CardKindVaccine])
      rfl rfl rfl).1⟩

/-! ## Seats of a running room -/

set_option maxRecDepth 100000 in
/-- C32, as the code runs: removeBot does not look at the status of the
room.  The player of seat 0 of a running room loses the connection, a bot
takes the seat over, and the host removes that bot: the room is reachable
and still running, the turn is on seat 0, the player of that seat is alive,
and the seat holds neither a client nor a bot; name and token of the seat
are wiped, so that no connection can claim it again.  The sibling addBot
refuses to act on such a room. -/
theorem running_seat_left_empty :
    leftRoom.Reachable ∧ leftRoom.status = RoomStatusRunning ∧
    (leftRoom.seats[0]?).map (fun s => (s.Client, s.Bot)) =
      some (none, some ⟨0, "P (AI)", []⟩) ∧
    (leftRoom.removeBot 0).2 = none ∧
    (leftRoom.removeBot 0).1.Reachable ∧
    (leftRoom.removeBot 0).1.status = RoomStatusRunning ∧
    (leftRoom.removeBot 0).1.currentTurn = 0 ∧
    ((leftRoom.removeBot 0).1.seats[0]?).map
      (fun s => (s.Client, s.Bot, s.Name, s.Token, s.isFilled)) =
      some (none, none, "", "", false) ∧
    ((leftRoom.removeBot 0).1.seats[0]?).map
      (fun s => ((leftRoom.removeBot 0).1.seatAlive s)) = some true ∧
    ((leftRoom.removeBot 0).1.addBot "x").2 = .error "僅能在待機狀態新增機器人" :=
  ⟨Room.Reachable.clientLeft _ runningRoom_reachable, rfl, rfl, rfl,
    Room.Reachable.removeBot 0 (Room.Reachable.clientLeft _ runningRoom_reachable),
    rfl, rfl, rfl, rfl, rfl⟩

/-! ## Rooms: turn, round and the knowledge of the bots -/

theorem Room.knows_set {r r1 : Room} {pos : Nat} {seat seat1 : Seat}
    (hget : r.seats[pos]? = some seat) (hsub : ∀ u ∈ seat1.known, u ∈ seat.known)
    (hs : r1.seats = r.seats.set pos seat1) {u : Int} (h : r1.knows u) : r.knows u := by
  obtain ⟨s, hs1, hu⟩ := h
  rw [hs] at hs1
  rcases List.mem_or_eq_of_mem_set hs1 with hm | he
  · exact ⟨s, hm, hu⟩
  · subst he
    exact ⟨seat, List.mem_iff_getElem?.mpr ⟨pos, hget⟩, hsub u hu⟩

/-- A step that keeps status, game, turn, round and pending challenge and
teaches no bot anything keeps the room steady. -/
theorem Room.Steady_frame {r r1 : Room} (h : r.Steady) (hst : r1.status = r.status)
    (hg : r1.game = r.game) (ht : r1.currentTurn = r.currentTurn)
    (hr : r1.currentRound = r.currentRound)
    (hp : r1.pendingChallenge = r.pendingChallenge)
    (hk : ∀ u, r1.knows u → r.knows u) : r1.Steady := by
  obtain ⟨s1, s2, s3⟩ := h
  refine ⟨fun hl u hu => s1 (hst ▸ hl) u (hk u hu), fun hrun => ?_, fun p hp1 => ?_⟩
  · obtain ⟨g, h1, h2, hm, h3, h4, h5, h6, h7, h8⟩ := s2 (hst ▸ hrun)
    refine ⟨g, hg.trans h1, h2, hm, hr.trans h3, ?_, ?_, fun u hu => h6 u (hk u hu), ?_,
      ?_⟩
    · rw [hr]; exact h4
    · rw [hr]; exact h5
    · rw [ht]; exact h7
    · rw [ht]; exact h8
  · rw [hp] at hp1
    obtain ⟨g, dfd, a, b, c⟩ := s3 p hp1
    exact ⟨g, dfd, hg.trans a, b, c⟩

theorem Room.Steady_newRoom (id name : String) (capacity : Int) (rng : Rng) :
    (NewRoom id name capacity rng).Steady := by
  refine ⟨fun _ u hu => ?_, fun hrun => ?_, fun p hp => ?_⟩
  · obtain ⟨s, hs, hu⟩ := hu
    simp only [NewRoom, List.mem_map] at hs
    obtain ⟨i, -, rfl⟩ := hs
    simp [Seat.known] at hu
  · simp [NewRoom] at hrun
  · simp [NewRoom] at hp

theorem Room.Steady_addBot {r : Room} (name : String) (h : r.Steady) :
    (r.addBot name).1.Steady := by
  unfold Room.addBot
  split
  · exact h
  · split
    · exact h
    · rename_i pos seat hfind
      exact Room.Steady_frame h rfl rfl rfl rfl rfl
        (fun u hu => Room.knows_set (enum_find_get hfind)
          (fun v hv => by simp [Seat.known] at hv) rfl hu)

theorem Room.Steady_setSeat {r : Room} (h : r.Steady) {pos : Nat} {seat seat2 : Seat}
    (hget : r.seats[pos]? = some seat) (hsub : ∀ u ∈ seat2.known, u ∈ seat.known)
    (b : Prop) [Decidable b] :
    (if b then ({ r with seats := r.seats.set pos seat2 } : Room).assignHostLocked
      else { r with seats := r.seats.set pos seat2 }).Steady := by
  split
  · rw [Room.assignHostLocked_eq]
    exact Room.Steady_frame h rfl rfl rfl rfl rfl
      (fun u hu => Room.knows_set hget hsub rfl hu)
  · exact Room.Steady_frame h rfl rfl rfl rfl rfl
      (fun u hu => Room.knows_set hget hsub rfl hu)

theorem Room.Steady_removeBot {r : Room} (seatIdx : Int) (h : r.Steady) :
    (r.removeBot seatIdx).1.Steady := by
  unfold Room.removeBot
  split
  · exact h
  · split
    · exact h
    · rename_i seat hseat
      split
      · exact h
      · refine Room.Steady_setSeat h hseat ?_ _
        intro u hu
        split at hu <;> simp [Seat.known] at hu

theorem Room.Steady_join {r : Room} (c : Client) (h : r.Steady) : (r.Join c).1.Steady := by
  unfold Room.Join
  dsimp only
  split
  · rename_i pos seat hfind
    have hget : r.seats[pos]? = some seat := by
      split at hfind
      · exact enum_find_get hfind
      · simp at hfind
    split
    · exact h
    · rw [Room.assignHostLocked_eq]
      exact Room.Steady_frame h rfl rfl rfl rfl rfl
        (fun u hu => Room.knows_set hget (fun v hv => by simp [Seat.known] at hv) rfl hu)
  · split
    · exact h
    · split
      · exact h
      · rename_i pos seat hfind
        rw [Room.assignHostLocked_eq]
        exact Room.Steady_frame h rfl rfl rfl rfl rfl
          (fun u hu => Room.knows_set (enum_find_get hfind)
            (fun v hv => by simp [Seat.known] at hv) rfl hu)

theorem Room.Steady_onClientLeft {r : Room} (c : Client) (h : r.Steady) :
    (r.onClientLeft c).Steady := by
  unfold Room.onClientLeft
  split
  · split
    · exact h
    · rename_i seat hseat
      split
      · refine Room.Steady_setSeat h hseat ?_ _
        intro u hu
        by_cases hr : r.status = RoomStatusRunning <;>
          cases hb : seat.Bot <;> simp [Seat.known, hr, hb] at hu ⊢
        exact hu
      · exact h
  · exact h

theorem Room.Steady_delayedReset {r : Room} (h : r.Steady) : r.delayedReset.Steady := by
  unfold Room.delayedReset
  split
  · exact h
  · refine ⟨fun _ u hu => ?_, fun hrun => by simp [Room.resetToLobbyLocked] at hrun,
      fun p hp => by simp [Room.resetToLobbyLocked] at hp⟩
    obtain ⟨s, hs, hu⟩ := hu
    simp only [Room.resetToLobbyLocked, List.mem_map] at hs
    obtain ⟨s0, -, rfl⟩ := hs
    cases hb : s0.Bot <;> simp [Seat.known, hb] at hu

theorem dealRound_maxRounds (i : Nat) :
    ∀ (todo done : List Player) (g g1 : Game), dealRound i done todo g = .ok g1 →
      g1.MaxRounds = g.MaxRounds
  | [], done, g, g1, h => by
    simp only [dealRound, Except.ok.injEq] at h
    rw [← h]
  | p :: todo, done, g, g1, h => by
    rw [dealRound] at h
    cases hd : g.cardDeck with
    | nil => simp [Game.drawCard, hd] at h
    | cons c rest =>
      simp only [Game.drawCard, hd] at h
      have e := dealRound_maxRounds i todo _ _ _ h
      exact e

theorem dealLoop_maxRounds :
    ∀ (n i : Nat) (g g1 : Game), dealLoop n i g = .ok g1 → g1.MaxRounds = g.MaxRounds
  | 0, _, g, g1, h => by
    simp only [dealLoop, Except.ok.injEq] at h
    rw [← h]
  | n + 1, i, g, g1, h => by
    rw [dealLoop] at h
    split at h
    · simp at h
    · rename_i g2 hg2
      rw [dealLoop_maxRounds n (i + 1) g2 g1 h, dealRound_maxRounds i _ _ _ _ hg2]

/-- A game set up by NewGame runs for twelve rounds. -/
theorem NewGame_maxRounds {names : List String} {rng : Rng} {g : Game}
    (h : NewGame names rng = .ok g) : g.MaxRounds = maxGameRounds := by
  rw [NewGame_of_length names rng (NewGame_ok_length h)] at h
  split at h
  · simp at h
  · rename_i g1 hg1
    simp only [Except.ok.injEq] at h
    rw [← h]
    exact dealLoop_maxRounds _ _ _ _ hg1

theorem known_mapIdx (L : List Seat) (f : Nat → Seat → Seat)
    (hf : ∀ i s, ∀ u ∈ (f i s).known, u ∈ s.known) {s1 : Seat}
    (hs1 : s1 ∈ L.mapIdx f) {u : Int} (hu : u ∈ s1.known) : ∃ s ∈ L, u ∈ s.known := by
  obtain ⟨i, hi⟩ := List.mem_iff_getElem?.mp hs1
  rw [List.getElem?_mapIdx] at hi
  cases hx : L[i]? with
  | none => rw [hx] at hi; simp at hi
  | some s =>
    rw [hx] at hi
    simp only [Option.map_some', Option.some.injEq] at hi
    subst hi
    exact ⟨s, List.mem_iff_getElem?.mpr ⟨i, hx⟩, hf i s u hu⟩

/-- StartGame teaches no bot anything, and leaves the rest of the room as
it was when it fails. -/
theorem Room.StartGame_knows {r r1 : Room} {gameRng : Rng} {res : Option String}
    (h : r.StartGame gameRng = some (r1, res)) :
    (∀ u, r1.knows u → r.knows u) ∧
    (res ≠ none → r1.status = r.status ∧ r1.game = r.game ∧
      r1.currentTurn = r.currentTurn ∧ r1.currentRound = r.currentRound ∧
      r1.pendingChallenge = r.pendingChallenge) ∧
    (res = none → ∃ g, r1.game = some g ∧ g.MaxRounds = maxGameRounds) := by
  have hf1 : ∀ (i : Nat) (s : Seat), ∀ u ∈ (match s.Client with
      | some _ => s
      | none =>
        { s with
          Bot := some { SeatIndex := (i : Int), Name := "機器人" ++ toString (i + 1),
                        KnownZombies := [] },
          Name := "機器人" ++ toString (i + 1) }).known, u ∈ s.known := by
    intro i s u hu
    split at hu
    · exact hu
    · simp [Seat.known] at hu
  unfold Room.StartGame at h
  split at h
  · simp only [Option.some.injEq, Prod.mk.injEq] at h
    obtain ⟨h1, h2⟩ := h
    subst h1
    exact ⟨fun u hu => hu, fun _ => ⟨rfl, rfl, rfl, rfl, rfl⟩, fun hn => by
      rw [hn] at h2; simp at h2⟩
  · dsimp only at h
    split at h
    · simp only [Option.some.injEq, Prod.mk.injEq] at h
      obtain ⟨h1, h2⟩ := h
      subst h1
      refine ⟨fun u hu => ?_, fun _ => ⟨rfl, rfl, rfl, rfl, rfl⟩, fun hn => by
        rw [hn] at h2; simp at h2⟩
      obtain ⟨s1, hs1, hu1⟩ := hu
      exact known_mapIdx _ _ hf1 hs1 hu1
    · rename_i g hng
      split at h
      · simp at h
      · simp only [Option.some.injEq, Prod.mk.injEq] at h
        obtain ⟨h1, h2⟩ := h
        subst h1
        refine ⟨fun u hu => ?_, fun hn => absurd h2.symm hn,
          fun _ => ⟨_, rfl, (NewGame_maxRounds hng : g.MaxRounds = maxGameRounds)⟩⟩
        obtain ⟨s1, hs1, hu1⟩ := hu
        obtain ⟨s2, hs2, hu2⟩ := known_mapIdx _ (fun i seat => { seat with Player := some i })
          (fun i s u hu => hu) hs1 hu1
        exact known_mapIdx _ _ hf1 hs2 hu2

theorem Room.Steady_startGame {r r1 : Room} {res : Option String} (gameRng : Rng)
    (hinv : r.Inv) (h : r.Steady) (hs : r.StartGame gameRng = some (r1, res)) :
    r1.Steady := by
  obtain ⟨hk, hfail, hmax⟩ := Room.StartGame_knows hs
  cases res with
  | some e =>
    obtain ⟨f1, f2, f3, f4, f5⟩ := hfail (by simp)
    exact Room.Steady_frame h f1 f2 f3 f4 f5 hk
  | none =>
    obtain ⟨hl, hlen, hrun, hround, hturn, hpend, hlen1, g, hg, hgr, hgl, hseats⟩ :=
      Room.StartGame_ok hs
    obtain ⟨g', hg', hmx⟩ := hmax rfl
    rw [hg] at hg'
    cases hg'
    have hpn : r1.pendingChallenge = none := by
      rw [hpend]
      exact hinv.2.1 (by rw [hl]; decide)
    refine ⟨fun hlob => ?_, fun _ => ?_, fun p hp => ?_⟩
    · rw [hrun] at hlob
      cases hlob
    rotate_left
    · rw [hpn] at hp
      simp at hp
    refine ⟨g, hg, ?_, hmx, by rw [hround, hgr], by rw [hround], ?_, ?_,
      by rw [hturn], ?_⟩
    · intro k p hp
      have hk8 : k < 8 := by
        rw [← hgl]; exact (List.getElem?_eq_some_iff.mp hp).1
      have hsk : r1.seats[k]? = some (r1.seats[k]) :=
        List.getElem?_eq_getElem (by rw [hlen1]; exact hk8)
      obtain ⟨-, -, p', hp', hid, -⟩ := hseats k _ hsk
      rw [hp] at hp'
      cases hp'
      exact hid
    · rw [hround, hmx]; decide
    · intro u hu
      exact absurd (hk u hu) (h.1 hl u)
    · have hs0 : r1.seats[0]? = some (r1.seats[0]) :=
        List.getElem?_eq_getElem (by rw [hlen1]; decide)
      obtain ⟨-, -, p', hp', -, hal⟩ := hseats 0 _ hs0
      rw [hturn]
      exact ⟨p', hp', hal⟩

/-- The identities after a successful challenge: the attacker keeps the
identity unless recorded as converted, the defender keeps it or is a zombie,
and after an infection the defender is a zombie. -/
theorem Challenge_identity {g g1 : Game} {opts : ChallengeOptions} {o : ChallengeOutcome}
    {att dfd : Player} (hok : Challenge g opts = (g1, .ok o))
    (hatt : g.Players[opts.AttackerID.toNat]? = some att)
    (hdfd : g.Players[opts.DefenderID.toNat]? = some dfd) :
    ∃ att2 dfd2, g1.Players[opts.AttackerID.toNat]? = some att2 ∧
      g1.Players[opts.DefenderID.toNat]? = some dfd2 ∧
      (att2.currentIdentity = att.currentIdentity ∨ att.ID ∈ o.ConvertedToHuman) ∧
      (dfd2.currentIdentity = dfd.currentIdentity ∨
        dfd2.currentIdentity = IdentityZombie) ∧
      (o.Infection = true → dfd2.currentIdentity = IdentityZombie) := by
  obtain ⟨att1, dfd1, aset, dset, d3, w, l, -, hda, ha1, -, hd1, -, -, -, hres, hga, hgd,
    -, -, -, -, -, ho⟩ := Challenge_run hok hatt hdfd
  have hal : (duelAtResolve g opts att1 dfd1 (cardsAt att.Hand opts.AttackerCards)
      (cardsAt dfd.Hand opts.DefenderCards)).defender.Alive = true := by
    rw [duelAtResolve, hd1]; exact hda
  obtain ⟨i1, i2, i3⟩ := resolveChallenge_identity
    (duelAtResolve g opts att1 dfd1 (cardsAt att.Hand opts.AttackerCards)
      (cardsAt dfd.Hand opts.DefenderCards)) aset dset
  rw [hres] at i1 i2 i3
  have ca := settleChallenge_core hres rfl hal Side.attacker
  have cd := settleChallenge_core hres rfl hal Side.defender
  obtain ⟨-, -, -, a4, -, a6, a7, -⟩ := ca
  obtain ⟨-, -, -, d4, -, -, -, -⟩ := cd
  simp only [Duel.player] at a4 d4
  have e1 : (duelAtResolve g opts att1 dfd1 (cardsAt att.Hand opts.AttackerCards)
      (cardsAt dfd.Hand opts.DefenderCards)).attacker.currentIdentity =
      att.currentIdentity := by
    rw [duelAtResolve, ha1]
  have e2 : (duelAtResolve g opts att1 dfd1 (cardsAt att.Hand opts.AttackerCards)
      (cardsAt dfd.Hand opts.DefenderCards)).defender.currentIdentity =
      dfd.currentIdentity := by
    rw [duelAtResolve, hd1]
  have e3 : (duelAtResolve g opts att1 dfd1 (cardsAt att.Hand opts.AttackerCards)
      (cardsAt dfd.Hand opts.DefenderCards)).attacker.ID = att.ID := by
    rw [duelAtResolve, ha1]
  refine ⟨_, _, hga, hgd, ?_, ?_, ?_⟩
  · rcases i1 with h | ⟨-, h⟩
    · exact Or.inl (a4.trans (h.trans e1))
    · refine Or.inr ?_
      rw [ho, a7, ← e3]
      exact h
  · rcases i2 with h | h
    · exact Or.inl (d4.trans (h.trans e2))
    · exact Or.inr (d4.trans h)
  · intro hinf
    rw [ho, a6] at hinf
    rcases i3 hinf with h | h
    · exact absurd h (by simp [duelAtResolve, newOutcome])
    · exact d4.trans h

/-- What a successful challenge does to the living zombies of a game whose
players carry their positions as ids: a living zombie stays one unless the
outcome lists the seat as eliminated or converted, and after an infection
the defender is a living zombie unless listed as eliminated. -/
theorem Challenge_known {g g1 : Game} {opts : ChallengeOptions} {o : ChallengeOutcome}
    (hok : Challenge g opts = (g1, .ok o)) (hid : g.IDs) :
    g1.IDs ∧ g1.Round = g.Round ∧ g1.MaxRounds = g.MaxRounds ∧
    (∀ u, g.livingZombie u → u ∉ o.Eliminated → u ∉ o.ConvertedToHuman →
      g1.livingZombie u) ∧
    (o.Infection = true → opts.DefenderID ∉ o.Eliminated →
      g1.livingZombie opts.DefenderID) := by
  obtain ⟨hlen, hround, hmax, -, -, hcore⟩ := Challenge_core hok
  obtain ⟨att, dfd, -, -, -, -, -, -, -, -, -, -, hpa, hpd, -⟩ := Challenge_ok hok
  obtain ⟨ha0, hatt, -⟩ := playerByID_ok hpa
  obtain ⟨hd0, hdfd, -⟩ := playerByID_ok hpd
  have haid : att.ID = opts.AttackerID := by
    rw [hid _ _ hatt, Int.toNat_of_nonneg ha0]
  have hdid : dfd.ID = opts.DefenderID := by
    rw [hid _ _ hdfd, Int.toNat_of_nonneg hd0]
  obtain ⟨att2, dfd2, hga, hgd, j1, j2, j3⟩ := Challenge_identity hok hatt hdfd
  obtain ⟨att2', dfd2', hga', hgd', hel⟩ := Challenge_elimination hok hatt hdfd
  rw [hga] at hga'
  rw [hgd] at hgd'
  cases hga'
  cases hgd'
  have hattAlive : opts.AttackerID ∉ o.Eliminated → att2.Alive = true := by
    intro hne
    rcases hel with ⟨-, -, -, h, -⟩ | ⟨-, -, h, -⟩ | ⟨-, -, -, -, -, h⟩
    · exact h
    · exact h
    · cases hx : att2.Alive with
      | true => rfl
      | false =>
        rw [hx] at h
        simp only [if_true] at h
        rw [h, haid] at hne
        simp at hne
  have hdfdAlive : opts.DefenderID ∉ o.Eliminated → dfd2.Alive = true := by
    intro hne
    rcases hel with ⟨-, -, -, -, h⟩ | ⟨-, -, -, -, h⟩ | ⟨-, -, h, -⟩
    · exact h
    · cases hx : dfd2.Alive with
      | true => rfl
      | false =>
        rw [hx] at h
        simp only [if_true] at h
        rw [h, hdid] at hne
        simp at hne
    · exact h
  refine ⟨?_, hround, hmax, ?_, ?_⟩
  · intro k p1 hp1
    have hk : k < g.Players.length := by
      rw [← hlen]; exact (List.getElem?_eq_some_iff.mp hp1).1
    obtain ⟨p1', h1, h2, -⟩ := hcore k _ (List.getElem?_eq_getElem hk)
    rw [hp1] at h1
    cases h1
    rw [h2]
    exact hid k _ (List.getElem?_eq_getElem hk)
  · intro u ⟨hu0, p, hp, hpa', hpz⟩ hne hnc
    refine ⟨hu0, ?_⟩
    by_cases hka : u.toNat = opts.AttackerID.toNat
    · have hua : u = opts.AttackerID := by omega
      rw [hka, hatt] at hp
      cases hp
      refine ⟨att2, by rw [hka]; exact hga, hattAlive (hua ▸ hne), ?_⟩
      rcases j1 with h | h
      · exact h.trans hpz
      · rw [haid, ← hua] at h
        exact absurd h hnc
    · by_cases hkd : u.toNat = opts.DefenderID.toNat
      · have hud : u = opts.DefenderID := by omega
        rw [hkd, hdfd] at hp
        cases hp
        refine ⟨dfd2, by rw [hkd]; exact hgd, hdfdAlive (hud ▸ hne), ?_⟩
        rcases j2 with h | h
        · exact h.trans hpz
        · exact h
      · obtain ⟨p1, h1, -, -, -, -, h6⟩ := hcore _ _ hp
        rw [h6 hka hkd] at h1
        exact ⟨p, h1, hpa', hpz⟩
  · intro hinf hne
    exact ⟨hd0, dfd2, hgd, hdfdAlive hne, j3 hinf⟩

theorem Room.clearZombieKnowledge_knows (r : Room) (t : Int) {u : Int}
    (h : (r.clearZombieKnowledge t).knows u) : r.knows u ∧ u ≠ t := by
  obtain ⟨s, hs, hu⟩ := h
  simp only [Room.clearZombieKnowledge, List.mem_map] at hs
  obtain ⟨s0, hs0, rfl⟩ := hs
  cases hb : s0.Bot with
  | none => simp [Seat.known, hb] at hu
  | some b =>
    simp only [Seat.known, hb, Option.map_some', List.mem_filter, decide_eq_true_eq] at hu
    refine ⟨⟨s0, hs0, ?_⟩, hu.2⟩
    simp only [Seat.known, hb]
    exact hu.1

theorem Room.foldl_clearZombieKnowledge_knows :
    ∀ (ids : List Int) (r : Room) {u : Int},
      (ids.foldl Room.clearZombieKnowledge r).knows u → r.knows u ∧ u ∉ ids
  | [], _, u, h => ⟨h, List.not_mem_nil u⟩
  | t :: rest, r, u, h => by
    obtain ⟨h1, h2⟩ :=
      Room.foldl_clearZombieKnowledge_knows rest (r.clearZombieKnowledge t) h
    obtain ⟨h3, h4⟩ := r.clearZombieKnowledge_knows t h1
    refine ⟨h3, ?_⟩
    intro hm
    rcases List.mem_cons.mp hm with e | e
    · exact h4 e
    · exact h2 e

theorem Room.registerInfectionKnowledge_knows (r : Room) (a t : Int) {u : Int}
    (h : (r.registerInfectionKnowledge a t).knows u) : r.knows u ∨ u = t := by
  unfold Room.registerInfectionKnowledge at h
  split at h
  · exact Or.inl h
  · rename_i seat hseat
    split at h
    · exact Or.inl h
    · rename_i bot hbot
      obtain ⟨s, hs, hu⟩ := h
      obtain ⟨-, hget⟩ := Room.getSeatLocked_some hseat
      have hmem : seat ∈ r.seats := List.mem_iff_getElem?.mpr ⟨_, hget⟩
      rcases List.mem_or_eq_of_mem_set hs with hm | he
      · exact Or.inl ⟨s, hm, hu⟩
      · subst he
        simp only [Seat.known] at hu
        split at hu
        · refine Or.inl ⟨seat, hmem, ?_⟩
          simp only [Seat.known, hbot]
          exact hu
        · rcases List.mem_append.mp hu with h1 | h1
          · refine Or.inl ⟨seat, hmem, ?_⟩
            simp only [Seat.known, hbot]
            exact h1
          · exact Or.inr (List.mem_singleton.mp h1)

/-- A `resolveChallengeLocked` that returns without error, step by step:
the challenge is settled on the game, the pending challenge is dropped, the
bots learn of an infection and forget the seats converted or eliminated,
and the turn advances. -/
theorem Room.resolveChallengeLocked_run {r r1 : Room} {a d : Int} {ac dc : List Int}
    (h : r.resolveChallengeLocked a d ac dc = some (r1, none)) :
    ∃ (g g1 : Game) (o : ChallengeOutcome) (r4 : Room), r.game = some g ∧
      Challenge g ⟨a, d, ac, dc⟩ = (g1, .ok o) ∧
      r4 = { r with game := some g1, pendingChallenge := none, seats := r4.seats } ∧
      r4.seats.map Seat.forget = r.seats.map Seat.forget ∧
      (∀ u, r4.knows u →
        (r.knows u ∨ (o.Infection = true ∧ u = d)) ∧ u ∉ o.ConvertedToHuman ∧
          u ∉ o.Eliminated) ∧
      r4.advanceTurnLocked = some r1 := by
  unfold Room.resolveChallengeLocked at h
  split at h
  · split at h
    · simp at h
    · simp at h
  · rename_i g hg
    split at h
    · simp at h
    · rename_i g1 o hc
      dsimp only at h
      split at h
      · simp at h
      · rename_i r5 hadv
        simp only [Option.some.injEq, Prod.mk.injEq, and_true] at h
        subst h
        refine ⟨g, g1, o, _, hg, hc, ?_, ?_, ?_, hadv⟩
        · rw [(Room.foldl_clearZombieKnowledge_frame _ _).2,
            (Room.foldl_clearZombieKnowledge_frame _ _).2]
          split
          · rw [(Room.registerInfectionKnowledge_frame _ _ _).2]
          · rfl
        · rw [(Room.foldl_clearZombieKnowledge_frame _ _).1,
            (Room.foldl_clearZombieKnowledge_frame _ _).1]
          split
          · rw [(Room.registerInfectionKnowledge_frame _ _ _).1]
          · rfl
        · intro u hu
          obtain ⟨k1, k2⟩ := Room.foldl_clearZombieKnowledge_knows _ _ hu
          obtain ⟨k3, k4⟩ := Room.foldl_clearZombieKnowledge_knows _ _ k1
          refine ⟨?_, k4, k2⟩
          split at k3
          · rename_i hinf
            rcases Room.registerInfectionKnowledge_knows _ _ _ k3 with k5 | k5
            · exact Or.inl k5
            · exact Or.inr ⟨hinf, k5⟩
          · exact Or.inl k3

theorem Room.findNextAliveLoop_alive (r : Room) (start : Int) :
    ∀ (offsets : List Nat) (x : Int), r.findNextAliveLoop start offsets = some x →
      x ≠ -1 → 0 ≤ x ∧ ∃ seat, r.seats[x.toNat]? = some seat ∧ r.seatAlive seat = true
  | [], x, h, hne => by
    simp only [Room.findNextAliveLoop, Option.some.injEq] at h
    exact absurd h.symm hne
  | o :: rest, x, h, hne => by
    rw [Room.findNextAliveLoop] at h
    split at h
    · exact Room.findNextAliveLoop_alive r start rest x h hne
    · split at h
      · simp at h
      · rename_i seat hseat
        split at h
        · rename_i hal
          simp only [Option.some.injEq] at h
          rw [← h]
          obtain ⟨h0, hget⟩ := Room.seatAt_some hseat
          exact ⟨h0, seat, hget, hal⟩
        · exact Room.findNextAliveLoop_alive r start rest x h hne

/-- The seat findNextAlive returns, if any, holds a living player. -/
theorem Room.findNextAlive_alive {r : Room} (hwf : r.WellFormed) {start x : Int}
    (h : r.findNextAlive start = some x) (hne : x ≠ -1) :
    0 ≤ x ∧ ∃ g p, r.game = some g ∧ g.Players[x.toNat]? = some p ∧ p.Alive = true := by
  obtain ⟨h0, seat, hget, hal⟩ := Room.findNextAliveLoop_alive r start _ x h hne
  obtain ⟨p, hp⟩ := Room.seatAlive_iff.mp hal
  obtain ⟨g, hg, hgp, hpa, -, -⟩ := Room.livePlayer_some hwf hget hp
  exact ⟨h0, g, p, hg, hgp, hpa⟩

/-- An advanceTurnLocked that leaves the room running: the seats and the
pending challenge are kept, the round counter of the room and of the game
agree and stay within the maximum, and the turn is on a living player. -/
theorem Room.advanceTurnLocked_steady {r r1 : Room} {g : Game}
    (h : r.advanceTurnLocked = some r1) (hg : r.game = some g) (hwf : r.WellFormed)
    (hround : r.currentRound = g.Round) (h1 : 1 ≤ r.currentRound)
    (h2 : r.currentRound ≤ g.MaxRounds) (hrun : r1.status = RoomStatusRunning) :
    r.status = RoomStatusRunning ∧ r1.seats = r.seats ∧
      r1.pendingChallenge = r.pendingChallenge ∧
      ∃ round, r1.game = some { g with Round := round } ∧ r1.currentRound = round ∧
        1 ≤ round ∧ round ≤ g.MaxRounds ∧ 0 ≤ r1.currentTurn ∧
        ∃ p, g.Players[r1.currentTurn.toNat]? = some p ∧ p.Alive = true := by
  have hfin : ∀ (x : Room) (g' : Game), x.game = some g' → r1 = x.finishGameLocked →
      False := by
    intro x g' hx he
    rw [he, Room.finishGameLocked_status hx] at hrun
    cases hrun
  unfold Room.advanceTurnLocked at h
  rw [hg] at h
  simp only at h
  split at h
  · simp only [Option.some.injEq] at h
    exact (hfin r g hg h.symm).elim
  · split at h
    · simp at h
    · rename_i next hnext
      split at h
      · split at h
        · simp only [Option.some.injEq] at h
          exact (hfin _ g rfl h.symm).elim
        · rename_i hmax
          split at h
          · simp at h
          · rename_i next2 hnext2
            split at h
            · simp only [Option.some.injEq] at h
              exact (hfin _ _ rfl h.symm).elim
            · rename_i hne2
              simp only [Option.some.injEq] at h
              subst h
              have hwf2 : ({ r with
                  currentRound := r.currentRound + 1,
                  game := some { g with Round := r.currentRound + 1 } } :
                  Room).WellFormed := hwf
              obtain ⟨q0, g', p, hg', hp, hpa⟩ :=
                Room.findNextAlive_alive hwf2 hnext2 hne2
              simp only [Option.some.injEq] at hg'
              subst hg'
              exact ⟨hrun, rfl, rfl, _, rfl, rfl, by omega, by omega, q0, p, hp, hpa⟩
      · rename_i hne
        obtain ⟨q0, g', p, hg', hp, hpa⟩ := Room.findNextAlive_alive hwf hnext hne
        rw [hg] at hg'
        cases hg'
        split at h
        · split at h
          · simp only [Option.some.injEq] at h
            exact (hfin _ g rfl h.symm).elim
          · rename_i hmax
            simp only [Option.some.injEq] at h
            subst h
            exact ⟨hrun, rfl, rfl, _, rfl, rfl, by omega, by omega, q0, p, hp, hpa⟩
        · simp only [Option.some.injEq] at h
          subst h
          exact ⟨hrun, rfl, rfl, g.Round, rfl, hround, by omega, by omega, q0, p, hp, hpa⟩

theorem Room.Steady_rng {r : Room} (h : r.Steady) (x : Rng) :
    ({ r with rng := x } : Room).Steady :=
  Room.Steady_frame h rfl rfl rfl rfl rfl (fun _ hu => hu)

/-- Recording a challenge at a defender who holds the suit keeps the room
steady. -/
theorem Room.Steady_pending {r : Room} (h : r.Steady) (x : Rng)
    {p : ZombieHunt.pendingChallenge} {g : Game} {dfd : Player} (hg : r.game = some g)
    (hd : g.Players[p.DefenderSeat.toNat]? = some dfd)
    (hs : dfd.HasSuit p.AttackSuit = true) :
    ({ r with rng := x, pendingChallenge := some p } : Room).Steady := by
  obtain ⟨s1, s2, -⟩ := h
  refine ⟨s1, s2, ?_⟩
  intro q hq
  simp only [Option.some.injEq] at hq
  subst hq
  exact ⟨g, dfd, hg, hd, hs⟩

/-- A challenge settled in a running room leaves the room steady. -/
theorem Room.Steady_resolve_ok {r r1 : Room} {a d : Int} {ac dc : List Int} (hinv : r.Inv)
    (h : r.Steady) (hrun : r.status = RoomStatusRunning)
    (hs : r.resolveChallengeLocked a d ac dc = some (r1, none)) : r1.Steady := by
  obtain ⟨g, g1, o, r4, hg, hc, hr4, hforget, hknow, hadv⟩ :=
    Room.resolveChallengeLocked_run hs
  obtain ⟨-, s2, -⟩ := h
  obtain ⟨g', hg', hid, hmr, hrd, h1, h2, hk, -, -⟩ := s2 hrun
  rw [hg] at hg'
  cases hg'
  obtain ⟨k1, k2, k3, k4, k5⟩ := Challenge_known hc hid
  have e_game : r4.game = some g1 := by rw [hr4]
  have e_round : r4.currentRound = r.currentRound := by rw [hr4]
  have e_status : r4.status = r.status := by rw [hr4]
  have e_pend : r4.pendingChallenge = none := by rw [hr4]
  have hwf4 : r4.WellFormed := by
    intro i s1 hs1
    obtain ⟨s, q1, q2⟩ := seats_forget_get hforget hs1
    rw [(Seat.forget_eq q2).1, (Seat.forget_eq q2).2.1]
    exact hinv.1 i s q1
  obtain ⟨f1, f2, -, f4, -⟩ := Room.advanceTurnLocked_frame hadv
  have hpn : r1.pendingChallenge = none := f2.trans e_pend
  refine ⟨fun hl => ?_, fun hrun1 => ?_, fun p hp => ?_⟩
  · rcases f4 with f | f
    · rw [f, e_status, hrun] at hl
      cases hl
    · rw [f] at hl
      cases hl
  · obtain ⟨-, hseats, -, round, hgame, hround1, hr1, hr2, ht0, p, hp, hpa⟩ :=
      Room.advanceTurnLocked_steady hadv e_game hwf4 (e_round.trans (hrd.trans k2.symm))
        (by rw [e_round]; exact h1) (by rw [e_round, k3]; exact h2) hrun1
    refine ⟨_, hgame, k1, k3.trans hmr, hround1, by rw [hround1]; exact hr1,
      by rw [hround1]; exact hr2,
      ?_, ht0, p, hp, hpa⟩
    intro u hu
    have hu4 : r4.knows u := by
      obtain ⟨s, hs, hus⟩ := hu
      rw [hseats] at hs
      exact ⟨s, hs, hus⟩
    obtain ⟨q1, q2, q3⟩ := hknow u hu4
    rcases q1 with q | ⟨qi, qe⟩
    · exact k4 u (hk u q) q3 q2
    · subst qe
      exact k5 qi q3
  · rw [hpn] at hp
    simp at hp

/-- A challenge that fails while none is pending leaves the room steady. -/
theorem Room.Steady_resolve_error {r r1 : Room} {a d : Int} {ac dc : List Int} {e : String}
    (h : r.Steady) (hp : r.pendingChallenge = none)
    (hs : r.resolveChallengeLocked a d ac dc = some (r1, some e)) : r1.Steady := by
  rcases Room.resolveChallengeLocked_error hs with ⟨-, h1⟩ | ⟨g, g1, hg, hc, h1⟩
  · rw [h1]; exact h
  · subst h1
    obtain ⟨s1, s2, -⟩ := h
    obtain ⟨e1, e2, e3⟩ := Challenge_error_players hc
    have hget : ∀ (k : Nat) (p : Player), g.Players[k]? = some p →
        ∃ p1, g1.Players[k]? = some p1 ∧ p1.Alive = p.Alive ∧
          p1.currentIdentity = p.currentIdentity := by
      intro k p hp0
      have hk : k < g1.Players.length := by
        rw [e2]; exact (List.getElem?_eq_some_iff.mp hp0).1
      obtain ⟨p0, q0, q1, -⟩ := e3 k _ (List.getElem?_eq_getElem hk)
      rw [hp0] at q0
      cases q0
      exact ⟨_, List.getElem?_eq_getElem hk, by rw [q1], by rw [q1]⟩
    refine ⟨s1, fun hrun => ?_, fun p hp1 => ?_⟩
    · obtain ⟨g', hg', hid, hmr, hrd, h1, h2, hk, h0, p, hp0, hpa⟩ := s2 hrun
      rw [hg] at hg'
      cases hg'
      refine ⟨g1, rfl, ?_, (by rw [e1]; exact hmr), ?_, h1, ?_, ?_, h0, ?_⟩
      · intro k p1 hp1
        obtain ⟨p0, q0, q1, -⟩ := e3 k p1 hp1
        rw [q1]
        exact hid k p0 q0
      · rw [e1]; exact hrd
      · rw [e1]; exact h2
      · intro u hu
        obtain ⟨u0, q, hq, qa, qz⟩ := hk u hu
        obtain ⟨q', hq', qa', qz'⟩ := hget _ _ hq
        exact ⟨u0, q', hq', qa'.trans qa, qz'.trans qz⟩
      · obtain ⟨p', hp', pa'⟩ := hget _ _ hp0
        exact ⟨p', hp', pa'.1.trans hpa⟩
    · have : r.pendingChallenge = some p := hp1
      rw [hp] at this
      simp at this

/-- Passing the turn while no challenge is pending keeps a running room
steady. -/
theorem Room.Steady_advance {r r1 : Room} (hinv : r.Inv) (h : r.Steady)
    (hrun : r.status = RoomStatusRunning) (hp : r.pendingChallenge = none)
    (hadv : r.advanceTurnLocked = some r1) : r1.Steady := by
  obtain ⟨-, s2, -⟩ := h
  obtain ⟨g, hg, hid, hmr, hrd, h1, h2, hk, -, -⟩ := s2 hrun
  obtain ⟨-, f2, -, f4, -⟩ := Room.advanceTurnLocked_frame hadv
  refine ⟨fun hl => ?_, fun hrun1 => ?_, fun p hp1 => ?_⟩
  · rcases f4 with f | f
    · rw [f, hrun] at hl
      cases hl
    · rw [f] at hl
      cases hl
  · obtain ⟨-, hseats, -, round, hgame, hround1, hr1, hr2, ht0, p, hp0, hpa⟩ :=
      Room.advanceTurnLocked_steady hadv hg hinv.1 hrd h1 h2 hrun1
    refine ⟨_, hgame, hid, hmr, hround1, by rw [hround1]; exact hr1,
      by rw [hround1]; exact hr2,
      ?_, ht0, p, hp0, hpa⟩
    intro u hu
    obtain ⟨s, hs, hus⟩ := hu
    rw [hseats] at hs
    exact hk u ⟨s, hs, hus⟩
  · rw [f2, hp] at hp1
    simp at hp1

theorem Room.Steady_handleChallenge {r r1 : Room} {res : Option String} (c : Client)
    (payload : ChallengePayload) (hinv : r.Inv) (h : r.Steady)
    (hs : r.handleChallenge c payload = some (r1, res)) : r1.Steady := by
  rcases Room.handleChallenge_cases hinv.1 hs with ⟨h1, -⟩ |
    ⟨g, a, d, dseat, att, dfd, cards, first, hrun, hpend, hturn, hca, hcd, hne, hg, hds,
      hga, haa, hgd, hda, hnorm, hfirst, hcase⟩
  · rw [h1]; exact h
  · have hres : ∀ dc, r.resolveChallengeLocked a d cards dc = some (r1, res) →
        r1.Steady := by
      intro dc hr
      cases res with
      | none => exact Room.Steady_resolve_ok hinv h hrun hr
      | some e => exact Room.Steady_resolve_error h hpend hr
    rcases hcase with ⟨-, suit, hsel, hc⟩ | ⟨-, -, hr⟩ | ⟨-, hr⟩
    · rcases hc with ⟨hsuit, -, -, h1⟩ | ⟨-, -, hr⟩ | ⟨-, hr⟩
      · subst h1
        exact Room.Steady_pending h r.rng hg
          (show g.Players[((d : Int)).toNat]? = some dfd by simpa using hgd) hsuit
      · exact hres _ hr
      · exact hres _ hr
    · exact hres _ hr
    · exact hres _ hr

theorem Room.Steady_handleDefenseResponse {r r1 : Room} {res : Option String} (c : Client)
    (payload : DefensePayload) (hinv : r.Inv) (h : r.Steady)
    (hs : r.handleDefenseResponse c payload = some (r1, res)) : r1.Steady := by
  rcases Room.handleDefenseResponse_cases hs with ⟨h1, -⟩ |
    ⟨p, seat, player, defense, hp, hci, hseat, hplayer, hnorm, hcheck, hr⟩
  · rw [h1]; exact h
  · have hrun : r.status = RoomStatusRunning := by
      by_contra hh
      rw [hinv.2.1 hh] at hp
      simp at hp
    rw [hci] at hseat
    obtain ⟨g, g1, o, hg, hc⟩ := Room.defense_succeeds hinv hp hseat hplayer
      (Or.inr (normalizeDefenseSelection_ok hnorm).1) hcheck
    cases res with
    | none => exact Room.Steady_resolve_ok hinv h hrun hr
    | some e => exact (Room.resolve_not_error hr hg hc).elim

theorem Room.Steady_executeBotTurn {r r1 : Room} (bot : BotPlayer) (order : List Suit)
    (hinv : r.Inv) (h : r.Steady) (hs : r.executeBotTurn bot order = some r1) :
    r1.Steady := by
  rcases Room.executeBotTurn_cases hs with h1 | ⟨hrun, hturn, seat, hseat, hcase⟩
  · rw [h1]; exact h
  · have hwf := hinv.1
    have hpass : ∀ {x : Rng}, (r.livePlayer seat = none ∨
        r.aliveTargetsLocked bot.SeatIndex = [] ∨
        ∃ attacker, r.livePlayer seat = some attacker ∧
          (selectStrongestNumericSet attacker order).2 = []) →
        ({ r with rng := x } : Room).advanceTurnLocked = some r1 → r1.Steady := by
      intro x hwhy hadv
      have hpn : r.pendingChallenge = none := by
        cases hpe : r.pendingChallenge with
        | none => rfl
        | some p =>
          exfalso
          rw [← hturn] at hseat
          obtain ⟨attacker, b1, b2, b3⟩ := Room.pending_blocks_pass hinv hpe hseat
          rw [hturn] at b2
          rcases hwhy with w | w | ⟨att2, w1, w2⟩
          · rw [w] at b1; simp at b1
          · exact b2 w
          · rw [b1] at w1
            cases w1
            exact b3 order w2
      exact Room.Steady_advance (Room.Inv_rng hinv x) (Room.Steady_rng h x) hrun hpn hadv
    rcases hcase with ⟨hl, hadv⟩ | ⟨attacker, hlive, hcase⟩
    · exact hpass (x := r.rng) (Or.inl hl) hadv
    · rcases hcase with ⟨ht, hadv⟩ | ⟨hnone, hadv⟩ | ⟨a, dseat, hchoose, hdseat, hcase⟩
      · exact hpass (x := r.rng) (Or.inr (Or.inl ht)) hadv
      · exact hpass (x := r.rng)
          (Or.inr (Or.inr ⟨attacker, hlive, Room.chooseBotAttack_none hnone⟩)) hadv
      · rcases hcase with ⟨hdl, hadv⟩ | ⟨defender, hdl, hcase⟩
        · exfalso
          obtain ⟨hmem, -⟩ := Room.chooseBotAttack_some hchoose
          obtain ⟨k, ks, hks, hk, -, hal⟩ := (Room.mem_aliveTargetsLocked hwf).mp hmem
          have := Room.seatAt_of_get hks
          rw [← hk, hdseat] at this
          cases this
          obtain ⟨q, hq⟩ := Room.seatAlive_iff.mp hal
          rw [hdl] at hq
          simp at hq
        · have hres : ∀ dc res, (dc = [] ∨ (a.attackKind = CardKindNumber ∧
              dc = selectBotDefenseIndices defender a.attackSuit a.attackCards.length)) →
              ({ r with rng := a.rng } : Room).resolveChallengeLocked seat.Index
                dseat.Index a.attackCards dc = some (r1, res) → r1.Steady := by
            intro dc res hdc hr
            obtain ⟨g, g1, o, hg, hc⟩ := Room.bot_challenge_succeeds hwf hseat hlive hchoose
              hdseat hdl dc hdc
            cases res with
            | none =>
              exact Room.Steady_resolve_ok (Room.Inv_rng hinv a.rng) (Room.Steady_rng h a.rng)
                hrun hr
            | some e =>
              exact (Room.resolve_not_error hr (show ({ r with rng := a.rng } : Room).game =
                some g from hg) hc).elim
          rcases hcase with ⟨hk, -, -, res, hr⟩ | ⟨hk, hsuit, -, h1⟩ | ⟨-, res, hr⟩
          · exact hres _ res (Or.inr ⟨hk, rfl⟩) hr
          · subst h1
            obtain ⟨g, i, j, hg, hne, hsi, hdi, hbi, hga, haa, hgd, hda⟩ :=
              Room.bot_turn_facts hwf hseat hlive hchoose hdseat hdl
            refine Room.Steady_pending h a.rng hg ?_ hsuit
            show g.Players[dseat.Index.toNat]? = some defender
            rw [hdi]
            simpa using hgd
          · exact hres _ res (Or.inl rfl) hr

/-- Every room the operations can reach is steady. -/
theorem Room.Reachable.steady {r : Room} (h : r.Reachable) : r.Steady := by
  induction h with
  | newRoom id name capacity rng => exact Room.Steady_newRoom id name capacity rng
  | join c _ ih => exact Room.Steady_join c ih
  | clientLeft c _ ih => exact Room.Steady_onClientLeft c ih
  | addBot name _ ih => exact Room.Steady_addBot name ih
  | removeBot seatIdx _ ih => exact Room.Steady_removeBot seatIdx ih
  | startGame gameRng hr hs ih => exact Room.Steady_startGame gameRng hr.inv ih hs
  | challenge c payload hr hs ih => exact Room.Steady_handleChallenge c payload hr.inv ih hs
  | defense c payload hr hs ih =>
    exact Room.Steady_handleDefenseResponse c payload hr.inv ih hs
  | botTurn bot order hr hs ih => exact Room.Steady_executeBotTurn bot order hr.inv ih hs
  | reset _ ih => exact Room.Steady_delayedReset ih

/-! ## Rooms: the commands always return -/

theorem Room.findNextAliveLoop_returns (r : Room) (start : Int) :
    ∀ offsets : List Nat, (∀ o ∈ offsets, 0 ≤ start + (o : Int)) →
      (offsets ≠ [] → 0 < r.seats.length) →
      ∃ x, r.findNextAliveLoop start offsets = some x
  | [], _, _ => ⟨-1, rfl⟩
  | o :: rest, hall, hlen => by
    have hn : 0 < r.seats.length := hlen (by simp)
    have ih := Room.findNextAliveLoop_returns r start rest
      (fun o1 ho1 => hall o1 (List.mem_cons_of_mem _ ho1)) (fun _ => hn)
    rw [Room.findNextAliveLoop]
    split
    · exact ih
    · have h0 : 0 ≤ Int.tmod (start + (o : Int)) (r.seats.length : Int) :=
        Int.tmod_nonneg _ (hall o (List.mem_cons_self _ _))
      have h1 : Int.tmod (start + (o : Int)) (r.seats.length : Int) <
          (r.seats.length : Int) := Int.tmod_lt_of_pos _ (by omega)
      have hb : (Int.tmod (start + (o : Int)) (r.seats.length : Int)).toNat <
          r.seats.length := by omega
      have hseat : r.seatAt (Int.tmod (start + (o : Int)) (r.seats.length : Int)) =
          some (r.seats[(Int.tmod (start + (o : Int)) (r.seats.length : Int)).toNat]) := by
        unfold Room.seatAt
        rw [if_neg (by omega)]
        exact List.getElem?_eq_getElem hb
      rw [hseat]
      simp only
      split
      · exact ⟨_, rfl⟩
      · exact ih

theorem Room.findNextAlive_returns (r : Room) {start : Int} (hs : -1 ≤ start) :
    ∃ x, r.findNextAlive start = some x := by
  unfold Room.findNextAlive
  refine Room.findNextAliveLoop_returns r start _ ?_ ?_
  · intro o ho
    have := (List.mem_range'_1.mp ho).1
    omega
  · intro hne
    cases hl : r.seats.length with
    | zero => rw [hl] at hne; simp at hne
    | succ n => omega

/-- advanceTurnLocked returns whenever the turn index is at least -1. -/
theorem Room.advanceTurnLocked_returns (r : Room) (h0 : -1 ≤ r.currentTurn) :
    ∃ r1, r.advanceTurnLocked = some r1 := by
  unfold Room.advanceTurnLocked
  split
  · exact ⟨_, rfl⟩
  · rename_i g hg
    split
    · exact ⟨_, rfl⟩
    · obtain ⟨next, hnext⟩ := r.findNextAlive_returns h0
      rw [hnext]
      simp only
      split
      · split
        · exact ⟨_, rfl⟩
        · obtain ⟨next2, hnext2⟩ := Room.findNextAlive_returns
            ({ r with
              currentRound := r.currentRound + 1,
              game := some { g with Round := r.currentRound + 1 } } : Room)
            (le_refl (-1 : Int))
          rw [hnext2]
          simp only
          split
          · exact ⟨_, rfl⟩
          · exact ⟨_, rfl⟩
      · split
        · split
          · exact ⟨_, rfl⟩
          · exact ⟨_, rfl⟩
        · exact ⟨_, rfl⟩

/-- resolveChallengeLocked returns in a room that has a game and a turn
index of at least -1. -/
theorem Room.resolveChallengeLocked_returns {r : Room} {g : Game} (hg : r.game = some g)
    (h0 : -1 ≤ r.currentTurn) (a d : Int) (ac dc : List Int) :
    r.resolveChallengeLocked a d ac dc ≠ none := by
  intro h
  unfold Room.resolveChallengeLocked at h
  rw [hg] at h
  simp only at h
  split at h
  · simp at h
  · rename_i g1 o hc
    split at h
    · rename_i hadv
      have hturn : (List.foldl Room.clearZombieKnowledge
          (List.foldl Room.clearZombieKnowledge
            (if o.Infection = true then
              ({ r with game := some g1, pendingChallenge := none } :
                Room).registerInfectionKnowledge a d
            else { r with game := some g1, pendingChallenge := none })
            o.ConvertedToHuman) o.Eliminated).currentTurn = r.currentTurn := by
        rw [(Room.foldl_clearZombieKnowledge_frame _ _).2,
          (Room.foldl_clearZombieKnowledge_frame _ _).2]
        split
        · rw [(Room.registerInfectionKnowledge_frame _ _ _).2]
        · rfl
      obtain ⟨r5, hr5⟩ := Room.advanceTurnLocked_returns _ (by rw [hturn]; exact h0)
      rw [hr5] at hadv
      simp at hadv
    · simp at h

theorem handCard_of_range {hand : List Card} {i : Int} (h0 : 0 ≤ i)
    (h1 : i < (hand.length : Int)) : ∃ c, handCard hand i = some c := by
  have hb : i.toNat < hand.length := by omega
  unfold handCard
  rw [if_neg (by omega)]
  exact ⟨hand[i.toNat], List.getElem?_eq_getElem hb⟩

theorem ensureNumericLoop_returns (hand : List Card) (suit : Suit) :
    ∀ (L : List Int), (∀ i ∈ L, 0 ≤ i ∧ i < (hand.length : Int)) →
      ensureNumericLoop hand suit L ≠ none
  | [], _ => by simp [ensureNumericLoop]
  | idx :: rest, hall => by
    obtain ⟨c, hc⟩ := handCard_of_range (hall idx (List.mem_cons_self _ _)).1
      (hall idx (List.mem_cons_self _ _)).2
    rw [ensureNumericLoop, hc]
    simp only
    split
    · simp
    · split
      · simp
      · exact ensureNumericLoop_returns hand suit rest
          (fun i hi => hall i (List.mem_cons_of_mem _ hi))

theorem ensureNumericSelection_returns (player : Player) {indices : List Int}
    (hall : ∀ i ∈ indices, 0 ≤ i ∧ i < (player.Hand.length : Int)) :
    ensureNumericSelection player indices ≠ none := by
  unfold ensureNumericSelection
  cases indices with
  | nil => simp
  | cons first rest =>
    obtain ⟨c, hc⟩ := handCard_of_range (hall first (List.mem_cons_self _ _)).1
      (hall first (List.mem_cons_self _ _)).2
    simp only [hc]
    have := ensureNumericLoop_returns player.Hand c.Suit (first :: rest) hall
    split
    · rename_i hx
      exact absurd hx this
    · simp
    · simp

theorem ensureDefenseLoop_returns (hand : List Card) (suit : Suit) :
    ∀ (L : List Int), (∀ i ∈ L, 0 ≤ i ∧ i < (hand.length : Int)) →
      ensureDefenseLoop hand suit L ≠ none
  | [], _ => by simp [ensureDefenseLoop]
  | idx :: rest, hall => by
    obtain ⟨c, hc⟩ := handCard_of_range (hall idx (List.mem_cons_self _ _)).1
      (hall idx (List.mem_cons_self _ _)).2
    rw [ensureDefenseLoop, hc]
    simp only
    split
    · simp
    · exact ensureDefenseLoop_returns hand suit rest
        (fun i hi => hall i (List.mem_cons_of_mem _ hi))

theorem ensureDefenseMatchesSuit_returns (player : Player) (suit : Suit) {indices : List Int}
    (hall : ∀ i ∈ indices, 0 ≤ i ∧ i < (player.Hand.length : Int)) :
    ensureDefenseMatchesSuit player indices suit ≠ none := by
  unfold ensureDefenseMatchesSuit
  split
  · simp
  · exact ensureDefenseLoop_returns player.Hand suit indices hall

/-- In a running room the operations can reach, the seat of the turn
exists. -/
theorem Room.seatAt_turn {r : Room} (hinv : r.Inv) (hst : r.Steady)
    (hrun : r.status = RoomStatusRunning) :
    0 ≤ r.currentTurn ∧ r.currentTurn < (r.seats.length : Int) ∧
      ∃ seat, r.seatAt r.currentTurn = some seat := by
  obtain ⟨g, hg, -, -, -, -, -, -, h0, p, hp, -⟩ := hst.2.1 hrun
  obtain ⟨g', hg', hlen, -, -⟩ := hinv.2.2.1 (by rw [hrun]; decide)
  rw [hg] at hg'
  cases hg'
  have hk : r.currentTurn.toNat < r.seats.length := by
    rw [← hlen]; exact (List.getElem?_eq_some_iff.mp hp).1
  refine ⟨h0, by omega, r.seats[r.currentTurn.toNat], ?_⟩
  have := Room.seatAt_of_get (List.getElem?_eq_getElem hk)
  rw [Int.toNat_of_nonneg h0] at this
  exact this

/-- handleChallenge returns on every payload, in every room that is in
order and steady. -/
theorem Room.handleChallenge_returns {r : Room} (hinv : r.Inv) (hst : r.Steady)
    (c : Client) (payload : ChallengePayload) : r.handleChallenge c payload ≠ none := by
  intro h
  unfold Room.handleChallenge at h
  split at h
  · simp at h
  · rename_i hturn
    unfold Room.ensurePlayerTurnLocked at hturn
    split at hturn
    · simp at hturn
    · rename_i hrun
      split at hturn
      · simp at hturn
      · rename_i hct
        have hrun' : r.status = RoomStatusRunning := by
          by_contra hh; exact hrun hh
        have hct' : c.seatIndex = r.currentTurn := by
          by_contra hh; exact hct hh
        obtain ⟨ht0, -, tseat, htseat⟩ := Room.seatAt_turn hinv hst hrun'
        obtain ⟨g, hg, -⟩ := hst.2.1 hrun'
        have hres : ∀ a d ac dc, r.resolveChallengeLocked a d ac dc ≠ none :=
          Room.resolveChallengeLocked_returns hg (by omega)
        split at h
        · simp at h
        · split at h
          · rename_i hnone
            rw [hct', htseat] at hnone
            simp at hnone
          · rename_i aseat haseat
            split at h
            · simp at h
            · rename_i att hatt
              split at h
              · simp at h
              · split at h
                · simp at h
                · split at h
                  · simp at h
                  · rename_i hlen0
                    split at h
                    · simp at h
                    · rename_i cards hnorm
                      unfold normalizeCardSelection Player.HandSize at hnorm
                      obtain ⟨u1, u2, u3, u4⟩ := uniqueSortedIndices_ok hnorm
                      split at h
                      · rename_i hfirst
                        cases hcs : cards with
                        | nil =>
                          rw [hcs] at u4
                          have := u4.length_eq
                          simp only [List.length_nil] at this
                          exact hlen0 this.symm
                        | cons i rest =>
                          rw [hcs] at hfirst u3
                          obtain ⟨x, hx⟩ := handCard_of_range
                            (u3 i (List.mem_cons_self _ _)).1
                            (u3 i (List.mem_cons_self _ _)).2
                          simp [hx] at hfirst
                      · split at h
                        · split at h
                          · rename_i hens
                            exact ensureNumericSelection_returns att u3 hens
                          · simp at h
                          · split at h
                            · simp at h
                            · split at h
                              · split at h
                                · exact hres _ _ _ _ h
                                · simp at h
                              · exact hres _ _ _ _ h
                        · split at h
                          · simp at h
                          · exact hres _ _ _ _ h
                        · exact hres _ _ _ _ h
                        · simp at h

/-- handleDefenseResponse returns on every payload, in every room that is
in order and steady. -/
theorem Room.handleDefenseResponse_returns {r : Room} (hinv : r.Inv) (hst : r.Steady)
    (c : Client) (payload : DefensePayload) :
    r.handleDefenseResponse c payload ≠ none := by
  intro h
  unfold Room.handleDefenseResponse at h
  split at h
  · simp at h
  · rename_i p hp
    obtain ⟨g, att, dfd, hg, -, ha0, hd0, -, -, -, hgd, -, -, -⟩ := hinv.2.2.2 p hp
    have hrun : r.status = RoomStatusRunning := by
      by_contra hh
      rw [hinv.2.1 hh] at hp
      simp at hp
    obtain ⟨g', hg', hlen, -, hbind⟩ := hinv.2.2.1 (by rw [hrun]; decide)
    rw [hg] at hg'
    cases hg'
    obtain ⟨ht0, -, -⟩ := Room.seatAt_turn hinv hst hrun
    split at h
    · simp at h
    · rename_i hseat
      have hseat' : c.seatIndex = p.DefenderSeat := by
        by_contra hh; exact hseat hh
      split at h
      · rename_i hnone
        have hk : p.DefenderSeat.toNat < r.seats.length := by
          rw [← hlen]; exact (List.getElem?_eq_some_iff.mp hgd).1
        have hs := Room.seatAt_of_get (List.getElem?_eq_getElem hk)
        rw [Int.toNat_of_nonneg hd0] at hs
        rw [hseat', hs] at hnone
        simp only [Option.some_bind] at hnone
        unfold Room.playerOf at hnone
        rw [hbind _ _ (List.getElem?_eq_getElem hk), hg] at hnone
        simp only at hnone
        rw [hgd] at hnone
        simp at hnone
      · rename_i player hplayer
        split at h
        · simp at h
        · rename_i defense hnorm
          obtain ⟨-, n2⟩ := normalizeDefenseSelection_ok hnorm
          split at h
          · rename_i hcheck
            split at hcheck
            · exact ensureDefenseMatchesSuit_returns player p.AttackSuit n2 hcheck
            · simp at hcheck
          · simp at h
          · exact Room.resolveChallengeLocked_returns hg (by omega) _ _ _ _ h

/-- C40: in every room the operations can reach, handleChallenge and
handleDefenseResponse return on every payload, whatever the target id and
whatever the card indices: no access to a seat or to a card of a hand is
out of range and no player pointer that is followed is nil, which in the
model is the result `none`. -/
theorem handlers_never_panic (r : Room) (c : Client) (hr : r.Reachable) :
    (∀ payload : ChallengePayload, ∃ r1 res, r.handleChallenge c payload = some (r1, res)) ∧
    (∀ payload : DefensePayload,
      ∃ r1 res, r.handleDefenseResponse c payload = some (r1, res)) := by
  refine ⟨fun payload => ?_, fun payload => ?_⟩
  · cases hx : r.handleChallenge c payload with
    | none => exact absurd hx (Room.handleChallenge_returns hr.inv hr.steady c payload)
    | some x => exact ⟨x.1, x.2, rfl⟩
  · cases hx : r.handleDefenseResponse c payload with
    | none => exact absurd hx (Room.handleDefenseResponse_returns hr.inv hr.steady c payload)
    | some x => exact ⟨x.1, x.2, rfl⟩

/-- In the room where seat 0 has challenged seat 1, both commands return
for every client and every payload. -/
theorem handlers_never_panic_witness :
    pendingRoom.Reachable ∧
    (∀ payload : ChallengePayload,
      ∃ r1 res, pendingRoom.handleChallenge (seatedClient 1) payload = some (r1, res)) ∧
    (∀ payload : DefensePayload,
      ∃ r1 res, pendingRoom.handleDefenseResponse (seatedClient 1) payload =
        some (r1, res)) :=
  ⟨pendingRoom_reachable, handlers_never_panic pendingRoom (seatedClient 1)
    pendingRoom_reachable⟩

/-! ## Rooms: the claims about pending challenge, turn, round and knowledge -/

/-- C36: in every room the operations can reach, a pending challenge was
issued by the seat whose turn it is, at another seat; both players are
alive; the stored attacker indices are one to five strictly ascending
indices into the attacker's hand as it is now, each of a number card of the
stored suit; and the defender holds a number card of that suit.  So the
challenge settles without error on every defence the room can submit, the
empty one or a number selection of the suit on the defender's hand. -/
theorem pending_challenge_valid (r : Room) (p : ZombieHunt.pendingChallenge)
    (hr : r.Reachable) (hp : r.pendingChallenge = some p) :
    r.status = RoomStatusRunning ∧ p.AttackerSeat = r.currentTurn ∧
    p.AttackerSeat ≠ p.DefenderSeat ∧
    ∃ (g : Game) (att dfd : Player), r.game = some g ∧
      0 ≤ p.AttackerSeat ∧ g.Players[p.AttackerSeat.toNat]? = some att ∧ att.Alive = true ∧
      0 ≤ p.DefenderSeat ∧ g.Players[p.DefenderSeat.toNat]? = some dfd ∧ dfd.Alive = true ∧
      p.AttackerCards ≠ [] ∧ p.AttackerCards.length ≤ 5 ∧
      p.AttackerCards.Pairwise (fun a b => a < b) ∧
      (∀ i ∈ p.AttackerCards, 0 ≤ i ∧ i < (att.Hand.length : Int) ∧
        ∃ card, handCard att.Hand i = some card ∧ card.Kind = CardKindNumber ∧
          card.Suit = p.AttackSuit) ∧
      (∃ card ∈ dfd.Hand, card.Kind = CardKindNumber ∧ card.Suit = p.AttackSuit) ∧
      ∀ defense, (defense = [] ∨ NumberSelection dfd.Hand defense p.AttackSuit) →
        ∃ g1 o, Challenge g ⟨p.AttackerSeat, p.DefenderSeat, p.AttackerCards, defense⟩ =
          (g1, .ok o) := by
  have hinv := hr.inv
  obtain ⟨g, att, dfd, hg, hturn, ha0, hd0, hne, hga, haa, hgd, hda, -, hsel⟩ :=
    hinv.2.2.2 p hp
  obtain ⟨g', dfd', hg', hgd', hsuit⟩ := hr.steady.2.2 p hp
  rw [hg] at hg'
  cases hg'
  rw [hgd] at hgd'
  cases hgd'
  have hrun : r.status = RoomStatusRunning := by
    by_contra hh
    rw [hinv.2.1 hh] at hp
    simp at hp
  refine ⟨hrun, hturn, hne, g, att, dfd, hg, ha0, hga, haa, hd0, hgd, hda, hsel.1,
    hsel.2.1, hsel.2.2.1, ?_, ?_, ?_⟩
  · intro i hi
    obtain ⟨card, hc, hk, hs⟩ := hsel.2.2.2 i hi
    obtain ⟨q0, q1, -⟩ := handCard_some hc
    exact ⟨q0, q1, card, hc, hk, hs⟩
  · unfold Player.HasSuit at hsuit
    obtain ⟨card, hm, hc⟩ := List.any_eq_true.mp hsuit
    simp only [Bool.and_eq_true, decide_eq_true_eq] at hc
    exact ⟨card, hm, hc.1, hc.2⟩
  · intro defense hdef
    obtain ⟨g1, o, hc⟩ := Challenge_number_selection
      (show p.AttackerSeat.toNat ≠ p.DefenderSeat.toNat by omega) hga haa hgd hda hsel hdef
    rw [Int.toNat_of_nonneg ha0, Int.toNat_of_nonneg hd0] at hc
    exact ⟨g1, o, hc⟩

/-- In `pendingRoom` seat 0 has challenged seat 1 with the spade two at
index 0; the pending challenge is in order. -/
theorem pending_challenge_valid_witness :
    pendingRoom.Reachable ∧
    pendingRoom.pendingChallenge = some ⟨0, 1, [0], CardKindNumber, SuitSpade⟩ ∧
    pendingRoom.status = RoomStatusRunning ∧ (0 : Int) = pendingRoom.currentTurn ∧
    ∃ (g : Game) (att dfd : Player), pendingRoom.game = some g ∧
      g.Players[0]? = some att ∧ att.Alive = true ∧
      g.Players[1]? = some dfd ∧ dfd.Alive = true ∧
      (∀ i ∈ [(0 : Int)], 0 ≤ i ∧ i < (att.Hand.length : Int) ∧
        ∃ card, handCard att.Hand i = some card ∧ card.Kind = CardKindNumber ∧
          card.Suit = SuitSpade) ∧
      (∃ card ∈ dfd.Hand, card.Kind = CardKindNumber ∧ card.Suit = SuitSpade) :=
  have h := pending_challenge_valid pendingRoom ⟨0, 1, [0], CardKindNumber, SuitSpade⟩
    pendingRoom_reachable pendingRoom_pending
  ⟨pendingRoom_reachable, pendingRoom_pending, h.1, h.2.1,
    match h.2.2.2 with
    | ⟨g, att, dfd, hg, _, hga, haa, _, hgd, hda, _, _, _, hidx, hsuit, _⟩ =>
      ⟨g, att, dfd, hg, hga, haa, hgd, hda, hidx, hsuit⟩⟩

/-- C37: in every running room the operations can reach, the turn is on a
seat of the room whose player is alive, the round counter of the room is
the round of the game, and it lies between 1 and the maximum of the game,
which is twelve. -/
theorem running_turn_and_round (r : Room) (hr : r.Reachable)
    (hrun : r.status = RoomStatusRunning) :
    ∃ (g : Game) (seat : Seat) (p : Player), r.game = some g ∧
      0 ≤ r.currentTurn ∧ r.currentTurn < (r.seats.length : Int) ∧
      r.seats[r.currentTurn.toNat]? = some seat ∧ r.livePlayer seat = some p ∧
      g.Players[r.currentTurn.toNat]? = some p ∧ p.Alive = true ∧
      r.currentRound = g.Round ∧ 1 ≤ r.currentRound ∧ r.currentRound ≤ g.MaxRounds ∧
      g.MaxRounds = maxGameRounds := by
  obtain ⟨g, hg, -, hmr, hrd, h1, h2, -, h0, p, hp, hpa⟩ := hr.steady.2.1 hrun
  obtain ⟨g', hg', hlen, -, hbind⟩ := hr.inv.2.2.1 (by rw [hrun]; decide)
  rw [hg] at hg'
  cases hg'
  have hk : r.currentTurn.toNat < r.seats.length := by
    rw [← hlen]; exact (List.getElem?_eq_some_iff.mp hp).1
  have hs : r.seats[r.currentTurn.toNat]? = some (r.seats[r.currentTurn.toNat]) :=
    List.getElem?_eq_getElem hk
  exact ⟨g, _, p, hg, h0, by omega, hs,
    Room.livePlayer_of_get hg (hbind _ _ hs) hp hpa, hp, hpa, hrd, h1, h2, hmr⟩

set_option maxRecDepth 100000 in
/-- The room of eight players right after StartGame: the turn is on seat 0
in round 1. -/
theorem running_turn_and_round_witness :
    runningRoom.Reachable ∧ runningRoom.status = RoomStatusRunning ∧
    runningRoom.currentTurn = 0 ∧ runningRoom.currentRound = 1 ∧
    ∃ (g : Game) (seat : Seat) (p : Player), runningRoom.game = some g ∧
      0 ≤ runningRoom.currentTurn ∧
      runningRoom.currentTurn < (runningRoom.seats.length : Int) ∧
      runningRoom.seats[runningRoom.currentTurn.toNat]? = some seat ∧
      runningRoom.livePlayer seat = some p ∧
      g.Players[runningRoom.currentTurn.toNat]? = some p ∧ p.Alive = true ∧
      runningRoom.currentRound = g.Round ∧ 1 ≤ runningRoom.currentRound ∧
      runningRoom.currentRound ≤ g.MaxRounds ∧ g.MaxRounds = maxGameRounds :=
  ⟨runningRoom_reachable, rfl, rfl, rfl,
    running_turn_and_round runningRoom runningRoom_reachable rfl⟩

theorem Room.botCandidates_known (r : Room) (known : List Int) :
    ∀ (targets cs : List Int), r.botCandidates known true targets = some cs →
      ∀ t ∈ cs, t ∈ known
  | [], cs, h => by
    simp only [Room.botCandidates, Option.some.injEq] at h
    subst h
    simp
  | tid :: rest, cs, h => by
    rw [Room.botCandidates] at h
    split at h
    · simp at h
    · split at h
      · simp at h
      · rename_i cs1 hcs1
        have ih := Room.botCandidates_known r known rest cs1 hcs1
        split at h
        · simp only [Option.some.injEq] at h
          subst h
          exact ih
        · split at h
          · rename_i hk
            simp only [Option.some.injEq] at h
            subst h
            intro t ht
            rcases List.mem_cons.mp ht with e | ht
            · rw [e]; simpa using hk
            · exact ih t ht
          · simp only [Option.some.injEq] at h
            subst h
            exact ih

/-- A shotgun a bot decides to play is aimed at a seat the bot holds for a
zombie. -/
theorem Room.chooseBotAttack_shotgun {r : Room} {bot : BotPlayer} {attacker : Player}
    {targets : List Int} {order : List Suit} {a : botAttack}
    (h : r.chooseBotAttack bot attacker targets order = some (some a))
    (hk : a.attackKind = CardKindShotgun) : a.targetIndex ∈ bot.KnownZombies := by
  unfold Room.chooseBotAttack at h
  split at h
  · simp at h
  · rename_i a1 hz
    simp only [Option.some.injEq] at h
    subst h
    exfalso
    unfold Room.botZombieAttack at hz
    split at hz
    · split at hz
      · simp at hz
      · rename_i cands hcands
        generalize (if cands.length = 0 then targets else cands) = L at hz
        split at hz
        · split at hz
          · simp at hz
          · simp only [Option.some.injEq] at hz
            subst hz
            simp at hk
        · simp at hz
    · simp at hz
  · split at h
    · simp at h
    · rename_i a1 hs
      simp only [Option.some.injEq] at h
      subst h
      unfold Room.botShotgunAttack at hs
      split at hs
      · split at hs
        · simp at hs
        · rename_i cands hcands
          split at hs
          · split at hs
            · simp at hs
            · rename_i t rng1 hdraw
              simp only [Option.some.injEq] at hs
              subst hs
              exact Room.botCandidates_known r _ _ _ hcands _ (Room.drawTarget_mem hdraw)
          · simp at hs
      · simp at hs
    · exfalso
      unfold Room.botNumberAttack at h
      split at h
      · simp at h
      · split at h
        · simp at h
        · simp only [Option.some.injEq] at h
          subst h
          simp at hk

/-- C38: in every running room the operations can reach, every seat index
in the KnownZombies of a bot of the room is the seat of a player who is
alive and a zombie.  Consequently, whenever such a bot decides on a shotgun
play, the target is a seat among the given living targets whose player is
alive and a zombie, so the shot hits. -/
theorem known_zombies_are_zombies (r : Room) (hr : r.Reachable)
    (hrun : r.status = RoomStatusRunning) :
    ∃ g, r.game = some g ∧
      (∀ seat ∈ r.seats, ∀ bot, seat.Bot = some bot → ∀ u ∈ bot.KnownZombies,
        0 ≤ u ∧ ∃ p, g.Players[u.toNat]? = some p ∧ p.Alive = true ∧
          p.currentIdentity = IdentityZombie) ∧
      (∀ seat ∈ r.seats, ∀ bot, seat.Bot = some bot →
        ∀ (attacker : Player) (targets : List Int) (order : List Suit) (a : botAttack),
          r.chooseBotAttack bot attacker targets order = some (some a) →
          a.attackKind = CardKindShotgun →
          a.targetIndex ∈ targets ∧ a.targetIndex ∈ bot.KnownZombies ∧
          ∃ p, g.Players[a.targetIndex.toNat]? = some p ∧ p.Alive = true ∧
            p.IsZombie = true) := by
  obtain ⟨g, hg, -, -, -, -, -, hk, -, -⟩ := hr.steady.2.1 hrun
  have hknown : ∀ seat ∈ r.seats, ∀ bot, seat.Bot = some bot → ∀ u ∈ bot.KnownZombies,
      g.livingZombie u := by
    intro seat hs bot hb u hu
    refine hk u ⟨seat, hs, ?_⟩
    simp only [Seat.known, hb]
    exact hu
  refine ⟨g, hg, hknown, ?_⟩
  intro seat hs bot hb attacker targets order a hch hkind
  have hmem := Room.chooseBotAttack_shotgun hch hkind
  obtain ⟨-, p, hp, hpa, hpz⟩ := hknown seat hs bot hb _ hmem
  exact ⟨(Room.chooseBotAttack_some hch).1, hmem, p, hp, hpa, by
    simp [Player.IsZombie, hpz]⟩

set_option maxRecDepth 100000 in
theorem infectedRoom_turn :
    leftRoom.executeBotTurn ⟨0, "P (AI)", []⟩ [] = some infectedRoom := by rfl

theorem infectedRoom_reachable : infectedRoom.Reachable :=
  Room.Reachable.botTurn _ _ (Room.Reachable.clientLeft _ runningRoom_reachable)
    infectedRoom_turn

set_option maxRecDepth 100000 in
/-- After the bot on seat 0 has infected seat 1 it holds seat 1 for a
zombie, and seat 1 is a living zombie. -/
theorem known_zombies_are_zombies_witness :
    infectedRoom.Reachable ∧ infectedRoom.status = RoomStatusRunning ∧
    (infectedRoom.seats[0]?).map (fun s => s.Bot.map (fun b => b.KnownZombies)) =
      some (some [1]) ∧
    ∃ g, infectedRoom.game = some g ∧
      (∀ seat ∈ infectedRoom.seats, ∀ bot, seat.Bot = some bot → ∀ u ∈ bot.KnownZombies,
        0 ≤ u ∧ ∃ p, g.Players[u.toNat]? = some p ∧ p.Alive = true ∧
          p.currentIdentity = IdentityZombie) ∧
      (∀ seat ∈ infectedRoom.seats, ∀ bot, seat.Bot = some bot →
        ∀ (attacker : Player) (targets : List Int) (order : List Suit) (a : botAttack),
          infectedRoom.chooseBotAttack bot attacker targets order = some (some a) →
          a.attackKind = CardKindShotgun →
          a.targetIndex ∈ targets ∧ a.targetIndex ∈ bot.KnownZombies ∧
          ∃ p, g.Players[a.targetIndex.toNat]? = some p ∧ p.Alive = true ∧
            p.IsZombie = true) :=
  ⟨infectedRoom_reachable, rfl, rfl,
    known_zombies_are_zombies infectedRoom infectedRoom_reachable rfl⟩

/-! ## Rooms: the defence handed to Challenge -/

theorem cardsAt_nil (hand : List Card) : cardsAt hand [] = [] := rfl

theorem RoomDefence_nil (dfd : Player) : RoomDefence dfd [] :=
  ⟨Or.inl rfl, by simp, fun card hc => by rw [cardsAt_nil] at hc; simp at hc⟩

theorem RoomDefence_of_selection {dfd : Player} {dc : List Int} {suit : Suit}
    (h : NumberSelection dfd.Hand dc suit) : RoomDefence dfd dc :=
  ⟨Or.inr ⟨suit, h⟩, h.2.1, fun card hc => (h.spec.2.2.2 card hc).1⟩

theorem RoomDefence_bot (dfd : Player) (suit : Suit) {limit : Nat} (hl : limit ≤ 5) :
    RoomDefence dfd (selectBotDefenseIndices dfd suit limit) := by
  rcases selectBotDefenseIndices_selection dfd suit hl with h | h
  · rw [h]; exact RoomDefence_nil dfd
  · exact RoomDefence_of_selection h

theorem normalizeDefenseSelection_perm {indices out : List Int} {handSize : Int}
    (h : normalizeDefenseSelection indices handSize = .ok out) : out.Perm indices := by
  unfold normalizeDefenseSelection at h
  split at h
  · rename_i h0
    simp only [Except.ok.injEq] at h
    subst h
    rw [List.length_eq_zero.mp h0]
  · exact (uniqueSortedIndices_ok h).2.2.2

/-- The player who answers a pending challenge is the defender recorded. -/
theorem Room.pending_defender {r : Room} (hinv : r.Inv) {p : ZombieHunt.pendingChallenge}
    (hp : r.pendingChallenge = some p) {seat : Seat} {player : Player}
    (hseat : r.seatAt p.DefenderSeat = some seat) (hplayer : r.playerOf seat = some player) :
    p.AttackKind = CardKindNumber ∧
      ∃ g, r.game = some g ∧ g.Players[p.DefenderSeat.toNat]? = some player := by
  obtain ⟨i1, i2, i3, i4⟩ := hinv
  obtain ⟨g, att, dfd, hg, -, ha0, hd0, hne, hga, haa, hgd, hda, hkind, hsel⟩ := i4 p hp
  have hrun : r.status = RoomStatusRunning := by
    by_contra hh
    rw [i2 hh] at hp
    simp at hp
  obtain ⟨g', hg', -, -, hpl⟩ := i3 (by rw [hrun]; decide)
  rw [hg] at hg'
  cases hg'
  obtain ⟨-, hsg⟩ := Room.seatAt_some hseat
  have hpp := hpl _ seat hsg
  unfold Room.playerOf at hplayer
  rw [hpp, hg] at hplayer
  simp only at hplayer
  exact ⟨hkind, g, hg, hplayer⟩

/-- C39: in every room the operations can reach, the defence of every
challenge the three commands hand to resolveChallengeLocked is a room
defence of the defender: no index, or one to five indices of number cards
of one suit, so that no card other than a number card, and in particular no
vaccine, is played as defence.  handleChallenge either rejects the command
and leaves the room alone, or records a pending challenge, or resolves with
the empty defence or, for a number attack at a bot, with the selection of
the bot; an attack that does not open with a number card is resolved with
the empty defence.  handleDefenseResponse either rejects or resolves the
pending number attack with the normalised selection, which passed the suit
check; and it does reject, leaving the room alone, whenever the selection
names a card of the defender's hand that is not a number card of the
pending suit.  executeBotTurn does nothing, or passes the turn, or records
a pending challenge, or resolves with the empty defence or with the
selection of the defending bot. -/
theorem room_defence_is_numbers (r : Room) (hr : r.Reachable) :
    (∀ (c : Client) (payload : ChallengePayload) (r1 : Room) (res : Option String),
      r.handleChallenge c payload = some (r1, res) →
      (r1 = r ∧ res.isSome = true) ∨
      (∃ p, res = none ∧ r1 = { r with pendingChallenge := some p }) ∨
      ∃ (g : Game) (a d : Nat) (att dfd : Player) (cards dc : List Int) (first : Card),
        r.game = some g ∧ c.seatIndex = (a : Int) ∧ payload.TargetID = (d : Int) ∧
        g.Players[a]? = some att ∧ g.Players[d]? = some dfd ∧
        cards.head?.bind (handCard att.Hand) = some first ∧
        r.resolveChallengeLocked a d cards dc = some (r1, res) ∧
        RoomDefence dfd dc ∧ (first.Kind ≠ CardKindNumber → dc = [])) ∧
    (∀ (c : Client) (payload : DefensePayload) (r1 : Room) (res : Option String),
      r.handleDefenseResponse c payload = some (r1, res) →
      (r1 = r ∧ res.isSome = true) ∨
      ∃ (p : ZombieHunt.pendingChallenge) (g : Game) (dfd : Player) (defense : List Int),
        r.pendingChallenge = some p ∧ p.AttackKind = CardKindNumber ∧ r.game = some g ∧
        g.Players[p.DefenderSeat.toNat]? = some dfd ∧
        normalizeDefenseSelection payload.Cards dfd.Hand.length = .ok defense ∧
        (defense = [] ∨ NumberSelection dfd.Hand defense p.AttackSuit) ∧
        RoomDefence dfd defense ∧
        r.resolveChallengeLocked p.AttackerSeat p.DefenderSeat p.AttackerCards defense =
          some (r1, res)) ∧
    (∀ (c : Client) (payload : DefensePayload) (p : ZombieHunt.pendingChallenge) (g : Game)
      (dfd : Player),
      r.pendingChallenge = some p → c.seatIndex = p.DefenderSeat → r.game = some g →
      g.Players[p.DefenderSeat.toNat]? = some dfd →
      (∃ i ∈ payload.Cards, ∃ card, handCard dfd.Hand i = some card ∧
        ¬ (card.Kind = CardKindNumber ∧ card.Suit = p.AttackSuit)) →
      ∃ e, r.handleDefenseResponse c payload = some (r, some e)) ∧
    (∀ (bot : BotPlayer) (order : List Suit) (r1 : Room),
      r.executeBotTurn bot order = some r1 →
      r1 = r ∨ (∃ x, ({ r with rng := x } : Room).advanceTurnLocked = some r1) ∨
      (∃ x p, r1 = { r with rng := x, pendingChallenge := some p }) ∨
      ∃ (g : Game) (a d : Nat) (att dfd : Player) (atk : botAttack) (dc : List Int)
        (res : Option String),
        r.game = some g ∧ bot.SeatIndex = (a : Int) ∧ atk.targetIndex = (d : Int) ∧
        g.Players[a]? = some att ∧ g.Players[d]? = some dfd ∧
        ({ r with rng := atk.rng } : Room).resolveChallengeLocked a d atk.attackCards dc =
          some (r1, res) ∧
        RoomDefence dfd dc ∧ (atk.attackKind ≠ CardKindNumber → dc = [])) := by
  have hinv := hr.inv
  have hst := hr.steady
  refine ⟨?_, ?_, ?_, ?_⟩
  · intro c payload r1 res h
    rcases Room.handleChallenge_cases hinv.1 h with h1 |
      ⟨g, a, d, dseat, att, dfd, cards, first, hrun, hpend, hturn, hca, hcd, hne, hg, hds,
        hga, haa, hgd, hda, hnorm, hfirst, hcase⟩
    · exact Or.inl h1
    · rcases hcase with ⟨hk, suit, hsel, hc⟩ | ⟨hk, -, hres⟩ | ⟨hk, hres⟩
      · rcases hc with ⟨-, -, hnone, h1⟩ | ⟨-, -, hres⟩ | ⟨-, hres⟩
        · exact Or.inr (Or.inl ⟨_, hnone, h1⟩)
        · exact Or.inr (Or.inr ⟨g, a, d, att, dfd, cards, _, first, hg, hca, hcd, hga, hgd,
            hfirst, hres, RoomDefence_bot dfd suit hsel.2.1, fun hn => absurd hk hn⟩)
        · exact Or.inr (Or.inr ⟨g, a, d, att, dfd, cards, [], first, hg, hca, hcd, hga, hgd,
            hfirst, hres, RoomDefence_nil dfd, fun _ => rfl⟩)
      · exact Or.inr (Or.inr ⟨g, a, d, att, dfd, cards, [], first, hg, hca, hcd, hga, hgd,
          hfirst, hres, RoomDefence_nil dfd, fun _ => rfl⟩)
      · exact Or.inr (Or.inr ⟨g, a, d, att, dfd, cards, [], first, hg, hca, hcd, hga, hgd,
          hfirst, hres, RoomDefence_nil dfd, fun _ => rfl⟩)
  · intro c payload r1 res h
    rcases Room.handleDefenseResponse_cases h with h1 |
      ⟨p, seat, player, defense, hp, hci, hseat, hplayer, hnorm, hcheck, hres⟩
    · exact Or.inl h1
    · rw [hci] at hseat
      obtain ⟨hkind, g, hg, hgd⟩ := Room.pending_defender hinv hp hseat hplayer
      have hsel : defense = [] ∨ NumberSelection player.Hand defense p.AttackSuit := by
        by_cases he : defense = []
        · exact Or.inl he
        · obtain ⟨c1, c2⟩ := hcheck hkind he
          exact Or.inr ⟨he, c1, (normalizeDefenseSelection_ok hnorm).1, c2⟩
      refine Or.inr ⟨p, g, player, defense, hp, hkind, hg, hgd, hnorm, hsel, ?_, hres⟩
      rcases hsel with he | hs
      · rw [he]; exact RoomDefence_nil player
      · exact RoomDefence_of_selection hs
  · intro c payload p g dfd hp hci hg hgd ⟨i, hi, card, hcard, hbad⟩
    cases hx : r.handleDefenseResponse c payload with
    | none => exact absurd hx (Room.handleDefenseResponse_returns hinv hst c payload)
    | some x =>
      obtain ⟨r1, res⟩ := x
      rcases Room.handleDefenseResponse_cases hx with ⟨h1, h2⟩ |
        ⟨p', seat, player, defense, hp', hci', hseat, hplayer, hnorm, hcheck, hres⟩
      · subst h1
        cases res with
        | none => simp at h2
        | some e => exact ⟨e, rfl⟩
      · exfalso
        rw [hp] at hp'
        cases hp'
        rw [hci'] at hseat
        obtain ⟨hkind, g', hg', hgd'⟩ := Room.pending_defender hinv hp hseat hplayer
        rw [hg] at hg'
        cases hg'
        rw [hgd] at hgd'
        cases hgd'
        have hmem : i ∈ defense := (normalizeDefenseSelection_perm hnorm).mem_iff.mpr hi
        obtain ⟨-, c2⟩ := hcheck hkind (List.ne_nil_of_mem hmem)
        obtain ⟨card', hc', hk', hs'⟩ := c2 i hmem
        rw [hcard] at hc'
        cases hc'
        exact hbad ⟨hk', hs'⟩
  · intro bot order r1 h
    rcases Room.executeBotTurn_cases h with h1 | ⟨hrun, hturn, seat, hseat, hcase⟩
    · exact Or.inl h1
    · have hwf := hinv.1
      rcases hcase with ⟨-, hadv⟩ | ⟨attacker, hlive, hcase⟩
      · exact Or.inr (Or.inl ⟨r.rng, hadv⟩)
      · rcases hcase with ⟨-, hadv⟩ | ⟨-, hadv⟩ | ⟨a, dseat, hchoose, hdseat, hcase⟩
        · exact Or.inr (Or.inl ⟨r.rng, hadv⟩)
        · exact Or.inr (Or.inl ⟨r.rng, hadv⟩)
        · rcases hcase with ⟨-, hadv⟩ | ⟨defender, hdl, hcase⟩
          · exact Or.inr (Or.inl ⟨a.rng, hadv⟩)
          · obtain ⟨g, i, j, hg, hne, hsi, hdi, hbi, hga, haa, hgd, hda⟩ :=
              Room.bot_turn_facts hwf hseat hlive hchoose hdseat hdl
            obtain ⟨hmem, hkinds⟩ := Room.chooseBotAttack_some hchoose
            have htarget : a.targetIndex = (j : Int) := by
              obtain ⟨k, ks, hks, hk, -, -⟩ := (Room.mem_aliveTargetsLocked hwf).mp hmem
              have h1 := Room.seatAt_of_get hks
              rw [← hk, hdseat] at h1
              cases h1
              rw [hk]
              have := (hwf k dseat hks).1
              rw [hdi] at this
              exact this.symm
            rcases hcase with ⟨hk, -, -, res, hres⟩ | ⟨-, -, -, h1⟩ | ⟨hnot, res, hres⟩
            · rw [hsi, hdi] at hres
              have h5 : a.attackCards.length ≤ 5 := by
                rcases hkinds with ⟨q, -⟩ | ⟨q, -⟩ | ⟨-, q2, q3, q4⟩
                · rw [hk] at q; exact absurd q (by decide)
                · rw [hk] at q; exact absurd q (by decide)
                · rcases selectStrongestNumericSet_selection attacker order with hh | hh
                  · rw [q2] at q4; exact absurd hh q4
                  · rw [q2]; exact hh.2.1
              exact Or.inr (Or.inr (Or.inr ⟨g, i, j, attacker, defender, a, _, res, hg, hbi,
                htarget, hga, hgd, hres, RoomDefence_bot defender a.attackSuit h5,
                fun hn => absurd hk hn⟩))
            · exact Or.inr (Or.inr (Or.inl ⟨a.rng, _, h1⟩))
            · rw [hsi, hdi] at hres
              exact Or.inr (Or.inr (Or.inr ⟨g, i, j, attacker, defender, a, [], res, hg, hbi,
                htarget, hga, hgd, hres, RoomDefence_nil defender, fun _ => rfl⟩))

set_option maxRecDepth 100000 in
/-- In `pendingRoom` seat 1 is asked to defend against a spade and holds a
vaccine at index 16: the answer with that card is rejected and the room is
left as it was. -/
theorem room_defence_is_numbers_witness :
    pendingRoom.Reachable ∧
    pendingRoom.pendingChallenge = some ⟨0, 1, [0], CardKindNumber, SuitSpade⟩ ∧
    ((pendingRoom.game.bind (fun g => g.Players[1]?)).bind
      (fun p => handCard p.Hand 16)).map (fun card => card.Kind) = some CardKindVaccine ∧
    ∃ e, pendingRoom.handleDefenseResponse (seatedClient 1) ⟨[16]⟩ =
      some (pendingRoom, some e) :=
  ⟨pendingRoom_reachable, pendingRoom_pending, rfl,
    (room_defence_is_numbers pendingRoom pendingRoom_reachable).2.2.1 (seatedClient 1)
      ⟨[16]⟩ ⟨0, 1, [0], CardKindNumber, SuitSpade⟩ _ _ pendingRoom_pending rfl rfl rfl
      ⟨16, by simp, Card.ofKind CardKindVaccine, rfl, by decide⟩⟩

end ZombieHunt
